import Mathlib

/-!
# Sheepdog: farm, sockfd cache, request handlers and cluster drivers

A shallow embedding of parts of the repository:

* `collie/farm/sha1_file.c`: the content-addressed blob store of the farm
  (key computation, path of a blob, the `user.farm.count` reference count,
  write / read / try-delete, the hexadecimal form of a key);
* `sheep/sockfd_cache.c`: the cache of long-lived connections to the peers
  (slots per node, get / put / del, growth of the slot arrays, requests over
  a cached connection);
* `sheep/ops.c`: the table of operations with the opcode map, the handlers
  that run in the main thread, and the peer handler that creates an object;
* `sheep/cluster/zookeeper.c` and `sheep/cluster/shepherd.c`: the handling of
  events and messages in the two cluster drivers, and the queue of events;
* `collie/farm/farm.c`: saving a snapshot, and the list of last vdis kept
  while one is loaded.

Bytes are natural numbers below 256, C integers are `Nat` or `Int` with the
wrap-around written out where the C type makes it matter.  Definitions come
first, the theorems about them follow.
-/

set_option linter.unusedVariables false

/-! ## Part 1: definitions for `collie/farm/sha1_file.c` -/

namespace Farm

def SECTOR_SIZE : Nat := 512

def SHA1_DIGEST_SIZE : Nat := 20

def PATH_MAX : Nat := 4096

/-! ### SHA-1 -/

/-- Rotate a 32-bit word left by `n` bits. -/
def rotl32 (x n : Nat) : Nat := ((x <<< n) ||| (x >>> (32 - n))) % 4294967296

/-- The `n` low bytes of `x`, most significant first. -/
def be_bytes : Nat → Nat → List Nat
  | 0, _ => []
  | n + 1, x => (x >>> (8 * n)) % 256 :: be_bytes n x

/-- The `n` low bytes of `x`, least significant first: the bytes of an
`n`-byte unsigned integer as they lie in memory on the (little-endian) hosts
the program runs on. -/
def le_bytes : Nat → Nat → List Nat
  | 0, _ => []
  | n + 1, x => x % 256 :: le_bytes n (x / 256)

def be_word (bs : List Nat) : Nat := bs.foldl (fun acc b => acc * 256 + b) 0

def sha1_pad (msg : List Nat) : List Nat :=
  msg ++ 128 :: List.replicate ((119 - msg.length % 64) % 64) 0 ++ be_bytes 8 (8 * msg.length)

def sha1_words : Nat → List Nat → List Nat
  | 0, _ => []
  | n + 1, bs => be_word (bs.take 4) :: sha1_words n (bs.drop 4)

/-- Message schedule, newest word first. -/
def sha1_sched : Nat → List Nat → List Nat
  | 0, w => w
  | n + 1, w =>
    sha1_sched n (rotl32 (w.getD 2 0 ^^^ w.getD 7 0 ^^^ w.getD 13 0 ^^^ w.getD 15 0) 1 :: w)

def sha1_f (t b c d : Nat) : Nat :=
  if t < 20 then (b &&& c) ||| ((4294967295 - b) &&& d)
  else if t < 40 then b ^^^ c ^^^ d
  else if t < 60 then (b &&& c) ||| (b &&& d) ||| (c &&& d)
  else b ^^^ c ^^^ d

def sha1_k (t : Nat) : Nat :=
  if t < 20 then 0x5A827999 else if t < 40 then 0x6ED9EBA1
  else if t < 60 then 0x8F1BBCDC else 0xCA62C1D6

structure sha1_ctx where
  a : Nat
  b : Nat
  c : Nat
  d : Nat
  e : Nat
deriving DecidableEq, Repr

def sha1_round (r : sha1_ctx) (tw : Nat × Nat) : sha1_ctx :=
  { a := (rotl32 r.a 5 + sha1_f tw.1 r.b r.c r.d + r.e + sha1_k tw.1 + tw.2) % 4294967296,
    b := r.a, c := rotl32 r.b 30, d := r.c, e := r.d }

def sha1_block (h : sha1_ctx) (blk : List Nat) : sha1_ctx :=
  let w := (sha1_sched 64 (sha1_words 16 blk).reverse).reverse
  let r := (List.zip (List.range 80) w).foldl sha1_round h
  { a := (h.a + r.a) % 4294967296, b := (h.b + r.b) % 4294967296,
    c := (h.c + r.c) % 4294967296, d := (h.d + r.d) % 4294967296,
    e := (h.e + r.e) % 4294967296 }

def sha1_blocks : Nat → sha1_ctx → List Nat → sha1_ctx
  | 0, h, _ => h
  | n + 1, h, bs => sha1_blocks n (sha1_block h (bs.take 64)) (bs.drop 64)

def sha1_init : sha1_ctx :=
  { a := 0x67452301, b := 0xEFCDAB89, c := 0x98BADCFE, d := 0x10325476, e := 0xC3D2E1F0 }

/-- Modelled from the spec: the hash `sha1_init` / `sha1_update` / `sha1_final`
of `lib/sha1.c`, which is not among the sources; the spec names the function
("20-byte key = SHA-1 over ..."), and this is SHA-1 as standardised (FIPS 180),
applied to the concatenation of the updates. -/
def sha1 (msg : List Nat) : List Nat :=
  let h := sha1_blocks ((sha1_pad msg).length / 64) sha1_init (sha1_pad msg)
  be_bytes 4 h.a ++ be_bytes 4 h.b ++ be_bytes 4 h.c ++ be_bytes 4 h.d ++ be_bytes 4 h.e

/-! ### Trimming of zero sectors -/

/-- The window starts with a whole sector of zero bytes. -/
def leading_zero_sector (w : List Nat) : Bool :=
  decide (SECTOR_SIZE ≤ w.length) && (w.take SECTOR_SIZE).all (fun b => b == 0)

/-- The window ends with a whole sector of zero bytes. -/
def trailing_zero_sector (w : List Nat) : Bool :=
  decide (SECTOR_SIZE ≤ w.length) && (w.drop (w.length - SECTOR_SIZE)).all (fun b => b == 0)

/-- Drop all-zero sectors from the front, at most `n` of them. -/
def trim_leading : Nat → List Nat → List Nat
  | 0, w => w
  | n + 1, w => if leading_zero_sector w then trim_leading n (w.drop SECTOR_SIZE) else w

/-- Drop all-zero sectors from the back, at most `n` of them. -/
def trim_trailing : Nat → List Nat → List Nat
  | 0, w => w
  | n + 1, w =>
    if trailing_zero_sector w then trim_trailing n (w.take (w.length - SECTOR_SIZE)) else w

/-- What `trim_zero_sectors(buf, &offset, &len)` leaves behind: the buffer
(the retained window moved to its front) and the two in/out arguments. -/
structure trimmed where
  buf : List Nat
  offset : Nat
  length : Nat
deriving DecidableEq, Repr

/-- Modelled from the spec: `trim_zero_sectors` of `lib/util.c`, which is not
among the sources.  "Trimming removes leading/trailing all-zero 512-byte
sectors; the canonical offset/length are the retained window."  It is called
with `*offset = 0` and `*len` the size of the buffer (here: the list), and
its callers read the retained bytes from the front of the buffer.  Leading
sectors are removed first, then trailing ones. -/
def trim_zero_sectors (buf : List Nat) : trimmed :=
  let w1 := trim_leading (buf.length / SECTOR_SIZE) buf
  let w2 := trim_trailing (w1.length / SECTOR_SIZE) w1
  { buf := w1 ++ buf.drop w1.length, offset := buf.length - w1.length, length := w2.length }

/-- The bytes that `get_sha1` feeds to SHA-1: `offset` (a `uint64_t`),
`length` (a `uint32_t`) and the first `length` bytes of the trimmed copy. -/
def get_sha1_message (t : trimmed) : List Nat :=
  le_bytes 8 t.offset ++ le_bytes 4 t.length ++ t.buf.take t.length

/-- The function `get_sha1(buf, len, sha1)`: the first component is the caller's buffer
after the call, the second the key written to `sha1`.  The caller's bytes are
copied to `tmp` and only the copy is trimmed.  `len` has type `unsigned`. -/
def get_sha1_run (buf : List Nat) (len : Nat) : List Nat × List Nat :=
  let tmp := buf.take len
  let t := trim_zero_sectors tmp
  (buf, sha1 (get_sha1_message t))

def get_sha1 (buf : List Nat) (len : Nat) : List Nat := (get_sha1_run buf len).2

/-! ### Path of a blob -/

def hex (v : Nat) : Char := "0123456789abcdef".toList.getD v (Char.ofNat 0)

/-- The function `fill_sha1_path(pathbuf, sha1)` on the buffer `buf`, `pathbuf` being the
position `base` of it. -/
def fill_sha1_path (base : Nat) (sha1 : List Nat) (buf : List Char) : List Char :=
  (List.range SHA1_DIGEST_SIZE).foldl (fun b i =>
    let val := sha1.getD i 0
    let pos := base + i * 2 + (if 0 < i then 1 else 0)
    (b.set pos (hex (val >>> 4))).set (pos + 1) (hex (val &&& 0xf))) buf

/-- The call `memcpy(buf, src, strlen(src))` at the front of `buf`. -/
def memcpy_front (buf src : List Char) : List Char := src ++ buf.drop src.length

/-- The C string held by a buffer: the characters before the first NUL. -/
def c_string (buf : List Char) : List Char := buf.takeWhile (fun c => c != Char.ofNat 0)

/-- The thread-local buffer of `sha1_to_path` after a call, `old` being its
content before. -/
def sha1_to_path_buf (old : List Char) (objdir : List Char) (sha1 : List Nat) : List Char :=
  let len := objdir.length
  let b1 := memcpy_front old objdir
  let b2 := b1.set len '/'
  let b3 := b2.set (len + 3) '/'
  let b4 := b3.set (len + 42) (Char.ofNat 0)
  fill_sha1_path (len + 1) sha1 b4

/-- The function `sha1_to_path(sha1)`, `objdir` being what `get_object_directory()`
returns.  The buffer is static, so zero before the first call. -/
def sha1_to_path (objdir : List Char) (sha1 : List Nat) : List Char :=
  c_string (sha1_to_path_buf (List.replicate PATH_MAX (Char.ofNat 0)) objdir sha1)

/-! ### The object directory -/

/-- A blob file: its bytes and its `user.farm.count` extended attribute
(`none`: the attribute is not set, `getxattr` fails with `ENODATA`). -/
structure blob_file where
  data : List Nat
  count : Option Nat
deriving DecidableEq, Repr

/-- The files of the object directory, by path (`none`: no such file). -/
abbrev Store := List Char → Option blob_file

def Store.empty : Store := fun _ => none

def Store.set (st : Store) (name : List Char) (f : blob_file) : Store :=
  fun p => if p = name then some f else st p

def Store.unlink (st : Store) (name : List Char) : Store :=
  fun p => if p = name then none else st p

/-- System calls that fail for a reason outside the object directory's
content (permissions, a full disk, an I/O error).  `open_err`: `open` fails
with an errno other than `EEXIST`; `short_write = some n`: `xwrite` returns
`n`; `unlink_err`: `unlink` fails; `xattr_err`: `getxattr` / `setxattr` fail
with an errno the code does not expect; `read_err`: `fstat` or `xread`
fails. -/
structure Faults where
  open_err : Bool
  short_write : Option Nat
  unlink_err : Bool
  xattr_err : Bool
  read_err : Bool
deriving DecidableEq, Repr

def Faults.none : Faults :=
  { open_err := false, short_write := Option.none, unlink_err := false, xattr_err := false,
    read_err := false }

/-- How a call ends: it returns a value and leaves a store, or the process is
terminated by `panic`. -/
inductive Outcome (α : Type) where
  | ret (v : α) (st : Store)
  | panic

def u32 (n : Nat) : Nat := n % 4294967296

/-- Take a reference on a blob with `get_sha1_file(name)`: a missing count
attribute (`ENODATA`) becomes 1, a count that is there is incremented; any
other failure of `getxattr` or `setxattr` ends in `panic`. -/
def get_sha1_file (fl : Faults) (st : Store) (name : List Char) : Outcome Unit :=
  match st name with
  | Option.none => Outcome.panic
  | some f =>
    if fl.xattr_err then Outcome.panic
    else match f.count with
      | Option.none => Outcome.ret () (st.set name { f with count := some 1 })
      | some count => Outcome.ret () (st.set name { f with count := some (u32 (count + 1)) })

/-- Drop a reference on a blob with `put_sha1_file(name)`: -1 when the file
does not exist (`ENOENT`); else the count is decremented as a `uint32_t`, the
file is unlinked when it reaches 0 and the count is stored otherwise. -/
def put_sha1_file (fl : Faults) (st : Store) (name : List Char) : Outcome Int :=
  match st name with
  | Option.none => Outcome.ret (-1) st
  | some f =>
    if fl.xattr_err then Outcome.panic
    else match f.count with
      | Option.none => Outcome.panic
      | some count =>
        let count := u32 (count + 4294967295)
        if count = 0 then
          if fl.unlink_err then Outcome.ret (-1) st else Outcome.ret 0 (st.unlink name)
        else Outcome.ret 0 (st.set name { f with count := some count })

/-- The function `sha1_buffer_write(sha1, buf, size)`.  The file is opened
with `O_CREAT | O_EXCL`: when it exists (`EEXIST`) the function jumps to
`err_open` and returns 0; `get_sha1_file` is called on the path that created
and wrote the file only. -/
def sha1_buffer_write (objdir : List Char) (fl : Faults) (st : Store)
    (sha1 : List Nat) (buf : List Nat) (size : Nat) : Outcome Int :=
  let filename := sha1_to_path objdir sha1
  match st filename with
  | some _ => Outcome.ret 0 st
  | Option.none =>
    if fl.open_err then Outcome.ret (-1) st
    else match fl.short_write with
      | some n =>
        if n = size then
          match get_sha1_file fl (st.set filename { data := buf.take size, count := Option.none })
              filename with
          | Outcome.ret _ st1 => Outcome.ret 0 st1
          | Outcome.panic => Outcome.panic
        else Outcome.ret (-1) (st.set filename { data := buf.take n, count := Option.none })
      | Option.none =>
        match get_sha1_file fl (st.set filename { data := buf.take size, count := Option.none })
            filename with
        | Outcome.ret _ st1 => Outcome.ret 0 st1
        | Outcome.panic => Outcome.panic

/-- The function `sha1_file_exist(sha1)`. -/
def sha1_file_exist (objdir : List Char) (st : Store) (sha1 : List Nat) : Bool :=
  (st (sha1_to_path objdir sha1)).isSome

/-- The function `sha1_file_write(buf, len, outsha1)`: the value returned and, when it is
0, the key copied to `outsha1`.  `len` is a `size_t` and is handed on as an
`unsigned`. -/
def sha1_file_write (objdir : List Char) (fl : Faults) (st : Store)
    (buf : List Nat) (len : Nat) : Outcome (Int × Option (List Nat)) :=
  let sha1 := get_sha1 buf (u32 len)
  match sha1_buffer_write objdir fl st sha1 buf (u32 len) with
  | Outcome.ret v st1 =>
    if v < 0 then Outcome.ret (-1, Option.none) st1 else Outcome.ret (0, some sha1) st1
  | Outcome.panic => Outcome.panic

/-- The function `verify_sha1_file(sha1, buf, len)`; `len` is an `unsigned long` handed to
`get_sha1` as an `unsigned`, and `memcmp` looks at `SHA1_DIGEST_SIZE` bytes. -/
def verify_sha1_file (sha1 : List Nat) (buf : List Nat) (len : Nat) : Int :=
  if (get_sha1 buf (u32 len)).take SHA1_DIGEST_SIZE ≠ sha1.take SHA1_DIGEST_SIZE then -1 else 0

/-- The function `sha1_file_read(sha1, &size)`: `none` is the NULL return, otherwise the
buffer returned and the value stored in `size`.  The store is only read. -/
def sha1_file_read (objdir : List Char) (fl : Faults) (st : Store)
    (sha1 : List Nat) : Option (List Nat × Nat) :=
  match st (sha1_to_path objdir sha1) with
  | Option.none => Option.none
  | some f =>
    if fl.read_err then Option.none
    else if verify_sha1_file sha1 f.data f.data.length < 0 then Option.none
    else some (f.data, f.data.length)

/-- The function `sha1_file_try_delete(sha1)`. -/
def sha1_file_try_delete (objdir : List Char) (fl : Faults) (st : Store)
    (sha1 : List Nat) : Outcome Int :=
  put_sha1_file fl st (sha1_to_path objdir sha1)

end Farm

/-! ## Part 2: definitions for `sheep/sockfd_cache.c` -/

namespace Sockfd

/-- The identity of a node: `struct node_id` (`uint8_t addr[16]`,
`uint16_t port`, `uint8_t io_addr[16]`, `uint16_t io_port`). -/
structure node_id where
  addr : List Nat
  port : Nat
  io_addr : List Nat
  io_port : Nat
deriving DecidableEq, Repr

/-- Lexicographic comparison of two byte strings, as `memcmp` does it. -/
def memcmp : List Nat → List Nat → Int
  | [], [] => 0
  | [], _ :: _ => -1
  | _ :: _, [] => 1
  | a :: as, b :: bs => if a < b then -1 else if b < a then 1 else memcmp as bs

/-- Modelled from the spec: `node_id_cmp` of the shared headers, which are not
among the sources.  "Identity = (primary-addr, primary-port, io-addr,
io-port) ... Nodes are totally ordered by lexicographic compare on identity
bytes; equality is bytewise." -/
def node_id_cmp (a b : node_id) : Int :=
  if memcmp a.addr b.addr ≠ 0 then memcmp a.addr b.addr
  else if a.port < b.port then -1
  else if b.port < a.port then 1
  else if memcmp a.io_addr b.io_addr ≠ 0 then memcmp a.io_addr b.io_addr
  else if a.io_port < b.io_port then -1
  else if b.io_port < a.io_port then 1
  else 0

/-- One slot: `struct sockfd_cache_fd`. -/
structure sockfd_cache_fd where
  fd : Int
  in_use : Bool
deriving DecidableEq, Repr

/-- One node of the cache: `struct sockfd_cache_entry`; `fds` is the slot
array the entry points to. -/
structure sockfd_cache_entry where
  nid : node_id
  fds : List sockfd_cache_fd
deriving DecidableEq, Repr

/-- A handle: `struct sockfd`. -/
structure sockfd where
  fd : Int
  idx : Int
deriving DecidableEq, Repr

/-- The `struct sd_node`, of which the cache reads the `nid` only. -/
structure sd_node where
  nid : node_id
deriving DecidableEq, Repr

/-- The variables of the module and what it hands to the system.
`root` holds the entries of the red-black tree `sockfd_cache.root` (the tree
code of `lib/rbtree.c` is not among the sources; the tree is kept as the list
of its entries and a search finds the entry that compares equal).
`wqueue` counts the grow works queued on `sys->sockfd_wqueue` and not yet
run, `clock` the connection attempts made so far, and `closed` lists the
descriptors handed to `close`, latest first. -/
structure State where
  root : List sockfd_cache_entry
  count : Int
  fds_count : Nat
  fds_high_watermark : Nat
  fds_in_grow : Bool
  wqueue : Nat
  clock : Nat
  closed : List Int
deriving DecidableEq, Repr

def FDS_WATERMARK (x : Nat) : Nat := x * 3 / 4

def DEFAULT_FDS_COUNT : Nat := 8

/-- The module as the program starts. -/
def State.init : State :=
  { root := [], count := 0, fds_count := DEFAULT_FDS_COUNT,
    fds_high_watermark := FDS_WATERMARK DEFAULT_FDS_COUNT, fds_in_grow := false,
    wqueue := 0, clock := 0, closed := [] }

/-- The network: what the `k`-th connection attempt of the run returns when it
goes to `(addr, port)`, a descriptor (`≥ 0`) or a negative value. -/
abbrev Net := Nat → List Nat → Nat → Int

/-- Connect with `connect_to_addr(addr, port)`. -/
def connect_to_addr (net : Net) (s : State) (addr : List Nat) (port : Nat) : Int × State :=
  (net s.clock addr port, { s with clock := s.clock + 1 })

/-- Connect with `connect_to(name, port)`, `name` being `addr` printed by
`addr_to_str`. -/
def connect_to (net : Net) (s : State) (addr : List Nat) (port : Nat) : Int × State :=
  (net s.clock addr port, { s with clock := s.clock + 1 })

/-- Close a descriptor with `close(fd)`. -/
def close (s : State) (fd : Int) : State := { s with closed := fd :: s.closed }

/-- Search the tree: `sockfd_cache_search(nid)`. -/
def sockfd_cache_search (root : List sockfd_cache_entry) (nid : node_id) :
    Option sockfd_cache_entry :=
  root.find? (fun t => decide (node_id_cmp nid t.nid = 0))

/-- Insert into the tree: `sockfd_cache_insert(new)`; the first component is
the entry found (the C function then returns it and inserts nothing). -/
def sockfd_cache_insert (root : List sockfd_cache_entry) (new : sockfd_cache_entry) :
    Option sockfd_cache_entry × List sockfd_cache_entry :=
  match sockfd_cache_search root new.nid with
  | some entry => (some entry, root)
  | none => (none, root ++ [new])

/-- Remove from the tree the entry a search for `nid` finds: `rb_erase`. -/
def rb_erase (root : List sockfd_cache_entry) (nid : node_id) : List sockfd_cache_entry :=
  root.eraseP (fun t => decide (node_id_cmp nid t.nid = 0))

/-- Write through the pointer a search for `nid` returns: the entry found
becomes `f` of itself. -/
def modify_entry (f : sockfd_cache_entry → sockfd_cache_entry) (nid : node_id) :
    List sockfd_cache_entry → List sockfd_cache_entry
  | [] => []
  | t :: ts =>
    if node_id_cmp nid t.nid = 0 then f t :: ts else t :: modify_entry f nid ts

/-- The loop of `get_free_slot` from index `i` on, with `n` indices left to
visit: the index grabbed (or -1) and the slot array afterwards.
`uatomic_set_true` succeeds on a slot that is not in use and marks it. -/
def get_free_slot_from (fds : List sockfd_cache_fd) : Nat → Nat → Int × List sockfd_cache_fd
  | _, 0 => (-1, fds)
  | i, n + 1 =>
    match fds[i]? with
    | some slot =>
      if slot.in_use then get_free_slot_from fds (i + 1) n
      else ((i : Int), fds.set i { slot with in_use := true })
    | none => get_free_slot_from fds (i + 1) n

/-- Scan for a free slot: `get_free_slot(entry)`. -/
def get_free_slot (fds_count : Nat) (entry : sockfd_cache_entry) : Int × sockfd_cache_entry :=
  ((get_free_slot_from entry.fds 0 fds_count).1,
   { entry with fds := (get_free_slot_from entry.fds 0 fds_count).2 })

/-- Grab a slot: `sockfd_cache_grab(nid, &idx)`; `none` is the NULL return,
`some idx` a non-NULL entry with `*ret_idx = idx`. -/
def sockfd_cache_grab (s : State) (nid : node_id) : Option Int × State :=
  match sockfd_cache_search s.root nid with
  | none => (none, s)
  | some entry =>
    let r := get_free_slot s.fds_count entry
    if r.1 = -1 then (none, { s with root := modify_entry (fun _ => r.2) nid s.root })
    else (some r.1, { s with root := modify_entry (fun _ => r.2) nid s.root })

/-- Are all slots free: `slots_all_free(entry)`. -/
def slots_all_free (fds_count : Nat) (entry : sockfd_cache_entry) : Bool :=
  (List.range fds_count).all (fun i =>
    match entry.fds[i]? with
    | some slot => !slot.in_use
    | none => true)

/-- Close the descriptors of an entry: `destroy_all_slots(entry)`. -/
def destroy_all_slots (s : State) (entry : sockfd_cache_entry) : State :=
  (List.range s.fds_count).foldl (fun st i =>
    match entry.fds[i]? with
    | some slot => if slot.fd ≠ -1 then close st slot.fd else st
    | none => st) s

/-- Destroy the entry of a node: `sockfd_cache_destroy(nid)`. -/
def sockfd_cache_destroy (s : State) (nid : node_id) : Bool × State :=
  match sockfd_cache_search s.root nid with
  | none => (false, s)
  | some entry =>
    if !slots_all_free s.fds_count entry then (false, s)
    else (true, destroy_all_slots { s with root := rb_erase s.root nid } entry)

/-- Delete a node from the cache: `sockfd_cache_del(nid)`. -/
def sockfd_cache_del (s : State) (nid : node_id) : State :=
  match sockfd_cache_destroy s nid with
  | (false, s1) => s1
  | (true, s1) => { s1 with count := s1.count - 1 }

/-- A fresh entry, as `sockfd_cache_add` and `sockfd_cache_add_nolock` build
it: `fds_count` slots, none in use, each with `fd = -1`. -/
def new_entry (fds_count : Nat) (nid : node_id) : sockfd_cache_entry :=
  { nid := nid, fds := List.replicate fds_count { fd := -1, in_use := false } }

/-- Add without locking: `sockfd_cache_add_nolock(nid)`. -/
def sockfd_cache_add_nolock (s : State) (nid : node_id) : State :=
  match sockfd_cache_insert s.root (new_entry s.fds_count nid) with
  | (some _, _) => s
  | (none, root) => { s with root := root, count := s.count + 1 }

/-- Add a group of nodes: `sockfd_cache_add_group(nodes, nr)`, `nr` being the
length of `nodes`; the loop runs from the last node to the first. -/
def sockfd_cache_add_group (s : State) (nodes : List sd_node) : State :=
  nodes.reverse.foldl (fun st p => sockfd_cache_add_nolock st p.nid) s

/-- Add one node: `sockfd_cache_add(nid)`. -/
def sockfd_cache_add (s : State) (nid : node_id) : State :=
  match sockfd_cache_insert s.root (new_entry s.fds_count nid) with
  | (some _, _) => s
  | (none, root) => { s with root := root, count := s.count + 1 }

/-- Resize a slot array with `xrealloc`: the slots it had are kept, up to the
new size `n`; what lies beyond them is not initialised (any value stands for
it here, `do_grow_fds` overwrites it). -/
def xrealloc (fds : List sockfd_cache_fd) (n : Nat) : List sockfd_cache_fd :=
  fds.take n ++ List.replicate (n - fds.length) { fd := 0, in_use := false }

/-- The inner loop of `do_grow_fds`, from index `i` on with `n` indices left:
`fds[i].fd = -1; uatomic_set_false(&fds[i].in_use)`. -/
def init_slots (fds : List sockfd_cache_fd) : Nat → Nat → List sockfd_cache_fd
  | _, 0 => fds
  | i, n + 1 => init_slots (fds.set i { fd := -1, in_use := false }) (i + 1) n

/-- The work that grows the slot arrays: `do_grow_fds`. -/
def do_grow_fds (s : State) : State :=
  let old_fds_count := s.fds_count
  let new_fds_count := s.fds_count * 2
  { s with
    root := s.root.map (fun entry =>
      { entry with
        fds := init_slots (xrealloc entry.fds new_fds_count) old_fds_count
          (new_fds_count - old_fds_count) }),
    fds_count := s.fds_count * 2,
    fds_high_watermark := FDS_WATERMARK (s.fds_count * 2) }

/-- The completion of the grow work: `grow_fds_done`. -/
def grow_fds_done (s : State) : State := { s with fds_in_grow := false }

/-- Check the index against the watermark: `check_idx(idx)`; queueing the
work adds one to `wqueue`. -/
def check_idx (s : State) (idx : Int) : State :=
  if idx ≤ (s.fds_high_watermark : Int) then s
  else if s.fds_in_grow then s
  else { s with fds_in_grow := true, wqueue := s.wqueue + 1 }

/-- The label `alive` of `revalidate_node`. -/
def revalidate_alive (s : State) (nid : node_id) (fd : Int) : Bool × State :=
  (true, sockfd_cache_add (close s fd) nid)

/-- Probe a node and add it back: `revalidate_node(nid)`. -/
def revalidate_node (net : Net) (s : State) (nid : node_id) : Bool × State :=
  if nid.io_port ≠ 0 then
    let r := connect_to_addr net s nid.io_addr nid.io_port
    if 0 ≤ r.1 then revalidate_alive r.2 nid r.1
    else
      let r2 := connect_to_addr net r.2 nid.addr nid.port
      if r2.1 < 0 then (false, r2.2) else revalidate_alive r2.2 nid r2.1
  else
    let r2 := connect_to_addr net s nid.addr nid.port
    if r2.1 < 0 then (false, r2.2) else revalidate_alive r2.2 nid r2.1

/-- The descriptor of slot `idx` of the entry of `nid`: `entry->fds[idx].fd`. -/
def slot_fd (s : State) (nid : node_id) (idx : Int) : Int :=
  match sockfd_cache_search s.root nid with
  | some entry => (entry.fds.getD idx.toNat { fd := -1, in_use := false }).fd
  | none => -1

/-- Store into slot `idx` of the entry of `nid`. -/
def set_slot (s : State) (nid : node_id) (idx : Int)
    (f : sockfd_cache_fd → sockfd_cache_fd) : State :=
  { s with root := modify_entry (fun entry =>
      { entry with fds := entry.fds.modify f idx.toNat }) nid s.root }

/-- What a call of `sockfd_cache_get` or `sheep_get_sockfd` comes to: a
handle, NULL, or `spin` when the call is still going round the `grab` label
after the given number of rounds. -/
inductive get_result where
  | sfd (h : sockfd)
  | null
  | spin
deriving DecidableEq, Repr

/-- The labels `new` and `out` of `sockfd_cache_get`. -/
def sockfd_cache_get_new (s : State) (nid : node_id) (idx fd : Int) : get_result × State :=
  (get_result.sfd { fd := fd, idx := idx }, set_slot s nid idx (fun slot => { slot with fd := fd }))

/-- The local `addr` of `sockfd_cache_get`: the io address when the node has
an io port, else the primary address. -/
def cache_addr (nid : node_id) : List Nat := if nid.io_port ≠ 0 then nid.io_addr else nid.addr

/-- The local `port` of `sockfd_cache_get`. -/
def cache_port (nid : node_id) : Nat := if nid.io_port ≠ 0 then nid.io_port else nid.port

/-- The part of `sockfd_cache_get` that creates the connection of a grabbed
slot whose `fd` is -1. -/
def sockfd_cache_get_connect (net : Net) (s : State) (nid : node_id) (idx : Int) :
    get_result × State :=
  let r := connect_to net s (cache_addr nid) (cache_port nid)
  if r.1 < 0 then
    if nid.io_port ≠ 0 then
      let r2 := connect_to_addr net r.2 nid.addr nid.port
      if 0 ≤ r2.1 then sockfd_cache_get_new r2.2 nid idx r2.1
      else (get_result.null, set_slot r2.2 nid idx (fun slot => { slot with in_use := false }))
    else (get_result.null, set_slot r.2 nid idx (fun slot => { slot with in_use := false }))
  else sockfd_cache_get_new r.2 nid idx r.1

/-- Get a cached connection: `sockfd_cache_get(nid)`, the first argument
bounding the number of times the label `grab` is passed. -/
def sockfd_cache_get (net : Net) : Nat → State → node_id → get_result × State
  | 0, s, _ => (get_result.spin, s)
  | rounds + 1, s, nid =>
    match sockfd_cache_grab s nid with
    | (none, s1) =>
      match revalidate_node net s1 nid with
      | (false, s2) => (get_result.null, s2)
      | (true, s2) => sockfd_cache_get net rounds s2 nid
    | (some idx, s1) =>
      if slot_fd (check_idx s1 idx) nid idx ≠ -1 then
        (get_result.sfd { fd := slot_fd (check_idx s1 idx) nid idx, idx := idx },
          check_idx s1 idx)
      else sockfd_cache_get_connect net (check_idx s1 idx) nid idx

/-- Release a slot: `sockfd_cache_put(nid, idx)`. -/
def sockfd_cache_put (s : State) (nid : node_id) (idx : Int) : State :=
  match sockfd_cache_search s.root nid with
  | some _ => set_slot s nid idx (fun slot => { slot with in_use := false })
  | none => s

/-- Close a slot: `sockfd_cache_close(nid, idx)`. -/
def sockfd_cache_close (s : State) (nid : node_id) (idx : Int) : State :=
  match sockfd_cache_search s.root nid with
  | some _ =>
    set_slot (close s (slot_fd s nid idx)) nid idx (fun _ => { fd := -1, in_use := false })
  | none => s

/-- Get a connection to a node: `sheep_get_sockfd(nid)`. -/
def sheep_get_sockfd (net : Net) (rounds : Nat) (s : State) (nid : node_id) :
    get_result × State :=
  match sockfd_cache_get net rounds s nid with
  | (get_result.sfd h, s1) => (get_result.sfd h, s1)
  | (get_result.spin, s1) => (get_result.spin, s1)
  | (get_result.null, s1) =>
    let r := connect_to_addr net s1 nid.addr nid.port
    if r.1 < 0 then (get_result.null, r.2)
    else (get_result.sfd { fd := r.1, idx := -1 }, r.2)

/-- Release a handle: `sheep_put_sockfd(nid, sfd)`. -/
def sheep_put_sockfd (s : State) (nid : node_id) (h : sockfd) : State :=
  if h.idx = -1 then close s h.fd else sockfd_cache_put s nid h.idx

/-- Delete a handle of a crashed node: `sheep_del_sockfd(nid, sfd)`. -/
def sheep_del_sockfd (s : State) (nid : node_id) (h : sockfd) : State :=
  if h.idx = -1 then close s h.fd
  else sockfd_cache_del (sockfd_cache_close s nid h.idx) nid

/-! ### Runs of the module -/

/-- One operation on the module, as a thread or a worker performs it.  A
`get` carries the bound on its rounds; `put k` and `del k` release the handle
at position `k` of the outstanding handles, for the node it was got for (a
position past the end releases nothing). -/
inductive Op where
  | get (nid : node_id) (rounds : Nat)
  | put (k : Nat)
  | del (k : Nat)
  | add (nid : node_id)
  | add_group (nodes : List sd_node)
  | grow
  | grow_done
  | cache_del (nid : node_id)
deriving DecidableEq, Repr

/-- The module together with the handles handed out and not yet released,
each with the node it was got for, latest first. -/
structure Sys where
  st : State
  out : List (node_id × sockfd)
deriving DecidableEq, Repr

def Sys.init : Sys := { st := State.init, out := [] }

def step (net : Net) (y : Sys) : Op → Sys
  | Op.get nid rounds =>
    match sheep_get_sockfd net rounds y.st nid with
    | (get_result.sfd h, s) => { st := s, out := (nid, h) :: y.out }
    | (_, s) => { st := s, out := y.out }
  | Op.put k =>
    match y.out[k]? with
    | some p => { st := sheep_put_sockfd y.st p.1 p.2, out := y.out.eraseIdx k }
    | none => y
  | Op.del k =>
    match y.out[k]? with
    | some p => { st := sheep_del_sockfd y.st p.1 p.2, out := y.out.eraseIdx k }
    | none => y
  | Op.add nid => { y with st := sockfd_cache_add y.st nid }
  | Op.add_group nodes => { y with st := sockfd_cache_add_group y.st nodes }
  | Op.grow => { y with st := do_grow_fds y.st }
  | Op.grow_done => { y with st := grow_fds_done y.st }
  | Op.cache_del nid => { y with st := sockfd_cache_del y.st nid }

def run (net : Net) (y : Sys) (ops : List Op) : Sys := ops.foldl (step net) y

/-- The `(node, idx)` pairs of the outstanding handles that name a slot. -/
def Sys.held (y : Sys) : List (node_id × Int) :=
  (y.out.filter (fun p => decide (0 ≤ p.2.idx))).map (fun p => (p.1, p.2.idx))

end Sockfd

/-! ### Runs of the blob store on one buffer -/

namespace Farm

/-- A call on the blob of one buffer: `sha1_file_write` of the buffer, or
`sha1_file_try_delete` of its key. -/
inductive blob_call where
  | write
  | try_delete
deriving DecidableEq, Repr

/-- The store after some calls, with the number of writes and of deletes
among them that returned 0. -/
structure blob_tally where
  st : Store
  writes : Nat
  deletes : Nat

/-- Perform the calls one after the other; `none` when one of them ends in
`panic`. -/
def blob_calls (objdir : List Char) (fl : Faults) (buf : List Nat) (len : Nat) :
    blob_tally → List blob_call → Option blob_tally
  | t, [] => some t
  | t, blob_call.write :: cs =>
    match sha1_file_write objdir fl t.st buf len with
    | Outcome.ret v st1 =>
      blob_calls objdir fl buf len
        { st := st1, writes := t.writes + (if v.1 = 0 then 1 else 0), deletes := t.deletes } cs
    | Outcome.panic => Option.none
  | t, blob_call.try_delete :: cs =>
    match sha1_file_try_delete objdir fl t.st (get_sha1 buf (u32 len)) with
    | Outcome.ret v st1 =>
      blob_calls objdir fl buf len
        { st := st1, writes := t.writes, deletes := t.deletes + (if v = 0 then 1 else 0) } cs
    | Outcome.panic => Option.none

/-- The store a call leaves (the store `dflt` when it ends in `panic`). -/
def Outcome.store {α : Type} (dflt : Store) : Outcome α → Store
  | Outcome.ret _ st => st
  | Outcome.panic => dflt

end Farm

/-! ### What a run keeps true -/

namespace Sockfd

/-- The slot array a search for `nid` reaches, if the node has an entry. -/
def slots (s : State) (nid : node_id) : Option (List sockfd_cache_fd) :=
  (sockfd_cache_search s.root nid).map (fun entry => entry.fds)

/-- Slot `idx` of the entry of `nid` exists and is marked in use. -/
def slot_busy (s : State) (nid : node_id) (idx : Int) : Bool :=
  match slots s nid with
  | some fds =>
    match fds[idx.toNat]? with
    | some slot => slot.in_use
    | none => false
  | none => false

/-- Every entry's slot array has `fds_count` slots. -/
def len_ok (s : State) : Prop :=
  ∀ entry ∈ s.root, entry.fds.length = s.fds_count

/-- The invariant of a run: the slot arrays have `fds_count` slots, a handle's
`idx` is -1 or an index, the slot of every outstanding handle with `idx ≥ 0`
is marked in use, and no two such handles name the same slot of the same
node. -/
def Inv (y : Sys) : Prop :=
  len_ok y.st ∧ (∀ p ∈ y.out, p.2.idx = -1 ∨ 0 ≤ p.2.idx) ∧
    (∀ p ∈ y.out, 0 ≤ p.2.idx → slot_busy y.st p.1 p.2.idx = true) ∧ y.held.Nodup

/-- From `s` to `t` the width `fds_count` stays and every slot that is in use
stays in use. -/
def extends_slots (s t : State) : Prop :=
  t.fds_count = s.fds_count ∧
    ∀ nid idx, slot_busy s nid idx = true → slot_busy t nid idx = true

end Sockfd

/-! ### Example data -/

namespace Sockfd

/-- A node without io port: 10.0.0.1, port 7000. -/
def node_a : node_id :=
  { addr := [0, 0, 0, 0, 0, 0, 0, 0, 0, 0, 0, 0, 10, 0, 0, 1], port := 7000,
    io_addr := [0, 0, 0, 0, 0, 0, 0, 0, 0, 0, 0, 0, 0, 0, 0, 0], io_port := 0 }

/-- A node with an io port: 10.0.0.2, port 7000, io address 10.1.0.2, io port
7001. -/
def node_b : node_id :=
  { addr := [0, 0, 0, 0, 0, 0, 0, 0, 0, 0, 0, 0, 10, 0, 0, 2], port := 7000,
    io_addr := [0, 0, 0, 0, 0, 0, 0, 0, 0, 0, 0, 0, 10, 1, 0, 2], io_port := 7001 }

/-- A network on which every connection attempt succeeds; the `k`-th attempt
gets the descriptor `3 + k`. -/
def net_up : Net := fun k _ _ => 3 + (k : Int)

/-- A network on which the first connection attempt succeeds and every later
one fails. -/
def net_first_only : Net := fun k _ _ => if k = 0 then 3 else -1

/-- The module after eight handles of `node_a` were got and none released. -/
def state_all_in_use : State :=
  (run net_up Sys.init (List.replicate 8 (Op.get node_a 2))).st

end Sockfd

namespace Sockfd

/-- The module after two handles of `node_a` were got and none released. -/
def state_two_in_use : State :=
  (run net_up Sys.init [Op.get node_a 2, Op.get node_a 2]).st

end Sockfd
/-! ### Requests over a cached connection -/

namespace Sockfd

/-- The outcome of `exec_req(sockfd, hdr, buf, ...)` on a descriptor: its
return value (0 when the request went out and the response came back) and
the field `rsp->result` of the response it then left in the header.
`exec_req` lives in `lib/net.c`, which is not among the sources; what it
answers on a descriptor is left to the network. -/
abbrev Rpc := Int → Int × Nat

/-- The result code `SD_RES_NETWORK_ERROR`.  It is defined in a header that is
not among the sources; only its name is used here (the number 0x86 stands
for it). -/
def SD_RES_NETWORK_ERROR : Nat := 0x86

/-- What a call of `sheep_exec_req` comes to: the value returned, or `spin`
when `sheep_get_sockfd` is still going round its loop after the given number
of rounds. -/
inductive exec_result where
  | ret (v : Nat)
  | spin
deriving DecidableEq, Repr

/-- Send a request to a node and wait for the response:
`sheep_exec_req(nid, hdr, buf)`. -/
def sheep_exec_req (net : Net) (rpc : Rpc) (rounds : Nat) (s : State) (nid : node_id) :
    exec_result × State :=
  match sheep_get_sockfd net rounds s nid with
  | (get_result.null, s1) => (exec_result.ret SD_RES_NETWORK_ERROR, s1)
  | (get_result.spin, s1) => (exec_result.spin, s1)
  | (get_result.sfd sfd, s1) =>
    if (rpc sfd.fd).1 ≠ 0 then
      (exec_result.ret SD_RES_NETWORK_ERROR, sheep_del_sockfd s1 nid sfd)
    else (exec_result.ret (rpc sfd.fd).2, sheep_put_sockfd s1 nid sfd)

/-- An `exec_req` that fails on every descriptor. -/
def rpc_down : Rpc := fun _ => (1, 0)

/-- The module after one handle of `node_a` was got and not released. -/
def state_one_in_use : State :=
  (run net_up Sys.init [Op.get node_a 2]).st

end Sockfd

/-! ## Part 3: definitions for the table of operations of `sheep/ops.c` -/

namespace Ops

/-! ### The table of operations -/

def SD_OP_TYPE_CLUSTER : Nat := 1

def SD_OP_TYPE_LOCAL : Nat := 2

def SD_OP_TYPE_PEER : Nat := 3

def SD_OP_TYPE_GATEWAY : Nat := 4

/-- The opcodes `SD_OP_*` for which `sd_ops` has an initialiser, by name.
Their numbers are defined in headers that are not among the sources; a
function from this type to `Nat` stands for those definitions. -/
inductive sd_op where
  | NEW_VDI | DEL_VDI | MAKE_FS | SHUTDOWN | GET_VDI_ATTR | FORCE_RECOVER | CLEANUP
  | NOTIFY_VDI_DEL | NOTIFY_VDI_ADD | DELETE_CACHE | COMPLETE_RECOVERY | GET_VDI_INFO
  | LOCK_VDI | REWEIGHT | UPDATE_SIZE | ENABLE_RECOVER | DISABLE_RECOVER
  | RELEASE_VDI | GET_STORE_LIST | READ_VDIS | GET_VDI_COPIES | GET_NODE_LIST | STAT_SHEEP
  | STAT_RECOVERY | STAT_CLUSTER | GET_OBJ_LIST | GET_EPOCH | FLUSH_VDI | DISCARD_OBJ
  | FLUSH_DEL_CACHE | TRACE | TRACE_READ_BUF | KILL_NODE | MD_INFO | MD_PLUG | MD_UNPLUG
  | GET_HASH
  | CREATE_AND_WRITE_OBJ | READ_OBJ | WRITE_OBJ | REMOVE_OBJ
  | CREATE_AND_WRITE_PEER | READ_PEER | WRITE_PEER | REMOVE_PEER
deriving DecidableEq, Repr

/-- The functions that stand in a `process_work` field of `sd_ops`. -/
inductive work_fn where
  | cluster_new_vdi | cluster_del_vdi | cluster_get_vdi_attr | cluster_force_recover_work
  | cluster_get_vdi_info | local_release_vdi | local_get_store_list | local_stat_sheep
  | local_stat_cluster | local_get_obj_list | local_get_epoch | local_flush_vdi
  | local_discard_obj | local_flush_and_del | local_trace_read_buf | local_md_info
  | local_get_hash | gateway_create_and_write_obj | gateway_read_obj | gateway_write_obj
  | gateway_remove_obj | peer_create_and_write_obj | peer_read_obj | peer_write_obj
  | peer_remove_obj
deriving DecidableEq, Repr

/-- The functions that stand in a `process_main` field of `sd_ops`. -/
inductive main_fn where
  | post_cluster_new_vdi | post_cluster_del_vdi | cluster_make_fs | cluster_shutdown
  | cluster_force_recover_main | cluster_cleanup | cluster_notify_vdi_del
  | cluster_notify_vdi_add | cluster_delete_cache | cluster_recovery_completion
  | cluster_reweight | cluster_update_size | cluster_enable_recover | cluster_disable_recover
  | local_read_vdis | local_get_vdi_copies | local_get_node_list | local_stat_recovery
  | local_trace_ops | local_kill_node | local_md_plug | local_md_unplug
deriving DecidableEq, Repr

/-- One entry of the table: `struct sd_op_template`.  A field that the
initialiser leaves out is zero: `type = 0`, `force = false`, no function. -/
structure sd_op_template where
  name : String
  type : Nat
  force : Bool
  process_work : Option work_fn
  process_main : Option main_fn
deriving DecidableEq, Repr

/-- An entry no initialiser touched. -/
def sd_op_template.zero : sd_op_template :=
  { name := "", type := 0, force := false, process_work := none, process_main := none }

/-- The initialisers of `sd_ops[]`, in the order of the source. -/
def sd_ops_init : List (sd_op × sd_op_template) :=
  [ -- cluster operations
    (sd_op.NEW_VDI,
      { name := "NEW_VDI", type := SD_OP_TYPE_CLUSTER, force := false,
        process_work := some work_fn.cluster_new_vdi,
        process_main := some main_fn.post_cluster_new_vdi }),
    (sd_op.DEL_VDI,
      { name := "DEL_VDI", type := SD_OP_TYPE_CLUSTER, force := false,
        process_work := some work_fn.cluster_del_vdi,
        process_main := some main_fn.post_cluster_del_vdi }),
    (sd_op.MAKE_FS,
      { name := "MAKE_FS", type := SD_OP_TYPE_CLUSTER, force := true,
        process_work := none, process_main := some main_fn.cluster_make_fs }),
    (sd_op.SHUTDOWN,
      { name := "SHUTDOWN", type := SD_OP_TYPE_CLUSTER, force := true,
        process_work := none, process_main := some main_fn.cluster_shutdown }),
    (sd_op.GET_VDI_ATTR,
      { name := "GET_VDI_ATTR", type := SD_OP_TYPE_CLUSTER, force := false,
        process_work := some work_fn.cluster_get_vdi_attr, process_main := none }),
    (sd_op.FORCE_RECOVER,
      { name := "FORCE_RECOVER", type := SD_OP_TYPE_CLUSTER, force := true,
        process_work := some work_fn.cluster_force_recover_work,
        process_main := some main_fn.cluster_force_recover_main }),
    (sd_op.CLEANUP,
      { name := "CLEANUP", type := SD_OP_TYPE_CLUSTER, force := true,
        process_work := none, process_main := some main_fn.cluster_cleanup }),
    (sd_op.NOTIFY_VDI_DEL,
      { name := "NOTIFY_VDI_DEL", type := SD_OP_TYPE_CLUSTER,
        force := true, process_work := none,
        process_main := some main_fn.cluster_notify_vdi_del }),
    (sd_op.NOTIFY_VDI_ADD,
      { name := "NOTIFY_VDI_ADD", type := SD_OP_TYPE_CLUSTER,
        force := true, process_work := none,
        process_main := some main_fn.cluster_notify_vdi_add }),
    (sd_op.DELETE_CACHE,
      { name := "DELETE_CACHE", type := SD_OP_TYPE_CLUSTER, force := false,
        process_work := none, process_main := some main_fn.cluster_delete_cache }),
    (sd_op.COMPLETE_RECOVERY,
      { name := "COMPLETE_RECOVERY", type := SD_OP_TYPE_CLUSTER,
        force := true, process_work := none,
        process_main := some main_fn.cluster_recovery_completion }),
    (sd_op.GET_VDI_INFO,
      { name := "GET_VDI_INFO", type := SD_OP_TYPE_CLUSTER, force := false,
        process_work := some work_fn.cluster_get_vdi_info, process_main := none }),
    (sd_op.LOCK_VDI,
      { name := "LOCK_VDI", type := SD_OP_TYPE_CLUSTER, force := false,
        process_work := some work_fn.cluster_get_vdi_info, process_main := none }),
    (sd_op.REWEIGHT,
      { name := "REWEIGHT", type := SD_OP_TYPE_CLUSTER, force := false,
        process_work := none, process_main := some main_fn.cluster_reweight }),
    (sd_op.UPDATE_SIZE,
      { name := "UPDATE_SIZE", type := SD_OP_TYPE_CLUSTER, force := false,
        process_work := none, process_main := some main_fn.cluster_update_size }),
    (sd_op.ENABLE_RECOVER,
      { name := "ENABLE_RECOVER", type := SD_OP_TYPE_CLUSTER,
        force := false, process_work := none,
        process_main := some main_fn.cluster_enable_recover }),
    (sd_op.DISABLE_RECOVER,
      { name := "DISABLE_RECOVER", type := SD_OP_TYPE_CLUSTER,
        force := false, process_work := none,
        process_main := some main_fn.cluster_disable_recover }),
    -- local operations
    (sd_op.RELEASE_VDI,
      { name := "RELEASE_VDI", type := SD_OP_TYPE_LOCAL, force := false,
        process_work := some work_fn.local_release_vdi, process_main := none }),
    (sd_op.GET_STORE_LIST,
      { name := "GET_STORE_LIST", type := SD_OP_TYPE_LOCAL, force := true,
        process_work := some work_fn.local_get_store_list, process_main := none }),
    (sd_op.READ_VDIS,
      { name := "READ_VDIS", type := SD_OP_TYPE_LOCAL, force := true,
        process_work := none, process_main := some main_fn.local_read_vdis }),
    (sd_op.GET_VDI_COPIES,
      { name := "GET_VDI_COPIES", type := SD_OP_TYPE_LOCAL, force := true,
        process_work := none, process_main := some main_fn.local_get_vdi_copies }),
    (sd_op.GET_NODE_LIST,
      { name := "GET_NODE_LIST", type := SD_OP_TYPE_LOCAL, force := true,
        process_work := none, process_main := some main_fn.local_get_node_list }),
    (sd_op.STAT_SHEEP,
      { name := "STAT_SHEEP", type := SD_OP_TYPE_LOCAL, force := false,
        process_work := some work_fn.local_stat_sheep, process_main := none }),
    (sd_op.STAT_RECOVERY,
      { name := "STAT_RECOVERY", type := SD_OP_TYPE_LOCAL, force := false,
        process_work := none, process_main := some main_fn.local_stat_recovery }),
    (sd_op.STAT_CLUSTER,
      { name := "STAT_CLUSTER", type := SD_OP_TYPE_LOCAL, force := true,
        process_work := some work_fn.local_stat_cluster, process_main := none }),
    (sd_op.GET_OBJ_LIST,
      { name := "GET_OBJ_LIST", type := SD_OP_TYPE_LOCAL, force := false,
        process_work := some work_fn.local_get_obj_list, process_main := none }),
    (sd_op.GET_EPOCH,
      { name := "GET_EPOCH", type := SD_OP_TYPE_LOCAL, force := false,
        process_work := some work_fn.local_get_epoch, process_main := none }),
    (sd_op.FLUSH_VDI,
      { name := "FLUSH_VDI", type := SD_OP_TYPE_LOCAL, force := false,
        process_work := some work_fn.local_flush_vdi, process_main := none }),
    (sd_op.DISCARD_OBJ,
      { name := "DISCARD_OBJ", type := SD_OP_TYPE_LOCAL, force := false,
        process_work := some work_fn.local_discard_obj, process_main := none }),
    (sd_op.FLUSH_DEL_CACHE,
      { name := "DEL_CACHE", type := SD_OP_TYPE_LOCAL, force := false,
        process_work := some work_fn.local_flush_and_del, process_main := none }),
    (sd_op.TRACE,
      { name := "TRACE", type := SD_OP_TYPE_LOCAL, force := true,
        process_work := none, process_main := some main_fn.local_trace_ops }),
    (sd_op.TRACE_READ_BUF,
      { name := "TRACE_READ_BUF", type := SD_OP_TYPE_LOCAL, force := true,
        process_work := some work_fn.local_trace_read_buf, process_main := none }),
    (sd_op.KILL_NODE,
      { name := "KILL_NODE", type := SD_OP_TYPE_LOCAL, force := true,
        process_work := none, process_main := some main_fn.local_kill_node }),
    (sd_op.MD_INFO,
      { name := "MD_INFO", type := SD_OP_TYPE_LOCAL, force := false,
        process_work := some work_fn.local_md_info, process_main := none }),
    (sd_op.MD_PLUG,
      { name := "MD_PLUG_DISKS", type := SD_OP_TYPE_LOCAL, force := false,
        process_work := none, process_main := some main_fn.local_md_plug }),
    (sd_op.MD_UNPLUG,
      { name := "MD_UNPLUG_DISKS", type := SD_OP_TYPE_LOCAL, force := false,
        process_work := none, process_main := some main_fn.local_md_unplug }),
    (sd_op.GET_HASH,
      { name := "GET_HASH", type := SD_OP_TYPE_LOCAL, force := false,
        process_work := some work_fn.local_get_hash, process_main := none }),
    -- gateway I/O operations
    (sd_op.CREATE_AND_WRITE_OBJ,
      { name := "CREATE_AND_WRITE_OBJ", type := SD_OP_TYPE_GATEWAY,
        force := false, process_work := some work_fn.gateway_create_and_write_obj,
        process_main := none }),
    (sd_op.READ_OBJ,
      { name := "READ_OBJ", type := SD_OP_TYPE_GATEWAY, force := false,
        process_work := some work_fn.gateway_read_obj, process_main := none }),
    (sd_op.WRITE_OBJ,
      { name := "WRITE_OBJ", type := SD_OP_TYPE_GATEWAY, force := false,
        process_work := some work_fn.gateway_write_obj, process_main := none }),
    (sd_op.REMOVE_OBJ,
      { name := "REMOVE_OBJ", type := SD_OP_TYPE_GATEWAY, force := false,
        process_work := some work_fn.gateway_remove_obj, process_main := none }),
    -- peer I/O operations
    (sd_op.CREATE_AND_WRITE_PEER,
      { name := "CREATE_AND_WRITE_PEER", type := SD_OP_TYPE_PEER,
        force := false, process_work := some work_fn.peer_create_and_write_obj,
        process_main := none }),
    (sd_op.READ_PEER,
      { name := "READ_PEER", type := SD_OP_TYPE_PEER, force := false,
        process_work := some work_fn.peer_read_obj, process_main := none }),
    (sd_op.WRITE_PEER,
      { name := "WRITE_PEER", type := SD_OP_TYPE_PEER, force := false,
        process_work := some work_fn.peer_write_obj, process_main := none }),
    (sd_op.REMOVE_PEER,
      { name := "REMOVE_PEER", type := SD_OP_TYPE_PEER, force := false,
        process_work := some work_fn.peer_remove_obj, process_main := none }) ]

/-- The array `sd_ops[]` at index `opcode`, the opcode names standing for the
numbers `code` gives them: the entry of the last initialiser for that index,
and the zero entry where there is none. -/
def sd_ops (code : sd_op → Nat) (opcode : Nat) : sd_op_template :=
  match sd_ops_init.reverse.find? (fun e => code e.1 == opcode) with
  | some e => e.2
  | none => sd_op_template.zero

/-- Look an opcode up: `get_sd_op(opcode)`; `none` is the NULL return. -/
def get_sd_op (code : sd_op → Nat) (opcode : Nat) : Option sd_op_template :=
  if (sd_ops code opcode).type = 0 then none else some (sd_ops code opcode)

def is_peer_op (op : sd_op_template) : Bool := op.type == SD_OP_TYPE_PEER

def is_gateway_op (op : sd_op_template) : Bool := op.type == SD_OP_TYPE_GATEWAY

/-- The initialisers of `map_table[]`, in the order of the source. -/
def map_table_init : List (sd_op × sd_op) :=
  [ (sd_op.CREATE_AND_WRITE_OBJ, sd_op.CREATE_AND_WRITE_PEER),
    (sd_op.READ_OBJ, sd_op.READ_PEER),
    (sd_op.WRITE_OBJ, sd_op.WRITE_PEER),
    (sd_op.REMOVE_OBJ, sd_op.REMOVE_PEER) ]

/-- The array `map_table[]`: as long as its largest index plus one, zero
where no initialiser stores, a later initialiser overwriting an earlier one
for the same index. -/
def map_table (code : sd_op → Nat) : List Nat :=
  map_table_init.foldl (fun t e => t.set (code e.1) (code e.2))
    (List.replicate ((map_table_init.map (fun e => code e.1)).foldl max 0 + 1) 0)

/-- Translate a gateway opcode: `gateway_to_peer_opcode(opcode)`; `none` when
the `assert` fails (the comparison is unsigned, so a negative `opcode` fails
it). -/
def gateway_to_peer_opcode (code : sd_op → Nat) (opcode : Int) : Option Int :=
  if 0 ≤ opcode ∧ opcode.toNat < (map_table code).length then
    some ((map_table code).getD opcode.toNat 0 : Nat)
  else none

/-- An assignment of numbers to the opcode names, each name its own number. -/
def code_example : sd_op → Nat
  | sd_op.CREATE_AND_WRITE_OBJ => 1 | sd_op.READ_OBJ => 2 | sd_op.WRITE_OBJ => 3
  | sd_op.REMOVE_OBJ => 4 | sd_op.DISCARD_OBJ => 5
  | sd_op.NEW_VDI => 17 | sd_op.LOCK_VDI => 18 | sd_op.RELEASE_VDI => 19
  | sd_op.GET_VDI_INFO => 20 | sd_op.READ_VDIS => 21 | sd_op.FLUSH_VDI => 22
  | sd_op.DEL_VDI => 23
  | sd_op.MAKE_FS => 129 | sd_op.SHUTDOWN => 130 | sd_op.GET_VDI_ATTR => 131
  | sd_op.FORCE_RECOVER => 132 | sd_op.CLEANUP => 133 | sd_op.NOTIFY_VDI_DEL => 134
  | sd_op.NOTIFY_VDI_ADD => 135 | sd_op.DELETE_CACHE => 136 | sd_op.COMPLETE_RECOVERY => 137
  | sd_op.REWEIGHT => 138 | sd_op.UPDATE_SIZE => 139 | sd_op.ENABLE_RECOVER => 140
  | sd_op.DISABLE_RECOVER => 141 | sd_op.GET_STORE_LIST => 142 | sd_op.GET_VDI_COPIES => 143
  | sd_op.GET_NODE_LIST => 144 | sd_op.STAT_SHEEP => 145 | sd_op.STAT_RECOVERY => 146
  | sd_op.STAT_CLUSTER => 147 | sd_op.GET_OBJ_LIST => 148 | sd_op.GET_EPOCH => 149
  | sd_op.FLUSH_DEL_CACHE => 150 | sd_op.TRACE => 151 | sd_op.TRACE_READ_BUF => 152
  | sd_op.KILL_NODE => 153 | sd_op.MD_INFO => 154 | sd_op.MD_PLUG => 155
  | sd_op.MD_UNPLUG => 156 | sd_op.GET_HASH => 157
  | sd_op.CREATE_AND_WRITE_PEER => 163 | sd_op.READ_PEER => 164 | sd_op.WRITE_PEER => 165
  | sd_op.REMOVE_PEER => 166

end Ops

/-! ## Part 4: definitions for `sheep/cluster/zookeeper.c` -/

namespace Cluster

open Sockfd (node_id node_id_cmp sd_node)

/-- Modelled from the spec: `node_cmp` of the shared headers, which are not
among the sources.  "Nodes are totally ordered by lexicographic compare on
identity bytes": the order of two nodes is the order of their identities. -/
def node_cmp (a b : sd_node) : Int := node_id_cmp a.nid b.nid

/-- Modelled from the spec: `node_eq` of the shared headers ("equality is
bytewise"): two nodes are equal when `node_cmp` finds no difference. -/
def node_eq (a b : sd_node) : Bool := decide (node_cmp a b = 0)

/-- The answers of `sd_check_join_cb`: `enum cluster_join_result` of
`cluster.h`, which is not among the sources; the values are kept by name. -/
inductive cluster_join_result where
  | CJ_RES_SUCCESS
  | CJ_RES_FAIL
  | CJ_RES_JOIN_LATER
  | CJ_RES_MASTER_TRANSFER
deriving DecidableEq, Repr

/-- A call from a cluster driver up into sheep, with its arguments. -/
inductive upcall where
  | join_handler (joined : sd_node) (members : List sd_node) (result : cluster_join_result)
      (payload : List Nat)
  | leave_handler (left : sd_node) (members : List sd_node)
  | notify_handler (sender : sd_node) (msg : List Nat)
  | block_handler (sender : sd_node)
  | check_join_cb (joining : sd_node) (payload : List Nat)
deriving DecidableEq, Repr

/-- What sheep answers to the upcalls that return a value, the first argument
being the number of upcalls made before. -/
structure Sheep where
  block_handler : Nat → sd_node → Bool
  check_join_cb : Nat → sd_node → List Nat → cluster_join_result

end Cluster

namespace Zk

open Sockfd (node_id node_id_cmp sd_node)
open Cluster

inductive zk_event_type where
  | EVENT_JOIN_REQUEST
  | EVENT_JOIN_RESPONSE
  | EVENT_LEAVE
  | EVENT_BLOCK
  | EVENT_UNBLOCK
  | EVENT_NOTIFY
deriving DecidableEq, Repr

/-- A member as the driver keeps it: `struct zk_node` (the list and tree links
are the positions in the lists below). -/
structure zk_node where
  node : sd_node
  callbacked : Bool
  gone : Bool
deriving DecidableEq, Repr

/-- An event of the queue: `struct zk_event`.  `buf` is the message of
`msg_len` (for a join) or `buf_len` bytes, `nodes` the `nr_nodes` nodes that
`push_join_response` stores behind it. -/
structure zk_event where
  id : Nat
  type : zk_event_type
  sender : zk_node
  join_result : cluster_join_result
  buf : List Nat
  nodes : List sd_node
deriving DecidableEq, Repr

/-- The variables of the driver and the queue it shares with the other nodes.
`sd_nodes` holds the first `nr_sd_nodes` elements of the array of that name;
`zk_node_root` lists the tree in the order of `rb_first` / `rb_next` (the tree
code of `lib/rbtree.c` is not among the sources); `queue` lists the events
under `QUEUE_ZNODE` by sequence number, from 0.  `upcalls` logs the calls
into sheep, oldest first. -/
structure State where
  sd_nodes : List sd_node
  zk_node_root : List zk_node
  zk_block_list : List zk_node
  this_node : zk_node
  queue : List zk_event
  queue_pos : Nat
  first_push : Bool
  seq : Nat
  upcalls : List upcall
deriving DecidableEq, Repr

def State.nr_sd_nodes (s : State) : Nat := s.sd_nodes.length

/-- A return code of the ZooKeeper client library, as far as the driver tells
them apart. -/
inductive zk_rc where
  | ZOK
  | ZNODEEXISTS
  | ZNONODE
  | other
deriving DecidableEq, Repr

/-- What the ZooKeeper servers answer during one event: whether the member
directory has no children (`zk_member_empty`), whether reading every member
succeeds (`watch_all_nodes`), and the return codes of `zk_create_node` and
`zk_node_exists` for a member path. -/
structure Server where
  member_empty : Bool
  member_data_ok : Bool
  create_rc : zk_rc
  exists_rc : zk_rc
deriving DecidableEq, Repr

/-- How a handler ends: it returns (`ok`), or the process ends in `exit` or
in `panic`; the state is the one reached at that point. -/
inductive Outcome where
  | ok (s : State)
  | exit (s : State)
  | panic (s : State)
deriving DecidableEq, Repr

/-- Insert into the tree: `zk_tree_insert(new)`; the first component is the
entry that compares equal (nothing is inserted then).  A new entry takes its
place in the order of `node_cmp`. -/
def zk_tree_insert : List zk_node → zk_node → Option zk_node × List zk_node
  | [], new => (none, [new])
  | entry :: rest, new =>
    if node_cmp new.node entry.node < 0 then (none, new :: entry :: rest)
    else if node_cmp new.node entry.node > 0 then
      ((zk_tree_insert rest new).1, entry :: (zk_tree_insert rest new).2)
    else (some entry, entry :: rest)

/-- Search the tree: `zk_tree_search_nolock(nid)`. -/
def zk_tree_search_nolock (root : List zk_node) (nid : node_id) : Option zk_node :=
  root.find? (fun t => decide (node_id_cmp nid t.node.nid = 0))

/-- Remove from the tree the entry a search for `nid` returned:
`zk_tree_del_nolock(node)`. -/
def zk_tree_del_nolock (root : List zk_node) (nid : node_id) : List zk_node :=
  root.eraseP (fun t => decide (node_id_cmp nid t.node.nid = 0))

/-- Add a copy of a node to the tree: `zk_tree_add(node)`. -/
def zk_tree_add (s : State) (node : zk_node) : State :=
  match zk_tree_insert s.zk_node_root node with
  | (some _, _) => s
  | (none, root) => { s with zk_node_root := root, sd_nodes := s.sd_nodes ++ [node.node] }

/-- Empty the tree by way of the node list: `zk_tree_destroy()`. -/
def zk_tree_destroy (s : State) : State :=
  { s with zk_node_root := s.sd_nodes.foldl (fun root n =>
      match zk_tree_search_nolock root n.nid with
      | some _ => zk_tree_del_nolock root n.nid
      | none => root) s.zk_node_root }

/-- Rebuild the node list from the tree: `build_node_list()`. -/
def build_node_list (s : State) : State :=
  { s with sd_nodes := s.zk_node_root.map (fun zk => zk.node) }

/-- The loop of `is_master`: the entry `zk` points to when the loop is left,
`zk` being what it pointed to before. -/
def is_master_loop : Option zk_node → List zk_node → Option zk_node
  | zk, [] => zk
  | _, n :: rest => if !n.gone then some n else is_master_loop (some n) rest

/-- Is this node the master: `is_master()`. -/
def is_master (srv : Server) (s : State) : Bool :=
  if s.nr_sd_nodes = 0 then
    if srv.member_empty then true else false
  else
    match is_master_loop none s.zk_node_root with
    | some zk => node_eq zk.node s.this_node.node
    | none => false

/-- Is there an event at `queue_pos`: `zk_queue_peek()`. -/
def zk_queue_peek (s : State) : Bool := decide (s.queue_pos < s.queue.length)

/-- Append an event to the queue: `zk_queue_push(ev)`; the first push of the
node sets `queue_pos` to the sequence number it got. -/
def zk_queue_push (s : State) (ev : zk_event) : State :=
  if s.first_push then
    { s with queue := s.queue ++ [ev], queue_pos := s.queue.length, first_push := false }
  else { s with queue := s.queue ++ [ev] }

/-- The identifier `get_uniq_id()` gives the `n`-th event of this node; the
hash `fnv_64a_buf` is not among the sources and the identifier plays no part
in the handling of events. -/
def get_uniq_id (s : State) : Nat × State := (s.seq + 1, { s with seq := s.seq + 1 })

/-- Create an event and push it: `add_event(type, znode, buf, buf_len)`. -/
def add_event (s : State) (type : zk_event_type) (znode : zk_node) (buf : List Nat) : State :=
  zk_queue_push (get_uniq_id s).2
    { id := (get_uniq_id s).1, type := type, sender := znode,
      join_result := cluster_join_result.CJ_RES_SUCCESS, buf := buf, nodes := [] }

/-- Answer a join request in place: `push_join_response(ev)`. -/
def push_join_response (s : State) (ev : zk_event) : State :=
  { s with
    queue_pos := s.queue_pos - 1,
    queue := s.queue.set (s.queue_pos - 1)
      { ev with type := zk_event_type.EVENT_JOIN_RESPONSE, nodes := s.sd_nodes } }

/-- Take the event at `queue_pos`: `zk_queue_pop_advance(ev)`; `none` is the
`panic` when there is none. -/
def zk_queue_pop_advance (s : State) : Option (zk_event × State) :=
  match s.queue[s.queue_pos]? with
  | some ev => some (ev, { s with queue_pos := s.queue_pos + 1 })
  | none => none

/-- Record an upcall. -/
def up (s : State) (c : upcall) : State := { s with upcalls := s.upcalls ++ [c] }

/-- Handle a join request: `zk_handle_join_request(ev)`. -/
def zk_handle_join_request (sheep : Sheep) (srv : Server) (s : State) (ev : zk_event) :
    Outcome :=
  if !is_master srv s then Outcome.ok { s with queue_pos := s.queue_pos - 1 }
  else
    let res := sheep.check_join_cb s.upcalls.length ev.sender.node ev.buf
    let s1 := up s (upcall.check_join_cb ev.sender.node ev.buf)
    let s2 := push_join_response s1 { ev with join_result := res }
    if res = cluster_join_result.CJ_RES_MASTER_TRANSFER then
      Outcome.exit (add_event s2 zk_event_type.EVENT_LEAVE s2.this_node [])
    else Outcome.ok s2

/-- Read the members of the cluster: `watch_all_nodes()`. -/
def watch_all_nodes (srv : Server) (s : State) : Outcome :=
  if srv.member_empty then Outcome.ok s
  else if srv.member_data_ok then Outcome.ok s else Outcome.panic s

/-- Take over the node list of a join response: `init_node_list(ev)`.  Each
node is copied into a local `struct zk_node` of which only `node` is set;
`junk` stands for what the other fields of that local hold. -/
def init_node_list (srv : Server) (junk : zk_node) (s : State) (ev : zk_event) :
    Outcome :=
  watch_all_nodes srv (ev.nodes.foldl (fun st n => zk_tree_add st { junk with node := n }) s)

/-- The member znode part of `zk_handle_join_response`: `false` is `panic`. -/
def member_znode_ok (srv : Server) (s : State) (ev : zk_event) : Bool :=
  if node_eq ev.sender.node s.this_node.node then
    match srv.create_rc with
    | zk_rc.ZOK => true
    | zk_rc.ZNODEEXISTS => true
    | _ => false
  else
    match srv.exists_rc with
    | zk_rc.ZOK => true
    | zk_rc.ZNONODE => true
    | _ => false

/-- The part of `zk_handle_join_response` from the `switch` on. -/
def join_response_finish (srv : Server) (s : State) (ev : zk_event) : Outcome :=
  match ev.join_result with
  | cluster_join_result.CJ_RES_FAIL =>
    let s3 := build_node_list s
    Outcome.ok (up s3 (upcall.join_handler ev.sender.node s3.sd_nodes ev.join_result ev.buf))
  | _ =>
    if member_znode_ok srv s ev then
      let s3 := build_node_list (zk_tree_add s ev.sender)
      Outcome.ok (up s3 (upcall.join_handler ev.sender.node s3.sd_nodes ev.join_result ev.buf))
    else Outcome.panic s

/-- Handle a join response: `zk_handle_join_response(ev)`. -/
def zk_handle_join_response (srv : Server) (junk : zk_node) (s : State) (ev : zk_event) :
    Outcome :=
  match (if node_eq ev.sender.node s.this_node.node then init_node_list srv junk s ev
         else Outcome.ok s) with
  | Outcome.ok s1 =>
    join_response_finish srv
      (if ev.join_result = cluster_join_result.CJ_RES_MASTER_TRANSFER then zk_tree_destroy s1
       else s1) ev
  | dead => dead

/-- Call the block handler of the first pending block event unless it was
called already: `kick_block_event()`. -/
def kick_block_event (sheep : Sheep) (s : State) : State :=
  match s.zk_block_list with
  | [] => s
  | block :: rest =>
    if !block.callbacked then
      { (up s (upcall.block_handler block.node)) with
        zk_block_list :=
          { block with callbacked := sheep.block_handler s.upcalls.length block.node } :: rest }
    else s

/-- Remove the block events of a node: `block_event_list_del(n)`. -/
def block_event_list_del (s : State) (n : zk_node) : State :=
  { s with zk_block_list := s.zk_block_list.filter (fun ev => !node_eq ev.node n.node) }

/-- Handle a leave event: `zk_handle_leave(ev)`. -/
def zk_handle_leave (s : State) (ev : zk_event) : State :=
  match zk_tree_search_nolock s.zk_node_root ev.sender.node.nid with
  | none => s
  | some n =>
    let s1 := block_event_list_del s n
    let s2 := build_node_list
      { s1 with zk_node_root := zk_tree_del_nolock s1.zk_node_root ev.sender.node.nid }
    up s2 (upcall.leave_handler ev.sender.node s2.sd_nodes)

/-- Handle a block event: `zk_handle_block(ev)`.  The new entry comes from
`xzalloc`, so its flags are false. -/
def zk_handle_block (sheep : Sheep) (s : State) (ev : zk_event) : State :=
  match s.zk_block_list ++ [{ node := ev.sender.node, callbacked := false, gone := false }] with
  | [] => s
  | block :: rest =>
    if !block.callbacked then
      { (up s (upcall.block_handler block.node)) with
        zk_block_list :=
          { block with callbacked := sheep.block_handler s.upcalls.length block.node } :: rest }
    else { s with zk_block_list := block :: rest }

/-- Handle an unblock event: `zk_handle_unblock(ev)`. -/
def zk_handle_unblock (s : State) (ev : zk_event) : State :=
  match s.zk_block_list with
  | [] => s
  | block :: rest =>
    if block.callbacked then
      { (add_event s zk_event_type.EVENT_NOTIFY block ev.buf) with zk_block_list := rest }
    else { s with zk_block_list := rest }

/-- Handle a notify event: `zk_handle_notify(ev)`. -/
def zk_handle_notify (s : State) (ev : zk_event) : State :=
  up s (upcall.notify_handler ev.sender.node ev.buf)

/-- The table `zk_event_handlers[]`, applied to an event. -/
def zk_event_handlers (sheep : Sheep) (srv : Server) (junk : zk_node) (s : State)
    (ev : zk_event) : Outcome :=
  match ev.type with
  | zk_event_type.EVENT_JOIN_REQUEST => zk_handle_join_request sheep srv s ev
  | zk_event_type.EVENT_JOIN_RESPONSE => zk_handle_join_response srv junk s ev
  | zk_event_type.EVENT_LEAVE => Outcome.ok (zk_handle_leave s ev)
  | zk_event_type.EVENT_BLOCK => Outcome.ok (zk_handle_block sheep s ev)
  | zk_event_type.EVENT_UNBLOCK => Outcome.ok (zk_handle_unblock s ev)
  | zk_event_type.EVENT_NOTIFY => Outcome.ok (zk_handle_notify s ev)

/-- The handler of the event descriptor: `zk_event_handler`, entered with
`events` free of `EPOLLHUP` and a successful `eventfd_read`. -/
def zk_event_handler (sheep : Sheep) (srv : Server) (junk : zk_node) (s : State) : Outcome :=
  if !zk_queue_peek s then Outcome.ok (kick_block_event sheep s)
  else
    match zk_queue_pop_advance s with
    | none => Outcome.panic s
    | some (ev, s1) =>
      match zk_event_handlers sheep srv junk s1 ev with
      | Outcome.ok s2 =>
        if zk_queue_peek s2 then Outcome.ok s2 else Outcome.ok (kick_block_event sheep s2)
      | dead => dead

end Zk

namespace Zk

open Sockfd (node_id node_id_cmp sd_node)
open Cluster

/-! ### Example data for the ZooKeeper driver -/

/-- The node 10.0.0.1:7000 as a cluster member. -/
def member_a : sd_node := { nid := Sockfd.node_a }

/-- The node 10.0.0.2:7000 (with io address) as a cluster member; it comes
after `member_a` in the order of nodes. -/
def member_b : sd_node := { nid := Sockfd.node_b }

/-- A sheep whose block handler always starts the blocked work and whose join
check always succeeds. -/
def sheep_ready : Sheep :=
  { block_handler := fun _ _ => true,
    check_join_cb := fun _ _ _ => cluster_join_result.CJ_RES_SUCCESS }

/-- Servers that answer every call with success, the member directory not
being empty. -/
def server_ok : Server :=
  { member_empty := false, member_data_ok := true, create_rc := zk_rc.ZOK,
    exists_rc := zk_rc.ZOK }

/-- The driver of `member_b` in a cluster of two whose member znodes were both
deleted: both entries of the tree are marked gone. -/
def state_all_gone : State :=
  { sd_nodes := [member_a, member_b],
    zk_node_root := [{ node := member_a, callbacked := false, gone := true },
                     { node := member_b, callbacked := false, gone := true }],
    zk_block_list := [],
    this_node := { node := member_b, callbacked := false, gone := false },
    queue := [], queue_pos := 0, first_push := false, seq := 0, upcalls := [] }

/-- The driver of `member_a` with no block event pending, and a queue that
holds a block event of `member_b` followed by a notify event of `member_a`,
both not yet handled. -/
def state_block_then_notify : State :=
  { sd_nodes := [member_a, member_b],
    zk_node_root := [{ node := member_a, callbacked := false, gone := false },
                     { node := member_b, callbacked := false, gone := false }],
    zk_block_list := [],
    this_node := { node := member_a, callbacked := false, gone := false },
    queue := [{ id := 1, type := zk_event_type.EVENT_BLOCK,
                sender := { node := member_b, callbacked := false, gone := false },
                join_result := cluster_join_result.CJ_RES_SUCCESS, buf := [], nodes := [] },
              { id := 2, type := zk_event_type.EVENT_NOTIFY,
                sender := { node := member_a, callbacked := false, gone := false },
                join_result := cluster_join_result.CJ_RES_SUCCESS, buf := [7], nodes := [] }],
    queue_pos := 0, first_push := false, seq := 0, upcalls := [] }

/-- The driver of `member_b` before it joined: nothing in the tree. -/
def state_fresh : State :=
  { sd_nodes := [], zk_node_root := [], zk_block_list := [],
    this_node := { node := member_b, callbacked := false, gone := false },
    queue := [], queue_pos := 0, first_push := false, seq := 0, upcalls := [] }

end Zk

namespace Zk

open Sockfd (node_id node_id_cmp sd_node)
open Cluster

/-- The master as the specification words it: this node is the smallest node
in node order among the entries of the tree whose `gone` flag is false. -/
def spec_is_master (s : State) : Bool :=
  s.zk_node_root.any (fun z =>
    !z.gone && node_eq z.node s.this_node.node &&
      s.zk_node_root.all (fun y => y.gone || decide (node_cmp z.node y.node ≤ 0)))

end Zk

/-! ## Part 5: definitions for `sheep/cluster/shepherd.c` -/

namespace Shepherd

open Sockfd (node_id node_id_cmp sd_node)
open Cluster

/-- A pending event: `struct sph_event` (the list link is the position in one
of the two lists below). -/
structure sph_event where
  sender : sd_node
  msg : List Nat
  callbacked : Bool
  removed : Bool
deriving DecidableEq, Repr

/-- The variables of the driver.  `nodes` holds the first `nr_nodes` elements
of the array of that name, `joined` says that `state` is `STATE_JOINED`,
`sent` counts the messages written to shepherd, and `upcalls` logs the calls
into sheep, oldest first. -/
structure State where
  this_node : sd_node
  is_master : Bool
  nodes : List sd_node
  joined : Bool
  nonblocked_event_list : List sph_event
  blocked_event_list : List sph_event
  sent : Nat
  upcalls : List upcall
deriving DecidableEq, Repr

def State.nr_nodes (s : State) : Nat := s.nodes.length

/-- How a function of the driver ends: it returns (`ok`), the process ends in
`exit` or in `panic` (also a failed `assert`), or it `wait`s in a read for a
message that has not come. -/
inductive Outcome where
  | ok (s : State)
  | exit (s : State)
  | panic (s : State)
  | wait (s : State)
deriving DecidableEq, Repr

/-- Record an upcall. -/
def up (s : State) (c : upcall) : State := { s with upcalls := s.upcalls ++ [c] }

/-- Handle one pending event: `sph_process_event()`. -/
def sph_process_event (sheep : Sheep) (s : State) : Bool × State :=
  match s.nonblocked_event_list with
  | ev :: rest =>
    if ev.removed then (true, { s with nonblocked_event_list := rest })
    else if ev.callbacked then (false, s)
    else
      (true, { (up s (upcall.notify_handler ev.sender ev.msg)) with
        nonblocked_event_list := rest })
  | [] =>
    match s.blocked_event_list with
    | ev :: rest =>
      if ev.removed then (true, { s with blocked_event_list := rest })
      else if ev.callbacked then (false, s)
      else
        (false, { (up s (upcall.block_handler ev.sender)) with
          blocked_event_list :=
            { ev with callbacked := sheep.block_handler s.upcalls.length ev.sender } :: rest })
    | [] => (false, s)

/-- Queue an event: `push_sph_event(nonblock, sender, msg, msg_len)`, with an
`eventfd_write` that succeeds. -/
def push_sph_event (s : State) (nonblock : Bool) (sender : sd_node) (msg : List Nat) : State :=
  if nonblock then
    { s with nonblocked_event_list := s.nonblocked_event_list ++
        [{ sender := sender, msg := msg, callbacked := false, removed := false }] }
  else
    { s with blocked_event_list := s.blocked_event_list ++
        [{ sender := sender, msg := msg, callbacked := false, removed := false }] }

/-- Mark the first block event that is not yet marked as removed: the loop of
`remove_one_block_event`; `none` when every event is marked. -/
def mark_first_removed : List sph_event → Option (List sph_event)
  | [] => none
  | ev :: rest =>
    if ev.removed then (mark_first_removed rest).map (fun r => ev :: r)
    else some ({ ev with removed := true } :: rest)

/-- Unblock one block event: `remove_one_block_event()`. -/
def remove_one_block_event (s : State) : Outcome :=
  match s.blocked_event_list with
  | [] => Outcome.ok s
  | evs =>
    match mark_first_removed evs with
    | some evs1 => Outcome.ok { s with blocked_event_list := evs1 }
    | none => Outcome.panic s

/-- The loop `while (sph_process_event());` run for at most `fuel` calls;
`none` when it is still running then. -/
def sph_event_loop (sheep : Sheep) : Nat → State → Option State
  | 0, _ => none
  | fuel + 1, s =>
    match sph_process_event sheep s with
    | (true, s1) => sph_event_loop sheep fuel s1
    | (false, s1) => some s1

/-- The handler of the event descriptor: `sph_event_handler`, entered with a
successful `eventfd_read`. -/
def sph_event_handler (sheep : Sheep) (fuel : Nat) (s : State) : Option State :=
  sph_event_loop sheep fuel s

/-- A notification forwarded by shepherd: `msg_notify_forward(rcv)`, after the
body was read. -/
def msg_notify_forward (s : State) (unblock : Bool) (from_node : sd_node)
    (notify_msg : List Nat) : Outcome :=
  match (if unblock then remove_one_block_event s else Outcome.ok s) with
  | Outcome.ok s1 => Outcome.ok (push_sph_event s1 true from_node notify_msg)
  | dead => dead

/-- A block request forwarded by shepherd: `msg_block_forward(rcv)`, after the
sender was read. -/
def msg_block_forward (s : State) (sender : sd_node) : State :=
  push_sph_event s false sender []

/-! ### Example data for the shepherd driver -/

/-- The driver of `member_a` after it sent its join request. -/
def state_pre_join : State :=
  { this_node := Zk.member_a, is_master := false, nodes := [], joined := false,
    nonblocked_event_list := [], blocked_event_list := [], sent := 1, upcalls := [] }

/-- The driver of `member_a`, joined, with the block event of `member_a` being
worked on (its handler was called) and a block event of `member_b` waiting
behind it. -/
def state_two_blocks : State :=
  { this_node := Zk.member_a, is_master := false, nodes := [Zk.member_a, Zk.member_b],
    joined := true, nonblocked_event_list := [],
    blocked_event_list :=
      [{ sender := Zk.member_a, msg := [], callbacked := true, removed := false },
       { sender := Zk.member_b, msg := [], callbacked := false, removed := false }],
    sent := 1, upcalls := [upcall.block_handler Zk.member_a] }

end Shepherd

/-! ## Part 6: definitions for the request handlers of `sheep/ops.c` -/

namespace Ops

open Sockfd (node_id sd_node)
open Cluster (node_cmp node_eq)

/-- The result codes `SD_RES_*` that the handlers name, and `other n` for any
further code that a function outside this file returns.  The numbers of the
codes are defined in headers that are not among the sources, so the codes are
kept by name. -/
inductive sd_res where
  | SD_RES_SUCCESS
  | SD_RES_EIO
  | SD_RES_NO_STORE
  | SD_RES_NO_SUPPORT
  | SD_RES_NODE_IN_RECOVERY
  | SD_RES_FORCE_RECOVER
  | SD_RES_INVALID_PARMS
  | SD_RES_NO_OBJ
  | other (n : Nat)
deriving DecidableEq, Repr

/-- The values of `sys->status` that the handlers store, by name. -/
inductive sd_status where
  | SD_STATUS_OK
  | SD_STATUS_WAIT_FOR_FORMAT
  | SD_STATUS_WAIT_FOR_JOIN
  | SD_STATUS_SHUTDOWN
  | SD_STATUS_HALT
  | SD_STATUS_KILLED
deriving DecidableEq, Repr

/-- The fields of `struct cluster_info` (the variable `sys`) that the handlers
read or write.  `epoch` is a `uint32_t`; `vdi_inuse` lists the bits of the
bitmap `DECLARE_BITMAP(vdi_inuse, SD_NR_VDIS)`, its length standing for
`SD_NR_VDIS`, which is defined in a header that is not among the sources. -/
structure cluster_info where
  epoch : Nat
  status : sd_status
  flags : Nat
  nr_copies : Nat
  vdi_inuse : List Bool
  this_node_space : Nat
  gateway_only : Bool
  disable_recovery : Bool
  enable_object_cache : Bool
deriving DecidableEq, Repr

/-- A store driver as the handlers use it: what `format` and `init` return,
and what `cleanup` returns if the driver has one. -/
structure store_driver where
  name : List Char
  format : sd_res
  init : sd_res
  cleanup : Option sd_res
deriving DecidableEq, Repr

/-- A call of a function that lies outside `ops.c` and changes something
outside `sys`, with the arguments that matter. -/
inductive ext_call where
  | store_format
  | store_init
  | store_cleanup
  | set_cluster_store (name : List Char)
  | set_cluster_ctime (ctime : Nat)
  | set_cluster_copies (copies : Nat)
  | set_cluster_flags (flags : Nat)
  | remove_epoch (epoch : Nat)
  | clean_vdi_state
  | log_current_epoch (epoch : Nat)
  | add_vdi_state (vid : Nat) (nr_copies : Nat) (snapshot : Bool)
  | queue_cache_deletion (vid : Nat)
  | object_cache_delete (vid : Nat)
  | objlist_cache_cleanup (vid : Nat)
  | resume_suspended_recovery
  | queue_reweight
  | set_node_space (space : Nat)
  | update_node_size (node : sd_node)
  | kick_node_recover
  | start_recovery (old_nodes : List sd_node)
  | md_plug_disks (disks : List Char)
  | md_unplug_disks (disks : List Char)
  | trace_enable
  | trace_disable
  | read_vdis
  | fill_vdi_state_list
deriving DecidableEq, Repr

/-- The state the handlers work on: `sys`, the variable `sd_store`, the static
variables of `cluster_recovery_completion`, and the log of the calls that
leave this file, oldest first. -/
structure Sheep where
  sys : cluster_info
  sd_store : Option store_driver
  recovereds : List sd_node
  latest_epoch : Nat
  calls : List ext_call
deriving DecidableEq, Repr

/-- What the functions outside `ops.c` answer during one handler.
`oid_to_vid` and the constant `SD_DEFAULT_COPIES` come from a header that is
not among the sources. -/
structure Env where
  store_drivers : List store_driver
  get_latest_epoch : Nat
  set_cluster_store : Int
  log_current_epoch : Int
  have_enough_zones : Bool
  get_cluster_copies : Int × Nat
  get_cluster_flags : Int × Nat
  node_in_recovery : Bool
  objlist_cache_cleanup : sd_res
  get_vdi_copy_number : Nat → Nat
  md_get_size : Nat
  read_vdis : sd_res × Nat
  fill_vdi_state_list : Nat
  md_plug_disks : sd_res
  md_unplug_disks : sd_res
  trace_enable : sd_res
  trace_disable : sd_res
  vnode_nodes : List sd_node
  oid_to_vid : Nat → Nat
  SD_DEFAULT_COPIES : Nat

/-- The fields of the request header `struct sd_req` that the handlers read
(the members of its union side by side). -/
structure sd_req where
  flags : Nat
  epoch : Nat
  data_length : Nat
  old_vid : Nat
  new_vid : Nat
  copies : Nat
  set_bitmap : Bool
  cluster_copies : Nat
  cluster_ctime : Nat
  oid : Nat
  tgt_epoch : Nat
deriving DecidableEq, Repr

/-- The fields of the response header `struct sd_rsp` that the handlers read
or write. -/
structure sd_rsp where
  result : sd_res
  epoch : Nat
  data_length : Nat
  vdi_id : Nat
deriving DecidableEq, Repr

/-- The buffer `data` of a request, in the views the handlers take of it: a
string, a vdi id, one node, an array of nodes. -/
structure req_data where
  str : List Char
  vid : Nat
  node : sd_node
  nodes : List sd_node
deriving DecidableEq, Repr

/-- How a handler ends: it returns a result, leaving a response header and a
state; the process ends in `panic`; or it stores outside the object it was
given (`undefined`). -/
inductive Outcome where
  | ret (v : sd_res) (rsp : sd_rsp) (s : Sheep)
  | panic (s : Sheep)
  | undefined
deriving DecidableEq, Repr

/-- Record a call that leaves the file. -/
def call (s : Sheep) (c : ext_call) : Sheep := { s with calls := s.calls ++ [c] }

/-- Modelled from the spec: `set_bit(nr, addr)` of the shared bit operations,
which are not among the sources ("sets the bit"; the bitmap is "fixed size
SD_NR_VDIS").  It stores into the word that holds bit `nr` without looking at
the size of the bitmap, so `none` stands for a store outside it. -/
def set_bit (nr : Nat) (bitmap : List Bool) : Option (List Bool) :=
  if nr < bitmap.length then some (bitmap.set nr true) else none

/-- Test a bit of a bitmap. -/
def test_bit (nr : Nat) (bitmap : List Bool) : Bool := bitmap.getD nr false

/-- The handler `post_cluster_new_vdi`. -/
def post_cluster_new_vdi (s : Sheep) (rsp : sd_rsp) : Outcome :=
  if rsp.result = sd_res.SD_RES_SUCCESS then
    match set_bit rsp.vdi_id s.sys.vdi_inuse with
    | some bm => Outcome.ret rsp.result rsp { s with sys := { s.sys with vdi_inuse := bm } }
    | none => Outcome.undefined
  else Outcome.ret rsp.result rsp s

/-- The handler `post_cluster_del_vdi`. -/
def post_cluster_del_vdi (s : Sheep) (rsp : sd_rsp) : Outcome :=
  if !s.sys.enable_object_cache then Outcome.ret rsp.result rsp s
  else Outcome.ret rsp.result rsp (call s (ext_call.queue_cache_deletion rsp.vdi_id))

/-- Look a store driver up by name: `find_store_driver(name)`. -/
def find_store_driver (env : Env) (name : List Char) : Option store_driver :=
  env.store_drivers.find? (fun driver => driver.name == name)

/-- The loop `for (i = 1; i <= latest_epoch; i++) remove_epoch(i);`. -/
def remove_epochs (s : Sheep) (latest_epoch : Nat) : Sheep :=
  (List.range latest_epoch).foldl (fun st i => call st (ext_call.remove_epoch (i + 1))) s

/-- The handler `cluster_make_fs`. -/
def cluster_make_fs (env : Env) (s : Sheep) (req : sd_req) (rsp : sd_rsp) (data : req_data) :
    Outcome :=
  match find_store_driver env data.str with
  | none => Outcome.ret sd_res.SD_RES_NO_STORE rsp s
  | some driver =>
    let s1 := call { s with sd_store := some driver } ext_call.store_format
    if driver.format ≠ sd_res.SD_RES_SUCCESS then Outcome.ret driver.format rsp s1
    else
      let s2 := call s1 (ext_call.set_cluster_store data.str)
      if env.set_cluster_store < 0 then Outcome.ret sd_res.SD_RES_EIO rsp s2
      else
        let s3 := call s2 ext_call.store_init
        if driver.init ≠ sd_res.SD_RES_SUCCESS then Outcome.ret driver.init rsp s3
        else
          let copies := if req.cluster_copies % 256 = 0 then env.SD_DEFAULT_COPIES
            else req.cluster_copies % 256
          let s4 : Sheep :=
            { s3 with sys := { s3.sys with nr_copies := copies, flags := req.flags % 65536 } }
          let s5 := call (call (call s4 (ext_call.set_cluster_ctime req.cluster_ctime))
            (ext_call.set_cluster_copies copies)) (ext_call.set_cluster_flags (req.flags % 65536))
          let s6 := remove_epochs s5 env.get_latest_epoch
          let s7 := call
            { s6 with sys := { s6.sys with
                vdi_inuse := List.replicate s6.sys.vdi_inuse.length false } }
            ext_call.clean_vdi_state
          let s8 := call { s7 with sys := { s7.sys with epoch := 1 } }
            (ext_call.log_current_epoch 1)
          if env.log_current_epoch ≠ 0 then Outcome.ret sd_res.SD_RES_EIO rsp s8
          else if env.have_enough_zones then
            Outcome.ret sd_res.SD_RES_SUCCESS rsp
              { s8 with sys := { s8.sys with status := sd_status.SD_STATUS_OK } }
          else
            Outcome.ret sd_res.SD_RES_SUCCESS rsp
              { s8 with sys := { s8.sys with status := sd_status.SD_STATUS_HALT } }

/-- The handler `cluster_shutdown`. -/
def cluster_shutdown (s : Sheep) (rsp : sd_rsp) : Outcome :=
  Outcome.ret sd_res.SD_RES_SUCCESS rsp
    { s with sys := { s.sys with status := sd_status.SD_STATUS_SHUTDOWN } }

/-- The handler `cluster_enable_recover`. -/
def cluster_enable_recover (s : Sheep) (rsp : sd_rsp) : Outcome :=
  Outcome.ret sd_res.SD_RES_SUCCESS rsp
    (call { s with sys := { s.sys with disable_recovery := false } }
      ext_call.resume_suspended_recovery)

/-- The handler `cluster_disable_recover`. -/
def cluster_disable_recover (s : Sheep) (rsp : sd_rsp) : Outcome :=
  Outcome.ret sd_res.SD_RES_SUCCESS rsp
    { s with sys := { s.sys with disable_recovery := true } }

/-- The handler `local_read_vdis`. -/
def local_read_vdis (env : Env) (s : Sheep) (rsp : sd_rsp) : Outcome :=
  Outcome.ret env.read_vdis.1 { rsp with data_length := env.read_vdis.2 }
    (call s ext_call.read_vdis)

/-- The handler `local_get_vdi_copies`. -/
def local_get_vdi_copies (env : Env) (s : Sheep) (rsp : sd_rsp) : Outcome :=
  Outcome.ret sd_res.SD_RES_SUCCESS { rsp with data_length := env.fill_vdi_state_list }
    (call s ext_call.fill_vdi_state_list)

/-- The handler `local_stat_recovery`. -/
def local_stat_recovery (env : Env) (s : Sheep) (rsp : sd_rsp) : Outcome :=
  if env.node_in_recovery then Outcome.ret sd_res.SD_RES_NODE_IN_RECOVERY rsp s
  else Outcome.ret sd_res.SD_RES_SUCCESS rsp s

/-- The handler `cluster_force_recover_main`; `sys->epoch++` is an increment
of a `uint32_t`. -/
def cluster_force_recover_main (env : Env) (s : Sheep) (rsp : sd_rsp) (data : req_data) :
    Outcome :=
  if rsp.epoch ≠ s.sys.epoch then Outcome.ret sd_res.SD_RES_FORCE_RECOVER rsp s
  else if env.get_cluster_copies.1 ≠ 0 then Outcome.panic s
  else if env.get_cluster_flags.1 ≠ 0 then Outcome.panic s
  else
    let s1 : Sheep :=
      { s with sys := { s.sys with
          nr_copies := env.get_cluster_copies.2, flags := env.get_cluster_flags.2,
          epoch := (s.sys.epoch + 1) % 2 ^ 32 } }
    let s2 := call s1 (ext_call.log_current_epoch s1.sys.epoch)
    if env.log_current_epoch ≠ 0 then Outcome.panic s2
    else
      let s3 : Sheep :=
        if env.have_enough_zones then
          { s2 with sys := { s2.sys with status := sd_status.SD_STATUS_OK } }
        else { s2 with sys := { s2.sys with status := sd_status.SD_STATUS_HALT } }
      Outcome.ret sd_res.SD_RES_SUCCESS rsp (call s3 (ext_call.start_recovery data.nodes))

/-- The handler `cluster_cleanup`. -/
def cluster_cleanup (env : Env) (s : Sheep) (rsp : sd_rsp) : Outcome :=
  if env.node_in_recovery then Outcome.ret sd_res.SD_RES_NODE_IN_RECOVERY rsp s
  else if s.sys.gateway_only then Outcome.ret sd_res.SD_RES_SUCCESS rsp s
  else
    match s.sd_store with
    | none => Outcome.undefined
    | some driver =>
      match driver.cleanup with
      | some r => Outcome.ret r rsp (call s ext_call.store_cleanup)
      | none => Outcome.ret sd_res.SD_RES_NO_SUPPORT rsp s

/-- The handler `cluster_notify_vdi_add`. -/
def cluster_notify_vdi_add (env : Env) (s : Sheep) (req : sd_req) (rsp : sd_rsp) : Outcome :=
  let s1 :=
    if req.old_vid ≠ 0 then
      call s (ext_call.add_vdi_state req.old_vid (env.get_vdi_copy_number req.old_vid) true)
    else s
  if req.set_bitmap then
    match set_bit req.new_vid s1.sys.vdi_inuse with
    | some bm =>
      Outcome.ret sd_res.SD_RES_SUCCESS rsp
        (call { s1 with sys := { s1.sys with vdi_inuse := bm } }
          (ext_call.add_vdi_state req.new_vid req.copies false))
    | none => Outcome.undefined
  else
    Outcome.ret sd_res.SD_RES_SUCCESS rsp
      (call s1 (ext_call.add_vdi_state req.new_vid req.copies false))

/-- The handler `cluster_notify_vdi_del`. -/
def cluster_notify_vdi_del (env : Env) (s : Sheep) (rsp : sd_rsp) (data : req_data) : Outcome :=
  Outcome.ret env.objlist_cache_cleanup rsp (call s (ext_call.objlist_cache_cleanup data.vid))

/-- The handler `cluster_delete_cache`. -/
def cluster_delete_cache (env : Env) (s : Sheep) (req : sd_req) (rsp : sd_rsp) : Outcome :=
  if s.sys.enable_object_cache then
    Outcome.ret sd_res.SD_RES_SUCCESS rsp
      (call s (ext_call.object_cache_delete (env.oid_to_vid req.oid)))
  else Outcome.ret sd_res.SD_RES_SUCCESS rsp s

/-- Do the first `n` nodes of the two arrays agree: the loop of
`cluster_recovery_completion` ran to its end. -/
def all_node_eq (a b : List sd_node) (n : Nat) : Bool :=
  (List.range n).all (fun i =>
    match a[i]?, b[i]? with
    | some x, some y => node_eq x y
    | _, _ => false)

/-- The first part of `cluster_recovery_completion`, entered with
`latest_epoch ≤ epoch`: a newer epoch restarts the list, the node is appended,
and `xqsort` with `node_cmp` leaves the array sorted in node order. -/
def note_recovered (s : Sheep) (req : sd_req) (data : req_data) : Sheep :=
  let s1 : Sheep :=
    if s.latest_epoch < req.tgt_epoch then
      { s with latest_epoch := req.tgt_epoch, recovereds := [] }
    else s
  { s1 with recovereds :=
      (s1.recovereds ++ [data.node]).insertionSort (fun a b => node_cmp a b ≤ 0) }

/-- The statement `if (sd_store && sd_store->cleanup) sd_store->cleanup();`. -/
def cleanup_if_any (s : Sheep) : Sheep :=
  match s.sd_store with
  | some driver =>
    match driver.cleanup with
    | some _ => call s ext_call.store_cleanup
    | none => s
  | none => s

/-- The handler `cluster_recovery_completion`. -/
def cluster_recovery_completion (env : Env) (s : Sheep) (req : sd_req) (rsp : sd_rsp)
    (data : req_data) : Outcome :=
  if s.latest_epoch > req.tgt_epoch then Outcome.ret sd_res.SD_RES_SUCCESS rsp s
  else if (note_recovered s req data).sys.epoch ≠ (note_recovered s req data).latest_epoch then
    Outcome.ret sd_res.SD_RES_SUCCESS rsp (note_recovered s req data)
  else if env.vnode_nodes.length = (note_recovered s req data).recovereds.length ∧
      all_node_eq env.vnode_nodes (note_recovered s req data).recovereds
        (note_recovered s req data).recovereds.length then
    Outcome.ret sd_res.SD_RES_SUCCESS rsp (cleanup_if_any (note_recovered s req data))
  else Outcome.ret sd_res.SD_RES_SUCCESS rsp (note_recovered s req data)

/-- Has the size of the node changed by a hundredth or more:
`node_size_varied()`.  The quotient of the two sizes is compared in floating
point in the source, in whole numbers here. -/
def node_size_varied (env : Env) (s : Sheep) : Bool × Sheep :=
  if s.sys.gateway_only then (false, s)
  else if s.sys.this_node_space = 0 then (decide (env.md_get_size ≠ 0), s)
  else
    let old := s.sys.this_node_space
    let new := env.md_get_size
    let diff := if new > old then new - old else old - new
    if diff * 100 < old then (false, s)
    else
      (true, call { s with sys := { s.sys with this_node_space := new } }
        (ext_call.set_node_space new))

/-- The handler `cluster_reweight`. -/
def cluster_reweight (env : Env) (s : Sheep) (rsp : sd_rsp) : Outcome :=
  if (node_size_varied env s).1 then
    Outcome.ret sd_res.SD_RES_SUCCESS rsp (call (node_size_varied env s).2 ext_call.queue_reweight)
  else Outcome.ret sd_res.SD_RES_SUCCESS rsp (node_size_varied env s).2

/-- The handler `cluster_update_size`. -/
def cluster_update_size (s : Sheep) (rsp : sd_rsp) (data : req_data) : Outcome :=
  Outcome.ret sd_res.SD_RES_SUCCESS rsp
    (call (call s (ext_call.update_node_size data.node)) ext_call.kick_node_recover)

/-- The handler `local_md_plug`. -/
def local_md_plug (env : Env) (s : Sheep) (rsp : sd_rsp) (data : req_data) : Outcome :=
  Outcome.ret env.md_plug_disks rsp (call s (ext_call.md_plug_disks data.str))

/-- The handler `local_md_unplug`. -/
def local_md_unplug (env : Env) (s : Sheep) (rsp : sd_rsp) (data : req_data) : Outcome :=
  Outcome.ret env.md_unplug_disks rsp (call s (ext_call.md_unplug_disks data.str))

/-- The handler `local_trace_ops`. -/
def local_trace_ops (env : Env) (s : Sheep) (req : sd_req) (rsp : sd_rsp) : Outcome :=
  if req.data_length ≠ 0 then Outcome.ret env.trace_enable rsp (call s ext_call.trace_enable)
  else Outcome.ret env.trace_disable rsp (call s ext_call.trace_disable)

/-- The handler `local_kill_node`. -/
def local_kill_node (s : Sheep) (rsp : sd_rsp) : Outcome :=
  Outcome.ret sd_res.SD_RES_SUCCESS rsp
    { s with sys := { s.sys with status := sd_status.SD_STATUS_KILLED } }

/-- The epoch a handler leaves in `sys`, when it returns. -/
def Outcome.epoch : Outcome → Option Nat
  | Outcome.ret _ _ s => some s.sys.epoch
  | _ => none

/-- The bitmap a handler leaves in `sys`, when it returns. -/
def Outcome.vdi_inuse : Outcome → Option (List Bool)
  | Outcome.ret _ _ s => some s.sys.vdi_inuse
  | _ => none

/-! ### Example data for the handlers -/

/-- A store driver whose functions all succeed. -/
def driver_plain : store_driver :=
  { name := "plain".toList, format := sd_res.SD_RES_SUCCESS, init := sd_res.SD_RES_SUCCESS,
    cleanup := some sd_res.SD_RES_SUCCESS }

/-- Functions outside `ops.c` that all succeed. -/
def env_ok : Env :=
  { store_drivers := [driver_plain], get_latest_epoch := 5, set_cluster_store := 0,
    log_current_epoch := 0, have_enough_zones := true, get_cluster_copies := (0, 3),
    get_cluster_flags := (0, 0), node_in_recovery := false,
    objlist_cache_cleanup := sd_res.SD_RES_SUCCESS, get_vdi_copy_number := fun _ => 3,
    md_get_size := 0, read_vdis := (sd_res.SD_RES_SUCCESS, 0), fill_vdi_state_list := 0,
    md_plug_disks := sd_res.SD_RES_SUCCESS, md_unplug_disks := sd_res.SD_RES_SUCCESS,
    trace_enable := sd_res.SD_RES_SUCCESS, trace_disable := sd_res.SD_RES_SUCCESS,
    vnode_nodes := [], oid_to_vid := fun oid => oid / 2 ^ 32, SD_DEFAULT_COPIES := 3 }

/-- A node at epoch 5 with a bitmap of eight bits, bit 2 set. -/
def sheep_epoch5 : Sheep :=
  { sys := { epoch := 5, status := sd_status.SD_STATUS_OK, flags := 0, nr_copies := 3,
             vdi_inuse := [false, false, true, false, false, false, false, false],
             this_node_space := 0, gateway_only := false, disable_recovery := false,
             enable_object_cache := false },
    sd_store := some driver_plain, recovereds := [], latest_epoch := 0, calls := [] }

/-- A request header with every field zero. -/
def req_zero : sd_req :=
  { flags := 0, epoch := 0, data_length := 0, old_vid := 0, new_vid := 0, copies := 0,
    set_bitmap := false, cluster_copies := 0, cluster_ctime := 0, oid := 0, tgt_epoch := 0 }

/-- A response header with result success and every other field zero. -/
def rsp_zero : sd_rsp :=
  { result := sd_res.SD_RES_SUCCESS, epoch := 0, data_length := 0, vdi_id := 0 }

/-- A buffer that holds the name of the store driver `plain`. -/
def data_plain : req_data :=
  { str := "plain".toList, vid := 0, node := Zk.member_a, nodes := [] }

end Ops

/-! ### The peer handlers for objects -/

namespace Ops

/-- The I/O control block handed to the store: `struct siocb`. -/
structure siocb where
  epoch : Nat
  buf : List Nat
  length : Nat
  offset : Nat
deriving DecidableEq, Repr

/-- The fields of a peer request for an object that `peer_create_and_write_obj`
reads: of the header the COW flag (`hdr->flags & SD_FLAG_CMD_COW`), `epoch`,
`data_length` and the `obj` member, and the buffer `req->data`. -/
structure obj_request where
  cow : Bool
  epoch : Nat
  data_length : Nat
  oid : Nat
  cow_oid : Nat
  offset : Nat
  copies : Nat
  data : List Nat
deriving DecidableEq, Repr

/-- What a read through the gateway answers: the result and, on success, the
fields `obj.offset` and `data_length` of the response with the bytes it left
at the start of the buffer. -/
structure read_reply where
  result : sd_res
  offset : Nat
  data_length : Nat
  bytes : List Nat
deriving DecidableEq, Repr

/-- What lies outside `ops.c` for the object handlers: the constant
`SD_DATA_OBJ_SIZE` (defined in a header that is not among the sources), the
bytes a buffer from `xvalloc` happens to hold, the answer of
`gateway_read_obj` for an object and epoch, and the result of the store's
`create_and_write`. -/
structure Obj_env where
  SD_DATA_OBJ_SIZE : Nat
  xvalloc : List Nat
  gateway_read_obj : Nat → Nat → read_reply
  create_and_write : Nat → siocb → sd_res
  get_objsize : Nat → Nat

/-- The calls of the store's `create_and_write` and the object ids inserted
into the object list cache, oldest first. -/
structure Obj_state where
  created : List (Nat × siocb)
  objlist_cache : List Nat
deriving DecidableEq, Repr

/-- Copy `n` bytes of `src` to `buf + off`: `memcpy(buf + off, src, n)`, for a
copy that stays inside `buf`. -/
def memcpy_at (buf : List Nat) (off : Nat) (src : List Nat) (n : Nat) : List Nat :=
  buf.take off ++ src.take n ++ buf.drop (off + n)

/-- Modelled from the spec: `untrim_zero_sectors(buf, offset, len,
requested_len)` of `lib/util.c`, which is not among the sources.  "The gateway
expands the payload back to full size by zero-filling the reported prefix and
suffix": the `len` bytes at the start of the buffer move to `offset`, and the
bytes before and behind them become zero. -/
def untrim_zero_sectors (buf : List Nat) (offset len requested_len : Nat) : List Nat :=
  List.replicate offset 0 ++ buf.take len ++ List.replicate (requested_len - offset - len) 0

/-- Read a whole object through the gateway: `read_copy_from_replica(req,
epoch, oid, buf)`; the second component is the buffer afterwards. -/
def read_copy_from_replica (env : Obj_env) (epoch oid : Nat) (buf : List Nat) :
    sd_res × List Nat :=
  let rsp := env.gateway_read_obj oid epoch
  if rsp.result = sd_res.SD_RES_SUCCESS then
    (rsp.result,
      untrim_zero_sectors (memcpy_at buf 0 rsp.bytes rsp.data_length) rsp.offset
        rsp.data_length env.SD_DATA_OBJ_SIZE)
  else (rsp.result, buf)

/-- Hand the data to the store: `do_create_and_write_obj(iocb, hdr, epoch,
data)`, with the fields of `hdr` it reads. -/
def do_create_and_write_obj (env : Obj_env) (st : Obj_state) (iocb : siocb)
    (oid data_length offset : Nat) (data : List Nat) : sd_res × Obj_state :=
  let iocb1 : siocb := { iocb with buf := data, length := data_length, offset := offset }
  (env.create_and_write oid iocb1, { st with created := st.created ++ [(oid, iocb1)] })

/-- The part of `peer_create_and_write_obj` behind the call of
`do_create_and_write_obj`. -/
def create_and_write_done (st : Obj_state) (oid : Nat) (ret : sd_res) : sd_res × Obj_state :=
  if ret = sd_res.SD_RES_SUCCESS then
    (ret, { st with objlist_cache := st.objlist_cache ++ [oid] })
  else (ret, st)

/-- The handler `peer_create_and_write_obj`. -/
def peer_create_and_write_obj (env : Obj_env) (st : Obj_state) (req : obj_request) :
    sd_res × Obj_state :=
  let iocb : siocb :=
    { epoch := req.epoch, buf := [], length := env.get_objsize req.oid, offset := 0 }
  if req.cow then
    let r :=
      if req.data_length ≠ env.SD_DATA_OBJ_SIZE then
        read_copy_from_replica env req.epoch req.cow_oid env.xvalloc
      else (sd_res.SD_RES_SUCCESS, env.xvalloc)
    if r.1 ≠ sd_res.SD_RES_SUCCESS then (r.1, st)
    else
      let t := Farm.trim_zero_sectors (memcpy_at r.2 req.offset req.data req.data_length)
      let w := do_create_and_write_obj env st iocb req.oid t.length t.offset t.buf
      create_and_write_done w.2 req.oid w.1
  else
    let w := do_create_and_write_obj env st iocb req.oid req.data_length req.offset req.data
    create_and_write_done w.2 req.oid w.1

/-- The bytes a store call describes, zero-extended to `size`: zeros up to
`offset`, the first `length` bytes of the buffer, zeros behind them. -/
def zero_extended (iocb : siocb) (size : Nat) : List Nat :=
  List.replicate iocb.offset 0 ++ iocb.buf.take iocb.length ++
    List.replicate (size - iocb.offset - iocb.length) 0

/-! ### Example data for the object handlers -/

/-- An environment with objects of two sectors, in which object 7 reads as one
zero sector followed by one sector of 0x5A (the reply is trimmed), any other
object cannot be read, and the store accepts every write. -/
def obj_env_example : Obj_env :=
  { SD_DATA_OBJ_SIZE := 1024,
    xvalloc := List.replicate 1024 0xEE,
    gateway_read_obj := fun oid _ =>
      if oid = 7 then
        { result := sd_res.SD_RES_SUCCESS, offset := 512, data_length := 512,
          bytes := List.replicate 512 0x5A }
      else { result := sd_res.SD_RES_EIO, offset := 0, data_length := 0, bytes := [] },
    create_and_write := fun _ _ => sd_res.SD_RES_SUCCESS,
    get_objsize := fun _ => 1024 }

/-- A COW request that creates object 9 from object 7 and writes four bytes at
offset 0. -/
def cow_request_example : obj_request :=
  { cow := true, epoch := 1, data_length := 4, oid := 9, cow_oid := 7, offset := 0,
    copies := 3, data := [1, 2, 3, 4] }

end Ops

/-! ## Part 7: definitions for `collie/farm/farm.c` -/

namespace Farm

/-- One entry of a trunk: `struct trunk_entry`. -/
structure trunk_entry where
  oid : Nat
  nr_copies : Nat
  sha1 : List Nat
deriving DecidableEq, Repr

/-- The numbers of the result codes that `collie/common.c` returns; they are
defined in a header that is not among the sources. -/
structure res_codes where
  SD_RES_SUCCESS : Nat
  SD_RES_EIO : Nat
deriving DecidableEq, Repr

/-- What `collie_exec_req` leaves for one request: its return value (negative
when the request could not be exchanged) and the fields of the response
header, with the bytes of the response. -/
structure exec_reply where
  ret : Int
  result : Nat
  offset : Nat
  data_length : Nat
  bytes : List Nat
deriving DecidableEq, Repr

/-- A `uint32_t` returned as an `int`. -/
def int_of_u32 (n : Nat) : Int :=
  if n % 4294967296 < 2147483648 then ((n % 4294967296 : Nat) : Int)
  else ((n % 4294967296 : Nat) : Int) - 4294967296

/-- What lies outside `farm.c` and `sha1_file.c` during a snapshot: the
cluster (answers to the hash and read requests), the object tree, the size of
an object, the result codes, what a buffer from `xmalloc` holds, the failures
of system calls in the object directory, the snap log as `snap_log_read`
returns it (`none`: NULL), and the results of the functions of `trunk.c` and
`snap.c` (`none`: a negative return). -/
structure Snap_env where
  objdir : List Char
  fl : Faults
  codes : res_codes
  get_hash : Nat → Nat → exec_reply
  read_obj : Nat → exec_reply
  get_objsize : Nat → Nat
  xmalloc : Nat → List Nat
  object_tree : List (Nat × Nat)
  for_each_object_in_tree : Int
  snap_log_read : Option Nat
  trunk_file_write : List trunk_entry → Option (List Nat)
  snap_file_write : Nat → List Nat → Option (List Nat)
  snap_log_write : Nat → List Char → List Nat → Int

/-- The loop of `sd_read_object_sha1(oid, epoch, nr_copies, sha1)` from copy
`i` on, with `n` copies left: the digest of the first copy that answers. -/
def sd_read_object_sha1_from (env : Snap_env) (oid : Nat) : Nat → Nat → Option (List Nat)
  | _, 0 => none
  | i, n + 1 =>
    if (env.get_hash oid i).ret = 0 then some ((env.get_hash oid i).bytes.take SHA1_DIGEST_SIZE)
    else sd_read_object_sha1_from env oid (i + 1) n

/-- The function `sd_read_object_sha1`: `none` is the return value -1, `some`
the return value 0 with the digest stored. -/
def sd_read_object_sha1 (env : Snap_env) (oid nr_copies : Nat) : Option (List Nat) :=
  sd_read_object_sha1_from env oid 0 nr_copies

/-- The function `sd_read_object(oid, data, datalen, 0, true)`: the value
returned and the buffer afterwards.  A failure gives a result code, that is
`SD_RES_EIO` or the `result` field of the response (a `uint32_t`), returned
as an `int`. -/
def sd_read_object (env : Snap_env) (oid : Nat) (data : List Nat) (datalen : Nat) :
    Int × List Nat :=
  let rsp := env.read_obj oid
  if rsp.ret < 0 then (int_of_u32 env.codes.SD_RES_EIO, data)
  else if rsp.result ≠ env.codes.SD_RES_SUCCESS then (int_of_u32 rsp.result, data)
  else
    (int_of_u32 env.codes.SD_RES_SUCCESS,
      Ops.untrim_zero_sectors (Ops.memcpy_at data 0 rsp.bytes rsp.data_length) rsp.offset
        rsp.data_length datalen)

/-- What happened to a work item: its function saved the object, took the
error exit, or returned at once because of `work_error`; its completion
appended the trunk entry or skipped it. -/
inductive work_event where
  | saved (oid : Nat)
  | failed (oid : Nat)
  | short_circuit (oid : Nat)
  | appended (oid : Nat)
  | skipped (oid : Nat)
deriving DecidableEq, Repr

/-- A call of one of the functions that publish a snapshot. -/
inductive publish_call where
  | trunk_file_write (nr_entries : Nat) (entries : List trunk_entry)
  | snap_file_write (idx : Nat) (trunk_sha1 : List Nat)
  | snap_log_write (idx : Nat) (tag : List Char) (snap_sha1 : List Nat)
deriving DecidableEq, Repr

/-- The state of a snapshot in progress: the object directory, the flag
`work_error`, the trunk buffer, the work items queued whose function has not
run (`queued`) and those whose function has run but whose completion has not
(`finished`), the calls that publish, and what happened to the work items,
oldest first. -/
structure Snap where
  st : Store
  work_error : Bool
  trunk_buf : List trunk_entry
  queued : List trunk_entry
  finished : List trunk_entry
  published : List publish_call
  events : List work_event

/-- The part of `do_save_object` that reads the object and writes the blob;
`none` when the process ends in `panic`. -/
def do_save_object_read (env : Snap_env) (s : Snap) (entry : trunk_entry) :
    Option (trunk_entry × Snap) :=
  let size := env.get_objsize entry.oid
  let r := sd_read_object env entry.oid (env.xmalloc size) size
  if r.1 < 0 then
    some (entry, { s with work_error := true,
                          events := s.events ++ [work_event.failed entry.oid] })
  else
    match sha1_file_write env.objdir env.fl s.st r.2 size with
    | Outcome.panic => Option.none
    | Outcome.ret v st1 =>
      if v.1 < 0 then
        some (entry, { s with st := st1, work_error := true,
                              events := s.events ++ [work_event.failed entry.oid] })
      else
        some ({ entry with sha1 := v.2.getD entry.sha1 },
          { s with st := st1, events := s.events ++ [work_event.saved entry.oid] })

/-- The work function `do_save_object`, on the entry of its work item: the
entry and the state afterwards; `none` when the process ends in `panic`. -/
def do_save_object (env : Snap_env) (s : Snap) (entry : trunk_entry) :
    Option (trunk_entry × Snap) :=
  if s.work_error then
    some (entry, { s with events := s.events ++ [work_event.short_circuit entry.oid] })
  else
    match sd_read_object_sha1 env entry.oid entry.nr_copies with
    | some object_sha1 =>
      if sha1_file_exist env.objdir s.st object_sha1 then
        some ({ entry with sha1 := object_sha1 },
          { s with events := s.events ++ [work_event.saved entry.oid] })
      else do_save_object_read env s entry
    | Option.none => do_save_object_read env s entry

/-- The completion `save_object_done`, on the entry of its work item. -/
def save_object_done (s : Snap) (entry : trunk_entry) : Snap :=
  if s.work_error then { s with events := s.events ++ [work_event.skipped entry.oid] }
  else
    { s with trunk_buf := s.trunk_buf ++ [entry],
             events := s.events ++ [work_event.appended entry.oid] }

/-- Queue a work item: `queue_save_snapshot_work(oid, nr_copies, data)`; the
item comes from `xzalloc`, so its digest is zero. -/
def queue_save_snapshot_work (s : Snap) (oid nr_copies : Nat) : Snap :=
  { s with queued := s.queued ++
      [{ oid := oid, nr_copies := nr_copies, sha1 := List.replicate SHA1_DIGEST_SIZE 0 }] }

/-- One step of the ordered work queue: the worker thread runs the function
of the oldest queued item (`true`), or the main thread runs the completion of
the oldest finished item (`false`); a step that finds no item does nothing. -/
def work_step (env : Snap_env) (s : Snap) : Bool → Option Snap
  | true =>
    match s.queued with
    | [] => some s
    | entry :: rest =>
      match do_save_object env { s with queued := rest } entry with
      | some (entry1, s1) => some { s1 with finished := s1.finished ++ [entry1] }
      | Option.none => Option.none
  | false =>
    match s.finished with
    | [] => some s
    | entry :: rest => some (save_object_done { s with finished := rest } entry)

/-- Run steps of the work queue in the given order. -/
def work_steps (env : Snap_env) : Snap → List Bool → Option Snap
  | s, [] => some s
  | s, b :: bs =>
    match work_step env s b with
    | some s1 => work_steps env s1 bs
    | Option.none => Option.none

/-- Wait for the queue to drain: `work_queue_wait(wq)`, after the steps that
the queue took on its own in the order `sched`: the functions of the items
still queued run, then the completions of the finished items. -/
def work_queue_wait (env : Snap_env) (s : Snap) (sched : List Bool) : Option Snap :=
  match work_steps env s sched with
  | Option.none => Option.none
  | some s1 =>
    match work_steps env s1 (List.replicate s1.queued.length true) with
    | Option.none => Option.none
    | some s2 => work_steps env s2 (List.replicate s2.finished.length false)

/-- The part of `farm_save_snapshot` behind `work_queue_wait`. -/
def publish_snapshot (env : Snap_env) (s : Snap) (tag : List Char) (idx : Nat) : Int × Snap :=
  if s.work_error then (-1, s)
  else
    let nr_objects := env.object_tree.length
    let s1 : Snap :=
      { s with published := s.published ++
          [publish_call.trunk_file_write nr_objects s.trunk_buf] }
    match env.trunk_file_write s.trunk_buf with
    | Option.none => (-1, s1)
    | some trunk_sha1 =>
      let s2 : Snap :=
        { s1 with published := s1.published ++ [publish_call.snap_file_write idx trunk_sha1] }
      match env.snap_file_write idx trunk_sha1 with
      | Option.none => (-1, s2)
      | some snap_sha1 =>
        let s3 : Snap :=
          { s2 with published := s2.published ++
              [publish_call.snap_log_write idx tag snap_sha1] }
        if env.snap_log_write idx tag snap_sha1 < 0 then (-1, s3) else (0, s3)

/-- The function `farm_save_snapshot(tag)`, the work queue taking its steps in
the order `sched` before it is waited for: the value returned and the state
left; `none` when the process ends in `panic`. -/
def farm_save_snapshot (env : Snap_env) (s : Snap) (tag : List Char) (sched : List Bool) :
    Option (Int × Snap) :=
  match env.snap_log_read with
  | Option.none => some (-1, s)
  | some log_nr =>
    let idx := log_nr + 1
    let s1 := env.object_tree.foldl (fun st p => queue_save_snapshot_work st p.1 p.2)
      { s with trunk_buf := [] }
    if env.for_each_object_in_tree < 0 then
      (work_steps env s1 sched).map (fun s2 => (-1, s2))
    else
      (work_queue_wait env s1 sched).map (fun s2 => publish_snapshot env s2 tag idx)

/-- A snapshot that has not started: an empty object directory, no error, no
work. -/
def Snap.init : Snap :=
  { st := Store.empty, work_error := false, trunk_buf := [], queued := [], finished := [],
    published := [], events := [] }

/-- A cluster with the single object 1 that answers neither the hash request
nor the read request (`collie_exec_req` returns -1 for both), with
`SD_RES_EIO` = 3 and objects of 4 bytes; everything else succeeds. -/
def env_unreadable : Snap_env :=
  { objdir := "/farm/objects".toList, fl := Faults.none,
    codes := { SD_RES_SUCCESS := 0, SD_RES_EIO := 3 },
    get_hash := fun _ _ => { ret := -1, result := 0, offset := 0, data_length := 0, bytes := [] },
    read_obj := fun _ => { ret := -1, result := 0, offset := 0, data_length := 0, bytes := [] },
    get_objsize := fun _ => 4,
    xmalloc := fun n => List.replicate n 0xEE,
    object_tree := [(1, 3)],
    for_each_object_in_tree := 0,
    snap_log_read := some 0,
    trunk_file_write := fun _ => some (List.replicate 20 1),
    snap_file_write := fun _ _ => some (List.replicate 20 2),
    snap_log_write := fun _ _ _ => 0 }

end Farm

/-! ## Part 8: definitions for the hexadecimal names of `collie/farm/sha1_file.c` -/

namespace Farm

/-- The 40 hexadecimal digits of a key in the spec's words: two lowercase
digits per byte, the high one first. -/
def hex_digits (key : List Nat) : List Char :=
  key.flatMap (fun b => [Nat.digitChar (b / 16), Nat.digitChar (b % 16)])

/-- The function `hexval(c)`: the value of a hexadecimal digit, `~0` as an `unsigned`
for any other character. -/
def hexval (c : Char) : Nat :=
  if '0' ≤ c ∧ c ≤ '9' then c.toNat - '0'.toNat
  else if 'a' ≤ c ∧ c ≤ 'f' then c.toNat - 'a'.toNat + 10
  else if 'A' ≤ c ∧ c ≤ 'F' then c.toNat - 'A'.toNat + 10
  else 4294967295

/-- What a call of `get_sha1_hex` did: the value returned, the bytes stored
through `sha1` (in order) and the indexes of `hex` that were read (in
order). -/
structure hex_run where
  ret : Int
  sha1 : List Nat
  reads : List Nat
deriving DecidableEq, Repr

/-- The loop of `get_sha1_hex` with `n` rounds to go, `i` rounds done.  Both
characters of a pair are read before `val` is tested; `val` is an
`unsigned int`, the byte stored is its low 8 bits. -/
def get_sha1_hex_loop (hex : Nat → Char) : Nat → Nat → hex_run → hex_run
  | 0, _, r => { r with ret := 0 }
  | n + 1, i, r =>
    let val := ((hexval (hex (2 * i)) <<< 4) % 4294967296) ||| hexval (hex (2 * i + 1))
    let reads := r.reads ++ [2 * i, 2 * i + 1]
    if val &&& 4294967040 ≠ 0 then { r with ret := -1, reads := reads }
    else get_sha1_hex_loop hex n (i + 1)
      { r with sha1 := r.sha1 ++ [val % 256], reads := reads }

/-- The function `get_sha1_hex(hex, sha1)`; `hex i` is the character at `hex[i]`, whatever
lies at that address. -/
def get_sha1_hex (hex : Nat → Char) : hex_run :=
  get_sha1_hex_loop hex SHA1_DIGEST_SIZE 0 { ret := 0, sha1 := [], reads := [] }

/-- The memory that holds the C string `s`: its characters, the terminating
NUL, and NUL for what follows. -/
def c_memory (s : List Char) (i : Nat) : Char := s.getD i (Char.ofNat 0)

/-- A hexadecimal digit, upper or lower case. -/
def is_hex_digit (c : Char) : Bool :=
  ('0' ≤ c && c ≤ '9') || ('a' ≤ c && c ≤ 'f') || ('A' ≤ c && c ≤ 'F')

/-- The value of a hexadecimal digit in the spec's words: its place among
`0123456789abcdef`, upper case taken as lower case. -/
def digit_value (c : Char) : Nat := "0123456789abcdef".toList.indexOf c.toLower

/-- The index of the terminating NUL of the string at `hex`, looked for among
the first `n` characters from index `i` on. -/
def nul_index (hex : Nat → Char) : Nat → Nat → Option Nat
  | 0, _ => none
  | n + 1, i => if hex i = Char.ofNat 0 then some i else nul_index hex n (i + 1)

/-- The 40 digits that `fill_sha1_path` writes for a key: the two before the
slash and the 38 after it. -/
def emitted_digits (key : List Nat) : List Char :=
  let buf := fill_sha1_path 0 key (List.replicate 41 '/')
  buf.take 2 ++ buf.drop 3

end Farm

/-! ## Part 9: definitions for the messages of `sheep/cluster/shepherd.c` after the join -/

namespace Shepherd

open Sockfd (node_id node_id_cmp sd_node)
open Cluster

/-- The types of the messages from shepherd that `shepherd.c` names: the
constants `SPH_SRV_MSG_...` of `enum sph_srv_msg_type`.  The header that
gives them their values is not among the sources; the values are the
parameter `code` below. -/
inductive sph_srv_msg_type where
  | JOIN_REPLY
  | JOIN_RETRY
  | NEW_NODE
  | NEW_NODE_FINISH
  | NOTIFY_FORWARD
  | BLOCK_FORWARD
  | REMOVE
  | LEAVE_FORWARD
  | MASTER_ELECTION
deriving DecidableEq, Repr

/-- The functions stored in `msg_handlers`. -/
inductive msg_handler where
  | msg_new_node
  | msg_new_node_finish
  | msg_notify_forward
  | msg_block_forward
  | msg_remove
  | msg_leave_forward
  | msg_master_election
deriving DecidableEq, Repr

/-- The initialisers of `msg_handlers`, in the order of the source. -/
def msg_handlers_init : List (sph_srv_msg_type × msg_handler) :=
  [(sph_srv_msg_type.NEW_NODE, msg_handler.msg_new_node),
   (sph_srv_msg_type.NEW_NODE_FINISH, msg_handler.msg_new_node_finish),
   (sph_srv_msg_type.NOTIFY_FORWARD, msg_handler.msg_notify_forward),
   (sph_srv_msg_type.BLOCK_FORWARD, msg_handler.msg_block_forward),
   (sph_srv_msg_type.REMOVE, msg_handler.msg_remove),
   (sph_srv_msg_type.LEAVE_FORWARD, msg_handler.msg_leave_forward),
   (sph_srv_msg_type.MASTER_ELECTION, msg_handler.msg_master_election)]

/-- The number of elements of `msg_handlers`, `ARRAY_SIZE(msg_handlers)`: an array
without a stated size is as long as its greatest designated index requires. -/
def msg_handlers_size (code : sph_srv_msg_type → Nat) : Nat :=
  (msg_handlers_init.map (fun p => code p.1 + 1)).foldl max 0

/-- The element `msg_handlers[i]`: the function of the last initialiser that
designates `i`, the null pointer (`none`) where none does. -/
def msg_handlers (code : sph_srv_msg_type → Nat) (i : Nat) : Option msg_handler :=
  (msg_handlers_init.reverse.find? (fun p => code p.1 == i)).map (fun p => p.2)

/-- How `interpret_msg` ends: the process exits, a handler of the table is
called, or the call goes through a null pointer. -/
inductive dispatch where
  | exit
  | call (h : msg_handler)
  | null_call
deriving DecidableEq, Repr

/-- The function `interpret_msg(rcv)`, `type` being `rcv->type`. -/
def interpret_msg (code : sph_srv_msg_type → Nat) (type : Int) : dispatch :=
  if ¬ (0 ≤ type ∧ type < (msg_handlers_size code : Int)) then dispatch.exit
  else
    match msg_handlers code type.toNat with
    | some h => dispatch.call h
    | none => dispatch.null_call

/-- The function `read_msg_from_shepherd()` in the state `STATE_JOINED`, `rcv` being
the header that `read_msg` reads (`none`: the read fails or comes short, and
`read_msg` exits). -/
def read_msg_from_shepherd_joined (code : sph_srv_msg_type → Nat) (rcv : Option Int) :
    dispatch :=
  match rcv with
  | none => dispatch.exit
  | some type => interpret_msg code type

/-- An example of the values of the message types: the enumeration numbered
from 0 with the two messages of the join first. -/
def code_in_order : sph_srv_msg_type → Nat
  | sph_srv_msg_type.JOIN_REPLY => 0
  | sph_srv_msg_type.JOIN_RETRY => 1
  | sph_srv_msg_type.NEW_NODE => 2
  | sph_srv_msg_type.NEW_NODE_FINISH => 3
  | sph_srv_msg_type.NOTIFY_FORWARD => 4
  | sph_srv_msg_type.BLOCK_FORWARD => 5
  | sph_srv_msg_type.LEAVE_FORWARD => 6
  | sph_srv_msg_type.REMOVE => 7
  | sph_srv_msg_type.MASTER_ELECTION => 8

/-! ### A node leaves -/

/-- What `do_leave_sheep` leaves behind: the array `nodes` (all of its
`SD_MAX_NODES` elements), `nr_nodes`, the indexes of `nodes` that were read or
written (in order), the upcalls made, and whether the process exited. -/
structure leave_run where
  nodes : List sd_node
  nr_nodes : Nat
  accessed : List Nat
  upcalls : List upcall
  exited : Bool
deriving DecidableEq, Repr

/-- The loop `for (j = i; j < nr_nodes; j++) nodes[j] = nodes[j + 1];` from
`j` on, with at most `fuel` rounds.  `junk` is what a read behind the end of
the array finds. -/
def leave_shift (junk : sd_node) (nr_nodes : Nat) :
    Nat → Nat → List sd_node × List Nat → List sd_node × List Nat
  | 0, _, r => r
  | fuel + 1, j, (nodes, accessed) =>
    if j < nr_nodes then
      leave_shift junk nr_nodes fuel (j + 1)
        (nodes.set j (nodes.getD (j + 1) junk), accessed ++ [j + 1, j])
    else (nodes, accessed)

/-- The loop `for (i = 0; i < nr_nodes; i++)` of `do_leave_sheep` from `i` on,
with at most `fuel` rounds, and what follows it. -/
def leave_search (junk : sd_node) (sender : sd_node) :
    Nat → Nat → leave_run → leave_run
  | 0, _, r => r
  | fuel + 1, i, r =>
    if i < r.nr_nodes then
      if node_eq sender (r.nodes.getD i junk) then
        let sh := leave_shift junk r.nr_nodes (r.nr_nodes - i) i (r.nodes, r.accessed ++ [i])
        { r with nodes := sh.1, nr_nodes := r.nr_nodes - 1, accessed := sh.2,
                 upcalls := r.upcalls ++ [upcall.leave_handler sender (sh.1.take (r.nr_nodes - 1))] }
      else leave_search junk sender fuel (i + 1) { r with accessed := r.accessed ++ [i] }
    else r

/-- The function `do_leave_sheep()`: `sender` is what `xread` delivers (`none`: the read
fails or comes short), `nodes` the whole array.  `nr_nodes` is an `int`, not
negative. -/
def do_leave_sheep (junk : sd_node) (sender : Option sd_node) (nodes : List sd_node)
    (nr_nodes : Nat) : leave_run :=
  match sender with
  | none => { nodes := nodes, nr_nodes := nr_nodes, accessed := [], upcalls := [], exited := true }
  | some sender =>
    leave_search junk sender nr_nodes 0
      { nodes := nodes, nr_nodes := nr_nodes, accessed := [], upcalls := [], exited := false }

end Shepherd

/-! ## Part 10: definitions for the list of last vdis of `collie/farm/farm.c` -/

namespace Farm

/-- The fields of `struct sd_inode` that `insert_vdi` reads; `name` is the C
string in the field `name`. -/
structure sd_inode where
  name : List Char
  vdi_size : Nat
  vdi_id : Nat
  snap_id : Nat
  nr_copies : Nat
deriving DecidableEq, Repr

/-- An element of `last_vdi_list`: `struct vdi_entry` (the list link is the
position in the list). -/
structure vdi_entry where
  name : List Char
  vdi_size : Nat
  vdi_id : Nat
  snap_id : Nat
  nr_copies : Nat
deriving DecidableEq, Repr

/-- Modelled from the spec: `pstrcpy(buf, buf_size, str)` of `lib/util.c`, which
is not among the sources: the string is copied, cut after `buf_size - 1`
characters so that the terminating NUL fits. -/
def pstrcpy (buf_size : Nat) (str : List Char) : List Char := str.take (buf_size - 1)

/-- The function `find_vdi(name)`: the position of the first entry of the list whose name
`strcmp` finds equal, `none` for NULL. -/
def find_vdi : List vdi_entry → List Char → Option Nat
  | [], _ => none
  | vdi :: rest, name =>
    if vdi.name = name then some 0 else (find_vdi rest name).map (fun k => k + 1)

/-- The function `new_vdi(name, vdi_size, vdi_id, snap_id, nr_copies)`; `len` is
`SD_MAX_VDI_LEN`, the size of the field `name`. -/
def new_vdi (len : Nat) (name : List Char) (vdi_size vdi_id snap_id nr_copies : Nat) :
    vdi_entry :=
  { name := pstrcpy len name, vdi_size := vdi_size, vdi_id := vdi_id, snap_id := snap_id,
    nr_copies := nr_copies }

/-- The function `insert_vdi(new)` on `last_vdi_list`; `list_add` puts a new entry at the
head. -/
def insert_vdi (len : Nat) (list : List vdi_entry) (new : sd_inode) : List vdi_entry :=
  match find_vdi list new.name with
  | none => new_vdi len new.name new.vdi_size new.vdi_id new.snap_id new.nr_copies :: list
  | some k =>
    list.modify (fun vdi =>
      if vdi.snap_id < new.snap_id then
        { vdi with vdi_size := new.vdi_size, vdi_id := new.vdi_id, snap_id := new.snap_id,
                   nr_copies := new.nr_copies }
      else vdi) k

/-- The list after `insert_vdi` was called for each of the inodes, in order. -/
def insert_vdis (len : Nat) (inodes : List sd_inode) : List vdi_entry :=
  inodes.foldl (insert_vdi len) []

/-- The entry that carries the fields of an inode. -/
def entry_of (i : sd_inode) : vdi_entry :=
  { name := i.name, vdi_size := i.vdi_size, vdi_id := i.vdi_id, snap_id := i.snap_id,
    nr_copies := i.nr_copies }

/-- In the spec's words: the inode at position `p` has the greatest `snap_id`
among the inodes of its name, and is the earliest of those that have it. -/
def is_latest (inodes : List sd_inode) (p : Nat) (i : sd_inode) : Prop :=
  inodes[p]? = some i ∧
  ∀ q j, inodes[q]? = some j → j.name = i.name →
    j.snap_id ≤ i.snap_id ∧ (q < p → j.snap_id < i.snap_id)

/-- Three inodes of the vdi `a` and one of the vdi `b`. -/
def inodes_example : List sd_inode :=
  [{ name := "a".toList, vdi_size := 10, vdi_id := 1, snap_id := 1, nr_copies := 3 },
   { name := "b".toList, vdi_size := 20, vdi_id := 2, snap_id := 1, nr_copies := 3 },
   { name := "a".toList, vdi_size := 30, vdi_id := 3, snap_id := 2, nr_copies := 2 },
   { name := "a".toList, vdi_size := 40, vdi_id := 4, snap_id := 2, nr_copies := 1 }]

end Farm

/-! ## Part 11: definitions for the queue of `sheep/cluster/zookeeper.c` -/

namespace Zk

open Sockfd (node_id node_id_cmp sd_node)
open Cluster

/-- The driver of `member_b` before it joined a cluster that has members: its
own join request is the event at `queue_pos`, and another node is the
master. -/
def state_join_pending : State :=
  { sd_nodes := [], zk_node_root := [], zk_block_list := [],
    this_node := { node := member_b, callbacked := false, gone := false },
    queue := [{ id := 1, type := zk_event_type.EVENT_JOIN_REQUEST,
                sender := { node := member_b, callbacked := false, gone := false },
                join_result := cluster_join_result.CJ_RES_SUCCESS, buf := [1, 2], nodes := [] }],
    queue_pos := 0, first_push := false, seq := 1, upcalls := [] }

/-- What a `zoo_create` with `ZOO_SEQUENCE` comes to for `zk_queue_push`: `ZOK`;
`ZOPERATIONTIMEOUT` or `ZCONNECTIONLOSS` (`lost`), the znode having been
created on the servers or not; or another error. -/
inductive create_rc where
  | ZOK
  | lost (created : Bool)
  | failed
deriving DecidableEq, Repr

/-- One round of the label `again` of `zk_queue_push` as the servers see it:
the events other nodes append before the create is applied, the outcome of
the create, the events other nodes append before the queue is searched, and
whether the reads of the search succeed. -/
structure push_round where
  before : List zk_event
  rc : create_rc
  between : List zk_event
  read_ok : Bool
deriving DecidableEq, Repr

/-- The loop of `zk_find_seq_node(id, seq_path, seq_path_len)` over the znodes from
sequence number `seq` on, `rest` being the events stored there: the sequence
number at which the id was found (`seq_path` then names it), `none` when the
end of the queue (`ZNONODE`) was reached. -/
def zk_find_seq_node_from (id : Nat) : Nat → List zk_event → Option Nat
  | _, [] => none
  | seq, ev :: rest => if ev.id = id then some seq else zk_find_seq_node_from id (seq + 1) rest

/-- The function `zk_find_seq_node`: the search starts at `queue_pos`. -/
def zk_find_seq_node (s : State) (id : Nat) : Option Nat :=
  zk_find_seq_node_from id s.queue_pos (s.queue.drop s.queue_pos)

/-- How `zk_queue_push` ends: it returns, it ends in `panic`, or it is still
retrying after the rounds given. -/
inductive push_result where
  | ok (s : State)
  | panic (s : State)
  | retrying (s : State)
deriving DecidableEq, Repr

/-- The part of `zk_queue_push` behind the `switch`: the first push of the node
sets `queue_pos` to the sequence number in `buf`. -/
def zk_queue_push_done (s : State) (seq : Nat) : State :=
  if s.first_push then { s with queue_pos := seq, first_push := false } else s

/-- The function `zk_queue_push(ev)` with creates that can fail: one element of `rounds`
for each time the label `again` is passed.  The number of creates issued is
counted in the second component. -/
def zk_queue_push_rounds (ev : zk_event) : State → List push_round → Nat → push_result × Nat
  | s, [], n => (push_result.retrying s, n)
  | s, r :: rest, n =>
    let s1 := { s with queue := s.queue ++ r.before }
    match r.rc with
    | create_rc.ZOK =>
      (push_result.ok (zk_queue_push_done { s1 with queue := s1.queue ++ [ev] } s1.queue.length),
        n + 1)
    | create_rc.failed => (push_result.panic s1, n + 1)
    | create_rc.lost created =>
      let s2 := { s1 with queue := (if created then s1.queue ++ [ev] else s1.queue) ++ r.between }
      if !r.read_ok then (push_result.panic s2, n + 1)
      else
        match zk_find_seq_node s2 ev.id with
        | some seq => (push_result.ok (zk_queue_push_done s2 seq), n + 1)
        | none => zk_queue_push_rounds ev s2 rest (n + 1)

/-- The number of znodes of the queue that carry the id. -/
def count_id (queue : List zk_event) (id : Nat) : Nat :=
  (queue.filter (fun e => decide (e.id = id))).length

/-- A notify event of `member_a` with id 9. -/
def event_notify_9 : zk_event :=
  { id := 9, type := zk_event_type.EVENT_NOTIFY,
    sender := { node := member_a, callbacked := false, gone := false },
    join_result := cluster_join_result.CJ_RES_SUCCESS, buf := [7], nodes := [] }

/-- Rounds in which the first create is lost without effect, the second takes
effect although it reports a connection loss, while `member_b` appends a
block event. -/
def rounds_example : List push_round :=
  [{ before := [], rc := create_rc.lost false, between := [], read_ok := true },
   { before := [{ id := 4, type := zk_event_type.EVENT_BLOCK,
                  sender := { node := member_b, callbacked := false, gone := false },
                  join_result := cluster_join_result.CJ_RES_SUCCESS, buf := [], nodes := [] }],
     rc := create_rc.lost true, between := [], read_ok := true },
   { before := [], rc := create_rc.ZOK, between := [], read_ok := true }]

end Zk

/-! ## Part 12: definitions for the notifications of completed recovery of `sheep/ops.c` -/

namespace Ops

open Sockfd (node_id node_id_cmp sd_node)
open Cluster

/-- One `SD_OP_COMPLETE_RECOVERY` notification as `cluster_recovery_completion`
meets it: what the functions outside `ops.c` answer then (the vnode view among
them), the value `sys->epoch` has then, the request header and the node in
`data`. -/
structure notification where
  env : Env
  epoch : Nat
  req : sd_req
  data : req_data

/-- The handler run on one notification.  The array `recovereds` has
`SD_MAX_NODES` elements (`max_nodes`; the header with the constant is not
among the sources) and the handler stores `recovereds[nr_recovereds++]`
without a test: `none` stands for a store behind the array. -/
def recovery_step (max_nodes : Nat) (s : Sheep) (n : notification) : Option Sheep :=
  let s0 : Sheep := { s with sys := { s.sys with epoch := n.epoch } }
  if s0.latest_epoch ≤ n.req.tgt_epoch ∧
      max_nodes ≤ (if s0.latest_epoch < n.req.tgt_epoch then 0 else s0.recovereds.length) then
    none
  else
    match cluster_recovery_completion n.env s0 n.req rsp_zero n.data with
    | Outcome.ret _ _ s1 => some s1
    | _ => none

/-- The handler run on a sequence of notifications, one after the other. -/
def recovery_run (max_nodes : Nat) : Sheep → List notification → Option Sheep
  | s, [] => some s
  | s, n :: rest =>
    match recovery_step max_nodes s n with
    | some s1 => recovery_run max_nodes s1 rest
    | none => none

/-- The notification that `node` has recovered at epoch `tgt_epoch`, met at a
node whose epoch is `epoch` and whose vnode view holds `view`. -/
def notification_of (view : List sd_node) (epoch tgt_epoch : Nat) (node : sd_node) :
    notification :=
  { env := { env_ok with vnode_nodes := view }, epoch := epoch,
    req := { req_zero with tgt_epoch := tgt_epoch },
    data := { data_plain with node := node } }

end Ops

/-! ## Part 13: theorems about the blob store -/

namespace Farm

theorem Store.set_same (st : Store) (p : List Char) (f : blob_file) : (st.set p f) p = some f := by
  simp [Store.set]

theorem Store.set_other (st : Store) (p q : List Char) (f : blob_file) (h : q ≠ p) :
    (st.set p f) q = st q := by
  simp [Store.set, h]

theorem Store.unlink_same (st : Store) (p : List Char) : (st.unlink p) p = none := by
  simp [Store.unlink]

theorem Store.unlink_other (st : Store) (p q : List Char) (h : q ≠ p) :
    (st.unlink p) q = st q := by
  simp [Store.unlink, h]

theorem Store.set_set (st : Store) (p : List Char) (f g : blob_file) :
    (st.set p f).set p g = st.set p g := by
  funext q
  by_cases h : q = p <;> simp [Store.set, h]

theorem Store.unlink_set_of_none (st : Store) (p : List Char) (f : blob_file) (h : st p = none) :
    (st.set p f).unlink p = st := by
  funext q
  by_cases hq : q = p
  · subst hq; simp [Store.unlink, h]
  · simp [Store.unlink, Store.set, hq]

/-- A write without faults into a store that has no file of the key's name
creates the file with the buffer's bytes and reference count 1. -/
theorem sha1_file_write_fresh (objdir : List Char) (st : Store) (buf : List Nat) (len : Nat)
    (h : st (sha1_to_path objdir (get_sha1 buf (u32 len))) = none) :
    sha1_file_write objdir Faults.none st buf len =
      Outcome.ret (0, some (get_sha1 buf (u32 len)))
        (st.set (sha1_to_path objdir (get_sha1 buf (u32 len)))
          { data := buf.take (u32 len), count := some 1 }) := by
  simp [sha1_file_write, sha1_buffer_write, h, Faults.none, get_sha1_file, Store.set_same,
    Store.set_set]

/-- A write into a store that has a file of the key's name returns 0 and
leaves the store as it is. -/
theorem sha1_file_write_existing (objdir : List Char) (fl : Faults) (st : Store)
    (buf : List Nat) (len : Nat) (f : blob_file)
    (h : st (sha1_to_path objdir (get_sha1 buf (u32 len))) = some f) :
    sha1_file_write objdir fl st buf len =
      Outcome.ret (0, some (get_sha1 buf (u32 len))) st := by
  simp [sha1_file_write, sha1_buffer_write, h]

theorem u32_of_lt {n : Nat} (h : n < 4294967296) : u32 n = n := Nat.mod_eq_of_lt h

theorem be_bytes_length (n x : Nat) : (be_bytes n x).length = n := by
  induction n with
  | zero => rfl
  | succ k ih => simp [be_bytes, ih]

theorem le_bytes_length (n x : Nat) : (le_bytes n x).length = n := by
  induction n generalizing x with
  | zero => rfl
  | succ k ih => simp [le_bytes, ih]

theorem sha1_length (msg : List Nat) : (sha1 msg).length = 20 := by
  simp [sha1, be_bytes_length]

theorem get_sha1_length (buf : List Nat) (len : Nat) : (get_sha1 buf len).length = 20 := by
  simp [get_sha1, get_sha1_run, sha1_length]

/-! ### Trimming -/

theorem leading_zero_sector_length {w : List Nat} (h : leading_zero_sector w = true) :
    SECTOR_SIZE ≤ w.length := by
  simp [leading_zero_sector] at h
  exact h.1

theorem trailing_zero_sector_length {w : List Nat} (h : trailing_zero_sector w = true) :
    SECTOR_SIZE ≤ w.length := by
  simp [trailing_zero_sector] at h
  exact h.1

theorem trim_leading_of_not (n : Nat) (w : List Nat) (h : leading_zero_sector w = false) :
    trim_leading n w = w := by
  cases n <;> simp [trim_leading, h]

theorem trim_trailing_of_not (n : Nat) (w : List Nat) (h : trailing_zero_sector w = false) :
    trim_trailing n w = w := by
  cases n <;> simp [trim_trailing, h]

/-- The leading trim returns a final segment of the window. -/
theorem trim_leading_eq_drop (n : Nat) (w : List Nat) :
    trim_leading n w = w.drop (w.length - (trim_leading n w).length) ∧
      (trim_leading n w).length ≤ w.length := by
  induction n generalizing w with
  | zero => simp [trim_leading]
  | succ k ih =>
    unfold trim_leading
    split
    · rename_i h
      have hl := leading_zero_sector_length h
      obtain ⟨h1, h2⟩ := ih (w.drop SECTOR_SIZE)
      simp only [List.length_drop] at h1 h2
      constructor
      · conv_lhs => rw [h1]
        rw [List.drop_drop]
        congr 1
        omega
      · omega
    · simp

/-- The trailing trim returns an initial segment of the window. -/
theorem trim_trailing_eq_take (n : Nat) (w : List Nat) :
    trim_trailing n w = w.take (trim_trailing n w).length := by
  induction n generalizing w with
  | zero => simp [trim_trailing]
  | succ k ih =>
    unfold trim_trailing
    split
    · rename_i h
      have hl := trailing_zero_sector_length h
      have h1 := ih (w.take (w.length - SECTOR_SIZE))
      have h2 : (trim_trailing k (w.take (w.length - SECTOR_SIZE))).length ≤ w.length - SECTOR_SIZE := by
        have := congrArg List.length h1
        simp only [List.length_take] at this
        omega
      conv_lhs => rw [h1]
      rw [List.take_take]
      congr 1
      omega
    · simp

theorem trim_trailing_length_le (n : Nat) (w : List Nat) :
    (trim_trailing n w).length ≤ w.length := by
  have := congrArg List.length (trim_trailing_eq_take n w)
  simp only [List.length_take] at this
  omega

/-- The bytes `get_sha1` hashes after the two integers are the window
`[offset, offset + length)` of the buffer handed to the trimming. -/
theorem trimmed_window (buf : List Nat) :
    (trim_zero_sectors buf).buf.take (trim_zero_sectors buf).length =
      (buf.drop (trim_zero_sectors buf).offset).take (trim_zero_sectors buf).length := by
  simp only [trim_zero_sectors]
  have h1 := trim_leading_eq_drop (buf.length / SECTOR_SIZE) buf
  have h2 := trim_trailing_length_le ((trim_leading (buf.length / SECTOR_SIZE) buf).length / SECTOR_SIZE)
    (trim_leading (buf.length / SECTOR_SIZE) buf)
  rw [List.take_append_of_le_length h2, ← h1.1]

theorem trimmed_window_eq (buf : List Nat) :
    (trim_zero_sectors buf).buf.take (trim_zero_sectors buf).length =
      trim_trailing ((trim_leading (buf.length / SECTOR_SIZE) buf).length / SECTOR_SIZE)
        (trim_leading (buf.length / SECTOR_SIZE) buf) := by
  simp only [trim_zero_sectors]
  have h2 := trim_trailing_length_le ((trim_leading (buf.length / SECTOR_SIZE) buf).length / SECTOR_SIZE)
    (trim_leading (buf.length / SECTOR_SIZE) buf)
  rw [List.take_append_of_le_length h2]
  exact (trim_trailing_eq_take _ _).symm

/-- More rounds than the window has sectors change nothing. -/
theorem trim_leading_rounds (n m : Nat) (w : List Nat)
    (hn : w.length / SECTOR_SIZE ≤ n) (hm : w.length / SECTOR_SIZE ≤ m) :
    trim_leading n w = trim_leading m w := by
  induction n generalizing w m with
  | zero =>
    have : w.length < SECTOR_SIZE := by
      simp only [SECTOR_SIZE] at hn ⊢; omega
    have hz : leading_zero_sector w = false := by
      simp [leading_zero_sector]; intro h; omega
    rw [trim_leading_of_not _ _ hz, trim_leading_of_not _ _ hz]
  | succ k ih =>
    by_cases hz : leading_zero_sector w = true
    · have hl := leading_zero_sector_length hz
      cases m with
      | zero => simp only [SECTOR_SIZE] at hm hl; omega
      | succ j =>
        simp only [trim_leading, hz, if_true]
        apply ih
        · simp only [List.length_drop, SECTOR_SIZE] at hn hl ⊢; omega
        · simp only [List.length_drop, SECTOR_SIZE] at hm hl ⊢; omega
    · simp only [Bool.not_eq_true] at hz
      rw [trim_leading_of_not _ _ hz, trim_leading_of_not _ _ hz]

theorem trim_trailing_rounds (n m : Nat) (w : List Nat)
    (hn : w.length / SECTOR_SIZE ≤ n) (hm : w.length / SECTOR_SIZE ≤ m) :
    trim_trailing n w = trim_trailing m w := by
  induction n generalizing w m with
  | zero =>
    have : w.length < SECTOR_SIZE := by
      simp only [SECTOR_SIZE] at hn ⊢; omega
    have hz : trailing_zero_sector w = false := by
      simp [trailing_zero_sector]; intro h; omega
    rw [trim_trailing_of_not _ _ hz, trim_trailing_of_not _ _ hz]
  | succ k ih =>
    by_cases hz : trailing_zero_sector w = true
    · have hl := trailing_zero_sector_length hz
      cases m with
      | zero => simp only [SECTOR_SIZE] at hm hl; omega
      | succ j =>
        simp only [trim_trailing, hz, if_true]
        apply ih
        · simp only [List.length_take, SECTOR_SIZE] at hn hl ⊢; omega
        · simp only [List.length_take, SECTOR_SIZE] at hm hl ⊢; omega
    · simp only [Bool.not_eq_true] at hz
      rw [trim_trailing_of_not _ _ hz, trim_trailing_of_not _ _ hz]

theorem trailing_zero_sector_snoc (w : List Nat) :
    trailing_zero_sector (w ++ List.replicate SECTOR_SIZE 0) = true := by
  simp only [trailing_zero_sector, List.length_append, List.length_replicate,
    Bool.and_eq_true, decide_eq_true_eq, List.all_eq_true, beq_iff_eq]
  refine ⟨Nat.le_add_left _ _, ?_⟩
  intro b hb
  rw [Nat.add_sub_cancel, List.drop_left] at hb
  exact (List.mem_replicate.mp hb).2

/-- Zero sectors appended to a window are removed by the trailing trim. -/
theorem trim_trailing_pad (n k : Nat) (w : List Nat) :
    trim_trailing (n + k) (w ++ List.replicate (SECTOR_SIZE * k) 0) = trim_trailing n w := by
  induction k with
  | zero => simp
  | succ j ih =>
    have hsplit : w ++ List.replicate (SECTOR_SIZE * (j + 1)) 0 =
        (w ++ List.replicate (SECTOR_SIZE * j) 0) ++ List.replicate SECTOR_SIZE 0 := by
      rw [Nat.mul_succ, List.replicate_add, List.append_assoc]
    rw [hsplit, show n + (j + 1) = (n + j) + 1 from rfl]
    simp only [trim_trailing, trailing_zero_sector_snoc, if_true]
    have : ((w ++ List.replicate (SECTOR_SIZE * j) 0) ++ List.replicate SECTOR_SIZE 0).length
        - SECTOR_SIZE = (w ++ List.replicate (SECTOR_SIZE * j) 0).length := by
      rw [List.length_append (w ++ List.replicate (SECTOR_SIZE * j) 0), List.length_replicate,
        Nat.add_sub_cancel]
    rw [this, List.take_left]
    exact ih

/-- A window made of whole sectors that holds a non-zero byte: bytes put
after it do not change what the leading trim removes. -/
theorem trim_leading_pad (n : Nat) (w z : List Nat) (hd : SECTOR_SIZE ∣ w.length)
    (hb : ∃ b ∈ w, b ≠ 0) : trim_leading n (w ++ z) = trim_leading n w ++ z := by
  induction n generalizing w with
  | zero => simp [trim_leading]
  | succ k ih =>
    have hlen : SECTOR_SIZE ≤ w.length := by
      obtain ⟨b, hbw, _⟩ := hb
      have hpos : 0 < w.length := List.length_pos_of_mem hbw
      exact Nat.le_of_dvd hpos hd
    have hz : leading_zero_sector (w ++ z) = leading_zero_sector w := by
      simp only [leading_zero_sector, List.length_append]
      rw [List.take_append_of_le_length hlen]
      have : decide (SECTOR_SIZE ≤ w.length + z.length) = decide (SECTOR_SIZE ≤ w.length) := by
        simp only [decide_eq_decide]; constructor <;> intro <;> omega
      rw [this]
    simp only [trim_leading, hz]
    split
    · rename_i hzs
      rw [List.drop_append_of_le_length hlen]
      apply ih
      · simp only [List.length_drop]
        exact (Nat.dvd_sub' hd (dvd_refl _))
      · obtain ⟨b, hbw, hb0⟩ := hb
        refine ⟨b, ?_, hb0⟩
        rw [← List.take_append_drop SECTOR_SIZE w] at hbw
        rcases List.mem_append.mp hbw with h | h
        · exfalso
          simp only [leading_zero_sector, Bool.and_eq_true, decide_eq_true_eq, List.all_eq_true,
            beq_iff_eq] at hzs
          exact hb0 (hzs.2 b h)
        · exact h
    · rfl

/-- The window the two trims retain. -/
theorem trim_zero_sectors_fields (buf : List Nat) :
    (trim_zero_sectors buf).offset =
        buf.length - (trim_leading (buf.length / SECTOR_SIZE) buf).length ∧
      (trim_zero_sectors buf).length =
        (trim_trailing ((trim_leading (buf.length / SECTOR_SIZE) buf).length / SECTOR_SIZE)
          (trim_leading (buf.length / SECTOR_SIZE) buf)).length := ⟨rfl, rfl⟩

/-- Sparse padding: zero sectors after a buffer of whole sectors that holds a
non-zero byte leave the trimmed offset, length and bytes as they are. -/
theorem trim_zero_sectors_pad (B : List Nat) (k : Nat) (hd : SECTOR_SIZE ∣ B.length)
    (hb : ∃ b ∈ B, b ≠ 0) :
    get_sha1_message (trim_zero_sectors (B ++ List.replicate (SECTOR_SIZE * k) 0)) =
      get_sha1_message (trim_zero_sectors B) := by
  have hw1 : trim_leading ((B ++ List.replicate (SECTOR_SIZE * k) 0).length / SECTOR_SIZE)
      (B ++ List.replicate (SECTOR_SIZE * k) 0) =
      trim_leading (B.length / SECTOR_SIZE) B ++ List.replicate (SECTOR_SIZE * k) 0 := by
    rw [trim_leading_pad _ _ _ hd hb]
    congr 1
    apply trim_leading_rounds
    · rw [List.length_append, List.length_replicate, Nat.add_mul_div_left _ _ (by decide)]
      exact Nat.le_add_right _ _
    · exact le_refl _
  have hlen : ((trim_leading (B.length / SECTOR_SIZE) B ++
      List.replicate (SECTOR_SIZE * k) 0).length / SECTOR_SIZE) =
      (trim_leading (B.length / SECTOR_SIZE) B).length / SECTOR_SIZE + k := by
    rw [List.length_append, List.length_replicate]
    exact Nat.add_mul_div_left _ _ (by decide)
  have hle := (trim_leading_eq_drop (B.length / SECTOR_SIZE) B).2
  have hoff : (trim_zero_sectors (B ++ List.replicate (SECTOR_SIZE * k) 0)).offset =
      (trim_zero_sectors B).offset := by
    rw [(trim_zero_sectors_fields _).1, (trim_zero_sectors_fields _).1, hw1]
    rw [List.length_append, List.length_append, List.length_replicate]
    omega
  have hlength : (trim_zero_sectors (B ++ List.replicate (SECTOR_SIZE * k) 0)).length =
      (trim_zero_sectors B).length := by
    rw [(trim_zero_sectors_fields _).2, (trim_zero_sectors_fields _).2, hw1, hlen,
      trim_trailing_pad]
  unfold get_sha1_message
  rw [trimmed_window_eq, trimmed_window_eq, hw1, hlen, trim_trailing_pad, hoff, hlength]

theorem get_sha1_pad (B : List Nat) (k : Nat) (hd : SECTOR_SIZE ∣ B.length)
    (hb : ∃ b ∈ B, b ≠ 0) :
    get_sha1 (B ++ List.replicate (SECTOR_SIZE * k) 0) (B.length + SECTOR_SIZE * k) =
      get_sha1 B B.length := by
  have h1 : (B ++ List.replicate (SECTOR_SIZE * k) 0).take (B.length + SECTOR_SIZE * k) =
      B ++ List.replicate (SECTOR_SIZE * k) 0 := by
    apply List.take_of_length_le
    rw [List.length_append, List.length_replicate]
  simp only [get_sha1, get_sha1_run, h1, List.take_length, trim_zero_sectors_pad B k hd hb]

theorem leading_zero_sector_cons_zeros (x : List Nat) :
    leading_zero_sector (List.replicate SECTOR_SIZE 0 ++ x) = true := by
  simp only [leading_zero_sector, List.length_append, List.length_replicate,
    Bool.and_eq_true, decide_eq_true_eq, List.all_eq_true, beq_iff_eq]
  refine ⟨Nat.le_add_right _ _, ?_⟩
  intro b hb
  rw [List.take_left' (List.length_replicate _ _)] at hb
  exact (List.mem_replicate.mp hb).2

/-- Zero sectors in front of a window that does not start with one are all
removed by the leading trim. -/
theorem trim_leading_zeros (a n : Nat) (r : List Nat) (hn : a ≤ n)
    (hr : leading_zero_sector r = false) :
    trim_leading n (List.replicate (SECTOR_SIZE * a) 0 ++ r) = r := by
  induction a generalizing n with
  | zero => simpa using trim_leading_of_not n r hr
  | succ j ih =>
    cases n with
    | zero => omega
    | succ m =>
      have hsplit : List.replicate (SECTOR_SIZE * (j + 1)) 0 ++ r =
          List.replicate SECTOR_SIZE 0 ++ (List.replicate (SECTOR_SIZE * j) 0 ++ r) := by
        rw [Nat.mul_succ, Nat.add_comm, List.replicate_add, List.append_assoc]
      rw [hsplit]
      simp only [trim_leading, leading_zero_sector_cons_zeros, if_true]
      rw [List.drop_left' (List.length_replicate _ _)]
      exact ih m (by omega)

theorem leading_zero_sector_replicate (b c : Nat) (hb : 0 < b) (hc : c ≠ 0) :
    leading_zero_sector (List.replicate (SECTOR_SIZE * b) c) = false := by
  have hmin : min SECTOR_SIZE (SECTOR_SIZE * b) = SECTOR_SIZE :=
    Nat.min_eq_left (Nat.le_mul_of_pos_right _ hb)
  simp only [leading_zero_sector, List.take_replicate, hmin, List.length_replicate,
    Bool.and_eq_false_iff]
  right
  rw [List.all_eq_false]
  refine ⟨c, List.mem_replicate.mpr ⟨by decide, rfl⟩, ?_⟩
  simpa using hc

theorem trailing_zero_sector_replicate (b c : Nat) (hb : 0 < b) (hc : c ≠ 0) :
    trailing_zero_sector (List.replicate (SECTOR_SIZE * b) c) = false := by
  have hle : SECTOR_SIZE ≤ SECTOR_SIZE * b := Nat.le_mul_of_pos_right _ hb
  simp only [trailing_zero_sector, List.drop_replicate, List.length_replicate,
    Bool.and_eq_false_iff]
  right
  rw [List.all_eq_false]
  refine ⟨c, List.mem_replicate.mpr ⟨?_, rfl⟩, ?_⟩
  · have : SECTOR_SIZE * b - (SECTOR_SIZE * b - SECTOR_SIZE) = SECTOR_SIZE := by omega
    rw [this]; decide
  · simpa using hc

/-- What the trimming makes of `a` zero sectors followed by `b` sectors of a
non-zero byte `c`. -/
theorem trim_zero_sectors_zeros_then (a b c : Nat) (hb : 0 < b) (hc : c ≠ 0) :
    (trim_zero_sectors (List.replicate (SECTOR_SIZE * a) 0 ++
        List.replicate (SECTOR_SIZE * b) c)).offset = SECTOR_SIZE * a ∧
    (trim_zero_sectors (List.replicate (SECTOR_SIZE * a) 0 ++
        List.replicate (SECTOR_SIZE * b) c)).length = SECTOR_SIZE * b ∧
    (trim_zero_sectors (List.replicate (SECTOR_SIZE * a) 0 ++
        List.replicate (SECTOR_SIZE * b) c)).buf.take (SECTOR_SIZE * b) =
      List.replicate (SECTOR_SIZE * b) c := by
  have hw1 : trim_leading ((List.replicate (SECTOR_SIZE * a) 0 ++
      List.replicate (SECTOR_SIZE * b) c).length / SECTOR_SIZE)
      (List.replicate (SECTOR_SIZE * a) 0 ++ List.replicate (SECTOR_SIZE * b) c) =
      List.replicate (SECTOR_SIZE * b) c := by
    apply trim_leading_zeros _ _ _ _ (leading_zero_sector_replicate b c hb hc)
    rw [List.length_append, List.length_replicate, List.length_replicate, ← Nat.mul_add,
      Nat.mul_div_cancel_left _ (by decide : 0 < SECTOR_SIZE)]
    exact Nat.le_add_right _ _
  have hw2 : ∀ n, trim_trailing n (List.replicate (SECTOR_SIZE * b) c) =
      List.replicate (SECTOR_SIZE * b) c :=
    fun n => trim_trailing_of_not n _ (trailing_zero_sector_replicate b c hb hc)
  refine ⟨?_, ?_, ?_⟩
  · rw [(trim_zero_sectors_fields _).1, hw1, List.length_append, List.length_replicate,
      List.length_replicate, Nat.add_sub_cancel]
  · rw [(trim_zero_sectors_fields _).2, hw1, hw2, List.length_replicate]
  · have h := trimmed_window_eq (List.replicate (SECTOR_SIZE * a) 0 ++
      List.replicate (SECTOR_SIZE * b) c)
    rw [(trim_zero_sectors_fields _).2, hw1, hw2, List.length_replicate] at h
    exact h

theorem get_sha1_eq (buf : List Nat) (len : Nat) :
    get_sha1 buf len =
      sha1 (le_bytes 8 (trim_zero_sectors (buf.take len)).offset ++
        le_bytes 4 (trim_zero_sectors (buf.take len)).length ++
        ((buf.take len).drop (trim_zero_sectors (buf.take len)).offset).take
          (trim_zero_sectors (buf.take len)).length) := by
  simp only [get_sha1, get_sha1_run, get_sha1_message, trimmed_window]


/-- What `sha1_file_read` returns is the content of the file of that name,
and its key is the key asked for. -/
theorem sha1_file_read_sound (objdir : List Char) (fl : Faults) (st : Store) (k buf : List Nat)
    (size : Nat) (hk : k.length = SHA1_DIGEST_SIZE)
    (h : sha1_file_read objdir fl st k = some (buf, size)) :
    get_sha1 buf (u32 size) = k ∧ size = buf.length ∧
      ∃ f, st (sha1_to_path objdir k) = some f ∧ f.data = buf := by
  unfold sha1_file_read at h
  split at h
  · exact absurd h (by simp)
  · rename_i f hf
    split at h
    · exact absurd h (by simp)
    · split at h
      · exact absurd h (by simp)
      · rename_i hv
        simp only [Option.some.injEq, Prod.mk.injEq] at h
        obtain ⟨h1, h2⟩ := h
        subst h1
        refine ⟨?_, h2.symm, f, hf, rfl⟩
        unfold verify_sha1_file at hv
        split at hv
        · exact absurd hv (by decide)
        · rename_i heq
          simp only [ne_eq, Decidable.not_not] at heq
          rw [← h2]
          have e1 : (get_sha1 f.data (u32 f.data.length)).take SHA1_DIGEST_SIZE =
              get_sha1 f.data (u32 f.data.length) :=
            List.take_of_length_le (by rw [get_sha1_length]; decide)
          have e2 : k.take SHA1_DIGEST_SIZE = k := List.take_of_length_le (by rw [hk])
          rw [e1, e2] at heq
          exact heq

/-- A write that returns 0 into a store without a file of the key's name
leaves the file with the bytes of the buffer. -/
theorem sha1_file_write_fresh_ok (objdir : List Char) (fl : Faults) (st st1 : Store)
    (B : List Nat) (n : Nat) (k : List Nat) (hn : n = B.length) (hlt : n < 4294967296)
    (hnone : st (sha1_to_path objdir (get_sha1 B n)) = none)
    (hw : sha1_file_write objdir fl st B n = Outcome.ret (0, some k) st1) :
    k = get_sha1 B n ∧
      st1 = st.set (sha1_to_path objdir (get_sha1 B n)) { data := B, count := some 1 } := by
  have hu : u32 n = n := u32_of_lt hlt
  have htake : B.take n = B := by rw [hn]; exact List.take_length B
  simp only [sha1_file_write, sha1_buffer_write, hu, hnone, htake] at hw
  cases ho : fl.open_err
  · cases hs : fl.short_write with
    | none =>
      cases hx : fl.xattr_err
      · simp [ho, hs, hx, get_sha1_file, Store.set_same, Store.set_set] at hw
        exact ⟨hw.1.symm, hw.2.symm⟩
      · simp [ho, hs, hx, get_sha1_file, Store.set_same] at hw
    | some m =>
      by_cases hm : m = n
      · cases hx : fl.xattr_err
        · simp [ho, hs, hx, hm, get_sha1_file, Store.set_same, Store.set_set] at hw
          exact ⟨hw.1.symm, hw.2.symm⟩
        · simp [ho, hs, hx, hm, get_sha1_file, Store.set_same] at hw
      · simp [ho, hs, hm] at hw
  · simp [ho] at hw


/-! ### The claims about the blob store -/

/-- Claim C3 (fails on the code): start from an empty store and, for any
buffer, write it twice and try to delete its key once.  Both writes and the
delete return 0, so the net count is 2 - 1 = 1 > 0, yet no blob file is left:
the second write found the file and returned without taking a reference. -/
theorem C3_net_count_positive_but_blob_gone (objdir : List Char) (buf : List Nat) (len : Nat) :
    ∃ t, blob_calls objdir Faults.none buf len { st := Store.empty, writes := 0, deletes := 0 }
        [blob_call.write, blob_call.write, blob_call.try_delete] = some t ∧
      t.writes = 2 ∧ t.deletes = 1 ∧
      t.st (sha1_to_path objdir (get_sha1 buf (u32 len))) = none := by
  have h1 := sha1_file_write_fresh objdir Store.empty buf len rfl
  have h2 := sha1_file_write_existing objdir Faults.none
    (Store.empty.set (sha1_to_path objdir (get_sha1 buf (u32 len)))
      { data := buf.take (u32 len), count := some 1 }) buf len _ (Store.set_same _ _ _)
  refine ⟨{ st := Store.empty, writes := 2, deletes := 1 }, ?_, rfl, rfl, rfl⟩
  simp only [blob_calls, h1, h2, sha1_file_try_delete, put_sha1_file, Store.set_same]
  simp [Faults.none, u32, Store.unlink_set_of_none Store.empty _ _ rfl]

/-- Claim C4 (fails on the code in its second half): the first
`sha1_file_write` of a buffer into an empty store creates the blob with
reference count 1; a second `sha1_file_write` of the same buffer returns 0
with the same key and leaves the store as it was, so the count stays 1 and
does not become 2. -/
theorem C4_second_write_keeps_count (objdir : List Char) (buf : List Nat) (len : Nat) :
    sha1_file_write objdir Faults.none Store.empty buf len =
      Outcome.ret (0, some (get_sha1 buf (u32 len)))
        (Store.empty.set (sha1_to_path objdir (get_sha1 buf (u32 len)))
          { data := buf.take (u32 len), count := some 1 }) ∧
    sha1_file_write objdir Faults.none
        (Store.empty.set (sha1_to_path objdir (get_sha1 buf (u32 len)))
          { data := buf.take (u32 len), count := some 1 }) buf len =
      Outcome.ret (0, some (get_sha1 buf (u32 len)))
        (Store.empty.set (sha1_to_path objdir (get_sha1 buf (u32 len)))
          { data := buf.take (u32 len), count := some 1 }) :=
  ⟨sha1_file_write_fresh objdir Store.empty buf len rfl,
   sha1_file_write_existing objdir Faults.none _ buf len _ (Store.set_same _ _ _)⟩

/-- Claim C5: for a blob file with stored reference count `c` (a 32-bit
value), `sha1_file_try_delete` returns 0; the file is gone afterwards iff
`c - 1` is 0 in 32-bit arithmetic, which is iff `c = 1`; otherwise the file
stays with the same bytes and the count `c - 1` (wrapping to 4294967295 for
`c = 0`); no other file changes.  For a key without file it returns -1 and the
store is unchanged.  The system calls `getxattr`, `setxattr` and `unlink` are
taken not to fail for reasons outside the store. -/
theorem C5_try_delete_drops_one_reference (objdir : List Char) (fl : Faults) (st : Store)
    (sha1 : List Nat) :
    (∀ (f : blob_file) (c : Nat), st (sha1_to_path objdir sha1) = some f → f.count = some c →
      c < 4294967296 → fl.xattr_err = false → fl.unlink_err = false →
      ∃ st1, sha1_file_try_delete objdir fl st sha1 = Outcome.ret 0 st1 ∧
        (st1 (sha1_to_path objdir sha1) = none ↔ u32 (c + 4294967295) = 0) ∧
        (u32 (c + 4294967295) = 0 ↔ c = 1) ∧
        (u32 (c + 4294967295) ≠ 0 →
          st1 (sha1_to_path objdir sha1) =
            some { data := f.data, count := some (u32 (c + 4294967295)) }) ∧
        (0 < c → u32 (c + 4294967295) = c - 1) ∧
        (∀ q, q ≠ sha1_to_path objdir sha1 → st1 q = st q)) ∧
    (st (sha1_to_path objdir sha1) = none →
      sha1_file_try_delete objdir fl st sha1 = Outcome.ret (-1) st) := by
  constructor
  · intro f c hf hc hlt hx hu
    have hiff : u32 (c + 4294967295) = 0 ↔ c = 1 := by
      simp only [u32]; omega
    by_cases h0 : u32 (c + 4294967295) = 0
    · refine ⟨st.unlink (sha1_to_path objdir sha1), ?_, ?_, hiff, ?_, ?_, ?_⟩
      · simp [sha1_file_try_delete, put_sha1_file, hf, hc, hx, hu, h0]
      · simp [Store.unlink_same, h0]
      · intro h; exact absurd h0 h
      · intro _; simp only [u32]; omega
      · intro q hq; exact Store.unlink_other _ _ _ hq
    · refine ⟨st.set (sha1_to_path objdir sha1)
          { data := f.data, count := some (u32 (c + 4294967295)) }, ?_, ?_, hiff, ?_, ?_, ?_⟩
      · simp [sha1_file_try_delete, put_sha1_file, hf, hc, hx, h0]
      · simp [Store.set_same, h0]
      · intro _; exact Store.set_same _ _ _
      · intro _; simp only [u32]; omega
      · intro q hq; exact Store.set_other _ _ _ _ hq
  · intro h
    simp [sha1_file_try_delete, put_sha1_file, h]

/-- Claim C5 at a blob with count 2: the delete returns 0 and the blob stays
with count 1. -/
theorem C5_try_delete_witness :
    (Store.empty.set (sha1_to_path "/farm/objects".toList (List.replicate 20 171))
        { data := [90], count := some 2 })
        (sha1_to_path "/farm/objects".toList (List.replicate 20 171)) =
      some { data := [90], count := some 2 } ∧
    (2 : Nat) < 4294967296 ∧ Faults.none.xattr_err = false ∧ Faults.none.unlink_err = false ∧
    ∃ st1, sha1_file_try_delete "/farm/objects".toList Faults.none
        (Store.empty.set (sha1_to_path "/farm/objects".toList (List.replicate 20 171))
          { data := [90], count := some 2 }) (List.replicate 20 171) =
          Outcome.ret 0 st1 ∧
        st1 (sha1_to_path "/farm/objects".toList (List.replicate 20 171)) =
          some { data := [90], count := some 1 } := by
  refine ⟨Store.set_same _ _ _, by decide, rfl, rfl, ?_⟩
  obtain ⟨st1, h1, _, _, h4, _, _⟩ :=
    (C5_try_delete_drops_one_reference "/farm/objects".toList Faults.none
      (Store.empty.set (sha1_to_path "/farm/objects".toList (List.replicate 20 171))
        { data := [90], count := some 2 }) (List.replicate 20 171)).1
      { data := [90], count := some 2 } 2 (Store.set_same _ _ _) rfl (by decide) rfl rfl
  refine ⟨st1, h1, ?_⟩
  have h6 : u32 (2 + 4294967295) = 1 := by decide
  rw [h6] at h4
  exact h4 (by decide)

/-- Claim C6: `get_sha1` leaves the caller's buffer as it is, and the key is
SHA-1 over the 8 bytes of the trimmed offset, the 4 bytes of the trimmed
length and the bytes of the window `[offset, offset + length)` of the buffer;
so two buffers with the same trimmed offset, length and bytes have the same
key.  For 1 MiB of zeros followed by 3 MiB of 0x5A the trimming gives offset
1 MiB, length 3 MiB and 3 MiB of 0x5A, and the key is the SHA-1 of those. -/
theorem C6_key_is_sha1_of_trimmed_window :
    (∀ (buf : List Nat) (len : Nat),
      (get_sha1_run buf len).1 = buf ∧
      get_sha1 buf len =
        sha1 (le_bytes 8 (trim_zero_sectors (buf.take len)).offset ++
          le_bytes 4 (trim_zero_sectors (buf.take len)).length ++
          ((buf.take len).drop (trim_zero_sectors (buf.take len)).offset).take
            (trim_zero_sectors (buf.take len)).length)) ∧
    (∀ (b1 b2 : List Nat),
      (trim_zero_sectors b1).offset = (trim_zero_sectors b2).offset →
      (trim_zero_sectors b1).length = (trim_zero_sectors b2).length →
      (b1.drop (trim_zero_sectors b1).offset).take (trim_zero_sectors b1).length =
        (b2.drop (trim_zero_sectors b2).offset).take (trim_zero_sectors b2).length →
      get_sha1 b1 b1.length = get_sha1 b2 b2.length) ∧
    ((trim_zero_sectors (List.replicate 1048576 0 ++ List.replicate 3145728 90)).offset
        = 1048576 ∧
      (trim_zero_sectors (List.replicate 1048576 0 ++ List.replicate 3145728 90)).length
        = 3145728 ∧
      (trim_zero_sectors (List.replicate 1048576 0 ++ List.replicate 3145728 90)).buf.take
        3145728 = List.replicate 3145728 90 ∧
      get_sha1 (List.replicate 1048576 0 ++ List.replicate 3145728 90) 4194304 =
        sha1 (le_bytes 8 1048576 ++ le_bytes 4 3145728 ++ List.replicate 3145728 90)) := by
  refine ⟨fun buf len => ⟨rfl, get_sha1_eq buf len⟩, ?_, ?_⟩
  · intro b1 b2 ho hl hw
    rw [get_sha1_eq, get_sha1_eq, List.take_length, List.take_length, hw, ho, hl]
  · have h1 : (1048576 : Nat) = SECTOR_SIZE * 2048 := by decide
    have h2 : (3145728 : Nat) = SECTOR_SIZE * 6144 := by decide
    have h3 : (4194304 : Nat) = SECTOR_SIZE * 2048 + SECTOR_SIZE * 6144 := by decide
    obtain ⟨ho, hl, hw⟩ := trim_zero_sectors_zeros_then 2048 6144 90 (by decide) (by decide)
    rw [h1, h2, h3]
    refine ⟨ho, hl, hw, ?_⟩
    have ht : (List.replicate (SECTOR_SIZE * 2048) 0 ++
        List.replicate (SECTOR_SIZE * 6144) 90).take
        (SECTOR_SIZE * 2048 + SECTOR_SIZE * 6144) =
        List.replicate (SECTOR_SIZE * 2048) 0 ++ List.replicate (SECTOR_SIZE * 6144) 90 := by
      apply List.take_of_length_le
      rw [List.length_append, List.length_replicate, List.length_replicate]
    simp only [get_sha1, get_sha1_run, get_sha1_message, ht, ho, hl, hw]

set_option maxRecDepth 1000000 in
/-- Claim C6 at two buffers: one sector of 0x5A, and the same followed by a
zero sector; they trim to the same offset, length and bytes and so have the
same key. -/
theorem C6_key_witness :
    ((trim_zero_sectors (List.replicate 512 90)).offset =
        (trim_zero_sectors (List.replicate 512 90 ++ List.replicate 512 0)).offset ∧
      (trim_zero_sectors (List.replicate 512 90)).length =
        (trim_zero_sectors (List.replicate 512 90 ++ List.replicate 512 0)).length ∧
      ((List.replicate 512 90).drop (trim_zero_sectors (List.replicate 512 90)).offset).take
          (trim_zero_sectors (List.replicate 512 90)).length =
        ((List.replicate 512 90 ++ List.replicate 512 0).drop
          (trim_zero_sectors (List.replicate 512 90 ++ List.replicate 512 0)).offset).take
          (trim_zero_sectors (List.replicate 512 90 ++ List.replicate 512 0)).length) ∧
    get_sha1 (List.replicate 512 90) (List.replicate 512 90).length =
      get_sha1 (List.replicate 512 90 ++ List.replicate 512 0)
        (List.replicate 512 90 ++ List.replicate 512 0).length :=
  ⟨by decide,
   C6_key_is_sha1_of_trimmed_window.2.1 (List.replicate 512 90)
     (List.replicate 512 90 ++ List.replicate 512 0) (by decide) (by decide) (by decide)⟩

set_option maxRecDepth 1000000 in
/-- Claim C7 as stated fails: the buffer of one zero sector has a length that
is a multiple of 512, and its key differs from the key of the same buffer
followed by one more zero sector (the trimmed offsets are 512 and 1024). -/
theorem C7_zero_buffer_padding_changes_key :
    (List.replicate 512 0).length % 512 = 0 ∧
    get_sha1 (List.replicate 512 0 ++ List.replicate (512 * 1) 0)
        ((List.replicate 512 0).length + 512 * 1) ≠
      get_sha1 (List.replicate 512 0) (List.replicate 512 0).length := by
  decide

/-- Claim C7, amended: for every buffer `B` whose length is a multiple of 512
and that holds a non-zero byte, and every `k`, the key of `B` followed by `k`
zero sectors is the key of `B`. -/
theorem C7_padding_keeps_key (B : List Nat) (k : Nat) (hd : B.length % 512 = 0)
    (hb : ∃ b ∈ B, b ≠ 0) :
    get_sha1 (B ++ List.replicate (512 * k) 0) (B.length + 512 * k) = get_sha1 B B.length :=
  get_sha1_pad B k (Nat.dvd_of_mod_eq_zero hd) hb

/-- Claim C7, amended, at one sector of 0x5A padded with three zero sectors. -/
theorem C7_padding_witness :
    (List.replicate 512 90).length % 512 = 0 ∧ (∃ b ∈ List.replicate 512 90, b ≠ 0) ∧
    get_sha1 (List.replicate 512 90 ++ List.replicate (512 * 3) 0)
        ((List.replicate 512 90).length + 512 * 3) =
      get_sha1 (List.replicate 512 90) (List.replicate 512 90).length :=
  ⟨by rw [List.length_replicate], ⟨90, List.mem_replicate.mpr ⟨by decide, rfl⟩, by decide⟩,
   C7_padding_keeps_key (List.replicate 512 90) 3 (by rw [List.length_replicate])
     ⟨90, List.mem_replicate.mpr ⟨by decide, rfl⟩, by decide⟩⟩

/-- Claim C8, amended: when the store has no file under the key of `B` (a
buffer of length `n < 2^32`) and `sha1_file_write(B, n)` returns 0 with key
`k`, a `sha1_file_read(k)` that meets no read error returns exactly the bytes
of `B` with size `n`; and whatever `sha1_file_read` returns for a 20-byte key
has that key as its farm key. -/
theorem C8_read_after_fresh_write :
    (∀ (objdir : List Char) (fl fl2 : Faults) (st st1 : Store) (B : List Nat) (n : Nat)
        (k : List Nat),
      n = B.length → n < 4294967296 →
      st (sha1_to_path objdir (get_sha1 B n)) = none →
      sha1_file_write objdir fl st B n = Outcome.ret (0, some k) st1 →
      fl2.read_err = false →
      sha1_file_read objdir fl2 st1 k = some (B, n)) ∧
    (∀ (objdir : List Char) (fl : Faults) (st : Store) (k buf : List Nat) (size : Nat),
      k.length = SHA1_DIGEST_SIZE →
      sha1_file_read objdir fl st k = some (buf, size) →
      get_sha1 buf (u32 size) = k) := by
  constructor
  · intro objdir fl fl2 st st1 B n k hn hlt hnone hw hr
    obtain ⟨hk, hst⟩ := sha1_file_write_fresh_ok objdir fl st st1 B n k hn hlt hnone hw
    subst hk hst hn
    have hu : u32 B.length = B.length := u32_of_lt hlt
    simp [sha1_file_read, Store.set_same, hr, verify_sha1_file, hu]
  · intro objdir fl st k buf size hk h
    exact (sha1_file_read_sound objdir fl st k buf size hk h).1

/-- Claim C8, amended, at the one-byte buffer 0x5A written into the empty
store and read back. -/
theorem C8_read_after_fresh_write_witness :
    (1 : Nat) = [90].length ∧ (1 : Nat) < 4294967296 ∧
    Store.empty (sha1_to_path "/farm/objects".toList (get_sha1 [90] 1)) = none ∧
    sha1_file_write "/farm/objects".toList Faults.none Store.empty [90] 1 =
      Outcome.ret (0, some (get_sha1 [90] 1))
        (Store.empty.set (sha1_to_path "/farm/objects".toList (get_sha1 [90] 1))
          { data := [90], count := some 1 }) ∧
    Faults.none.read_err = false ∧
    sha1_file_read "/farm/objects".toList Faults.none
      (Store.empty.set (sha1_to_path "/farm/objects".toList (get_sha1 [90] 1))
        { data := [90], count := some 1 })
      (get_sha1 [90] 1) = some ([90], 1) :=
  ⟨rfl, by decide, rfl, sha1_file_write_fresh "/farm/objects".toList Store.empty [90] 1 rfl, rfl,
   C8_read_after_fresh_write.1 "/farm/objects".toList Faults.none Faults.none Store.empty _ [90] 1
     _ rfl (by decide) rfl (sha1_file_write_fresh "/farm/objects".toList Store.empty [90] 1 rfl)
     rfl⟩

/-- Claim C8 as stated fails: a write of the one-byte buffer 0x5A that is cut
short (`xwrite` returns 0) returns -1 and leaves an empty file under the key;
the next write of the same buffer finds that file, returns 0 with the key and
writes nothing; a read of the key then does not return the buffer. -/
theorem C8_write_returns_0_over_truncated_blob :
    sha1_file_write "/farm/objects".toList
        { open_err := false, short_write := some 0, unlink_err := false, xattr_err := false,
          read_err := false } Store.empty [90] 1 =
      Outcome.ret (-1, none)
        (Store.empty.set (sha1_to_path "/farm/objects".toList (get_sha1 [90] 1))
          { data := [], count := none }) ∧
    sha1_file_write "/farm/objects".toList Faults.none
        (Store.empty.set (sha1_to_path "/farm/objects".toList (get_sha1 [90] 1))
          { data := [], count := none }) [90] 1 =
      Outcome.ret (0, some (get_sha1 [90] 1))
        (Store.empty.set (sha1_to_path "/farm/objects".toList (get_sha1 [90] 1))
          { data := [], count := none }) ∧
    sha1_file_read "/farm/objects".toList Faults.none
        (Store.empty.set (sha1_to_path "/farm/objects".toList (get_sha1 [90] 1))
          { data := [], count := none }) (get_sha1 [90] 1) ≠ some ([90], 1) := by
  have hu : u32 1 = 1 := by decide
  refine ⟨?_, ?_, ?_⟩
  · simp [sha1_file_write, sha1_buffer_write, hu, Store.empty]
  · have h := sha1_file_write_existing "/farm/objects".toList Faults.none
      (Store.empty.set (sha1_to_path "/farm/objects".toList (get_sha1 [90] 1))
        { data := [], count := none }) [90] 1 { data := [], count := none }
      (by rw [hu]; exact Store.set_same _ _ _)
    rw [hu] at h
    exact h
  · intro h
    obtain ⟨_, _, f, hf, hd⟩ := sha1_file_read_sound _ _ _ _ _ _ (get_sha1_length _ _) h
    rw [Store.set_same] at hf
    simp only [Option.some.injEq] at hf
    rw [← hf] at hd
    exact absurd hd (by decide)

end Farm

/-! ## Part 14: theorems about the sockfd cache -/

namespace Sockfd

theorem memcmp_eq_zero (a b : List Nat) : memcmp a b = 0 ↔ a = b := by
  induction a generalizing b with
  | nil => cases b <;> simp [memcmp]
  | cons x xs ih =>
    cases b with
    | nil => simp [memcmp]
    | cons y ys =>
      simp only [memcmp, List.cons.injEq]
      by_cases h1 : x < y
      · simp [h1]; omega
      · by_cases h2 : y < x
        · simp [h1, h2]; omega
        · have : x = y := by omega
          simp [h1, h2, this, ih]

theorem node_id_cmp_eq_zero (a b : node_id) : node_id_cmp a b = 0 ↔ a = b := by
  constructor
  · intro h
    unfold node_id_cmp at h
    split at h
    · rename_i h1; exact absurd h h1
    · rename_i h1
      simp only [ne_eq, Decidable.not_not] at h1
      split at h
      · exact absurd h (by decide)
      · split at h
        · exact absurd h (by decide)
        · split at h
          · rename_i h4; exact absurd h h4
          · rename_i h2 h3 h4
            simp only [ne_eq, Decidable.not_not] at h4
            split at h
            · exact absurd h (by decide)
            · split at h
              · exact absurd h (by decide)
              · rename_i h5 h6
                cases a; cases b
                simp only [node_id.mk.injEq]
                simp only at h1 h2 h3 h4 h5 h6
                exact ⟨(memcmp_eq_zero _ _).mp h1, by omega, (memcmp_eq_zero _ _).mp h4, by omega⟩
  · intro h
    subst h
    simp [node_id_cmp, (memcmp_eq_zero _ _).mpr rfl]

theorem search_cons (t : sockfd_cache_entry) (ts : List sockfd_cache_entry) (nid : node_id) :
    sockfd_cache_search (t :: ts) nid =
      if t.nid = nid then some t else sockfd_cache_search ts nid := by
  simp only [sockfd_cache_search, List.find?_cons]
  by_cases h : t.nid = nid
  · simp [h, (node_id_cmp_eq_zero nid nid).mpr rfl]
  · have : ¬ node_id_cmp nid t.nid = 0 := fun hc => h ((node_id_cmp_eq_zero _ _).mp hc).symm
    simp [h, this]

theorem search_nil (nid : node_id) : sockfd_cache_search [] nid = none := rfl

theorem search_nid {root : List sockfd_cache_entry} {nid : node_id} {e : sockfd_cache_entry}
    (h : sockfd_cache_search root nid = some e) : e.nid = nid ∧ e ∈ root := by
  induction root with
  | nil => simp [search_nil] at h
  | cons t ts ih =>
    rw [search_cons] at h
    split at h
    · rename_i ht
      simp only [Option.some.injEq] at h
      subst h
      exact ⟨ht, List.mem_cons_self _ _⟩
    · exact ⟨(ih h).1, List.mem_cons_of_mem _ (ih h).2⟩

theorem modify_entry_cons (f : sockfd_cache_entry → sockfd_cache_entry) (nid : node_id)
    (t : sockfd_cache_entry) (ts : List sockfd_cache_entry) :
    modify_entry f nid (t :: ts) =
      if t.nid = nid then f t :: ts else t :: modify_entry f nid ts := by
  simp only [modify_entry]
  by_cases h : t.nid = nid
  · simp [h, (node_id_cmp_eq_zero nid nid).mpr rfl]
  · have : ¬ node_id_cmp nid t.nid = 0 := fun hc => h ((node_id_cmp_eq_zero _ _).mp hc).symm
    simp [h, this]

/-- Searching after a write through the pointer of `nid`. -/
theorem search_modify_entry (f : sockfd_cache_entry → sockfd_cache_entry) (nid nid2 : node_id)
    (root : List sockfd_cache_entry) (hf : ∀ e, e.nid = nid → (f e).nid = nid) :
    sockfd_cache_search (modify_entry f nid root) nid2 =
      if nid2 = nid then (sockfd_cache_search root nid).map f
      else sockfd_cache_search root nid2 := by
  induction root with
  | nil => simp [modify_entry, search_nil]
  | cons t ts ih =>
    rw [modify_entry_cons]
    by_cases ht : t.nid = nid
    · simp only [ht, if_true, search_cons, hf t ht]
      by_cases h2 : nid2 = nid
      · simp [h2]
      · have : ¬ nid = nid2 := fun h => h2 h.symm
        simp [h2, this]
    · simp only [ht, if_false, search_cons, ih]
      by_cases h2 : nid2 = nid
      · subst h2; simp [ht]
      · simp [h2]

theorem modify_entry_self (nid : node_id) (root : List sockfd_cache_entry)
    (e : sockfd_cache_entry) (h : sockfd_cache_search root nid = some e) :
    modify_entry (fun _ => e) nid root = root := by
  induction root with
  | nil => rfl
  | cons t ts ih =>
    rw [modify_entry_cons]
    rw [search_cons] at h
    by_cases ht : t.nid = nid
    · simp only [ht, if_true, Option.some.injEq] at h
      subst h
      simp [ht]
    · simp only [ht, if_false] at h
      simp [ht, ih h]

theorem rb_erase_cons (nid : node_id) (t : sockfd_cache_entry) (ts : List sockfd_cache_entry) :
    rb_erase (t :: ts) nid = if t.nid = nid then ts else t :: rb_erase ts nid := by
  simp only [rb_erase, List.eraseP_cons]
  by_cases h : t.nid = nid
  · simp [h, (node_id_cmp_eq_zero nid nid).mpr rfl]
  · have : ¬ node_id_cmp nid t.nid = 0 := fun hc => h ((node_id_cmp_eq_zero _ _).mp hc).symm
    simp [h, this]

theorem search_rb_erase_other (nid nid2 : node_id) (root : List sockfd_cache_entry)
    (h : nid2 ≠ nid) :
    sockfd_cache_search (rb_erase root nid) nid2 = sockfd_cache_search root nid2 := by
  induction root with
  | nil => rfl
  | cons t ts ih =>
    rw [rb_erase_cons]
    by_cases ht : t.nid = nid
    · have h3 : ¬ nid = nid2 := fun h2 => h h2.symm
      simp [ht, search_cons, h3]
    · simp [ht, search_cons, ih]

theorem search_none_iff (root : List sockfd_cache_entry) (nid : node_id) :
    sockfd_cache_search root nid = none ↔ ∀ e ∈ root, e.nid ≠ nid := by
  induction root with
  | nil => simp [search_nil]
  | cons t ts ih =>
    rw [search_cons]
    by_cases ht : t.nid = nid
    · simp [ht]
    · simp [ht, ih]

theorem search_rb_erase_same (nid : node_id) (root : List sockfd_cache_entry)
    (hnd : (root.map (fun e => e.nid)).Nodup) :
    sockfd_cache_search (rb_erase root nid) nid = none := by
  induction root with
  | nil => rfl
  | cons t ts ih =>
    rw [rb_erase_cons]
    simp only [List.map_cons, List.nodup_cons] at hnd
    by_cases ht : t.nid = nid
    · simp only [ht, if_true]
      rw [search_none_iff]
      intro e he hc
      apply hnd.1
      rw [ht, ← hc]
      exact List.mem_map_of_mem (fun e => e.nid) he
    · simp [ht, search_cons, ih hnd.2]

theorem search_append_single (root : List sockfd_cache_entry) (new : sockfd_cache_entry)
    (nid : node_id) :
    sockfd_cache_search (root ++ [new]) nid =
      match sockfd_cache_search root nid with
      | some e => some e
      | none => if new.nid = nid then some new else none := by
  induction root with
  | nil => simp [search_cons, search_nil]
  | cons t ts ih =>
    simp only [List.cons_append, search_cons]
    by_cases ht : t.nid = nid
    · simp [ht]
    · simp [ht, ih]

theorem search_map (g : sockfd_cache_entry → sockfd_cache_entry) (root : List sockfd_cache_entry)
    (nid : node_id) (hg : ∀ e, (g e).nid = e.nid) :
    sockfd_cache_search (root.map g) nid = (sockfd_cache_search root nid).map g := by
  induction root with
  | nil => rfl
  | cons t ts ih =>
    simp only [List.map_cons, search_cons, hg]
    by_cases ht : t.nid = nid
    · simp [ht]
    · simp [ht, ih]

theorem slots_of_root {s t : State} (h : t.root = s.root) (nid : node_id) :
    slots t nid = slots s nid := by
  simp [slots, h]

theorem slot_busy_of_root {s t : State} (h : t.root = s.root) (nid : node_id) (idx : Int) :
    slot_busy t nid idx = slot_busy s nid idx := by
  simp [slot_busy, slots_of_root h]

theorem extends_refl (s : State) : extends_slots s s := ⟨rfl, fun _ _ h => h⟩

theorem extends_trans {s t u : State} (h1 : extends_slots s t) (h2 : extends_slots t u) :
    extends_slots s u :=
  ⟨h2.1.trans h1.1, fun nid idx h => h2.2 nid idx (h1.2 nid idx h)⟩

theorem extends_of_root {s t : State} (h : t.root = s.root) (hc : t.fds_count = s.fds_count) :
    extends_slots s t :=
  ⟨hc, fun nid idx hb => by rw [slot_busy_of_root h]; exact hb⟩

theorem len_ok_of_root {s t : State} (h : t.root = s.root) (hc : t.fds_count = s.fds_count)
    (hl : len_ok s) : len_ok t := by
  intro e he
  rw [h] at he
  rw [hc]
  exact hl e he

theorem mem_modify_entry {f : sockfd_cache_entry → sockfd_cache_entry} {nid : node_id}
    {root : List sockfd_cache_entry} {e : sockfd_cache_entry}
    (h : e ∈ modify_entry f nid root) : e ∈ root ∨ ∃ e0 ∈ root, e = f e0 := by
  induction root with
  | nil => simp [modify_entry] at h
  | cons t ts ih =>
    rw [modify_entry_cons] at h
    split at h
    · rcases List.mem_cons.mp h with h | h
      · exact Or.inr ⟨t, List.mem_cons_self _ _, h⟩
      · exact Or.inl (List.mem_cons_of_mem _ h)
    · rcases List.mem_cons.mp h with h | h
      · exact Or.inl (h ▸ List.mem_cons_self _ _)
      · rcases ih h with h | ⟨e0, h0, h1⟩
        · exact Or.inl (List.mem_cons_of_mem _ h)
        · exact Or.inr ⟨e0, List.mem_cons_of_mem _ h0, h1⟩

theorem slots_set_slot (s : State) (nid nid2 : node_id) (idx : Int)
    (f : sockfd_cache_fd → sockfd_cache_fd) :
    slots (set_slot s nid idx f) nid2 =
      if nid2 = nid then (slots s nid).map (fun fds => fds.modify f idx.toNat)
      else slots s nid2 := by
  simp only [slots, set_slot]
  rw [search_modify_entry (fun entry => { entry with fds := entry.fds.modify f idx.toNat })
    nid nid2 s.root (fun _ h => h)]
  split
  · cases sockfd_cache_search s.root nid <;> rfl
  · rfl

theorem len_ok_set_slot (s : State) (nid : node_id) (idx : Int)
    (f : sockfd_cache_fd → sockfd_cache_fd) (hl : len_ok s) : len_ok (set_slot s nid idx f) := by
  intro e he
  simp only [set_slot] at he ⊢
  rcases mem_modify_entry he with h | ⟨e0, h0, h1⟩
  · exact hl e h
  · subst h1
    simp only [List.length_modify]
    exact hl e0 h0

/-! ### `get_free_slot` -/

theorem get_free_slot_from_spec (fds : List sockfd_cache_fd) (n i : Nat) :
    ((get_free_slot_from fds i n).1 = -1 ∧ (get_free_slot_from fds i n).2 = fds ∧
        ∀ j slot, i ≤ j → j < i + n → fds[j]? = some slot → slot.in_use = true) ∨
      ∃ (j : Nat) (slot : sockfd_cache_fd),
        (get_free_slot_from fds i n).1 = (j : Int) ∧ i ≤ j ∧ j < i + n ∧
        fds[j]? = some slot ∧ slot.in_use = false ∧
        (get_free_slot_from fds i n).2 = fds.set j { slot with in_use := true } ∧
        ∀ k slot2, i ≤ k → k < j → fds[k]? = some slot2 → slot2.in_use = true := by
  induction n generalizing i with
  | zero =>
    left
    refine ⟨rfl, rfl, ?_⟩
    intro j slot h1 h2; omega
  | succ m ih =>
    unfold get_free_slot_from
    cases hi : fds[i]? with
    | none =>
      simp only
      rcases ih (i + 1) with ⟨h1, h2, h3⟩ | ⟨j, slot, h1, h2, h3, h4, h5, h6, h7⟩
      · left
        refine ⟨h1, h2, ?_⟩
        intro j slot hj1 hj2 hj3
        by_cases hji : j = i
        · subst hji; rw [hi] at hj3; exact absurd hj3 (by simp)
        · exact h3 j slot (by omega) (by omega) hj3
      · right
        refine ⟨j, slot, h1, by omega, by omega, h4, h5, h6, ?_⟩
        intro k slot2 hk1 hk2 hk3
        by_cases hki : k = i
        · subst hki; rw [hi] at hk3; exact absurd hk3 (by simp)
        · exact h7 k slot2 (by omega) hk2 hk3
    | some sl =>
      simp only
      cases hu : sl.in_use with
      | true =>
        simp only [if_true]
        rcases ih (i + 1) with ⟨h1, h2, h3⟩ | ⟨j, slot, h1, h2, h3, h4, h5, h6, h7⟩
        · left
          refine ⟨h1, h2, ?_⟩
          intro j slot hj1 hj2 hj3
          by_cases hji : j = i
          · subst hji; rw [hi] at hj3
            simp only [Option.some.injEq] at hj3
            rw [← hj3]; exact hu
          · exact h3 j slot (by omega) (by omega) hj3
        · right
          refine ⟨j, slot, h1, by omega, by omega, h4, h5, h6, ?_⟩
          intro k slot2 hk1 hk2 hk3
          by_cases hki : k = i
          · subst hki; rw [hi] at hk3
            simp only [Option.some.injEq] at hk3
            rw [← hk3]; exact hu
          · exact h7 k slot2 (by omega) hk2 hk3
      | false =>
        right
        refine ⟨i, sl, by simp, le_refl _, by omega, hi, hu, by simp, ?_⟩
        intro k slot2 hk1 hk2; omega

/-- What `sockfd_cache_grab` does when it returns NULL: nothing. -/
theorem grab_none {s s1 : State} {nid : node_id}
    (h : sockfd_cache_grab s nid = (none, s1)) : s1 = s := by
  unfold sockfd_cache_grab at h
  split at h
  · simp only [Prod.mk.injEq, true_and] at h; exact h.symm
  · rename_i entry he
    dsimp only at h
    split at h
    · rename_i h1
      simp only [Prod.mk.injEq, true_and] at h
      rw [← h]
      simp only [get_free_slot] at h1 ⊢
      rcases get_free_slot_from_spec entry.fds s.fds_count 0 with ⟨_, h2, _⟩ | ⟨j, slot, h2, _⟩
      · rw [h2]
        have : modify_entry (fun _ => { entry with fds := entry.fds }) nid s.root = s.root :=
          modify_entry_self nid s.root entry he
        simp only [this]
      · rw [h2] at h1
        omega
    · simp at h

/-- What `sockfd_cache_grab` does when it returns an entry: the slot `idx`
was free and is now in use, nothing else changed. -/
theorem grab_some {s s1 : State} {nid : node_id} {idx : Int}
    (h : sockfd_cache_grab s nid = (some idx, s1)) :
    ∃ (j : Nat) (entry : sockfd_cache_entry) (slot : sockfd_cache_fd),
      idx = (j : Int) ∧ j < s.fds_count ∧ sockfd_cache_search s.root nid = some entry ∧
      entry.fds[j]? = some slot ∧ slot.in_use = false ∧
      (∀ k slot2, k < j → entry.fds[k]? = some slot2 → slot2.in_use = true) ∧
      s1 = { s with root := (modify_entry
        (fun _ => { entry with fds := entry.fds.set j { slot with in_use := true } })
        nid s.root) } := by
  unfold sockfd_cache_grab at h
  split at h
  · simp at h
  · rename_i entry he
    dsimp only at h
    split at h
    · simp at h
    · rename_i h1
      simp only [Prod.mk.injEq, Option.some.injEq] at h
      simp only [get_free_slot] at h h1
      rcases get_free_slot_from_spec entry.fds s.fds_count 0 with ⟨h2, _⟩ | ⟨j, slot, h2, h3, h4, h5, h6, h7, h8⟩
      · exact absurd h2 h1
      · refine ⟨j, entry, slot, ?_, by omega, he, h5, h6, ?_, ?_⟩
        · rw [← h.1, h2]
        · intro k slot2 hk; exact h8 k slot2 (Nat.zero_le _) hk
        · rw [← h.2, h7]

/-! ### Adding a node -/

theorem add_eq (s : State) (nid : node_id) :
    sockfd_cache_add s nid =
      match sockfd_cache_search s.root nid with
      | some _ => s
      | none => { s with root := s.root ++ [new_entry s.fds_count nid], count := s.count + 1 } := by
  simp only [sockfd_cache_add, sockfd_cache_insert, new_entry]
  cases sockfd_cache_search s.root nid <;> rfl

theorem add_nolock_eq_add (s : State) (nid : node_id) :
    sockfd_cache_add_nolock s nid = sockfd_cache_add s nid := rfl

theorem add_fds_count (s : State) (nid : node_id) :
    (sockfd_cache_add s nid).fds_count = s.fds_count := by
  rw [add_eq]; cases sockfd_cache_search s.root nid <;> rfl

theorem slots_add (s : State) (nid nid2 : node_id) :
    slots (sockfd_cache_add s nid) nid2 =
      match slots s nid2 with
      | some fds => some fds
      | none =>
        if nid2 = nid ∧ slots s nid = none then
          some (List.replicate s.fds_count { fd := -1, in_use := false })
        else none := by
  rw [add_eq]
  cases h : sockfd_cache_search s.root nid with
  | some e =>
    simp only [slots, h]
    cases h2 : sockfd_cache_search s.root nid2 with
    | some e2 => rfl
    | none => simp
  | none =>
    simp only [slots, search_append_single, h, new_entry]
    cases h2 : sockfd_cache_search s.root nid2 with
    | some e2 => rfl
    | none =>
      by_cases hn : nid2 = nid
      · simp [hn]
      · have : ¬ nid = nid2 := fun h => hn h.symm
        simp [hn, this]

theorem extends_add (s : State) (nid : node_id) : extends_slots s (sockfd_cache_add s nid) := by
  refine ⟨add_fds_count s nid, ?_⟩
  intro nid2 idx hb
  simp only [slot_busy, slots_add] at hb ⊢
  cases h : slots s nid2 with
  | some fds => simpa [h] using hb
  | none => simp [h] at hb

theorem len_ok_add (s : State) (nid : node_id) (hl : len_ok s) :
    len_ok (sockfd_cache_add s nid) := by
  rw [add_eq]
  cases h : sockfd_cache_search s.root nid with
  | some e => exact hl
  | none =>
    intro e he
    simp only [List.mem_append, List.mem_singleton] at he
    rcases he with he | he
    · exact hl e he
    · subst he; simp [new_entry]

/-! ### Probing a node -/

theorem revalidate_cases (net : Net) (s : State) (nid : node_id) :
    ∃ s0, s0.root = s.root ∧ s0.fds_count = s.fds_count ∧ s0.count = s.count ∧
      (revalidate_node net s nid = (false, s0) ∨
        revalidate_node net s nid = (true, sockfd_cache_add s0 nid)) := by
  unfold revalidate_node
  simp only [connect_to_addr, revalidate_alive, close]
  split
  · split
    · refine ⟨_, ?_, ?_, ?_, Or.inr rfl⟩ <;> rfl
    · split
      · refine ⟨_, ?_, ?_, ?_, Or.inl rfl⟩ <;> rfl
      · refine ⟨_, ?_, ?_, ?_, Or.inr rfl⟩ <;> rfl
  · split
    · refine ⟨_, ?_, ?_, ?_, Or.inl rfl⟩ <;> rfl
    · refine ⟨_, ?_, ?_, ?_, Or.inr rfl⟩ <;> rfl

theorem revalidate_ok (net : Net) (s : State) (nid : node_id) :
    (len_ok s → len_ok (revalidate_node net s nid).2) ∧
      extends_slots s (revalidate_node net s nid).2 := by
  obtain ⟨s0, h1, h2, _, h | h⟩ := revalidate_cases net s nid
  · rw [h]
    exact ⟨len_ok_of_root h1 h2, extends_of_root h1 h2⟩
  · rw [h]
    exact ⟨fun hl => len_ok_add _ _ (len_ok_of_root h1 h2 hl),
      extends_trans (extends_of_root h1 h2) (extends_add _ _)⟩

/-! ### After a grab -/

theorem check_idx_root (s : State) (idx : Int) :
    (check_idx s idx).root = s.root ∧ (check_idx s idx).fds_count = s.fds_count ∧
      (check_idx s idx).count = s.count ∧ (check_idx s idx).clock = s.clock ∧
      (check_idx s idx).closed = s.closed := by
  unfold check_idx
  split
  · exact ⟨rfl, rfl, rfl, rfl, rfl⟩
  · split <;> exact ⟨rfl, rfl, rfl, rfl, rfl⟩

/-- A state whose slot arrays are those of `s` but for the array of `nid`,
which differs at most in slot `j`, a slot that is free in `s`. -/
theorem extends_but_free_slot {s t : State} {nid : node_id} {entry : sockfd_cache_entry}
    {j : Nat} {slot : sockfd_cache_fd} {fds2 : List sockfd_cache_fd}
    (hs : sockfd_cache_search s.root nid = some entry) (hj : entry.fds[j]? = some slot)
    (hfree : slot.in_use = false) (hc : t.fds_count = s.fds_count)
    (ht : ∀ nid2, slots t nid2 = if nid2 = nid then some fds2 else slots s nid2)
    (hk : ∀ k, k ≠ j → fds2[k]? = entry.fds[k]?) : extends_slots s t := by
  refine ⟨hc, ?_⟩
  intro nid2 idx hb
  simp only [slot_busy, ht] at hb ⊢
  by_cases hn : nid2 = nid
  · subst hn
    simp only [slots, hs, Option.map_some'] at hb
    simp only [if_true]
    have hne : idx.toNat ≠ j := by
      intro he
      rw [he, hj] at hb
      simp only [hfree] at hb
      exact absurd hb (by decide)
    rw [hk _ hne]
    exact hb
  · simpa [hn] using hb

theorem slot_busy_free {s : State} {nid : node_id} {entry : sockfd_cache_entry}
    {j : Nat} {slot : sockfd_cache_fd}
    (hs : sockfd_cache_search s.root nid = some entry) (hj : entry.fds[j]? = some slot)
    (hfree : slot.in_use = false) : slot_busy s nid (j : Int) = false := by
  simp [slot_busy, slots, hs, hj, hfree]

theorem slot_busy_of_slots {t : State} {nid : node_id} {fds2 : List sockfd_cache_fd}
    {j : Nat} {slot2 : sockfd_cache_fd} (ht : slots t nid = some fds2)
    (hj : fds2[j]? = some slot2) (hb : slot2.in_use = true) :
    slot_busy t nid (j : Int) = true := by
  simp [slot_busy, ht, hj, hb]

/-- The state right after a grab of slot `j`. -/
theorem slots_grabbed (s : State) (nid nid2 : node_id) (entry : sockfd_cache_entry) (j : Nat)
    (slot : sockfd_cache_fd) (hs : sockfd_cache_search s.root nid = some entry) :
    slots { s with root := (modify_entry
        (fun _ => { entry with fds := entry.fds.set j { slot with in_use := true } })
        nid s.root) } nid2 =
      if nid2 = nid then some (entry.fds.set j { slot with in_use := true })
      else slots s nid2 := by
  simp only [slots]
  rw [search_modify_entry
    (fun _ => { entry with fds := entry.fds.set j { slot with in_use := true } })
    nid nid2 s.root (fun _ _ => (search_nid hs).1)]
  split
  · simp [hs]
  · rfl

theorem len_ok_grabbed (s : State) (nid : node_id) (entry : sockfd_cache_entry) (j : Nat)
    (slot : sockfd_cache_fd) (hs : sockfd_cache_search s.root nid = some entry)
    (hl : len_ok s) :
    len_ok { s with root := (modify_entry
        (fun _ => { entry with fds := entry.fds.set j { slot with in_use := true } })
        nid s.root) } := by
  intro e he
  rcases mem_modify_entry he with h | ⟨e0, h0, h1⟩
  · exact hl e h
  · subst h1
    simp only [List.length_set]
    exact hl entry (search_nid hs).2

/-- A state reached after slot `j` of `nid` was grabbed in `s` and the slot
was then written through `g`: the slot arrays are those of `s` but for that
slot. -/
theorem after_grab {s sk : State} {nid : node_id} {entry : sockfd_cache_entry} {j : Nat}
    {slot : sockfd_cache_fd} (g : sockfd_cache_fd → sockfd_cache_fd)
    (hs : sockfd_cache_search s.root nid = some entry) (hj : entry.fds[j]? = some slot)
    (hfree : slot.in_use = false)
    (hroot : sk.root = modify_entry
      (fun _ => { entry with fds := entry.fds.set j { slot with in_use := true } }) nid s.root)
    (hc : sk.fds_count = s.fds_count) :
    (len_ok s → len_ok (set_slot sk nid (j : Int) g)) ∧
      extends_slots s (set_slot sk nid (j : Int) g) ∧
      slot_busy s nid (j : Int) = false ∧
      slot_busy (set_slot sk nid (j : Int) g) nid (j : Int) =
        (g { slot with in_use := true }).in_use := by
  have hjlt : j < entry.fds.length := by
    rcases List.getElem?_eq_some.mp hj with ⟨h, _⟩; exact h
  have hsk : ∀ nid2, slots sk nid2 =
      if nid2 = nid then some (entry.fds.set j { slot with in_use := true })
      else slots s nid2 := by
    intro nid2
    rw [← slots_grabbed s nid nid2 entry j slot hs]
    simp only [slots, hroot]
  have ht : ∀ nid2, slots (set_slot sk nid (j : Int) g) nid2 =
      if nid2 = nid then
        some ((entry.fds.set j { slot with in_use := true }).modify g j)
      else slots s nid2 := by
    intro nid2
    rw [slots_set_slot]
    by_cases hn : nid2 = nid
    · simp [hn, hsk]
    · simp [hn, hsk]
  refine ⟨?_, ?_, slot_busy_free hs hj hfree, ?_⟩
  · intro hl
    apply len_ok_set_slot
    intro e he
    rw [hroot] at he
    rw [hc]
    exact len_ok_grabbed s nid entry j slot hs hl e he
  · apply extends_but_free_slot hs hj hfree (by simp [set_slot, hc]) ht
    intro k hk
    rw [List.getElem?_modify, List.getElem?_set_ne (Ne.symm hk)]
    simp [Ne.symm hk]
  · simp only [slot_busy, ht, if_true, Int.toNat_ofNat, List.getElem?_modify,
      List.getElem?_set_self hjlt]
    simp

theorem modify_id {α : Type} (n : Nat) (l : List α) : List.modify (fun x => x) n l = l := by
  apply List.ext_getElem?
  intro m
  rw [List.getElem?_modify]
  cases l[m]? <;> simp

theorem set_slot_id (s : State) (nid : node_id) (idx : Int) :
    set_slot s nid idx (fun slot => slot) = s := by
  have h : ∀ root : List sockfd_cache_entry,
      modify_entry (fun entry => { entry with fds := entry.fds.modify (fun slot => slot) idx.toNat })
        nid root = root := by
    intro root
    induction root with
    | nil => rfl
    | cons t ts ih =>
      rw [modify_entry_cons]
      split
      · simp [modify_id]
      · rw [ih]
  simp only [set_slot, h]

/-- The shape of what the connecting part of `sockfd_cache_get` returns. -/
theorem get_connect_shape (net : Net) (s : State) (nid : node_id) (idx : Int) :
    ∃ (sk : State) (g : sockfd_cache_fd → sockfd_cache_fd),
      (sockfd_cache_get_connect net s nid idx).2 = set_slot sk nid idx g ∧
      sk.root = s.root ∧ sk.fds_count = s.fds_count ∧
      ∀ h, (sockfd_cache_get_connect net s nid idx).1 = get_result.sfd h →
        h.idx = idx ∧ ∀ x, (g x).in_use = x.in_use := by
  unfold sockfd_cache_get_connect
  simp only [connect_to, connect_to_addr, sockfd_cache_get_new]
  split_ifs
  · refine ⟨_, _, rfl, rfl, rfl, ?_⟩
    intro h hh
    simp only [get_result.sfd.injEq] at hh
    subst hh
    exact ⟨rfl, fun _ => rfl⟩
  · refine ⟨_, _, rfl, rfl, rfl, ?_⟩
    intro h hh
    simp at hh
  · refine ⟨_, _, rfl, rfl, rfl, ?_⟩
    intro h hh
    simp at hh
  · refine ⟨_, _, rfl, rfl, rfl, ?_⟩
    intro h hh
    simp only [get_result.sfd.injEq] at hh
    subst hh
    exact ⟨rfl, fun _ => rfl⟩

/-- What `sockfd_cache_get` does to the slot arrays, and that the slot of the
handle it returns was free before and is in use after. -/
theorem sockfd_cache_get_ok (net : Net) (nid : node_id) (rounds : Nat) (s : State) :
    (len_ok s → len_ok (sockfd_cache_get net rounds s nid).2) ∧
      extends_slots s (sockfd_cache_get net rounds s nid).2 ∧
      ∀ h, (sockfd_cache_get net rounds s nid).1 = get_result.sfd h →
        0 ≤ h.idx ∧ slot_busy s nid h.idx = false ∧
          slot_busy (sockfd_cache_get net rounds s nid).2 nid h.idx = true := by
  induction rounds generalizing s with
  | zero =>
    refine ⟨fun h => h, extends_refl s, ?_⟩
    intro h hh
    simp [sockfd_cache_get] at hh
  | succ n ih =>
    rw [sockfd_cache_get]
    split
    · rename_i s1 hg
      have h1 := grab_none hg
      subst h1
      have hrv := revalidate_ok net s1 nid
      split
      · rename_i s2 hr
        rw [hr] at hrv
        refine ⟨hrv.1, hrv.2, ?_⟩
        intro h hh
        simp at hh
      · rename_i s2 hr
        rw [hr] at hrv
        obtain ⟨i1, i2, i3⟩ := ih s2
        refine ⟨fun hl => i1 (hrv.1 hl), extends_trans hrv.2 i2, ?_⟩
        intro h hh
        obtain ⟨j1, j2, j3⟩ := i3 h hh
        refine ⟨j1, ?_, j3⟩
        cases hb : slot_busy s1 nid h.idx with
        | false => rfl
        | true =>
          have := hrv.2.2 nid h.idx hb
          rw [j2] at this
          exact absurd this (by decide)
    · rename_i idx s1 hg
      obtain ⟨j, entry, slot, hidx, hjlt, hs, hj, hfree, _, hs1⟩ := grab_some hg
      subst hidx
      have hck := check_idx_root s1 (j : Int)
      have hroot2 : (check_idx s1 (j : Int)).root = modify_entry
          (fun _ => { entry with fds := entry.fds.set j { slot with in_use := true } })
          nid s.root := by
        rw [hck.1, hs1]
      have hc2 : (check_idx s1 (j : Int)).fds_count = s.fds_count := by
        rw [hck.2.1, hs1]
      split
      · -- a cached connection
        have ha := after_grab (fun slot => slot) hs hj hfree hroot2 hc2
        rw [set_slot_id] at ha
        refine ⟨ha.1, ha.2.1, ?_⟩
        intro h hh
        simp only [get_result.sfd.injEq] at hh
        subst hh
        exact ⟨Int.ofNat_nonneg j, ha.2.2.1, ha.2.2.2⟩
      · obtain ⟨sk, g, e1, e2, e3, e4⟩ :=
          get_connect_shape net (check_idx s1 (j : Int)) nid (j : Int)
        have ha := after_grab g hs hj hfree (e2.trans hroot2) (e3.trans hc2)
        rw [e1]
        refine ⟨ha.1, ha.2.1, ?_⟩
        intro h hh
        obtain ⟨k1, k2⟩ := e4 h hh
        rw [k1]
        refine ⟨Int.ofNat_nonneg j, ha.2.2.1, ?_⟩
        rw [ha.2.2.2, k2]

/-- The same for `sheep_get_sockfd`, whose handle may also be a one-shot one. -/
theorem sheep_get_sockfd_ok (net : Net) (nid : node_id) (rounds : Nat) (s : State) :
    (len_ok s → len_ok (sheep_get_sockfd net rounds s nid).2) ∧
      extends_slots s (sheep_get_sockfd net rounds s nid).2 ∧
      ∀ h, (sheep_get_sockfd net rounds s nid).1 = get_result.sfd h →
        (h.idx = -1 ∨ 0 ≤ h.idx) ∧
        (0 ≤ h.idx → slot_busy s nid h.idx = false ∧
          slot_busy (sheep_get_sockfd net rounds s nid).2 nid h.idx = true) := by
  obtain ⟨i1, i2, i3⟩ := sockfd_cache_get_ok net nid rounds s
  unfold sheep_get_sockfd
  split
  · rename_i h0 s1 hg
    rw [hg] at i1 i2 i3
    refine ⟨i1, i2, ?_⟩
    intro h hh
    simp only [get_result.sfd.injEq] at hh
    subst hh
    exact ⟨Or.inr (i3 h0 rfl).1, fun _ => (i3 h0 rfl).2⟩
  · rename_i s1 hg
    rw [hg] at i1 i2 i3
    refine ⟨i1, i2, ?_⟩
    intro h hh
    simp at hh
  · rename_i s1 hg
    rw [hg] at i1 i2 i3
    simp only [connect_to_addr]
    split
    · refine ⟨fun hl => len_ok_of_root rfl rfl (i1 hl),
        extends_trans i2 (extends_of_root rfl rfl), ?_⟩
      intro h hh
      simp at hh
    · refine ⟨fun hl => len_ok_of_root rfl rfl (i1 hl),
        extends_trans i2 (extends_of_root rfl rfl), ?_⟩
      intro h hh
      simp only [get_result.sfd.injEq] at hh
      subst hh
      refine ⟨Or.inl rfl, ?_⟩
      intro hc
      have hc2 : (0 : Int) ≤ -1 := hc
      exact absurd hc2 (by decide)

/-! ### Releasing a slot -/

/-- Writing slot `idx` of `nid` leaves the in-use mark of every other slot. -/
theorem slot_busy_set_slot_other (s : State) (nid nid2 : node_id) (idx idx2 : Int)
    (g : sockfd_cache_fd → sockfd_cache_fd) (h : ¬ (nid2 = nid ∧ idx2.toNat = idx.toNat)) :
    slot_busy (set_slot s nid idx g) nid2 idx2 = slot_busy s nid2 idx2 := by
  simp only [slot_busy, slots_set_slot]
  by_cases hn : nid2 = nid
  · subst hn
    have hne : idx.toNat ≠ idx2.toNat := fun he => h ⟨rfl, he.symm⟩
    cases hs : slots s nid2 with
    | none => simp
    | some fds =>
      simp only [if_true, Option.map_some', List.getElem?_modify, hne, if_false]
      cases fds[idx2.toNat]? <;> rfl
  · simp [hn]

theorem put_root_cases (s : State) (nid : node_id) (idx : Int) :
    sockfd_cache_put s nid idx = s ∨
      sockfd_cache_put s nid idx = set_slot s nid idx (fun slot => { slot with in_use := false }) := by
  unfold sockfd_cache_put
  split
  · exact Or.inr rfl
  · exact Or.inl rfl

theorem close_cases (s : State) (nid : node_id) (idx : Int) :
    sockfd_cache_close s nid idx = s ∨
      sockfd_cache_close s nid idx =
        set_slot (close s (slot_fd s nid idx)) nid idx (fun _ => { fd := -1, in_use := false }) := by
  unfold sockfd_cache_close
  split
  · exact Or.inr rfl
  · exact Or.inl rfl

/-! ### Destroying an entry -/

theorem destroy_all_slots_root (s : State) (entry : sockfd_cache_entry) :
    (destroy_all_slots s entry).root = s.root ∧
      (destroy_all_slots s entry).fds_count = s.fds_count ∧
      (destroy_all_slots s entry).count = s.count := by
  unfold destroy_all_slots
  generalize List.range s.fds_count = l
  have : ∀ (l : List Nat) (st : State),
      (l.foldl (fun st i =>
        match entry.fds[i]? with
        | some slot => if slot.fd ≠ -1 then close st slot.fd else st
        | none => st) st).root = st.root ∧
      (l.foldl (fun st i =>
        match entry.fds[i]? with
        | some slot => if slot.fd ≠ -1 then close st slot.fd else st
        | none => st) st).fds_count = st.fds_count ∧
      (l.foldl (fun st i =>
        match entry.fds[i]? with
        | some slot => if slot.fd ≠ -1 then close st slot.fd else st
        | none => st) st).count = st.count := by
    intro l
    induction l with
    | nil => intro st; exact ⟨rfl, rfl, rfl⟩
    | cons a as ih =>
      intro st
      simp only [List.foldl_cons]
      obtain ⟨h1, h2, h3⟩ := ih (match entry.fds[a]? with
        | some slot => if slot.fd ≠ -1 then close st slot.fd else st
        | none => st)
      rw [h1, h2, h3]
      cases entry.fds[a]? with
      | none => exact ⟨rfl, rfl, rfl⟩
      | some slot =>
        simp only
        split <;> exact ⟨rfl, rfl, rfl⟩
  exact this l s

theorem del_cases (s : State) (nid : node_id) :
    sockfd_cache_del s nid = s ∨
      ∃ entry, sockfd_cache_search s.root nid = some entry ∧
        slots_all_free s.fds_count entry = true ∧
        (sockfd_cache_del s nid).root = rb_erase s.root nid ∧
        (sockfd_cache_del s nid).fds_count = s.fds_count ∧
        (sockfd_cache_del s nid).count = s.count - 1 := by
  unfold sockfd_cache_del sockfd_cache_destroy
  cases hs : sockfd_cache_search s.root nid with
  | none => exact Or.inl rfl
  | some entry =>
    simp only
    cases hf : slots_all_free s.fds_count entry with
    | false => exact Or.inl rfl
    | true =>
      right
      refine ⟨entry, rfl, hf, ?_⟩
      simp only [Bool.not_true, Bool.false_eq_true, if_false]
      obtain ⟨h1, h2, h3⟩ := destroy_all_slots_root { s with root := rb_erase s.root nid } entry
      exact ⟨h1, h2, by rw [h3]⟩

/-- A slot in use keeps the entry from being destroyed. -/
theorem not_all_free_of_busy {s : State} {nid : node_id} {idx : Int}
    {entry : sockfd_cache_entry} (hl : len_ok s)
    (hs : sockfd_cache_search s.root nid = some entry) (hb : slot_busy s nid idx = true) :
    slots_all_free s.fds_count entry = false := by
  simp only [slot_busy, slots, hs, Option.map_some'] at hb
  cases hi : entry.fds[idx.toNat]? with
  | none => simp [hi] at hb
  | some slot =>
    simp only [hi] at hb
    have hlt : idx.toNat < s.fds_count := by
      rw [← hl entry (search_nid hs).2]
      rcases List.getElem?_eq_some.mp hi with ⟨h, _⟩; exact h
    cases hf : slots_all_free s.fds_count entry with
    | false => rfl
    | true =>
      simp only [slots_all_free, List.all_eq_true, List.mem_range] at hf
      have := hf idx.toNat hlt
      simp [hi, hb] at this

theorem del_ok (s : State) (nid : node_id) (hl : len_ok s) :
    len_ok (sockfd_cache_del s nid) ∧ extends_slots s (sockfd_cache_del s nid) := by
  rcases del_cases s nid with h | ⟨entry, hs, hf, h1, h2, _⟩
  · rw [h]; exact ⟨hl, extends_refl s⟩
  · constructor
    · intro e he
      rw [h1] at he
      rw [h2]
      exact hl e (List.mem_of_mem_eraseP he)
    · refine ⟨h2, ?_⟩
      intro nid2 idx hb
      by_cases hn : nid2 = nid
      · subst hn
        have := not_all_free_of_busy hl hs hb
        rw [hf] at this
        exact absurd this (by decide)
      · simp only [slot_busy, slots, h1, search_rb_erase_other nid nid2 s.root hn] at hb ⊢
        exact hb

/-! ### Growing the slot arrays -/

theorem init_slots_length (fds : List sockfd_cache_fd) (n i : Nat) :
    (init_slots fds i n).length = fds.length := by
  induction n generalizing fds i with
  | zero => rfl
  | succ m ih => simp [init_slots, ih]

theorem init_slots_below (fds : List sockfd_cache_fd) (n i j : Nat) (h : j < i) :
    (init_slots fds i n)[j]? = fds[j]? := by
  induction n generalizing fds i with
  | zero => rfl
  | succ m ih =>
    simp only [init_slots]
    rw [ih _ _ (by omega), List.getElem?_set_ne (by omega)]

theorem xrealloc_length (fds : List sockfd_cache_fd) (n : Nat) :
    (xrealloc fds n).length = n := by
  simp only [xrealloc, List.length_append, List.length_take, List.length_replicate]
  omega

theorem xrealloc_below (fds : List sockfd_cache_fd) (n j : Nat) (h1 : j < fds.length)
    (h2 : j < n) : (xrealloc fds n)[j]? = fds[j]? := by
  simp only [xrealloc]
  rw [List.getElem?_append_left (by simp; omega), List.getElem?_take]
  simp [h2]

theorem grow_ok (s : State) (hl : len_ok s) :
    len_ok (do_grow_fds s) ∧
      ∀ nid idx, slot_busy s nid idx = true → slot_busy (do_grow_fds s) nid idx = true := by
  constructor
  · intro e he
    simp only [do_grow_fds, List.mem_map] at he ⊢
    obtain ⟨e0, _, h1⟩ := he
    subst h1
    simp only [init_slots_length, xrealloc_length]
  · intro nid idx hb
    simp only [slot_busy, slots, do_grow_fds] at hb ⊢
    rw [search_map (fun entry => { entry with
      fds := init_slots (xrealloc entry.fds (s.fds_count * 2)) s.fds_count
        (s.fds_count * 2 - s.fds_count) }) _ _ (fun _ => rfl)]
    cases hs : sockfd_cache_search s.root nid with
    | none => simp [hs] at hb
    | some entry =>
      simp only [hs, Option.map_some'] at hb ⊢
      cases hi : entry.fds[idx.toNat]? with
      | none => simp [hi] at hb
      | some slot =>
        have hlt : idx.toNat < s.fds_count := by
          rw [← hl entry (search_nid hs).2]
          rcases List.getElem?_eq_some.mp hi with ⟨h, _⟩; exact h
        rw [init_slots_below _ _ _ _ hlt,
          xrealloc_below _ _ _ (by rw [hl entry (search_nid hs).2]; exact hlt) (by omega)]
        exact hb

theorem add_group_ok (nodes : List sd_node) (s : State) (hl : len_ok s) :
    len_ok (sockfd_cache_add_group s nodes) ∧ extends_slots s (sockfd_cache_add_group s nodes) := by
  unfold sockfd_cache_add_group
  generalize nodes.reverse = l
  induction l generalizing s with
  | nil => exact ⟨hl, extends_refl s⟩
  | cons p ps ih =>
    simp only [List.foldl_cons, add_nolock_eq_add]
    obtain ⟨h1, h2⟩ := ih (sockfd_cache_add s p.nid) (len_ok_add s p.nid hl)
    exact ⟨h1, extends_trans (extends_add s p.nid) h2⟩

/-! ### Outstanding handles -/

theorem mem_held {out : List (node_id × sockfd)} {s : State} {nid : node_id} {idx : Int} :
    (nid, idx) ∈ Sys.held { st := s, out := out } ↔
      ∃ p ∈ out, 0 ≤ p.2.idx ∧ p.1 = nid ∧ p.2.idx = idx := by
  simp only [Sys.held, List.mem_map, List.mem_filter, decide_eq_true_eq, Prod.mk.injEq]
  constructor
  · rintro ⟨p, ⟨h1, h2⟩, h3, h4⟩
    exact ⟨p, h1, h2, h3, h4⟩
  · rintro ⟨p, h1, h2, h3, h4⟩
    exact ⟨p, ⟨h1, h2⟩, h3, h4⟩

theorem held_erase_sublist (out : List (node_id × sockfd)) (s t : State) (k : Nat) :
    (Sys.held { st := t, out := out.eraseIdx k }).Sublist (Sys.held { st := s, out := out }) := by
  simp only [Sys.held]
  exact ((List.eraseIdx_sublist out k).filter _).map _

/-- The handle released and a handle that stays do not name the same slot. -/
theorem held_erase_ne {out : List (node_id × sockfd)} {s : State} {k : Nat}
    {p q : node_id × sockfd} (hnd : (Sys.held { st := s, out := out }).Nodup)
    (hk : out[k]? = some p) (hp : 0 ≤ p.2.idx) (hq : q ∈ out.eraseIdx k) (hq0 : 0 ≤ q.2.idx) :
    ¬ (q.1 = p.1 ∧ q.2.idx = p.2.idx) := by
  have hlt : k < out.length := by
    rcases List.getElem?_eq_some.mp hk with ⟨h, _⟩; exact h
  have hsplit : out = out.take k ++ p :: out.drop (k + 1) := by
    have hget : out[k] = p := by
      rcases List.getElem?_eq_some.mp hk with ⟨_, h⟩; exact h
    rw [← hget]
    exact (List.take_append_drop k out).symm.trans (by rw [List.drop_eq_getElem_cons hlt])
  have herase : out.eraseIdx k = out.take k ++ out.drop (k + 1) :=
    List.eraseIdx_eq_take_drop_succ out k
  rw [herase] at hq
  simp only [Sys.held] at hnd
  rw [hsplit, List.filter_append, List.filter_cons, List.map_append] at hnd
  simp only [hp, decide_True, if_true, List.map_cons] at hnd
  rw [List.nodup_append] at hnd
  obtain ⟨_, h2, h3⟩ := hnd
  rw [List.nodup_cons] at h2
  intro hc
  have hqe : (q.1, q.2.idx) = (p.1, p.2.idx) := by rw [hc.1, hc.2]
  rcases List.mem_append.mp hq with hq | hq
  · have hm : (q.1, q.2.idx) ∈ List.map (fun p => (p.1, p.2.idx))
        (List.filter (fun p => decide (0 ≤ p.2.idx)) (List.take k out)) :=
      List.mem_map.mpr ⟨q, List.mem_filter.mpr ⟨hq, by simpa using hq0⟩, rfl⟩
    rw [hqe] at hm
    exact h3 hm (List.mem_cons_self _ _)
  · have hm : (q.1, q.2.idx) ∈ List.map (fun p => (p.1, p.2.idx))
        (List.filter (fun p => decide (0 ≤ p.2.idx)) (List.drop (k + 1) out)) :=
      List.mem_map.mpr ⟨q, List.mem_filter.mpr ⟨hq, by simpa using hq0⟩, rfl⟩
    rw [hqe] at hm
    exact h2.1 hm

/-- Releasing the handle at position `k`: the invariant holds again in a state
that keeps in use every slot but the one released. -/
theorem release_inv {y : Sys} {k : Nat} {p : node_id × sockfd} (t : State) (hinv : Inv y)
    (hk : y.out[k]? = some p) (hlen : len_ok t)
    (hb : ∀ nid2 idx2, slot_busy y.st nid2 idx2 = true → 0 ≤ idx2 →
      ¬ (0 ≤ p.2.idx ∧ nid2 = p.1 ∧ idx2 = p.2.idx) → slot_busy t nid2 idx2 = true) :
    Inv { st := t, out := y.out.eraseIdx k } := by
  obtain ⟨_, h2, h3, h4⟩ := hinv
  have hsub : ∀ q ∈ y.out.eraseIdx k, q ∈ y.out :=
    fun q hq => (List.eraseIdx_sublist y.out k).subset hq
  refine ⟨hlen, fun q hq => h2 q (hsub q hq), ?_, ?_⟩
  · intro q hq hq0
    apply hb q.1 q.2.idx (h3 q (hsub q hq) hq0) hq0
    rintro ⟨hp0, hc1, hc2⟩
    exact held_erase_ne h4 hk hp0 hq hq0 ⟨hc1, hc2⟩
  · exact List.Nodup.sublist (held_erase_sublist y.out y.st t k) h4

theorem busy_after_write {s sk : State} (nid : node_id) (idx : Int)
    (g : sockfd_cache_fd → sockfd_cache_fd) (hroot : sk.root = s.root) (hidx : 0 ≤ idx)
    (nid2 : node_id) (idx2 : Int) (hb : slot_busy s nid2 idx2 = true) (h0 : 0 ≤ idx2)
    (hne : ¬ (nid2 = nid ∧ idx2 = idx)) :
    slot_busy (set_slot sk nid idx g) nid2 idx2 = true := by
  rw [slot_busy_set_slot_other, slot_busy_of_root hroot]
  · exact hb
  · rintro ⟨h1, h2⟩
    apply hne
    refine ⟨h1, ?_⟩
    have e1 := Int.toNat_of_nonneg hidx
    have e2 := Int.toNat_of_nonneg h0
    omega

/-- Every operation keeps the invariant. -/
theorem step_inv (net : Net) (y : Sys) (op : Op) (hinv : Inv y) : Inv (step net y op) := by
  cases op with
  | get nid rounds =>
    obtain ⟨h1, h2, h3, h4⟩ := hinv
    obtain ⟨g1, g2, g3⟩ := sheep_get_sockfd_ok net nid rounds y.st
    simp only [step]
    split
    · rename_i h s hg
      rw [hg] at g1 g2 g3
      obtain ⟨k1, k2⟩ := g3 h rfl
      refine ⟨g1 h1, ?_, ?_, ?_⟩
      · intro p hp
        rcases List.mem_cons.mp hp with hp | hp
        · subst hp; exact k1
        · exact h2 p hp
      · intro p hp hp0
        rcases List.mem_cons.mp hp with hp | hp
        · subst hp; exact (k2 hp0).2
        · exact g2.2 p.1 p.2.idx (h3 p hp hp0)
      · by_cases h0 : 0 ≤ h.idx
        · have : Sys.held { st := s, out := (nid, h) :: y.out } =
              (nid, h.idx) :: Sys.held y := by
            simp [Sys.held, h0]
          rw [this, List.nodup_cons]
          refine ⟨?_, h4⟩
          intro hm
          obtain ⟨p, hp, hp0, e1, e2⟩ := (mem_held (s := y.st)).mp hm
          have hb := h3 p hp hp0
          rw [e1, e2, (k2 h0).1] at hb
          exact absurd hb (by decide)
        · have : Sys.held { st := s, out := (nid, h) :: y.out } = Sys.held y := by
            simp [Sys.held, h0]
          rw [this]
          exact h4
    · rename_i r s hnot heq
      rw [heq] at g1 g2
      exact ⟨g1 h1, h2, fun p hp hp0 => g2.2 p.1 p.2.idx (h3 p hp hp0), h4⟩
  | put k =>
    simp only [step]
    split
    · rename_i p hk
      have hp := hinv.2.1 p (List.mem_iff_getElem?.mpr ⟨k, hk⟩)
      unfold sheep_put_sockfd
      split
      · exact release_inv _ hinv hk (len_ok_of_root rfl rfl hinv.1)
          (fun nid2 idx2 hb _ _ => hb)
      · rename_i hne
        have hp0 : 0 ≤ p.2.idx := hp.resolve_left hne
        rcases put_root_cases y.st p.1 p.2.idx with h | h
        · rw [h]
          exact release_inv _ hinv hk hinv.1 (fun nid2 idx2 hb _ _ => hb)
        · rw [h]
          apply release_inv _ hinv hk (len_ok_set_slot _ _ _ _ hinv.1)
          intro nid2 idx2 hb h0 hne2
          exact busy_after_write p.1 p.2.idx _ rfl hp0 nid2 idx2 hb h0
            (fun hc => hne2 ⟨hp0, hc.1, hc.2⟩)
    · exact hinv
  | del k =>
    simp only [step]
    split
    · rename_i p hk
      have hp := hinv.2.1 p (List.mem_iff_getElem?.mpr ⟨k, hk⟩)
      unfold sheep_del_sockfd
      split
      · exact release_inv _ hinv hk (len_ok_of_root rfl rfl hinv.1)
          (fun nid2 idx2 hb _ _ => hb)
      · rename_i hne
        have hp0 : 0 ≤ p.2.idx := hp.resolve_left hne
        have hmid : len_ok (sockfd_cache_close y.st p.1 p.2.idx) ∧
            ∀ nid2 idx2, slot_busy y.st nid2 idx2 = true → 0 ≤ idx2 →
              ¬ (0 ≤ p.2.idx ∧ nid2 = p.1 ∧ idx2 = p.2.idx) →
              slot_busy (sockfd_cache_close y.st p.1 p.2.idx) nid2 idx2 = true := by
          rcases close_cases y.st p.1 p.2.idx with h | h
          · rw [h]
            exact ⟨hinv.1, fun nid2 idx2 hb _ _ => hb⟩
          · rw [h]
            refine ⟨len_ok_set_slot _ _ _ _ (len_ok_of_root rfl rfl hinv.1), ?_⟩
            intro nid2 idx2 hb h0 hne2
            exact busy_after_write p.1 p.2.idx _ rfl hp0 nid2 idx2 hb h0
              (fun hc => hne2 ⟨hp0, hc.1, hc.2⟩)
        obtain ⟨d1, d2⟩ := del_ok (sockfd_cache_close y.st p.1 p.2.idx) p.1 hmid.1
        apply release_inv _ hinv hk d1
        intro nid2 idx2 hb h0 hne2
        exact d2.2 nid2 idx2 (hmid.2 nid2 idx2 hb h0 hne2)
    · exact hinv
  | add nid =>
    obtain ⟨h1, h2, h3, h4⟩ := hinv
    exact ⟨len_ok_add _ _ h1, h2,
      fun p hp hp0 => (extends_add y.st nid).2 p.1 p.2.idx (h3 p hp hp0), h4⟩
  | add_group nodes =>
    obtain ⟨h1, h2, h3, h4⟩ := hinv
    obtain ⟨a1, a2⟩ := add_group_ok nodes y.st h1
    exact ⟨a1, h2, fun p hp hp0 => a2.2 p.1 p.2.idx (h3 p hp hp0), h4⟩
  | grow =>
    obtain ⟨h1, h2, h3, h4⟩ := hinv
    obtain ⟨a1, a2⟩ := grow_ok y.st h1
    exact ⟨a1, h2, fun p hp hp0 => a2 p.1 p.2.idx (h3 p hp hp0), h4⟩
  | grow_done =>
    obtain ⟨h1, h2, h3, h4⟩ := hinv
    exact ⟨len_ok_of_root rfl rfl h1, h2,
      fun p hp hp0 => h3 p hp hp0, h4⟩
  | cache_del nid =>
    obtain ⟨h1, h2, h3, h4⟩ := hinv
    obtain ⟨a1, a2⟩ := del_ok y.st nid h1
    exact ⟨a1, h2, fun p hp hp0 => a2.2 p.1 p.2.idx (h3 p hp hp0), h4⟩

theorem init_inv : Inv Sys.init := by
  refine ⟨?_, ?_, ?_, ?_⟩
  · intro e he; simp [Sys.init, State.init] at he
  · intro p hp; simp [Sys.init] at hp
  · intro p hp; simp [Sys.init] at hp
  · simp [Sys.held, Sys.init]

theorem run_inv (net : Net) (ops : List Op) (y : Sys) (hinv : Inv y) : Inv (run net y ops) := by
  induction ops generalizing y with
  | nil => exact hinv
  | cons op rest ih =>
    simp only [run, List.foldl_cons]
    exact ih _ (step_inv net y op hinv)

/-- Claim C1: after every sequence of operations from the start of the module
(`sheep_get_sockfd`, `sheep_put_sockfd` and `sheep_del_sockfd` of an
outstanding handle, each handle released once, interleaved with
`sockfd_cache_add`, `sockfd_cache_add_group`, `do_grow_fds`, `grow_fds_done`
and `sockfd_cache_del`, on any network), the `(node, idx)` pairs of the
outstanding handles with `idx ≥ 0` are pairwise distinct. -/
theorem C1_outstanding_handles_name_distinct_slots (net : Net) (ops : List Op) :
    (run net Sys.init ops).held.Nodup :=
  (run_inv net ops Sys.init init_inv).2.2.2

/-! ### A node whose slots are all in use -/

theorem revalidate_true_of_up (net : Net) (s : State) (nid : node_id)
    (hnet : ∀ k addr port, 0 ≤ net k addr port) :
    ∃ s0, s0.root = s.root ∧ revalidate_node net s nid = (true, sockfd_cache_add s0 nid) := by
  unfold revalidate_node
  simp only [connect_to_addr, revalidate_alive, close]
  split
  · rw [if_pos (hnet _ _ _)]
    refine ⟨_, ?_, rfl⟩
    rfl
  · rw [if_neg (not_lt.mpr (hnet _ _ _))]
    refine ⟨_, ?_, rfl⟩
    rfl

theorem sockfd_cache_get_spins (net : Net) (nid : node_id) (entry : sockfd_cache_entry)
    (hall : ∀ slot ∈ entry.fds, slot.in_use = true)
    (hnet : ∀ k addr port, 0 ≤ net k addr port) (rounds : Nat) (s : State)
    (hs : sockfd_cache_search s.root nid = some entry) :
    (sockfd_cache_get net rounds s nid).1 = get_result.spin ∧
      (sockfd_cache_get net rounds s nid).2.root = s.root := by
  induction rounds generalizing s with
  | zero => exact ⟨rfl, rfl⟩
  | succ n ih =>
    rw [sockfd_cache_get]
    split
    · rename_i s1 hg
      have h1 := grab_none hg
      subst h1
      obtain ⟨s0, h0, hr⟩ := revalidate_true_of_up net s1 nid hnet
      rw [hr]
      have hadd : sockfd_cache_add s0 nid = s0 := by
        rw [add_eq, h0, hs]
      simp only [hadd]
      obtain ⟨i1, i2⟩ := ih s0 (by rw [h0]; exact hs)
      exact ⟨i1, i2.trans h0⟩
    · rename_i idx s1 hg
      obtain ⟨j, entry2, slot, _, _, hs2, hj, hfree, _⟩ := grab_some hg
      rw [hs] at hs2
      simp only [Option.some.injEq] at hs2
      subst hs2
      have := hall slot (List.mem_iff_getElem?.mpr ⟨j, hj⟩)
      rw [hfree] at this
      exact absurd this (by decide)

/-- Claim C2 (fails on the code): when the node has an entry whose slots are
all in use and every connection attempt succeeds, `sheep_get_sockfd` has not
returned after any number of rounds through the label `grab`; it returns no
handle with `idx = -1`.  The entries of the cache stay as they are. -/
theorem C2_get_spins_when_all_slots_in_use (net : Net) (s : State) (nid : node_id)
    (entry : sockfd_cache_entry) (rounds : Nat)
    (hs : sockfd_cache_search s.root nid = some entry)
    (hall : ∀ slot ∈ entry.fds, slot.in_use = true)
    (hnet : ∀ k addr port, 0 ≤ net k addr port) :
    (sheep_get_sockfd net rounds s nid).1 = get_result.spin ∧
      (sheep_get_sockfd net rounds s nid).2.root = s.root := by
  obtain ⟨h1, h2⟩ := sockfd_cache_get_spins net nid entry hall hnet rounds s hs
  unfold sheep_get_sockfd
  split
  · rename_i h0 s1 hg
    rw [hg] at h1
    exact absurd h1 (by simp)
  · rename_i s1 hg
    rw [hg] at h2
    exact ⟨rfl, h2⟩
  · rename_i s1 hg
    rw [hg] at h1
    exact absurd h1 (by simp)

/-- Claim C2 at the module after eight handles of `node_a` were got, on the
network that accepts every connection: no handle after 1000 rounds. -/
theorem C2_get_spins_witness :
    sockfd_cache_search state_all_in_use.root node_a =
      some { nid := node_a,
             fds := (List.range 8).map (fun i => { fd := 4 + (i : Int), in_use := true }) } ∧
    (∀ slot ∈ (List.range 8).map
        (fun i => ({ fd := 4 + (i : Int), in_use := true } : sockfd_cache_fd)),
      slot.in_use = true) ∧
    (∀ k addr port, 0 ≤ net_up k addr port) ∧
    (sheep_get_sockfd net_up 1000 state_all_in_use node_a).1 = get_result.spin ∧
    (sheep_get_sockfd net_up 1000 state_all_in_use node_a).2.root = state_all_in_use.root :=
  ⟨by decide, by decide, fun k _ _ => by simp only [net_up]; omega,
   C2_get_spins_when_all_slots_in_use net_up state_all_in_use node_a
     { nid := node_a,
       fds := (List.range 8).map (fun i => { fd := 4 + (i : Int), in_use := true }) } 1000
     (by decide) (by decide) (fun k _ _ => by simp only [net_up]; omega)⟩

/-! ### Deleting a handle -/

theorem map_nid_modify_entry (f : sockfd_cache_entry → sockfd_cache_entry) (nid : node_id)
    (root : List sockfd_cache_entry) (hf : ∀ e, (f e).nid = e.nid) :
    (modify_entry f nid root).map (fun e => e.nid) = root.map (fun e => e.nid) := by
  induction root with
  | nil => rfl
  | cons t ts ih =>
    rw [modify_entry_cons]
    split
    · simp [hf]
    · simp [ih]

theorem slots_all_free_iff (c : Nat) (entry : sockfd_cache_entry) (hl : entry.fds.length = c) :
    slots_all_free c entry = true ↔ ∀ slot ∈ entry.fds, slot.in_use = false := by
  simp only [slots_all_free, List.all_eq_true, List.mem_range]
  constructor
  · intro h slot hm
    obtain ⟨i, hi⟩ := List.mem_iff_getElem?.mp hm
    have hlt : i < c := by
      rw [← hl]
      rcases List.getElem?_eq_some.mp hi with ⟨h, _⟩; exact h
    have := h i hlt
    simpa [hi] using this
  · intro h i _
    cases hi : entry.fds[i]? with
    | none => rfl
    | some slot =>
      simp [h slot (List.mem_iff_getElem?.mpr ⟨i, hi⟩)]

theorem destroy_all_slots_closed (s : State) (entry : sockfd_cache_entry) (x : Int)
    (hx : x ∈ s.closed) : x ∈ (destroy_all_slots s entry).closed := by
  unfold destroy_all_slots
  generalize List.range s.fds_count = l
  induction l generalizing s with
  | nil => exact hx
  | cons a as ih =>
    simp only [List.foldl_cons]
    apply ih
    cases entry.fds[a]? with
    | none => exact hx
    | some slot =>
      simp only
      split
      · exact List.mem_cons_of_mem _ hx
      · exact hx

theorem del_closed (s : State) (nid : node_id) (x : Int) (hx : x ∈ s.closed) :
    x ∈ (sockfd_cache_del s nid).closed := by
  unfold sockfd_cache_del sockfd_cache_destroy
  cases sockfd_cache_search s.root nid with
  | none => exact hx
  | some entry =>
    simp only
    cases slots_all_free s.fds_count entry with
    | false => exact hx
    | true =>
      simp only [Bool.not_true, Bool.false_eq_true, if_false]
      exact destroy_all_slots_closed _ entry x hx

/-- The state `sockfd_cache_close` leaves when the node has an entry. -/
theorem close_of_entry (s : State) (nid : node_id) (idx : Int) (entry : sockfd_cache_entry)
    (hs : sockfd_cache_search s.root nid = some entry) :
    sockfd_cache_close s nid idx =
        set_slot (close s (slot_fd s nid idx)) nid idx (fun _ => { fd := -1, in_use := false }) ∧
      sockfd_cache_search (sockfd_cache_close s nid idx).root nid =
        some { entry with fds := entry.fds.set idx.toNat { fd := -1, in_use := false } } ∧
      (∀ nid2, nid2 ≠ nid → sockfd_cache_search (sockfd_cache_close s nid idx).root nid2 =
        sockfd_cache_search s.root nid2) ∧
      (sockfd_cache_close s nid idx).root.map (fun e => e.nid) = s.root.map (fun e => e.nid) ∧
      (sockfd_cache_close s nid idx).fds_count = s.fds_count ∧
      slot_fd s nid idx ∈ (sockfd_cache_close s nid idx).closed := by
  have h1 : sockfd_cache_close s nid idx =
      set_slot (close s (slot_fd s nid idx)) nid idx (fun _ => { fd := -1, in_use := false }) := by
    simp only [sockfd_cache_close, hs]
  rw [h1]
  refine ⟨rfl, ?_, ?_, ?_, rfl, ?_⟩
  · simp only [set_slot, close]
    rw [search_modify_entry (fun entry : sockfd_cache_entry => { entry with
      fds := entry.fds.modify (fun _ => { fd := -1, in_use := false }) idx.toNat })
      nid nid s.root (fun _ h => h)]
    simp [hs, List.set_eq_modify]
  · intro nid2 hne
    simp only [set_slot, close]
    rw [search_modify_entry (fun entry : sockfd_cache_entry => { entry with
      fds := entry.fds.modify (fun _ => { fd := -1, in_use := false }) idx.toNat })
      nid nid2 s.root (fun _ h => h)]
    simp [hne]
  · simp only [set_slot, close]
    exact map_nid_modify_entry _ nid s.root (fun _ => rfl)
  · simp [set_slot, close]

/-- Claim C9: for a handle with `idx ≥ 0` of a node that has an entry (in a
cache whose entries have distinct node ids and `fds_count` slots each),
`sheep_del_sockfd` closes the descriptor of that slot; `sockfd_cache_close`
leaves the entry with that slot at `fd = -1` and free and the other slots as
they were; then the entry is removed iff all its slots are free, and stays
like that otherwise; the entry of every other node is unchanged.  For a handle
with `idx = -1` only the descriptor is closed and the cache is unchanged. -/
theorem C9_del_closes_slot_and_destroys_free_entry (s : State) (nid : node_id) (h : sockfd) :
    (∀ entry : sockfd_cache_entry,
      (s.root.map (fun e => e.nid)).Nodup →
      sockfd_cache_search s.root nid = some entry →
      entry.fds.length = s.fds_count →
      0 ≤ h.idx → h.idx.toNat < s.fds_count →
      slot_fd s nid h.idx ∈ (sheep_del_sockfd s nid h).closed ∧
      sockfd_cache_search (sockfd_cache_close s nid h.idx).root nid =
        some { entry with fds := entry.fds.set h.idx.toNat { fd := -1, in_use := false } } ∧
      sheep_del_sockfd s nid h = sockfd_cache_del (sockfd_cache_close s nid h.idx) nid ∧
      (sockfd_cache_search (sheep_del_sockfd s nid h).root nid = none ↔
        ∀ slot ∈ entry.fds.set h.idx.toNat { fd := -1, in_use := false },
          slot.in_use = false) ∧
      ((∃ slot ∈ entry.fds.set h.idx.toNat { fd := -1, in_use := false },
          slot.in_use = true) →
        sockfd_cache_search (sheep_del_sockfd s nid h).root nid =
          some { entry with fds := entry.fds.set h.idx.toNat { fd := -1, in_use := false } }) ∧
      (∀ nid2, nid2 ≠ nid →
        sockfd_cache_search (sheep_del_sockfd s nid h).root nid2 =
          sockfd_cache_search s.root nid2)) ∧
    (h.idx = -1 → sheep_del_sockfd s nid h = close s h.fd ∧
      (sheep_del_sockfd s nid h).root = s.root ∧
      (sheep_del_sockfd s nid h).count = s.count) := by
  constructor
  · intro entry hnd hs hlen hidx _
    have hne : h.idx ≠ -1 := by omega
    have hdel : sheep_del_sockfd s nid h =
        sockfd_cache_del (sockfd_cache_close s nid h.idx) nid := by
      simp [sheep_del_sockfd, hne]
    obtain ⟨c1, c2, c3, c4, c5, c6⟩ := close_of_entry s nid h.idx entry hs
    have hlen2 : ({ entry with fds := entry.fds.set h.idx.toNat { fd := -1, in_use := false } } :
        sockfd_cache_entry).fds.length = (sockfd_cache_close s nid h.idx).fds_count := by
      simp only [List.length_set, c5, hlen]
    have hfree := slots_all_free_iff _ _ hlen2
    refine ⟨?_, c2, hdel, ?_, ?_, ?_⟩
    · rw [hdel]; exact del_closed _ _ _ c6
    · rw [hdel]
      rcases del_cases (sockfd_cache_close s nid h.idx) nid with hd | ⟨e2, hs2, hf2, hr, _, _⟩
      · -- not destroyed
        rw [hd, c2]
        constructor
        · intro hc; exact absurd hc (by simp)
        · intro hall
          exfalso
          have hfr := hfree.mpr hall
          -- the entry is all free, so `sockfd_cache_del` erased it
          have hcount : (sockfd_cache_del (sockfd_cache_close s nid h.idx) nid).count =
              (sockfd_cache_close s nid h.idx).count - 1 := by
            unfold sockfd_cache_del sockfd_cache_destroy
            simp only [c2, hfr, Bool.not_true, Bool.false_eq_true, if_false]
            rw [(destroy_all_slots_root _ _).2.2]
          rw [hd] at hcount
          omega
      · rw [hr]
        have : sockfd_cache_search (rb_erase (sockfd_cache_close s nid h.idx).root nid) nid
            = none := search_rb_erase_same nid _ (by rw [c4]; exact hnd)
        rw [this]
        rw [c2] at hs2
        simp only [Option.some.injEq] at hs2
        subst hs2
        exact ⟨fun _ => hfree.mp hf2, fun _ => rfl⟩
    · rintro ⟨slot, hm, hu⟩
      rw [hdel]
      rcases del_cases (sockfd_cache_close s nid h.idx) nid with hd | ⟨e2, hs2, hf2, _⟩
      · rw [hd, c2]
      · rw [c2] at hs2
        simp only [Option.some.injEq] at hs2
        subst hs2
        have := hfree.mp hf2 slot hm
        rw [hu] at this
        exact absurd this (by decide)
    · intro nid2 hn
      rw [hdel]
      rcases del_cases (sockfd_cache_close s nid h.idx) nid with hd | ⟨e2, _, _, hr, _, _⟩
      · rw [hd]; exact c3 nid2 hn
      · rw [hr, search_rb_erase_other nid nid2 _ hn]
        exact c3 nid2 hn
  · intro hidx
    simp [sheep_del_sockfd, hidx, close]

/-- Claim C9 at the module after two handles of `node_a` were got: deleting
the handle of slot 0 closes descriptor 4 and leaves the entry with slot 0 at
`fd = -1` and free, slot 1 still in use. -/
theorem C9_del_witness :
    (state_two_in_use.root.map (fun e => e.nid)).Nodup ∧
    sockfd_cache_search state_two_in_use.root node_a =
      some { nid := node_a,
             fds := [{ fd := 4, in_use := true }, { fd := 5, in_use := true }] ++
               List.replicate 6 { fd := -1, in_use := false } } ∧
    (0 : Int) ≤ 0 ∧ (0 : Int).toNat < state_two_in_use.fds_count ∧
    slot_fd state_two_in_use node_a 0 = 4 ∧
    (4 : Int) ∈ (sheep_del_sockfd state_two_in_use node_a { fd := 4, idx := 0 }).closed ∧
    sockfd_cache_search (sheep_del_sockfd state_two_in_use node_a { fd := 4, idx := 0 }).root
        node_a =
      some { nid := node_a,
             fds := [{ fd := -1, in_use := false }, { fd := 5, in_use := true }] ++
               List.replicate 6 { fd := -1, in_use := false } } := by
  have h := (C9_del_closes_slot_and_destroys_free_entry state_two_in_use node_a
    { fd := 4, idx := 0 }).1
    { nid := node_a,
      fds := [{ fd := 4, in_use := true }, { fd := 5, in_use := true }] ++
        List.replicate 6 { fd := -1, in_use := false } }
    (by decide) (by decide) (by decide) (by decide) (by decide)
  refine ⟨by decide, by decide, by decide, by decide, by decide, ?_, ?_⟩
  · have h1 := h.1
    have e : slot_fd state_two_in_use node_a 0 = 4 := by decide
    have e2 : ({ fd := 4, idx := 0 } : sockfd).idx = 0 := rfl
    rw [e2, e] at h1
    exact h1
  · exact h.2.2.2.2.1 ⟨{ fd := 5, in_use := true }, by decide, rfl⟩

/-! ### A node without entry -/

theorem grab_of_no_entry (s : State) (nid : node_id)
    (hnone : sockfd_cache_search s.root nid = none) : sockfd_cache_grab s nid = (none, s) := by
  simp only [sockfd_cache_grab, hnone]

theorem revalidate_fst (net : Net) (s : State) (nid : node_id) :
    (revalidate_node net s nid).1 = true ↔
      (nid.io_port ≠ 0 ∧ 0 ≤ net s.clock nid.io_addr nid.io_port) ∨
      0 ≤ net (if nid.io_port ≠ 0 then s.clock + 1 else s.clock) nid.addr nid.port := by
  unfold revalidate_node
  simp only [connect_to_addr, revalidate_alive]
  by_cases hio : nid.io_port ≠ 0
  · rw [if_pos hio, if_pos hio]
    by_cases h1 : 0 ≤ net s.clock nid.io_addr nid.io_port
    · rw [if_pos h1]
      exact ⟨fun _ => Or.inl ⟨hio, h1⟩, fun _ => rfl⟩
    · rw [if_neg h1]
      by_cases h2 : net (s.clock + 1) nid.addr nid.port < 0
      · rw [if_pos h2]
        constructor
        · intro h; exact absurd h (by simp)
        · rintro (⟨_, h⟩ | h)
          · exact absurd h h1
          · omega
      · rw [if_neg h2]
        exact ⟨fun _ => Or.inr (by omega), fun _ => rfl⟩
  · rw [if_neg hio, if_neg hio]
    by_cases h2 : net s.clock nid.addr nid.port < 0
    · rw [if_pos h2]
      constructor
      · intro h; exact absurd h (by simp)
      · rintro (⟨h, _⟩ | h)
        · exact absurd h hio
        · omega
    · rw [if_neg h2]
      exact ⟨fun _ => Or.inr (by omega), fun _ => rfl⟩

theorem revalidate_all_fail (net : Net) (s : State) (nid : node_id)
    (hnet : ∀ k addr port, net k addr port < 0) :
    revalidate_node net s nid =
      (false, { s with clock := s.clock + (if nid.io_port ≠ 0 then 2 else 1) }) := by
  unfold revalidate_node
  simp only [connect_to_addr]
  by_cases hio : nid.io_port ≠ 0
  · rw [if_pos hio, if_pos hio, if_neg (not_le.mpr (hnet _ _ _)), if_pos (hnet _ _ _)]
  · rw [if_neg hio, if_neg hio, if_pos (hnet _ _ _)]

/-- The first round for a node without entry whose probe succeeds: the node
is added and the next round starts. -/
theorem revalidate_of_true (net : Net) (s : State) (nid : node_id)
    (hnone : sockfd_cache_search s.root nid = none)
    (hr : (revalidate_node net s nid).1 = true) :
    revalidate_node net s nid = (true, (revalidate_node net s nid).2) ∧
      (revalidate_node net s nid).2.root = s.root ++ [new_entry s.fds_count nid] ∧
      (revalidate_node net s nid).2.fds_count = s.fds_count ∧
      (revalidate_node net s nid).2.count = s.count + 1 := by
  obtain ⟨s0, h1, h2, h3, h | h⟩ := revalidate_cases net s nid
  · rw [h] at hr; exact absurd hr (by simp)
  · rw [h]
    refine ⟨rfl, ?_, ?_, ?_⟩
    · simp only [add_eq, h1, hnone, h2]
    · simp only [add_eq, h1, hnone, h2]
    · simp only [add_eq, h1, hnone, h3]

/-- An entry just added, after its slot 0 was grabbed. -/
theorem grab_fresh (t : State) (nid : node_id) (c : Nat)
    (hs : sockfd_cache_search t.root nid = some (new_entry (c + 1) nid))
    (hc : t.fds_count = c + 1) :
    ∃ t1, sockfd_cache_grab t nid = (some 0, t1) ∧ t1.clock = t.clock ∧
      t1.fds_high_watermark = t.fds_high_watermark ∧
      sockfd_cache_search t1.root nid = some (get_free_slot (c + 1) (new_entry (c + 1) nid)).2 ∧
      (get_free_slot (c + 1) (new_entry (c + 1) nid)).2.fds[0]? =
        some { fd := -1, in_use := true } := by
  have hslot : (get_free_slot (c + 1) (new_entry (c + 1) nid)).1 = 0 := by
    simp [get_free_slot, new_entry, get_free_slot_from, List.replicate_succ]
  have hslot2 : (get_free_slot (c + 1) (new_entry (c + 1) nid)).2.fds[0]? =
      some { fd := -1, in_use := true } := by
    simp [get_free_slot, new_entry, get_free_slot_from, List.replicate_succ]
  refine ⟨(sockfd_cache_grab t nid).2, ?_, ?_, ?_, ?_, hslot2⟩
  · simp only [sockfd_cache_grab, hs, hc, hslot]
    rfl
  · simp only [sockfd_cache_grab, hs, hc, hslot]
    rfl
  · simp only [sockfd_cache_grab, hs, hc, hslot]
    rfl
  · simp only [sockfd_cache_grab, hs, hc, hslot]
    have hnid : (get_free_slot (c + 1) (new_entry (c + 1) nid)).2.nid = nid := rfl
    simp only [show ((0 : Int) = -1) = False from by simp, if_false]
    rw [search_modify_entry _ nid nid t.root (fun _ _ => hnid)]
    simp [hs]

theorem search_get_connect (net : Net) (s : State) (nid : node_id) (idx : Int)
    (e : sockfd_cache_entry) (hs : sockfd_cache_search s.root nid = some e) :
    sockfd_cache_search (sockfd_cache_get_connect net s nid idx).2.root nid ≠ none := by
  obtain ⟨sk, g, e1, e2, _, _⟩ := get_connect_shape net s nid idx
  rw [e1]
  simp only [set_slot]
  rw [search_modify_entry (fun entry : sockfd_cache_entry =>
    { entry with fds := entry.fds.modify g idx.toNat }) nid nid sk.root (fun _ h => h)]
  simp [e2, hs]

theorem get_connect_ok (net : Net) (s : State) (nid : node_id) (idx : Int)
    (h : 0 ≤ net s.clock (cache_addr nid) (cache_port nid) ∨
      (nid.io_port ≠ 0 ∧ 0 ≤ net (s.clock + 1) nid.addr nid.port)) :
    ∃ hd, (sockfd_cache_get_connect net s nid idx).1 = get_result.sfd hd ∧ hd.idx = idx := by
  unfold sockfd_cache_get_connect
  simp only [connect_to, connect_to_addr, sockfd_cache_get_new]
  by_cases h1 : net s.clock (cache_addr nid) (cache_port nid) < 0
  · have h2 : nid.io_port ≠ 0 ∧ 0 ≤ net (s.clock + 1) nid.addr nid.port := by
      rcases h with h | h
      · omega
      · exact h
    rw [if_pos h1, if_pos h2.1, if_pos h2.2]
    exact ⟨_, rfl, rfl⟩
  · rw [if_neg h1]
    exact ⟨_, rfl, rfl⟩


theorem check_idx_zero (s : State) : check_idx s 0 = s := by
  simp [check_idx]

/-- A node without entry whose probe succeeds, seen from `sockfd_cache_get`. -/
theorem cache_get_after_probe (net : Net) (s : State) (nid : node_id) (rounds : Nat)
    (hnone : sockfd_cache_search s.root nid = none) (hpos : 0 < s.fds_count)
    (hr : (revalidate_node net s nid).1 = true) :
    sockfd_cache_search (sockfd_cache_get net (rounds + 2) s nid).2.root nid ≠ none ∧
    ((0 ≤ net (revalidate_node net s nid).2.clock (cache_addr nid) (cache_port nid) ∨
        (nid.io_port ≠ 0 ∧
          0 ≤ net ((revalidate_node net s nid).2.clock + 1) nid.addr nid.port)) →
      ∃ hd, (sockfd_cache_get net (rounds + 2) s nid).1 = get_result.sfd hd ∧ hd.idx = 0) := by
  obtain ⟨c, hc⟩ : ∃ c, s.fds_count = c + 1 := ⟨s.fds_count - 1, by omega⟩
  obtain ⟨r1, r2, r3, _⟩ := revalidate_of_true net s nid hnone hr
  have hs2 : sockfd_cache_search (revalidate_node net s nid).2.root nid =
      some (new_entry (c + 1) nid) := by
    rw [r2, search_append_single, hnone, hc]
    simp [new_entry]
  obtain ⟨t1, g1, g2, g3, g4, g5⟩ := grab_fresh (revalidate_node net s nid).2 nid c hs2
    (by rw [r3, hc])
  have hfd : slot_fd t1 nid 0 = -1 := by
    simp only [slot_fd, g4]
    have : (0 : Int).toNat = 0 := rfl
    rw [this, List.getD_eq_getElem?_getD, g5]
    rfl
  have hget : sockfd_cache_get net (rounds + 2) s nid =
      sockfd_cache_get_connect net t1 nid 0 := by
    rw [sockfd_cache_get, grab_of_no_entry s nid hnone]
    simp only []
    rw [r1]
    simp only []
    rw [sockfd_cache_get, g1]
    simp only [check_idx_zero, hfd, ne_eq, not_true_eq_false, if_false]
  rw [hget]
  refine ⟨search_get_connect net t1 nid 0 _ g4, ?_⟩
  intro hc2
  rw [← g2] at hc2
  exact get_connect_ok net t1 nid 0 hc2

/-- Claim C10, amended: for a node without entry (and `fds_count > 0`),
`revalidate_node` succeeds iff the io address accepts the first attempt (when
`io_port` is non-zero) or else the primary address accepts the next one; if
every connection attempt fails, `sheep_get_sockfd` returns no handle and only
the count of attempts changes; if a probe succeeds the node has an entry
afterwards, and a handle with `idx ≥ 0` (slot 0) is returned when the
connection then made for the slot succeeds, to the io address or, failing
that for a node with io port, to the primary address. -/
theorem C10_get_of_node_without_entry (net : Net) (s : State) (nid : node_id) (rounds : Nat)
    (hnone : sockfd_cache_search s.root nid = none) (hpos : 0 < s.fds_count) :
    ((revalidate_node net s nid).1 = true ↔
      (nid.io_port ≠ 0 ∧ 0 ≤ net s.clock nid.io_addr nid.io_port) ∨
      0 ≤ net (if nid.io_port ≠ 0 then s.clock + 1 else s.clock) nid.addr nid.port) ∧
    ((∀ k addr port, net k addr port < 0) →
      sheep_get_sockfd net (rounds + 1) s nid =
        (get_result.null, { s with clock := s.clock + (if nid.io_port ≠ 0 then 3 else 2) })) ∧
    ((revalidate_node net s nid).1 = true →
      sockfd_cache_search (sheep_get_sockfd net (rounds + 2) s nid).2.root nid ≠ none ∧
      ((0 ≤ net (revalidate_node net s nid).2.clock (cache_addr nid) (cache_port nid) ∨
          (nid.io_port ≠ 0 ∧
            0 ≤ net ((revalidate_node net s nid).2.clock + 1) nid.addr nid.port)) →
        ∃ hd, (sheep_get_sockfd net (rounds + 2) s nid).1 = get_result.sfd hd ∧
          hd.idx = 0 ∧ 0 ≤ hd.idx)) := by
  refine ⟨revalidate_fst net s nid, ?_, ?_⟩
  · intro hnet
    have hget : sockfd_cache_get net (rounds + 1) s nid =
        (get_result.null, { s with clock := s.clock + (if nid.io_port ≠ 0 then 2 else 1) }) := by
      rw [sockfd_cache_get, grab_of_no_entry s nid hnone]
      simp only []
      rw [revalidate_all_fail net s nid hnet]
    simp only [sheep_get_sockfd, hget, connect_to_addr, hnet, if_true]
    by_cases hio : nid.io_port ≠ 0
    · simp [hio, Nat.add_assoc]
    · simp [hio, Nat.add_assoc]
  · intro hr
    obtain ⟨h1, h2⟩ := cache_get_after_probe net s nid rounds hnone hpos hr
    constructor
    · unfold sheep_get_sockfd
      split
      · rename_i h0 s1 hg
        rw [hg] at h1; exact h1
      · rename_i s1 hg
        rw [hg] at h1; exact h1
      · rename_i s1 hg
        rw [hg] at h1
        simp only [connect_to_addr]
        split <;> exact h1
    · intro hc
      obtain ⟨hd, e1, e2⟩ := h2 hc
      refine ⟨hd, ?_, e2, by rw [e2]⟩
      unfold sheep_get_sockfd
      split
      · rename_i h0 s1 hg
        rw [hg] at e1
        exact e1
      · rename_i s1 hg
        rw [hg] at e1
        exact absurd e1 (by simp)
      · rename_i s1 hg
        rw [hg] at e1
        exact absurd e1 (by simp)

/-- Claim C10 as stated fails: `node_a` has no entry, its probe succeeds (the
first connection attempt), the connections attempted afterwards fail;
`sheep_get_sockfd` returns no handle, and the node has been inserted with all
slots free. -/
theorem C10_probe_succeeds_but_no_handle :
    sockfd_cache_search State.init.root node_a = none ∧
    (revalidate_node net_first_only State.init node_a).1 = true ∧
    (sheep_get_sockfd net_first_only 2 State.init node_a).1 = get_result.null ∧
    sockfd_cache_search (sheep_get_sockfd net_first_only 2 State.init node_a).2.root node_a =
      some (new_entry 8 node_a) := by
  decide

/-- Claim C10, amended, at `node_b` on the network that accepts every
connection: the probe succeeds and the handle returned has `idx = 0`. -/
theorem C10_get_of_node_without_entry_witness :
    sockfd_cache_search State.init.root node_b = none ∧ 0 < State.init.fds_count ∧
    (revalidate_node net_up State.init node_b).1 = true ∧
    0 ≤ net_up (revalidate_node net_up State.init node_b).2.clock (cache_addr node_b)
      (cache_port node_b) ∧
    ∃ hd, (sheep_get_sockfd net_up (0 + 2) State.init node_b).1 = get_result.sfd hd ∧
      hd.idx = 0 ∧ 0 ≤ hd.idx :=
  ⟨by decide, by decide, by decide, by decide,
   ((C10_get_of_node_without_entry net_up State.init node_b 0 (by decide) (by decide)).2.2
     (by decide)).2 (Or.inl (by decide))⟩

end Sockfd

namespace Sockfd

/-! ## Part 15: theorems about requests over the sockfd cache -/

theorem map_nid_modify_entry_to (f : sockfd_cache_entry → sockfd_cache_entry) (nid : node_id)
    (root : List sockfd_cache_entry) (hf : ∀ e, e.nid = nid → (f e).nid = nid) :
    (modify_entry f nid root).map (fun e => e.nid) = root.map (fun e => e.nid) := by
  induction root with
  | nil => rfl
  | cons t ts ih =>
    rw [modify_entry_cons]
    split
    · rename_i ht
      simp [hf t ht, ht]
    · simp [ih]

theorem nodup_add (s : State) (nid : node_id) (hnd : (s.root.map (fun e => e.nid)).Nodup) :
    ((sockfd_cache_add s nid).root.map (fun e => e.nid)).Nodup := by
  rw [add_eq]
  cases hs : sockfd_cache_search s.root nid with
  | some e => exact hnd
  | none =>
    simp only [List.map_append, List.map_cons, List.map_nil]
    rw [List.nodup_append]
    refine ⟨hnd, List.nodup_singleton _, ?_⟩
    intro a ha hb
    simp only [List.mem_singleton] at hb
    obtain ⟨e, he, hea⟩ := List.mem_map.mp ha
    have := (search_none_iff s.root nid).mp hs e he
    apply this
    rw [hea, hb]
    rfl

theorem nodup_revalidate (net : Net) (s : State) (nid : node_id)
    (hnd : (s.root.map (fun e => e.nid)).Nodup) :
    ((revalidate_node net s nid).2.root.map (fun e => e.nid)).Nodup := by
  obtain ⟨s0, hr, _, _, h | h⟩ := revalidate_cases net s nid
  · rw [h]; simp only; rw [hr]; exact hnd
  · rw [h]; simp only
    exact nodup_add s0 nid (by rw [hr]; exact hnd)

theorem nids_grab (s : State) (nid : node_id) :
    (sockfd_cache_grab s nid).2.root.map (fun e => e.nid) = s.root.map (fun e => e.nid) := by
  cases hg : sockfd_cache_grab s nid with
  | mk r s1 =>
    cases r with
    | none => rw [grab_none hg]
    | some idx =>
      obtain ⟨j, entry, slot, _, _, hs, _, _, _, h1⟩ := grab_some hg
      rw [h1]
      simp only
      exact map_nid_modify_entry_to _ nid s.root (fun _ _ => (search_nid hs).1)

theorem nids_set_slot (s : State) (nid : node_id) (idx : Int)
    (f : sockfd_cache_fd → sockfd_cache_fd) :
    (set_slot s nid idx f).root.map (fun e => e.nid) = s.root.map (fun e => e.nid) := by
  simp only [set_slot]
  exact map_nid_modify_entry _ nid s.root (fun _ => rfl)

theorem nids_get_connect (net : Net) (s : State) (nid : node_id) (idx : Int) :
    (sockfd_cache_get_connect net s nid idx).2.root.map (fun e => e.nid) =
      s.root.map (fun e => e.nid) := by
  obtain ⟨sk, g, h1, h2, _, _⟩ := get_connect_shape net s nid idx
  rw [h1, nids_set_slot, h2]

theorem nodup_cache_get (net : Net) (nid : node_id) (rounds : Nat) (s : State)
    (hnd : (s.root.map (fun e => e.nid)).Nodup) :
    ((sockfd_cache_get net rounds s nid).2.root.map (fun e => e.nid)).Nodup := by
  induction rounds generalizing s with
  | zero => exact hnd
  | succ n ih =>
    unfold sockfd_cache_get
    have hg := nids_grab s nid
    cases hgr : sockfd_cache_grab s nid with
    | mk r s1 =>
      rw [hgr] at hg
      simp only at hg
      cases r with
      | none =>
        simp only
        have hrv := nodup_revalidate net s1 nid (by rw [hg]; exact hnd)
        cases hre : revalidate_node net s1 nid with
        | mk b s2 =>
          rw [hre] at hrv
          cases b with
          | false => exact hrv
          | true => exact ih s2 hrv
      | some idx =>
        simp only
        split
        · simp only [(check_idx_root s1 idx).1, hg]; exact hnd
        · rw [nids_get_connect, (check_idx_root s1 idx).1, hg]; exact hnd

theorem nodup_sheep_get (net : Net) (nid : node_id) (rounds : Nat) (s : State)
    (hnd : (s.root.map (fun e => e.nid)).Nodup) :
    ((sheep_get_sockfd net rounds s nid).2.root.map (fun e => e.nid)).Nodup := by
  have h := nodup_cache_get net nid rounds s hnd
  unfold sheep_get_sockfd
  cases hc : sockfd_cache_get net rounds s nid with
  | mk r s1 =>
    rw [hc] at h
    cases r with
    | sfd hd => exact h
    | spin => exact h
    | null =>
      simp only
      split <;> exact h

/-- What `sheep_del_sockfd` leaves of the entry of a handle with `idx ≥ 0`. -/
theorem del_sockfd_entry (s : State) (nid : node_id) (h : sockfd) (entry : sockfd_cache_entry)
    (hnd : (s.root.map (fun e => e.nid)).Nodup)
    (hs : sockfd_cache_search s.root nid = some entry)
    (hlen : entry.fds.length = s.fds_count) (hidx : 0 ≤ h.idx) :
    sheep_del_sockfd s nid h = sockfd_cache_del (sockfd_cache_close s nid h.idx) nid ∧
      slot_fd s nid h.idx ∈ (sheep_del_sockfd s nid h).closed ∧
      (sockfd_cache_search (sheep_del_sockfd s nid h).root nid = none ↔
        ∀ slot ∈ entry.fds.set h.idx.toNat { fd := -1, in_use := false },
          slot.in_use = false) ∧
      ((∃ slot ∈ entry.fds.set h.idx.toNat { fd := -1, in_use := false },
          slot.in_use = true) →
        sockfd_cache_search (sheep_del_sockfd s nid h).root nid =
          some { entry with fds := entry.fds.set h.idx.toNat { fd := -1, in_use := false } }) := by
  have hne : h.idx ≠ -1 := by omega
  have hdel : sheep_del_sockfd s nid h =
      sockfd_cache_del (sockfd_cache_close s nid h.idx) nid := by
    simp [sheep_del_sockfd, hne]
  obtain ⟨c1, c2, c3, c4, c5, c6⟩ := close_of_entry s nid h.idx entry hs
  have hlen2 : ({ entry with fds := entry.fds.set h.idx.toNat { fd := -1, in_use := false } } :
      sockfd_cache_entry).fds.length = (sockfd_cache_close s nid h.idx).fds_count := by
    simp only [List.length_set, c5, hlen]
  have hfree := slots_all_free_iff _ _ hlen2
  refine ⟨hdel, ?_, ?_, ?_⟩
  · rw [hdel]; exact del_closed _ _ _ c6
  · rw [hdel]
    rcases del_cases (sockfd_cache_close s nid h.idx) nid with hd | ⟨e2, hs2, hf2, hr, _, _⟩
    · rw [hd, c2]
      constructor
      · intro hc; exact absurd hc (by simp)
      · intro hall
        exfalso
        have hfr := hfree.mpr hall
        have hcount : (sockfd_cache_del (sockfd_cache_close s nid h.idx) nid).count =
            (sockfd_cache_close s nid h.idx).count - 1 := by
          unfold sockfd_cache_del sockfd_cache_destroy
          simp only [c2, hfr, Bool.not_true, Bool.false_eq_true, if_false]
          rw [(destroy_all_slots_root _ _).2.2]
        rw [hd] at hcount
        omega
    · rw [hr]
      have : sockfd_cache_search (rb_erase (sockfd_cache_close s nid h.idx).root nid) nid
          = none := search_rb_erase_same nid _ (by rw [c4]; exact hnd)
      rw [this]
      rw [c2] at hs2
      simp only [Option.some.injEq] at hs2
      subst hs2
      exact ⟨fun _ => hfree.mp hf2, fun _ => rfl⟩
  · rintro ⟨slot, hm, hu⟩
    rw [hdel]
    rcases del_cases (sockfd_cache_close s nid h.idx) nid with hd | ⟨e2, hs2, hf2, _⟩
    · rw [hd, c2]
    · rw [c2] at hs2
      simp only [Option.some.injEq] at hs2
      subst hs2
      have := hfree.mp hf2 slot hm
      rw [hu] at this
      exact absurd this (by decide)

/-- With no entry for the node, `sockfd_cache_get` starts with
`revalidate_node`: no cached slot is looked at before the probe. -/
theorem cache_get_of_no_entry (net : Net) (s : State) (nid : node_id) (rounds : Nat)
    (hnone : sockfd_cache_search s.root nid = none) :
    sockfd_cache_get net (rounds + 1) s nid =
      match revalidate_node net s nid with
      | (false, s2) => (get_result.null, s2)
      | (true, s2) => sockfd_cache_get net rounds s2 nid := by
  rw [sockfd_cache_get, grab_of_no_entry s nid hnone] <;> rfl

/-! ### A node whose entry has a free slot -/

/-- With an entry that has a free slot below `fds_count`, `sockfd_cache_grab`
returns the entry with the first free slot marked in use. -/
theorem grab_of_free_slot (s : State) (nid : node_id) (entry : sockfd_cache_entry) (i : Nat)
    (sl : sockfd_cache_fd) (hs : sockfd_cache_search s.root nid = some entry)
    (hi : entry.fds[i]? = some sl) (hfree : sl.in_use = false) (hlt : i < s.fds_count) :
    ∃ (j : Nat) (slot : sockfd_cache_fd),
      entry.fds[j]? = some slot ∧ slot.in_use = false ∧
      (∀ k slot2, k < j → entry.fds[k]? = some slot2 → slot2.in_use = true) ∧
      sockfd_cache_grab s nid =
        (some (j : Int), { s with root := (modify_entry
          (fun _ => { entry with fds := entry.fds.set j { slot with in_use := true } })
          nid s.root) }) := by
  rcases get_free_slot_from_spec entry.fds s.fds_count 0 with
    ⟨_, _, h3⟩ | ⟨j, slot, h2, _, _, h5, h6, h7, h8⟩
  · have := h3 i sl (Nat.zero_le _) (by omega) hi
    rw [hfree] at this
    exact absurd this (by decide)
  · refine ⟨j, slot, h5, h6, fun k slot2 hk => h8 k slot2 (Nat.zero_le _) hk, ?_⟩
    have hne : ¬ ((j : Int) = -1) := by omega
    simp only [sockfd_cache_grab, hs, get_free_slot, h2, h7, if_neg hne]

/-- After a grab that returned a slot, `sockfd_cache_get` hands out that slot:
its cached descriptor, or a new connection; `revalidate_node` is not called. -/
theorem cache_get_of_grab (net : Net) (s s1 : State) (nid : node_id) (idx : Int) (rounds : Nat)
    (hg : sockfd_cache_grab s nid = (some idx, s1)) :
    sockfd_cache_get net (rounds + 1) s nid =
      if slot_fd (check_idx s1 idx) nid idx ≠ -1 then
        (get_result.sfd { fd := slot_fd (check_idx s1 idx) nid idx, idx := idx },
          check_idx s1 idx)
      else sockfd_cache_get_connect net (check_idx s1 idx) nid idx := by
  rw [sockfd_cache_get, hg]

/-- The descriptor of the slot a grab marked is the one the slot had. -/
theorem slot_fd_after_grab (s : State) (nid : node_id) (entry : sockfd_cache_entry) (j : Nat)
    (slot : sockfd_cache_fd) (hs : sockfd_cache_search s.root nid = some entry)
    (hj : entry.fds[j]? = some slot) :
    slot_fd (check_idx { s with root := (modify_entry
      (fun _ => { entry with fds := entry.fds.set j { slot with in_use := true } })
      nid s.root) } (j : Int)) nid (j : Int) = slot.fd := by
  have hlt : j < entry.fds.length := (List.getElem?_eq_some.mp hj).1
  simp only [slot_fd, (check_idx_root _ _).1]
  rw [search_modify_entry
    (fun _ => { nid := entry.nid, fds := entry.fds.set j { fd := slot.fd, in_use := true } })
    nid nid s.root (fun _ _ => (search_nid hs).1)]
  simp [hs, List.getD_eq_getElem?_getD, hlt]

/-- The connecting part of `sockfd_cache_get` never leaves the call going
round the label `grab`. -/
theorem get_connect_ne_spin (net : Net) (s : State) (nid : node_id) (idx : Int) :
    (sockfd_cache_get_connect net s nid idx).1 ≠ get_result.spin := by
  unfold sockfd_cache_get_connect
  simp only [connect_to, connect_to_addr, sockfd_cache_get_new]
  split_ifs <;> simp

/-- When the first connection attempt of the connecting part succeeds, its
descriptor is stored in the slot and returned with the index of the slot;
it is the only attempt. -/
theorem get_connect_of_up (net : Net) (s : State) (nid : node_id) (idx : Int)
    (hup : 0 ≤ net s.clock (cache_addr nid) (cache_port nid)) :
    (sockfd_cache_get_connect net s nid idx).1 =
        get_result.sfd { fd := net s.clock (cache_addr nid) (cache_port nid), idx := idx } ∧
      (sockfd_cache_get_connect net s nid idx).2.clock = s.clock + 1 ∧
      (sockfd_cache_get_connect net s nid idx).2.closed = s.closed := by
  unfold sockfd_cache_get_connect
  simp only [connect_to, connect_to_addr, sockfd_cache_get_new]
  have hn : ¬ net s.clock (cache_addr nid) (cache_port nid) < 0 := by omega
  rw [if_neg hn]
  exact ⟨rfl, rfl, rfl⟩

/-- The handle deleted by `sheep_del_sockfd` leaves the width of the slot
arrays as it was, when the node has an entry. -/
theorem del_sockfd_fds_count (s : State) (nid : node_id) (h : sockfd)
    (entry : sockfd_cache_entry) (hs : sockfd_cache_search s.root nid = some entry)
    (hidx : 0 ≤ h.idx) : (sheep_del_sockfd s nid h).fds_count = s.fds_count := by
  have hne : h.idx ≠ -1 := by omega
  have hdel : sheep_del_sockfd s nid h =
      sockfd_cache_del (sockfd_cache_close s nid h.idx) nid := by
    simp [sheep_del_sockfd, hne]
  obtain ⟨_, _, _, _, c5, _⟩ := close_of_entry s nid h.idx entry hs
  rw [hdel]
  rcases del_cases (sockfd_cache_close s nid h.idx) nid with hd | ⟨_, _, _, _, hfc, _⟩
  · rw [hd, c5]
  · rw [hfc, c5]

/-- A grab leaves the count of connection attempts as it was. -/
theorem grab_clock {s s1 : State} {nid : node_id} {r : Option Int}
    (h : sockfd_cache_grab s nid = (r, s1)) : s1.clock = s.clock := by
  cases r with
  | none => rw [grab_none h]
  | some idx =>
    obtain ⟨_, _, _, _, _, _, _, _, _, h1⟩ := grab_some h
    rw [h1]

/-- After a grab that returned slot `j`, whose descriptor is `fd`: what
`sockfd_cache_get` and `sheep_get_sockfd` return in their first round.
`revalidate_node` is not called; with `fd ≠ -1` the cached descriptor is
handed out and no connection is attempted, with `fd = -1` the connecting part
of `sockfd_cache_get` runs. -/
theorem get_of_grab (net : Net) (s t1 : State) (nid : node_id) (j : Nat) (fd : Int) (k : Nat)
    (hg : sockfd_cache_grab s nid = (some (j : Int), t1))
    (hfd : slot_fd (check_idx t1 (j : Int)) nid (j : Int) = fd) :
    sockfd_cache_get net (k + 1) s nid =
        (if fd ≠ -1 then
          (get_result.sfd { fd := fd, idx := (j : Int) }, check_idx t1 (j : Int))
        else sockfd_cache_get_connect net (check_idx t1 (j : Int)) nid (j : Int)) ∧
      sheep_get_sockfd net (k + 1) s nid =
        (if fd ≠ -1 then
          (get_result.sfd { fd := fd, idx := (j : Int) }, check_idx t1 (j : Int))
        else
          match sockfd_cache_get_connect net (check_idx t1 (j : Int)) nid (j : Int) with
          | (get_result.sfd h2, s2) => (get_result.sfd h2, s2)
          | (get_result.spin, s2) => (get_result.spin, s2)
          | (get_result.null, s2) =>
            if (connect_to_addr net s2 nid.addr nid.port).1 < 0 then
              (get_result.null, (connect_to_addr net s2 nid.addr nid.port).2)
            else
              (get_result.sfd
                { fd := (connect_to_addr net s2 nid.addr nid.port).1, idx := -1 },
                (connect_to_addr net s2 nid.addr nid.port).2)) ∧
      (sheep_get_sockfd net (k + 1) s nid).1 ≠ get_result.spin ∧
      (fd = -1 → 0 ≤ net s.clock (cache_addr nid) (cache_port nid) →
        (sheep_get_sockfd net (k + 1) s nid).1 =
            get_result.sfd
              { fd := net s.clock (cache_addr nid) (cache_port nid), idx := (j : Int) } ∧
          (sheep_get_sockfd net (k + 1) s nid).2.clock = s.clock + 1) := by
  have hcg := cache_get_of_grab net s t1 nid (j : Int) k hg
  rw [hfd] at hcg
  have hsg : sheep_get_sockfd net (k + 1) s nid =
      (if fd ≠ -1 then
        (get_result.sfd { fd := fd, idx := (j : Int) }, check_idx t1 (j : Int))
      else
        match sockfd_cache_get_connect net (check_idx t1 (j : Int)) nid (j : Int) with
        | (get_result.sfd h2, s2) => (get_result.sfd h2, s2)
        | (get_result.spin, s2) => (get_result.spin, s2)
        | (get_result.null, s2) =>
          if (connect_to_addr net s2 nid.addr nid.port).1 < 0 then
            (get_result.null, (connect_to_addr net s2 nid.addr nid.port).2)
          else
            (get_result.sfd
              { fd := (connect_to_addr net s2 nid.addr nid.port).1, idx := -1 },
              (connect_to_addr net s2 nid.addr nid.port).2)) := by
    unfold sheep_get_sockfd
    rw [hcg]
    by_cases hc : fd ≠ -1
    · rw [if_pos hc, if_pos hc] <;> rfl
    · rw [if_neg hc, if_neg hc] <;>
        (generalize sockfd_cache_get_connect net (check_idx t1 (j : Int)) nid (j : Int) = x
         rcases x with ⟨r, s2⟩
         cases r <;> rfl)
  refine ⟨hcg, hsg, ?_, ?_⟩
  · rw [hsg]
    by_cases hc : fd ≠ -1
    · rw [if_pos hc]; simp
    · rw [if_neg hc]
      have hns := get_connect_ne_spin net (check_idx t1 (j : Int)) nid (j : Int)
      split
      · simp
      · rename_i heq
        rw [heq] at hns
        exact absurd rfl hns
      · split <;> simp
  · intro hm1 hup
    have hc : ¬ fd ≠ -1 := by simp [hm1]
    rw [hsg, if_neg hc]
    have hck : (check_idx t1 (j : Int)).clock = s.clock := by
      rw [(check_idx_root _ _).2.2.2.1, grab_clock hg]
    rw [← hck] at hup ⊢
    obtain ⟨u1, u2, _⟩ := get_connect_of_up net _ nid (j : Int) hup
    split
    · rename_i h2 s2 heq
      rw [heq] at u1 u2
      simp only at u1 u2
      rw [u1, u2]
      exact ⟨rfl, rfl⟩
    · rename_i s2 heq
      rw [heq] at u1
      simp at u1
    · rename_i s2 heq
      rw [heq] at u1
      simp at u1

end Sockfd

namespace Sockfd

/-- Claim C11, counterexample: in the module after one handle of `node_a` was
got and not released, `sheep_exec_req` gets the handle of slot 1 (descriptor
5), the request fails, and `sheep_exec_req` returns `SD_RES_NETWORK_ERROR`;
yet `node_a` still has its cache entry (slot 0 is in use), and the next
`sheep_get_sockfd` grabs slot 1 in its first round, with a single connection
attempt and no probe by `revalidate_node`. -/
theorem C11_entry_survives_failed_request :
    (sheep_get_sockfd net_up 2 state_one_in_use node_a).1 =
        get_result.sfd { fd := 5, idx := 1 } ∧
      (rpc_down 5).1 ≠ 0 ∧
      (sheep_exec_req net_up rpc_down 2 state_one_in_use node_a).1 =
        exec_result.ret SD_RES_NETWORK_ERROR ∧
      sockfd_cache_search (sheep_exec_req net_up rpc_down 2 state_one_in_use node_a).2.root
        node_a ≠ none ∧
      (sheep_get_sockfd net_up 1
        (sheep_exec_req net_up rpc_down 2 state_one_in_use node_a).2 node_a).1 =
        get_result.sfd { fd := 6, idx := 1 } ∧
      (sheep_get_sockfd net_up 1
        (sheep_exec_req net_up rpc_down 2 state_one_in_use node_a).2 node_a).2.clock =
        (sheep_exec_req net_up rpc_down 2 state_one_in_use node_a).2.clock + 1 := by
  decide

/-- Claim C11, amended: in a cache whose entries have distinct node ids and
`fds_count` slots each, when `sheep_exec_req` got a handle with `idx ≥ 0` and
`exec_req` fails on it, `sheep_exec_req` returns `SD_RES_NETWORK_ERROR` and
leaves the module as `sheep_del_sockfd` of that handle leaves it, the slot's
descriptor closed.  The node has no cache entry afterwards iff no other slot
of its entry is in use; in that case the next `sockfd_cache_get` for the node
starts with `revalidate_node`.  When another slot is in use the entry stays,
with the slot of the handle free and at `fd = -1`, and the next
`sheep_get_sockfd` grabs a cached slot without a probe: the first
`sockfd_cache_grab` of the next `sockfd_cache_get` returns the first free
slot `j` of the entry, and `sockfd_cache_get` and `sheep_get_sockfd` hand out
that slot in their first round, whatever the network and the bound on the
rounds, with the descriptor cached in the slot and no connection attempt, or,
the slot being at `fd = -1`, through the connecting part of
`sockfd_cache_get`; `revalidate_node` is not called.  When the slot is at
`fd = -1` and the connection attempt succeeds, the handle carries its
descriptor and the index `j`, and the attempt was the only one. -/
theorem C11_failed_request_deletes_handle (net : Net) (rpc : Rpc) (rounds : Nat)
    (s s1 : State) (nid : node_id) (h : sockfd)
    (hl : len_ok s) (hnd : (s.root.map (fun e => e.nid)).Nodup)
    (hget : sheep_get_sockfd net rounds s nid = (get_result.sfd h, s1))
    (hidx : 0 ≤ h.idx) (hfail : (rpc h.fd).1 ≠ 0) :
    sheep_exec_req net rpc rounds s nid =
        (exec_result.ret SD_RES_NETWORK_ERROR, sheep_del_sockfd s1 nid h) ∧
      slot_fd s1 nid h.idx ∈ (sheep_del_sockfd s1 nid h).closed ∧
      ∃ entry, sockfd_cache_search s1.root nid = some entry ∧
        (sockfd_cache_search (sheep_del_sockfd s1 nid h).root nid = none ↔
          ∀ slot ∈ entry.fds.set h.idx.toNat { fd := -1, in_use := false },
            slot.in_use = false) ∧
        (sockfd_cache_search (sheep_del_sockfd s1 nid h).root nid = none →
          ∀ (net2 : Net) (k : Nat),
            sockfd_cache_get net2 (k + 1) (sheep_del_sockfd s1 nid h) nid =
              match revalidate_node net2 (sheep_del_sockfd s1 nid h) nid with
              | (false, s2) => (get_result.null, s2)
              | (true, s2) => sockfd_cache_get net2 k s2 nid) ∧
        ((∃ slot ∈ entry.fds.set h.idx.toNat { fd := -1, in_use := false },
            slot.in_use = true) →
          sockfd_cache_search (sheep_del_sockfd s1 nid h).root nid =
            some { entry with
              fds := entry.fds.set h.idx.toNat { fd := -1, in_use := false } }) ∧
        ((∃ slot ∈ entry.fds.set h.idx.toNat { fd := -1, in_use := false },
            slot.in_use = true) →
          ∃ (j : Nat) (slot : sockfd_cache_fd) (t1 : State),
            (entry.fds.set h.idx.toNat { fd := -1, in_use := false })[j]? = some slot ∧
            slot.in_use = false ∧
            (∀ i sl, i < j →
              (entry.fds.set h.idx.toNat { fd := -1, in_use := false })[i]? = some sl →
              sl.in_use = true) ∧
            sockfd_cache_grab (sheep_del_sockfd s1 nid h) nid = (some (j : Int), t1) ∧
            slot_fd (check_idx t1 (j : Int)) nid (j : Int) = slot.fd ∧
            (check_idx t1 (j : Int)).clock = (sheep_del_sockfd s1 nid h).clock ∧
            ∀ (net2 : Net) (k : Nat),
              sockfd_cache_get net2 (k + 1) (sheep_del_sockfd s1 nid h) nid =
                (if slot.fd ≠ -1 then
                  (get_result.sfd { fd := slot.fd, idx := (j : Int) }, check_idx t1 (j : Int))
                else sockfd_cache_get_connect net2 (check_idx t1 (j : Int)) nid (j : Int)) ∧
              sheep_get_sockfd net2 (k + 1) (sheep_del_sockfd s1 nid h) nid =
                (if slot.fd ≠ -1 then
                  (get_result.sfd { fd := slot.fd, idx := (j : Int) }, check_idx t1 (j : Int))
                else
                  match sockfd_cache_get_connect net2 (check_idx t1 (j : Int)) nid (j : Int) with
                  | (get_result.sfd h2, s2) => (get_result.sfd h2, s2)
                  | (get_result.spin, s2) => (get_result.spin, s2)
                  | (get_result.null, s2) =>
                    if (connect_to_addr net2 s2 nid.addr nid.port).1 < 0 then
                      (get_result.null, (connect_to_addr net2 s2 nid.addr nid.port).2)
                    else
                      (get_result.sfd
                        { fd := (connect_to_addr net2 s2 nid.addr nid.port).1, idx := -1 },
                        (connect_to_addr net2 s2 nid.addr nid.port).2)) ∧
              (sheep_get_sockfd net2 (k + 1) (sheep_del_sockfd s1 nid h) nid).1 ≠
                get_result.spin ∧
              (slot.fd = -1 →
                0 ≤ net2 (sheep_del_sockfd s1 nid h).clock (cache_addr nid) (cache_port nid) →
                (sheep_get_sockfd net2 (k + 1) (sheep_del_sockfd s1 nid h) nid).1 =
                    get_result.sfd
                      { fd := net2 (sheep_del_sockfd s1 nid h).clock (cache_addr nid)
                          (cache_port nid),
                        idx := (j : Int) } ∧
                  (sheep_get_sockfd net2 (k + 1) (sheep_del_sockfd s1 nid h) nid).2.clock =
                    (sheep_del_sockfd s1 nid h).clock + 1)) := by
  have hok := sheep_get_sockfd_ok net nid rounds s
  have hnd1 := nodup_sheep_get net nid rounds s hnd
  rw [hget] at hok hnd1
  simp only at hok hnd1
  obtain ⟨hl1, _, hh⟩ := hok
  have hb := ((hh h rfl).2 hidx).2
  have hl1 := hl1 hl
  -- the node has an entry in `s1`
  have hex : ∃ entry, sockfd_cache_search s1.root nid = some entry := by
    cases hs : sockfd_cache_search s1.root nid with
    | some e => exact ⟨e, rfl⟩
    | none =>
      exfalso
      simp [slot_busy, slots, hs] at hb
  obtain ⟨entry, hs⟩ := hex
  have hlen : entry.fds.length = s1.fds_count := hl1 entry (search_nid hs).2
  obtain ⟨_, d2, d3, d4⟩ := del_sockfd_entry s1 nid h entry hnd1 hs hlen hidx
  refine ⟨?_, d2, entry, hs, d3, ?_, d4, ?_⟩
  · simp only [sheep_exec_req, hget]
    rw [if_pos hfail]
  · intro hnone net2 k
    exact cache_get_of_no_entry net2 _ nid k hnone
  · intro hbusy
    have hsD := d4 hbusy
    have hfc := del_sockfd_fds_count s1 nid h entry hs hidx
    -- the slot of the handle is a slot of the entry
    have hilt : h.idx.toNat < entry.fds.length := by
      simp only [slot_busy, slots, hs, Option.map_some'] at hb
      cases hi : entry.fds[h.idx.toNat]? with
      | none => simp [hi] at hb
      | some sl0 => exact (List.getElem?_eq_some.mp hi).1
    have hfree : (entry.fds.set h.idx.toNat { fd := -1, in_use := false })[h.idx.toNat]? =
        some { fd := -1, in_use := false } := by
      simp [hilt]
    obtain ⟨j, slot, g1, g2, g3, g4⟩ := grab_of_free_slot (sheep_del_sockfd s1 nid h) nid
      { entry with fds := entry.fds.set h.idx.toNat { fd := -1, in_use := false } }
      h.idx.toNat { fd := -1, in_use := false } hsD hfree rfl (by rw [hfc, ← hlen]; exact hilt)
    have hfd := slot_fd_after_grab (sheep_del_sockfd s1 nid h) nid
      { entry with fds := entry.fds.set h.idx.toNat { fd := -1, in_use := false } }
      j slot hsD g1
    refine ⟨j, slot, _, g1, g2, g3, g4, hfd, ?_, ?_⟩
    · rw [(check_idx_root _ _).2.2.2.1, grab_clock g4]
    · intro net2 k
      exact get_of_grab net2 _ _ nid j slot.fd k g4 hfd

/-- Claim C11 at two modules.  At the initial module the request to `node_a`
gets the handle of slot 0 (descriptor 4), fails, and leaves the cache without
an entry for `node_a`; the next `sockfd_cache_get` starts with
`revalidate_node`.  At the module in which one handle of `node_a` is
outstanding the request gets the handle of slot 1 (descriptor 5) and fails;
the entry of `node_a` stays, slot 0 in use and slot 1 free at `fd = -1`, and
on every network and for every bound on the rounds the next
`sheep_get_sockfd` returns in its first round; when its connection attempt
succeeds it returns the handle of slot 1 with the descriptor of that attempt,
the only attempt it makes. -/
theorem C11_failed_request_witness :
    (sheep_exec_req net_up rpc_down 2 State.init node_a =
        (exec_result.ret SD_RES_NETWORK_ERROR,
          sheep_del_sockfd (sheep_get_sockfd net_up 2 State.init node_a).2 node_a
            { fd := 4, idx := 0 }) ∧
      sockfd_cache_search (sheep_del_sockfd (sheep_get_sockfd net_up 2 State.init node_a).2
        node_a { fd := 4, idx := 0 }).root node_a = none) ∧
    (sheep_exec_req net_up rpc_down 2 state_one_in_use node_a =
        (exec_result.ret SD_RES_NETWORK_ERROR,
          sheep_del_sockfd (sheep_get_sockfd net_up 2 state_one_in_use node_a).2 node_a
            { fd := 5, idx := 1 }) ∧
      sockfd_cache_search (sheep_del_sockfd
          (sheep_get_sockfd net_up 2 state_one_in_use node_a).2 node_a
          { fd := 5, idx := 1 }).root node_a =
        some { nid := node_a,
               fds := [{ fd := 4, in_use := true }, { fd := -1, in_use := false }] ++
                 List.replicate 6 { fd := -1, in_use := false } } ∧
      ∀ (net2 : Net) (k : Nat),
        (sheep_get_sockfd net2 (k + 1) (sheep_del_sockfd
          (sheep_get_sockfd net_up 2 state_one_in_use node_a).2 node_a
          { fd := 5, idx := 1 }) node_a).1 ≠ get_result.spin ∧
        (0 ≤ net2 3 node_a.addr 7000 →
          (sheep_get_sockfd net2 (k + 1) (sheep_del_sockfd
            (sheep_get_sockfd net_up 2 state_one_in_use node_a).2 node_a
            { fd := 5, idx := 1 }) node_a).1 =
              get_result.sfd { fd := net2 3 node_a.addr 7000, idx := 1 } ∧
          (sheep_get_sockfd net2 (k + 1) (sheep_del_sockfd
            (sheep_get_sockfd net_up 2 state_one_in_use node_a).2 node_a
            { fd := 5, idx := 1 }) node_a).2.clock = 4)) := by
  have h := C11_failed_request_deletes_handle net_up rpc_down 2 State.init
    (sheep_get_sockfd net_up 2 State.init node_a).2 node_a { fd := 4, idx := 0 }
    (by intro e he; simp [State.init] at he) (by decide) (by decide) (by decide) (by decide)
  have h2 := C11_failed_request_deletes_handle net_up rpc_down 2 state_one_in_use
    (sheep_get_sockfd net_up 2 state_one_in_use node_a).2 node_a { fd := 5, idx := 1 }
    (by unfold len_ok; decide) (by decide) (by decide) (by decide) (by decide)
  refine ⟨⟨h.1, by decide⟩, h2.1, by decide, ?_⟩
  obtain ⟨_, _, entry, hs, _, _, _, hE⟩ := h2
  have hc : sockfd_cache_search (sheep_get_sockfd net_up 2 state_one_in_use node_a).2.root
      node_a =
      some { nid := node_a,
             fds := [{ fd := 4, in_use := true }, { fd := 5, in_use := true }] ++
               List.replicate 6 { fd := -1, in_use := false } } := by decide
  rw [hc] at hs
  have he := Option.some.inj hs
  subst he
  obtain ⟨j, slot, t1, g1, _, _, g4, _, _, g7⟩ :=
    hE ⟨{ fd := 4, in_use := true }, by decide, rfl⟩
  -- the slot grabbed is slot 1, at `fd = -1`
  have hg : (sockfd_cache_grab (sheep_del_sockfd
      (sheep_get_sockfd net_up 2 state_one_in_use node_a).2 node_a
      { fd := 5, idx := 1 }) node_a).1 = some 1 := by decide
  rw [g4] at hg
  have hj : j = 1 := by
    have : (j : Int) = 1 := Option.some.inj hg
    omega
  subst hj
  have hslot : slot = { fd := -1, in_use := false } := by
    have : some slot = some ({ fd := -1, in_use := false } : sockfd_cache_fd) := by
      rw [← g1]; decide
    exact Option.some.inj this
  subst hslot
  have hclock : (sheep_del_sockfd (sheep_get_sockfd net_up 2 state_one_in_use node_a).2 node_a
      { fd := 5, idx := 1 }).clock = 3 := by decide
  intro net2 k
  obtain ⟨_, _, a3, a4⟩ := g7 net2 k
  refine ⟨a3, ?_⟩
  intro hup
  have a5 := a4 rfl (by rw [hclock]; exact hup)
  rw [hclock] at a5
  exact a5

end Sockfd

namespace Ops

/-! ## Part 16: theorems about the table of operations -/

theorem map_table_length (code : sd_op → Nat) :
    (map_table code).length =
      max (max (max (max 0 (code sd_op.CREATE_AND_WRITE_OBJ)) (code sd_op.READ_OBJ))
        (code sd_op.WRITE_OBJ)) (code sd_op.REMOVE_OBJ) + 1 := by
  simp [map_table, map_table_init]

theorem map_table_get (code : sd_op → Nat) (hinj : Function.Injective code) :
    (map_table code)[code sd_op.CREATE_AND_WRITE_OBJ]? = some (code sd_op.CREATE_AND_WRITE_PEER) ∧
    (map_table code)[code sd_op.READ_OBJ]? = some (code sd_op.READ_PEER) ∧
    (map_table code)[code sd_op.WRITE_OBJ]? = some (code sd_op.WRITE_PEER) ∧
    (map_table code)[code sd_op.REMOVE_OBJ]? = some (code sd_op.REMOVE_PEER) := by
  have h12 : code sd_op.CREATE_AND_WRITE_OBJ ≠ code sd_op.READ_OBJ := hinj.ne (by decide)
  have h13 : code sd_op.CREATE_AND_WRITE_OBJ ≠ code sd_op.WRITE_OBJ := hinj.ne (by decide)
  have h14 : code sd_op.CREATE_AND_WRITE_OBJ ≠ code sd_op.REMOVE_OBJ := hinj.ne (by decide)
  have h23 : code sd_op.READ_OBJ ≠ code sd_op.WRITE_OBJ := hinj.ne (by decide)
  have h24 : code sd_op.READ_OBJ ≠ code sd_op.REMOVE_OBJ := hinj.ne (by decide)
  have h34 : code sd_op.WRITE_OBJ ≠ code sd_op.REMOVE_OBJ := hinj.ne (by decide)
  simp only [map_table, map_table_init, List.foldl_cons, List.foldl_nil, List.map_cons,
    List.map_nil, List.getElem?_set, List.length_set, List.length_replicate]
  refine ⟨?_, ?_, ?_, ?_⟩ <;>
    simp [Nat.lt_succ_iff, h12, h13, h14, h23, h24, h34, h12.symm, h13.symm, h14.symm,
      h23.symm, h24.symm, h34.symm]

/-- The entry of `sd_ops` at the number of an opcode name, when every name
has its own number: the entry of the last initialiser with that name. -/
theorem sd_ops_of_code (code : sd_op → Nat) (hinj : Function.Injective code) (n : sd_op) :
    sd_ops code (code n) =
      match sd_ops_init.reverse.find? (fun e => e.1 == n) with
      | some e => e.2
      | none => sd_op_template.zero := by
  have h : (fun e : sd_op × sd_op_template => code e.1 == code n) = (fun e => e.1 == n) := by
    funext e
    by_cases he : e.1 = n
    · simp [he]
    · simp [he, hinj.ne he]
  unfold sd_ops
  rw [h] <;> rfl

theorem sd_ops_not_code (code : sd_op → Nat) (opcode : Nat) (h : ∀ n, code n ≠ opcode) :
    sd_ops code opcode = sd_op_template.zero := by
  unfold sd_ops
  have : sd_ops_init.reverse.find? (fun e => code e.1 == opcode) = none := by
    rw [List.find?_eq_none]
    intro e _
    simp [h e.1]
  rw [this]

/-- Claim C12: when every opcode name has its own number,
`gateway_to_peer_opcode` maps READ_OBJ to READ_PEER, WRITE_OBJ to WRITE_PEER,
CREATE_AND_WRITE_OBJ to CREATE_AND_WRITE_PEER and REMOVE_OBJ to REMOVE_PEER;
it is injective on these four; and for every opcode whose entry in `sd_ops`
has type GATEWAY the `assert` holds and the result is an opcode whose entry
in `sd_ops` has type PEER. -/
theorem C12_gateway_to_peer_opcode (code : sd_op → Nat) (hinj : Function.Injective code) :
    gateway_to_peer_opcode code (code sd_op.READ_OBJ) = some (code sd_op.READ_PEER : Int) ∧
    gateway_to_peer_opcode code (code sd_op.WRITE_OBJ) = some (code sd_op.WRITE_PEER : Int) ∧
    gateway_to_peer_opcode code (code sd_op.CREATE_AND_WRITE_OBJ) =
      some (code sd_op.CREATE_AND_WRITE_PEER : Int) ∧
    gateway_to_peer_opcode code (code sd_op.REMOVE_OBJ) = some (code sd_op.REMOVE_PEER : Int) ∧
    (∀ a ∈ [sd_op.READ_OBJ, sd_op.WRITE_OBJ, sd_op.CREATE_AND_WRITE_OBJ, sd_op.REMOVE_OBJ],
      ∀ b ∈ [sd_op.READ_OBJ, sd_op.WRITE_OBJ, sd_op.CREATE_AND_WRITE_OBJ, sd_op.REMOVE_OBJ],
        gateway_to_peer_opcode code (code a) = gateway_to_peer_opcode code (code b) →
          code a = code b) ∧
    (∀ opcode : Nat, (sd_ops code opcode).type = SD_OP_TYPE_GATEWAY →
      ∃ r : Nat, gateway_to_peer_opcode code opcode = some (r : Int) ∧
        (sd_ops code r).type = SD_OP_TYPE_PEER) := by
  obtain ⟨g1, g2, g3, g4⟩ := map_table_get code hinj
  have key : ∀ (a b : sd_op), (map_table code)[code a]? = some (code b) →
      gateway_to_peer_opcode code (code a) = some (code b : Int) := by
    intro a b h
    have hlt : code a < (map_table code).length := (List.getElem?_eq_some.mp h).1
    unfold gateway_to_peer_opcode
    rw [if_pos ⟨by omega, by simpa using hlt⟩]
    simp [List.getD_eq_getElem?_getD, h]
  have k1 := key _ _ g1
  have k2 := key _ _ g2
  have k3 := key _ _ g3
  have k4 := key _ _ g4
  refine ⟨k2, k3, k1, k4, ?_, ?_⟩
  · intro a ha b hb hab
    simp only [List.mem_cons, List.mem_singleton, List.not_mem_nil, or_false] at ha hb
    rcases ha with rfl | rfl | rfl | rfl <;> rcases hb with rfl | rfl | rfl | rfl <;>
      first
      | rfl
      | (simp only [k1, k2, k3, k4, Option.some.injEq, Nat.cast_inj] at hab
         exact absurd (hinj hab) (by decide))
  · intro opcode ht
    by_cases hex : ∃ n, code n = opcode
    · obtain ⟨n, rfl⟩ := hex
      rw [sd_ops_of_code code hinj] at ht
      cases n <;>
        first
        | exact absurd ht (by decide)
        | exact ⟨_, k1, by rw [sd_ops_of_code code hinj]; decide⟩
        | exact ⟨_, k2, by rw [sd_ops_of_code code hinj]; decide⟩
        | exact ⟨_, k3, by rw [sd_ops_of_code code hinj]; decide⟩
        | exact ⟨_, k4, by rw [sd_ops_of_code code hinj]; decide⟩
    · rw [sd_ops_not_code code opcode (fun n hn => hex ⟨n, hn⟩)] at ht
      exact absurd ht (by decide)

theorem code_example_injective : Function.Injective code_example := by
  intro a b h
  cases a <;> cases b <;> first | rfl | exact absurd h (by decide)

/-- Claim C12 at an assignment of numbers: READ_OBJ = 2 is mapped to
READ_PEER = 164, which has type PEER. -/
theorem C12_gateway_to_peer_witness :
    gateway_to_peer_opcode code_example 2 = some 164 ∧
      (sd_ops code_example 164).type = SD_OP_TYPE_PEER :=
  ⟨(C12_gateway_to_peer_opcode code_example code_example_injective).1, by decide⟩

end Ops

namespace Zk

open Sockfd (node_id node_id_cmp sd_node memcmp)
open Cluster

/-! ## Part 17: theorems about the cluster drivers -/

/-! ### The order of nodes -/

theorem memcmp_swap (a b : List Nat) : memcmp a b < 0 → 0 < memcmp b a := by
  induction a generalizing b with
  | nil => cases b <;> simp [memcmp]
  | cons x xs ih =>
    cases b with
    | nil => simp [memcmp]
    | cons y ys =>
      simp only [memcmp]
      by_cases h1 : x < y
      · have h2 : ¬ y < x := by omega
        simp [h1, h2]
      · by_cases h2 : y < x
        · simp [h1, h2]
        · simp only [h1, h2, if_false]
          exact ih ys

theorem node_id_cmp_swap (a b : node_id) : node_id_cmp a b < 0 → 0 < node_id_cmp b a := by
  intro h
  unfold node_id_cmp at h ⊢
  by_cases h1 : memcmp a.addr b.addr = 0
  · have h1s : memcmp b.addr a.addr = 0 := by
      rw [Sockfd.memcmp_eq_zero] at h1 ⊢; exact h1.symm
    simp only [h1, h1s, ne_eq, not_true_eq_false, if_false] at h ⊢
    by_cases h2 : a.port < b.port
    · have : ¬ b.port < a.port := by omega
      simp [h2, this]
    · simp only [h2, if_false] at h ⊢
      by_cases h3 : b.port < a.port
      · simp [h3] at h
      · simp only [h3, if_false] at h ⊢
        by_cases h4 : memcmp a.io_addr b.io_addr = 0
        · have h4s : memcmp b.io_addr a.io_addr = 0 := by
            rw [Sockfd.memcmp_eq_zero] at h4 ⊢; exact h4.symm
          simp only [h4, h4s, ne_eq, not_true_eq_false, if_false] at h ⊢
          by_cases h5 : a.io_port < b.io_port
          · have : ¬ b.io_port < a.io_port := by omega
            simp [h5, this]
          · simp only [h5, if_false] at h ⊢
            by_cases h6 : b.io_port < a.io_port
            · simp [h6] at h
            · simp [h6] at h
        · have h4s : memcmp b.io_addr a.io_addr ≠ 0 := by
            intro e; rw [Sockfd.memcmp_eq_zero] at h4 e; exact h4 e.symm
          simp only [h4, h4s, ne_eq, not_false_eq_true, if_true] at h ⊢
          exact memcmp_swap _ _ h
  · have h1s : memcmp b.addr a.addr ≠ 0 := by
      intro e; rw [Sockfd.memcmp_eq_zero] at h1 e; exact h1 e.symm
    simp only [h1, h1s, ne_eq, not_false_eq_true, if_true] at h ⊢
    exact memcmp_swap _ _ h

theorem node_cmp_swap (a b : sd_node) : node_cmp a b < 0 → 0 < node_cmp b a :=
  node_id_cmp_swap a.nid b.nid

theorem node_cmp_self (a : sd_node) : node_cmp a a = 0 :=
  (Sockfd.node_id_cmp_eq_zero _ _).mpr rfl

theorem node_eq_iff (a b : sd_node) : node_eq a b = true ↔ a = b := by
  simp only [node_eq, node_cmp, decide_eq_true_eq, Sockfd.node_id_cmp_eq_zero]
  constructor
  · intro h; cases a; cases b; simp only at h; rw [h]
  · intro h; rw [h]

/-! ### The master -/

theorem is_master_loop_alive (zk : Option zk_node) (root : List zk_node)
    (h : ∃ n ∈ root, n.gone = false) :
    is_master_loop zk root = root.find? (fun n => !n.gone) := by
  induction root generalizing zk with
  | nil => obtain ⟨n, hn, _⟩ := h; cases hn
  | cons a as ih =>
    unfold is_master_loop
    by_cases ha : a.gone = false
    · simp [ha]
    · simp only [Bool.not_eq_false] at ha
      simp only [ha, Bool.not_true, Bool.false_eq_true, if_false, List.find?_cons_of_neg,
        not_false_eq_true]
      apply ih
      obtain ⟨n, hn, hg⟩ := h
      rcases List.mem_cons.mp hn with rfl | hm
      · rw [ha] at hg; cases hg
      · exact ⟨n, hm, hg⟩

theorem is_master_loop_gone (zk : Option zk_node) (root : List zk_node) (hne : root ≠ [])
    (h : ∀ n ∈ root, n.gone = true) :
    is_master_loop zk root = some (root.getLast hne) := by
  induction root generalizing zk with
  | nil => exact absurd rfl hne
  | cons a as ih =>
    unfold is_master_loop
    have ha : a.gone = true := h a (List.mem_cons_self _ _)
    simp only [ha, Bool.not_true, Bool.false_eq_true, if_false]
    cases as with
    | nil => simp [is_master_loop]
    | cons b bs =>
      rw [ih (some a) (by simp) (fun n hn => h n (List.mem_cons_of_mem _ hn))]
      simp

end Zk

namespace Zk

open Sockfd (node_id node_id_cmp sd_node memcmp)
open Cluster

theorem is_master_of_alive (srv : Server) (s : State) (hn : s.nr_sd_nodes ≠ 0)
    (hs : s.zk_node_root.Pairwise (fun a b => node_cmp a.node b.node < 0))
    (ha : ∃ n ∈ s.zk_node_root, n.gone = false) :
    is_master srv s = spec_is_master s := by
  have hloop := is_master_loop_alive none s.zk_node_root ha
  obtain ⟨n0, hn0, hg0⟩ := ha
  cases hf : s.zk_node_root.find? (fun n => !n.gone) with
  | none =>
    rw [List.find?_eq_none] at hf
    have := hf n0 hn0
    simp [hg0] at this
  | some f =>
    have him : is_master srv s = node_eq f.node s.this_node.node := by
      simp only [is_master, if_neg hn, hloop, hf]
    rw [him]
    obtain ⟨hfa, l1, l2, hroot, hl1⟩ := List.find?_eq_some.mp hf
    simp only [Bool.not_eq_true', Bool.not_eq_false] at hfa hl1
    rw [hroot] at hs
    have hl2 : ∀ y ∈ l2, node_cmp f.node y.node < 0 := by
      have := (List.pairwise_append.mp hs).2.1
      exact (List.pairwise_cons.mp this).1
    rw [Bool.eq_iff_iff]
    simp only [spec_is_master, List.any_eq_true, List.all_eq_true, Bool.and_eq_true,
      Bool.or_eq_true, Bool.not_eq_true', decide_eq_true_eq]
    constructor
    · intro he
      refine ⟨f, by rw [hroot]; simp, ⟨hfa, he⟩, ?_⟩
      intro y hy
      rw [hroot] at hy
      rcases List.mem_append.mp hy with h1 | h2
      · left
        have := hl1 y h1
        simpa using this
      · rcases List.mem_cons.mp h2 with rfl | h3
        · right; rw [node_cmp_self]
        · right; exact le_of_lt (hl2 y h3)
    · rintro ⟨z, hz, ⟨hza, hze⟩, hall⟩
      rw [hroot] at hz
      rcases List.mem_append.mp hz with h1 | h2
      · have := hl1 z h1
        simp only [Bool.not_eq_false] at this
        rw [hza] at this; cases this
      · rcases List.mem_cons.mp h2 with rfl | h3
        · exact hze
        · exfalso
          have h4 := node_cmp_swap _ _ (hl2 z h3)
          have hfm : f ∈ s.zk_node_root := by rw [hroot]; simp
          rcases hall f hfm with h5 | h5
          · rw [hfa] at h5; cases h5
          · omega

/-- Claim C13: for a non-empty tree in node order and `nr_sd_nodes ≠ 0`:
when some entry is not gone, `is_master()` is true iff this node is the
smallest node in node order whose `gone` flag is false; when every entry is
gone, no node is the smallest one with `gone` false, and `is_master()` is true
iff this node is the last entry of the tree, since the loop leaves `zk` at the
last entry it visited. -/
theorem C13_is_master_first_alive_or_last (srv : Server) (s : State) (hn : s.nr_sd_nodes ≠ 0)
    (hne : s.zk_node_root ≠ [])
    (hs : s.zk_node_root.Pairwise (fun a b => node_cmp a.node b.node < 0)) :
    ((∃ n ∈ s.zk_node_root, n.gone = false) → is_master srv s = spec_is_master s) ∧
    ((∀ n ∈ s.zk_node_root, n.gone = true) →
      spec_is_master s = false ∧
      is_master srv s = node_eq (s.zk_node_root.getLast hne).node s.this_node.node) := by
  refine ⟨is_master_of_alive srv s hn hs, ?_⟩
  intro hall
  constructor
  · rw [Bool.eq_false_iff]
    intro h
    simp only [spec_is_master, List.any_eq_true, Bool.and_eq_true, Bool.not_eq_true'] at h
    obtain ⟨z, hz, ⟨hza, _⟩, _⟩ := h
    rw [hall z hz] at hza
    cases hza
  · simp only [is_master, if_neg hn, is_master_loop_gone none s.zk_node_root hne hall]

/-- Claim C13 at the driver of `member_b` whose tree holds `member_a` and
`member_b`, both gone: `is_master()` answers true although no entry of the
tree has `gone` false. -/
theorem C13_is_master_witness :
    state_all_gone.nr_sd_nodes ≠ 0 ∧ (∀ n ∈ state_all_gone.zk_node_root, n.gone = true) ∧
      spec_is_master state_all_gone = false ∧ is_master server_ok state_all_gone = true := by
  have h := (C13_is_master_first_alive_or_last server_ok state_all_gone (by decide) (by decide)
    (by decide)).2 (by decide)
  refine ⟨by decide, by decide, h.1, ?_⟩
  rw [h.2]
  decide

end Zk

namespace Zk

open Sockfd (node_id node_id_cmp sd_node memcmp)
open Cluster

/-! ### The order of nodes is transitive -/

theorem memcmp_range (a b : List Nat) : memcmp a b = -1 ∨ memcmp a b = 0 ∨ memcmp a b = 1 := by
  induction a generalizing b with
  | nil => cases b <;> simp [memcmp]
  | cons x xs ih =>
    cases b with
    | nil => simp [memcmp]
    | cons y ys =>
      simp only [memcmp]
      split
      · simp
      · split
        · simp
        · exact ih ys

theorem memcmp_trans (a b c : List Nat) :
    memcmp a b < 0 → memcmp b c < 0 → memcmp a c < 0 := by
  induction a generalizing b c with
  | nil =>
    cases b with
    | nil => simp [memcmp]
    | cons y ys =>
      cases c with
      | nil => simp [memcmp]
      | cons z zs => simp [memcmp]
  | cons x xs ih =>
    cases b with
    | nil => simp [memcmp]
    | cons y ys =>
      cases c with
      | nil => simp [memcmp]
      | cons z zs =>
        simp only [memcmp]
        intro h1 h2
        by_cases hxy : x < y
        · by_cases hyz : y < z
          · have : x < z := by omega
            simp [this]
          · by_cases hzy : z < y
            · simp [hyz, hzy] at h2
            · have : x < z := by omega
              simp [this]
        · by_cases hyx : y < x
          · simp [hxy, hyx] at h1
          · have hxy2 : x = y := by omega
            subst hxy2
            simp only [hxy, if_false] at h1
            by_cases hyz : x < z
            · simp [hyz]
            · by_cases hzy : z < x
              · simp [hyz, hzy] at h2
              · simp only [hyz, hzy, if_false] at h2 ⊢
                exact ih ys zs h1 h2

theorem node_id_cmp_lt_iff (a b : node_id) :
    node_id_cmp a b < 0 ↔
      memcmp a.addr b.addr < 0 ∨ (memcmp a.addr b.addr = 0 ∧ (a.port < b.port ∨
        (a.port = b.port ∧ (memcmp a.io_addr b.io_addr < 0 ∨
          (memcmp a.io_addr b.io_addr = 0 ∧ a.io_port < b.io_port))))) := by
  unfold node_id_cmp
  split_ifs <;> omega

theorem node_id_cmp_trans (a b c : node_id) :
    node_id_cmp a b < 0 → node_id_cmp b c < 0 → node_id_cmp a c < 0 := by
  simp only [node_id_cmp_lt_iff]
  intro h1 h2
  rcases h1 with h1 | ⟨e1, h1⟩
  · rcases h2 with h2 | ⟨e2, _⟩
    · exact Or.inl (memcmp_trans _ _ _ h1 h2)
    · rw [← (Sockfd.memcmp_eq_zero _ _).mp e2]; exact Or.inl h1
  · rcases h2 with h2 | ⟨e2, h2⟩
    · rw [(Sockfd.memcmp_eq_zero _ _).mp e1]; exact Or.inl h2
    · have e12 : memcmp a.addr c.addr = 0 := by
        rw [Sockfd.memcmp_eq_zero] at e1 e2 ⊢; exact e1.trans e2
      refine Or.inr ⟨e12, ?_⟩
      rcases h1 with h1 | ⟨p1, h1⟩
      · rcases h2 with h2 | ⟨p2, _⟩
        · left; omega
        · left; omega
      · rcases h2 with h2 | ⟨p2, h2⟩
        · left; omega
        · refine Or.inr ⟨p1.trans p2, ?_⟩
          rcases h1 with h1 | ⟨i1, h1⟩
          · rcases h2 with h2 | ⟨i2, _⟩
            · exact Or.inl (memcmp_trans _ _ _ h1 h2)
            · rw [← (Sockfd.memcmp_eq_zero _ _).mp i2]; exact Or.inl h1
          · rcases h2 with h2 | ⟨i2, h2⟩
            · rw [(Sockfd.memcmp_eq_zero _ _).mp i1]; exact Or.inl h2
            · have i12 : memcmp a.io_addr c.io_addr = 0 := by
                rw [Sockfd.memcmp_eq_zero] at i1 i2 ⊢; exact i1.trans i2
              exact Or.inr ⟨i12, by omega⟩

theorem memcmp_neg (a b : List Nat) : memcmp b a = - memcmp a b := by
  induction a generalizing b with
  | nil => cases b <;> simp [memcmp]
  | cons x xs ih =>
    cases b with
    | nil => simp [memcmp]
    | cons y ys =>
      simp only [memcmp]
      by_cases h1 : x < y
      · have : ¬ y < x := by omega
        simp [h1, this]
      · by_cases h2 : y < x
        · simp [h1, h2]
        · simp only [h1, h2, if_false]
          exact ih ys

theorem node_id_cmp_neg (a b : node_id) : node_id_cmp b a = - node_id_cmp a b := by
  unfold node_id_cmp
  rw [memcmp_neg a.addr b.addr, memcmp_neg a.io_addr b.io_addr]
  split_ifs <;> omega

theorem node_cmp_trans (a b c : sd_node) :
    node_cmp a b < 0 → node_cmp b c < 0 → node_cmp a c < 0 :=
  node_id_cmp_trans a.nid b.nid c.nid

end Zk

namespace Zk

open Sockfd (node_id node_id_cmp sd_node memcmp)
open Cluster

/-! ### The tree of members -/

end Zk

namespace Zk

open Sockfd (node_id node_id_cmp sd_node memcmp)
open Cluster

end Zk

namespace Shepherd

open Sockfd (node_id node_id_cmp sd_node)
open Cluster

end Shepherd

namespace Cluster

open Sockfd (node_id node_id_cmp sd_node)

end Cluster

namespace Shepherd

open Sockfd (node_id node_id_cmp sd_node)
open Cluster

/-! ### Delivery order in the shepherd driver -/

/-- With a pending non-blocking event, `sph_process_event` leaves the block
events alone and makes no upcall other than the notify handler of the first
non-blocking event. -/
theorem process_nonblock (sheep : Sheep) (s : State) (ev : sph_event) (rest : List sph_event)
    (h : s.nonblocked_event_list = ev :: rest) :
    (sph_process_event sheep s).2.blocked_event_list = s.blocked_event_list ∧
      ((sph_process_event sheep s).2.upcalls = s.upcalls ∨
        (sph_process_event sheep s).2.upcalls =
          s.upcalls ++ [upcall.notify_handler ev.sender ev.msg]) := by
  unfold sph_process_event
  rw [h]
  simp only
  split
  · exact ⟨rfl, Or.inl rfl⟩
  · split
    · exact ⟨rfl, Or.inl rfl⟩
    · exact ⟨rfl, Or.inr rfl⟩

/-- A pending non-blocking event as `push_sph_event` queued it is delivered
by the next call of `sph_process_event`. -/
theorem process_nonblock_fresh (sheep : Sheep) (s : State) (ev : sph_event)
    (rest : List sph_event) (h : s.nonblocked_event_list = ev :: rest)
    (hr : ev.removed = false) (hc : ev.callbacked = false) :
    sph_process_event sheep s =
      (true, { s with nonblocked_event_list := rest,
                      upcalls := s.upcalls ++ [upcall.notify_handler ev.sender ev.msg] }) := by
  unfold sph_process_event
  rw [h]
  simp [hr, hc, up]

theorem loop_delivers_nonblock (sheep : Sheep) (k : Nat) (evs : List sph_event) (s : State)
    (h : s.nonblocked_event_list = evs)
    (hw : ∀ ev ∈ evs, ev.removed = false ∧ ev.callbacked = false) :
    sph_event_loop sheep (evs.length + k) s =
      sph_event_loop sheep k
        { s with nonblocked_event_list := [],
                 upcalls := s.upcalls ++
                   evs.map (fun ev => upcall.notify_handler ev.sender ev.msg) } := by
  induction evs generalizing s with
  | nil =>
    simp only [List.length_nil, Nat.zero_add, List.map_nil, List.append_nil]
    congr
    cases s; simp only at h; simp [h]
  | cons ev rest ih =>
    have h1 := process_nonblock_fresh sheep s ev rest h (hw ev (List.mem_cons_self _ _)).1
      (hw ev (List.mem_cons_self _ _)).2
    have e : (ev :: rest).length + k = (rest.length + k) + 1 := by simp; omega
    rw [e, sph_event_loop, h1]
    simp only
    rw [ih _ rfl (fun x hx => hw x (List.mem_cons_of_mem _ hx))]
    simp

theorem loop_total (sheep : Sheep) (fuel : Nat) (s : State)
    (h : s.nonblocked_event_list.length + s.blocked_event_list.length < fuel) :
    (sph_event_loop sheep fuel s).isSome = true := by
  induction fuel generalizing s with
  | zero => omega
  | succ n ih =>
    unfold sph_event_loop
    cases hp : sph_process_event sheep s with
    | mk b s1 =>
      cases b with
      | false => rfl
      | true =>
        simp only
        apply ih
        unfold sph_process_event at hp
        cases hnb : s.nonblocked_event_list with
        | cons ev rest =>
          rw [hnb] at hp
          simp only at hp
          rw [hnb] at h
          split at hp
          · cases hp; simp only [List.length_cons] at h ⊢; omega
          · split at hp
            · cases hp
            · cases hp; simp only [up, List.length_cons] at h ⊢; omega
        | nil =>
          rw [hnb] at hp
          simp only at hp
          cases hb : s.blocked_event_list with
          | nil => rw [hb] at hp; cases hp
          | cons ev rest =>
            rw [hb] at hp
            simp only at hp
            rw [hnb, hb] at h
            split at hp
            · cases hp; simp only [hnb, List.length_cons, List.length_nil] at h ⊢; omega
            · split at hp <;> cases hp

end Shepherd

namespace Shepherd

open Sockfd (node_id node_id_cmp sd_node)
open Cluster

theorem unblock_then_next_block (sheep : Sheep) (s : State) (b1 b2 : sph_event)
    (rest : List sph_event) (from_node : sd_node) (notify_msg : List Nat) (k : Nat)
    (hn : s.nonblocked_event_list = []) (hb : s.blocked_event_list = b1 :: b2 :: rest)
    (h1 : b1.removed = false) (h2 : b2.removed = false) (h3 : b2.callbacked = false) :
    ∃ s1 t, msg_notify_forward s true from_node notify_msg = Outcome.ok s1 ∧
      sph_event_handler sheep (k + 3) s1 = some t ∧
      t.upcalls = s.upcalls ++
        [upcall.notify_handler from_node notify_msg, upcall.block_handler b2.sender] := by
  have e1 : msg_notify_forward s true from_node notify_msg =
      Outcome.ok { s with
        blocked_event_list := { b1 with removed := true } :: b2 :: rest,
        nonblocked_event_list :=
          [{ sender := from_node, msg := notify_msg, callbacked := false, removed := false }] } := by
    simp [msg_notify_forward, remove_one_block_event, hb, mark_first_removed, h1,
      push_sph_event, hn]
  refine ⟨_, { s with
      nonblocked_event_list := [],
      blocked_event_list :=
        { b2 with callbacked := sheep.block_handler (s.upcalls.length + 1) b2.sender } :: rest,
      upcalls := s.upcalls ++
        [upcall.notify_handler from_node notify_msg, upcall.block_handler b2.sender] },
    e1, ?_, rfl⟩
  simp [sph_event_handler, sph_event_loop, sph_process_event, up, h2, h3]

/-- Claim C15: in the shepherd driver, a call of `sph_process_event` with a
non-empty list of non-blocking events leaves the block events alone and does
not call `sd_block_handler`; the loop of `sph_event_handler` first delivers
every pending non-blocking event (as `push_sph_event` queued them) to
`sd_notify_handler`, in the order of the list, and only then goes on with the
block events; the loop ends; and when an unblock arrives while a block event
is being worked on and another waits, the notify payload is delivered before
the handler of the next block event is called. -/
theorem C15_notify_before_block (sheep : Sheep) (s : State) :
    (s.nonblocked_event_list ≠ [] →
      (sph_process_event sheep s).2.blocked_event_list = s.blocked_event_list ∧
      ∀ n, (sph_process_event sheep s).2.upcalls ≠ s.upcalls ++ [upcall.block_handler n]) ∧
    ((∀ ev ∈ s.nonblocked_event_list, ev.removed = false ∧ ev.callbacked = false) →
      ∀ k, sph_event_loop sheep (s.nonblocked_event_list.length + k) s =
        sph_event_loop sheep k
          { s with nonblocked_event_list := [],
                   upcalls := s.upcalls ++ s.nonblocked_event_list.map
                     (fun ev => upcall.notify_handler ev.sender ev.msg) }) ∧
    (∀ fuel, s.nonblocked_event_list.length + s.blocked_event_list.length < fuel →
      (sph_event_handler sheep fuel s).isSome = true) ∧
    (∀ (b1 b2 : sph_event) (rest : List sph_event) (from_node : sd_node)
      (notify_msg : List Nat) (k : Nat),
      s.nonblocked_event_list = [] → s.blocked_event_list = b1 :: b2 :: rest →
      b1.removed = false → b2.removed = false → b2.callbacked = false →
      ∃ s1 t, msg_notify_forward s true from_node notify_msg = Outcome.ok s1 ∧
        sph_event_handler sheep (k + 3) s1 = some t ∧
        t.upcalls = s.upcalls ++
          [upcall.notify_handler from_node notify_msg, upcall.block_handler b2.sender]) := by
  refine ⟨?_, ?_, ?_, ?_⟩
  · intro hne
    cases hnb : s.nonblocked_event_list with
    | nil => exact absurd hnb hne
    | cons ev rest =>
      obtain ⟨hb, hu⟩ := process_nonblock sheep s ev rest hnb
      refine ⟨hb, ?_⟩
      intro n hn
      rcases hu with h | h
      · rw [h] at hn
        have := congrArg List.length hn
        simp at this
      · rw [h] at hn
        have := List.append_cancel_left hn
        simp at this
  · intro hw k
    exact loop_delivers_nonblock sheep k _ s rfl hw
  · intro fuel h
    exact loop_total sheep fuel s h
  · intro b1 b2 rest from_node notify_msg k hn hb h1 h2 h3
    exact unblock_then_next_block sheep s b1 b2 rest from_node notify_msg k hn hb h1 h2 h3

/-- Claim C15 at the driver of `member_a` with its own block event being
worked on and the one of `member_b` waiting: the unblock of `member_a` with
payload `[5]` is followed by the notify upcall and then by the block handler
of `member_b`. -/
theorem C15_notify_before_block_witness :
    ∃ s1 t, msg_notify_forward state_two_blocks true Zk.member_a [5] = Outcome.ok s1 ∧
      sph_event_handler Zk.sheep_ready 3 s1 = some t ∧
      t.upcalls = [upcall.block_handler Zk.member_a,
        upcall.notify_handler Zk.member_a [5], upcall.block_handler Zk.member_b] :=
  (C15_notify_before_block Zk.sheep_ready state_two_blocks).2.2.2
    { sender := Zk.member_a, msg := [], callbacked := true, removed := false }
    { sender := Zk.member_b, msg := [], callbacked := false, removed := false }
    [] Zk.member_a [5] 0 rfl rfl rfl rfl rfl

end Shepherd

namespace Zk

open Sockfd (node_id node_id_cmp sd_node)
open Cluster

/-! ### Block events in the ZooKeeper driver -/

/-- Claim C16 fails for `zk_handle_block`: when the event at `queue_pos` is a
block event, no block event is pending in `zk_block_list`, and a further
event lies in the queue behind it, `zk_event_handler` handles the block event
only, calls `sd_block_handler` for its sender, and returns with the further
event still unprocessed at `queue_pos`; the queue was not changed, so that
event was there when the handler was called. -/
theorem C16_block_handler_with_pending_event (sheep : Sheep) (srv : Server) (junk : zk_node)
    (s : State) (ev : zk_event)
    (hev : s.queue[s.queue_pos]? = some ev)
    (htype : ev.type = zk_event_type.EVENT_BLOCK)
    (hlist : s.zk_block_list = [])
    (hpend : s.queue_pos + 1 < s.queue.length) :
    ∃ t, zk_event_handler sheep srv junk s = Outcome.ok t ∧
      t.upcalls = s.upcalls ++ [upcall.block_handler ev.sender.node] ∧
      t.queue = s.queue ∧ t.queue_pos = s.queue_pos + 1 ∧ zk_queue_peek t = true := by
  have hpeek : zk_queue_peek s = true := by
    simp only [zk_queue_peek, decide_eq_true_eq]; omega
  refine ⟨{ s with
      queue_pos := s.queue_pos + 1,
      upcalls := s.upcalls ++ [upcall.block_handler ev.sender.node],
      zk_block_list := [{ node := ev.sender.node,
                          callbacked := sheep.block_handler s.upcalls.length ev.sender.node,
                          gone := false }] }, ?_, rfl, rfl, rfl, ?_⟩
  · unfold zk_event_handler
    rw [hpeek]
    simp [zk_queue_pop_advance, hev, zk_event_handlers, htype,
      zk_handle_block, hlist, up, zk_queue_peek, hpend]
  · simp only [zk_queue_peek, decide_eq_true_eq]; exact hpend

/-- Claim C16 at the driver of `member_a` whose queue holds a block event of
`member_b` and, behind it, a notify event: the handler calls the block handler
of `member_b` and leaves the notify event unprocessed. -/
theorem C16_block_handler_witness :
    ∃ t, zk_event_handler sheep_ready server_ok state_fresh.this_node state_block_then_notify =
        Outcome.ok t ∧
      t.upcalls = [upcall.block_handler member_b] ∧
      t.queue = state_block_then_notify.queue ∧ t.queue_pos = 1 ∧ zk_queue_peek t = true :=
  C16_block_handler_with_pending_event sheep_ready server_ok state_fresh.this_node
    state_block_then_notify
    { id := 1, type := zk_event_type.EVENT_BLOCK,
      sender := { node := member_b, callbacked := false, gone := false },
      join_result := cluster_join_result.CJ_RES_SUCCESS, buf := [], nodes := [] }
    rfl rfl rfl (by decide)

end Zk

namespace Ops

/-! ## Part 18: theorems about the request handlers -/

/-! ### The bitmap of vdi ids -/

theorem set_bit_some (nr : Nat) (bm : List Bool) (h : nr < bm.length) :
    set_bit nr bm = some (bm.set nr true) := by
  simp [set_bit, h]

theorem test_bit_set (nr i : Nat) (bm : List Bool) (h : nr < bm.length) :
    test_bit i (bm.set nr true) = if i = nr then true else test_bit i bm := by
  unfold test_bit
  simp only [List.getD_eq_getElem?_getD, List.getElem?_set]
  by_cases hi : nr = i
  · subst hi; simp [h]
  · have : ¬ i = nr := fun e => hi e.symm
    simp [hi, this]

/-- What `cluster_notify_vdi_add` returns and what it leaves of the bitmap. -/
theorem notify_vdi_add_eq (env : Env) (s : Sheep) (req : sd_req) (rsp : sd_rsp)
    (h : req.set_bitmap = true → req.new_vid < s.sys.vdi_inuse.length) :
    ∃ t, cluster_notify_vdi_add env s req rsp = Outcome.ret sd_res.SD_RES_SUCCESS rsp t ∧
      t.sys.vdi_inuse =
        (if req.set_bitmap then s.sys.vdi_inuse.set req.new_vid true else s.sys.vdi_inuse) ∧
      t.sys.epoch = s.sys.epoch := by
  unfold cluster_notify_vdi_add
  by_cases hb : req.set_bitmap = true
  · have hlt := h hb
    by_cases ho : req.old_vid ≠ 0
    · simp only [ho, hb, if_true, call, ne_eq, not_false_eq_true]
      rw [set_bit_some _ _ hlt]
      exact ⟨_, rfl, rfl, rfl⟩
    · simp only [ho, hb, if_true, if_false, call]
      rw [set_bit_some _ _ hlt]
      exact ⟨_, rfl, rfl, rfl⟩
  · simp only [Bool.not_eq_true] at hb
    by_cases ho : req.old_vid ≠ 0
    · simp only [ho, hb, if_true, call, ne_eq, not_false_eq_true, Bool.false_eq_true,
        if_false]
      exact ⟨_, rfl, rfl, rfl⟩
    · simp only [ho, hb, if_false, call, Bool.false_eq_true]
      exact ⟨_, rfl, rfl, rfl⟩

/-- Claim C17: for a request whose `new_vid` lies inside the bitmap when
`set_bitmap` is set, `cluster_notify_vdi_add` returns success; applied a
second time with the same request it leaves the bitmap as the first
application left it; with `set_bitmap` true bit `new_vid` is set after it and
every other bit is as before, with `set_bitmap` false the bitmap is
unchanged. -/
theorem C17_notify_vdi_add_sets_one_bit (env : Env) (s : Sheep) (req : sd_req) (rsp : sd_rsp)
    (h : req.set_bitmap = true → req.new_vid < s.sys.vdi_inuse.length) :
    ∃ t1 t2,
      cluster_notify_vdi_add env s req rsp = Outcome.ret sd_res.SD_RES_SUCCESS rsp t1 ∧
      cluster_notify_vdi_add env t1 req rsp = Outcome.ret sd_res.SD_RES_SUCCESS rsp t2 ∧
      t2.sys.vdi_inuse = t1.sys.vdi_inuse ∧
      t1.sys.vdi_inuse.length = s.sys.vdi_inuse.length ∧
      (req.set_bitmap = true →
        test_bit req.new_vid t1.sys.vdi_inuse = true ∧
        ∀ i, i ≠ req.new_vid → test_bit i t1.sys.vdi_inuse = test_bit i s.sys.vdi_inuse) ∧
      (req.set_bitmap = false → t1.sys.vdi_inuse = s.sys.vdi_inuse) := by
  obtain ⟨t1, e1, b1, _⟩ := notify_vdi_add_eq env s req rsp h
  have hlen : t1.sys.vdi_inuse.length = s.sys.vdi_inuse.length := by
    rw [b1]; split <;> simp
  obtain ⟨t2, e2, b2, _⟩ := notify_vdi_add_eq env t1 req rsp (fun hb => by rw [hlen]; exact h hb)
  refine ⟨t1, t2, e1, e2, ?_, hlen, ?_, ?_⟩
  · rw [b2, b1]
    by_cases hb : req.set_bitmap = true
    · simp only [hb, if_true]
      apply List.ext_getElem?
      intro i
      simp only [List.getElem?_set, List.length_set]
      by_cases hi : req.new_vid = i <;> simp [hi]
    · simp [hb]
  · intro hb
    rw [b1]
    simp only [hb, if_true]
    constructor
    · rw [test_bit_set _ _ _ (h hb)]; simp
    · intro i hi
      rw [test_bit_set _ _ _ (h hb)]; simp [hi]
  · intro hb
    rw [b1]; simp [hb]

/-- Claim C17 at a bitmap of eight bits with bit 2 set and a request for vdi
id 4 with `set_bitmap`: one application and two applications both leave bits
2 and 4 set and no other. -/
theorem C17_notify_vdi_add_witness :
    ∃ t1 t2,
      cluster_notify_vdi_add env_ok sheep_epoch5
        { req_zero with new_vid := 4, set_bitmap := true } rsp_zero =
          Outcome.ret sd_res.SD_RES_SUCCESS rsp_zero t1 ∧
      cluster_notify_vdi_add env_ok t1
        { req_zero with new_vid := 4, set_bitmap := true } rsp_zero =
          Outcome.ret sd_res.SD_RES_SUCCESS rsp_zero t2 ∧
      t2.sys.vdi_inuse = t1.sys.vdi_inuse ∧
      t1.sys.vdi_inuse = [false, false, true, false, true, false, false, false] := by
  obtain ⟨t1, t2, e1, e2, e3, _⟩ := C17_notify_vdi_add_sets_one_bit env_ok sheep_epoch5
    { req_zero with new_vid := 4, set_bitmap := true } rsp_zero (fun _ => by decide)
  refine ⟨t1, t2, e1, e2, e3, ?_⟩
  have : cluster_notify_vdi_add env_ok sheep_epoch5
      { req_zero with new_vid := 4, set_bitmap := true } rsp_zero =
      Outcome.ret sd_res.SD_RES_SUCCESS rsp_zero
        { sheep_epoch5 with
          sys := { sheep_epoch5.sys with
            vdi_inuse := [false, false, true, false, true, false, false, false] },
          calls := [ext_call.add_vdi_state 4 0 false] } := by decide
  rw [this] at e1
  cases e1
  rfl

end Ops

namespace Ops

/-! ### The epoch -/

theorem remove_epochs_sys (s : Sheep) (n : Nat) : (remove_epochs s n).sys = s.sys := by
  unfold remove_epochs
  generalize List.range n = l
  induction l generalizing s with
  | nil => rfl
  | cons a as ih => simp only [List.foldl_cons]; rw [ih]; rfl

end Ops

namespace Ops

end Ops

namespace Farm

/-! ## Part 19: theorems about `collie/farm/farm.c` -/

theorem int_of_u32_nonneg (n : Nat) (h : n < 2147483648) : 0 ≤ int_of_u32 n := by
  unfold int_of_u32
  have : n % 4294967296 = n := Nat.mod_eq_of_lt (by omega)
  rw [this, if_pos h]
  exact Int.ofNat_nonneg n

/-- Claim C19 fails for an object that cannot be read: when the hash request
finds no copy and `collie_exec_req` fails for the read request,
`sd_read_object` returns `SD_RES_EIO`, a result code that is not negative, so
the test `sd_read_object(...) < 0` of `do_save_object` does not see the
failure; if the write of the blob then returns 0, `do_save_object` returns
with `work_error` still false, having stored the bytes the buffer from
`xmalloc` happened to hold. -/
theorem C19_failed_read_is_not_noticed (env : Snap_env) (s : Snap) (entry : trunk_entry)
    (v : Int × Option (List Nat)) (st1 : Store)
    (hw : s.work_error = false)
    (hh : sd_read_object_sha1 env entry.oid entry.nr_copies = none)
    (hr : (env.read_obj entry.oid).ret < 0)
    (hc : env.codes.SD_RES_EIO < 2147483648)
    (hwr : sha1_file_write env.objdir env.fl s.st (env.xmalloc (env.get_objsize entry.oid))
      (env.get_objsize entry.oid) = Outcome.ret v st1)
    (hv : 0 ≤ v.1) :
    sd_read_object env entry.oid (env.xmalloc (env.get_objsize entry.oid))
        (env.get_objsize entry.oid) =
      (int_of_u32 env.codes.SD_RES_EIO, env.xmalloc (env.get_objsize entry.oid)) ∧
    do_save_object env s entry =
      some ({ entry with sha1 := v.2.getD entry.sha1 },
        { s with st := st1, events := s.events ++ [work_event.saved entry.oid] }) ∧
    ∀ e t, do_save_object env s entry = some (e, t) → t.work_error = false := by
  have hread : sd_read_object env entry.oid (env.xmalloc (env.get_objsize entry.oid))
      (env.get_objsize entry.oid) =
      (int_of_u32 env.codes.SD_RES_EIO, env.xmalloc (env.get_objsize entry.oid)) := by
    unfold sd_read_object
    simp only [hr, if_true]
  have hnn := int_of_u32_nonneg _ hc
  have hdo : do_save_object env s entry =
      some ({ entry with sha1 := v.2.getD entry.sha1 },
        { s with st := st1, events := s.events ++ [work_event.saved entry.oid] }) := by
    unfold do_save_object
    simp only [hw, Bool.false_eq_true, if_false, hh]
    unfold do_save_object_read
    simp only [hread, hwr]
    rw [if_neg (by omega), if_neg (by omega), hw]
  refine ⟨hread, hdo, ?_⟩
  intro e t h
  rw [hdo] at h
  cases h
  exact hw

set_option maxRecDepth 1000000 in
/-- Claim C19 in a cluster whose single object 1 answers neither the hash
request nor the read request: `do_save_object` stores the four bytes of the
fresh buffer under their key, and `farm_save_snapshot` returns 0 after it
called `trunk_file_write` with the entry of object 1, `snap_file_write` and
`snap_log_write`. -/
theorem C19_failed_read_witness :
    (sd_read_object env_unreadable 1 (env_unreadable.xmalloc 4) 4).1 = 3 ∧
    (∀ e t, do_save_object env_unreadable Snap.init
        { oid := 1, nr_copies := 3, sha1 := List.replicate SHA1_DIGEST_SIZE 0 } = some (e, t) →
      t.work_error = false) ∧
    (farm_save_snapshot env_unreadable Snap.init "t".toList []).map
        (fun r => (r.1, r.2.work_error, r.2.published)) =
      some (0, false,
        [publish_call.trunk_file_write 1
           [{ oid := 1, nr_copies := 3, sha1 := get_sha1 [0xEE, 0xEE, 0xEE, 0xEE] 4 }],
         publish_call.snap_file_write 1 (List.replicate 20 1),
         publish_call.snap_log_write 1 "t".toList (List.replicate 20 2)]) := by
  have h := C19_failed_read_is_not_noticed env_unreadable Snap.init
    { oid := 1, nr_copies := 3, sha1 := List.replicate SHA1_DIGEST_SIZE 0 } _ _
    rfl (by decide) (by decide) (by decide)
    (sha1_file_write_fresh env_unreadable.objdir Store.empty (List.replicate 4 0xEE) 4 rfl)
    (le_refl _)
  exact ⟨by decide, h.2.2, by decide⟩

end Farm

namespace Farm

/-- Once `work_error` is set, the work queue appends no trunk entry and keeps
the flag, whatever steps it takes. -/
theorem work_steps_of_error (env : Snap_env) (sched : List Bool) (s : Snap)
    (h : s.work_error = true) :
    ∃ t, work_steps env s sched = some t ∧ t.work_error = true ∧
      t.trunk_buf = s.trunk_buf ∧ t.published = s.published := by
  induction sched generalizing s with
  | nil => exact ⟨s, rfl, h, rfl, rfl⟩
  | cons b bs ih =>
    have step : ∃ s1, work_step env s b = some s1 ∧ s1.work_error = true ∧
        s1.trunk_buf = s.trunk_buf ∧ s1.published = s.published := by
      cases b with
      | true =>
        unfold work_step
        cases hq : s.queued with
        | nil => exact ⟨s, rfl, h, rfl, rfl⟩
        | cons e rest =>
          simp only [do_save_object, h, if_true]
          exact ⟨_, rfl, rfl, rfl, rfl⟩
      | false =>
        unfold work_step
        cases hq : s.finished with
        | nil => exact ⟨s, rfl, h, rfl, rfl⟩
        | cons e rest =>
          simp only [save_object_done, h, if_true]
          exact ⟨_, rfl, rfl, rfl, rfl⟩
    obtain ⟨s1, e1, w1, t1, p1⟩ := step
    obtain ⟨t, e2, w2, t2, p2⟩ := ih s1 w1
    refine ⟨t, ?_, w2, t2.trans t1, p2.trans p1⟩
    simp only [work_steps, e1, e2]

/-- With `work_error` set when the queue has drained, `farm_save_snapshot`
returns -1 and calls none of the functions that publish. -/
theorem publish_of_error (env : Snap_env) (s : Snap) (tag : List Char) (idx : Nat)
    (h : s.work_error = true) : publish_snapshot env s tag idx = (-1, s) := by
  simp [publish_snapshot, h]

end Farm

namespace Farm

/-! ## Part 20: theorems about copy on write -/

/-! ### What trimming drops is zero -/

theorem eq_replicate_of_all_zero (l : List Nat) (h : l.all (fun b => b == 0) = true) :
    l = List.replicate l.length 0 := by
  rw [List.eq_replicate_iff]
  refine ⟨rfl, ?_⟩
  intro b hb
  have := List.all_eq_true.mp h b hb
  simpa using this

theorem leading_zero_sector_take {w : List Nat} (h : leading_zero_sector w = true) :
    w.take SECTOR_SIZE = List.replicate SECTOR_SIZE 0 := by
  have hl := leading_zero_sector_length h
  unfold leading_zero_sector at h
  simp only [Bool.and_eq_true, decide_eq_true_eq] at h
  have := eq_replicate_of_all_zero _ h.2
  rw [List.length_take, Nat.min_eq_left hl] at this
  exact this

theorem trailing_zero_sector_drop {w : List Nat} (h : trailing_zero_sector w = true) :
    w.drop (w.length - SECTOR_SIZE) = List.replicate SECTOR_SIZE 0 := by
  have hl := trailing_zero_sector_length h
  unfold trailing_zero_sector at h
  simp only [Bool.and_eq_true, decide_eq_true_eq] at h
  have := eq_replicate_of_all_zero _ h.2
  rw [List.length_drop] at this
  have e : w.length - (w.length - SECTOR_SIZE) = SECTOR_SIZE := by omega
  rw [e] at this
  exact this

theorem trim_leading_prefix_zero (n : Nat) (w : List Nat) :
    w.take (w.length - (trim_leading n w).length) =
      List.replicate (w.length - (trim_leading n w).length) 0 := by
  induction n generalizing w with
  | zero => simp [trim_leading]
  | succ n ih =>
    unfold trim_leading
    by_cases h : leading_zero_sector w = true
    · rw [if_pos h]
      have hl := leading_zero_sector_length h
      have hle := (trim_leading_eq_drop n (w.drop SECTOR_SIZE)).2
      rw [List.length_drop] at hle
      have e : w.length - (trim_leading n (w.drop SECTOR_SIZE)).length =
          SECTOR_SIZE + ((w.drop SECTOR_SIZE).length -
            (trim_leading n (w.drop SECTOR_SIZE)).length) := by
        rw [List.length_drop]; omega
      rw [e, List.take_add, leading_zero_sector_take h, ih (w.drop SECTOR_SIZE),
        List.replicate_add]
    · rw [if_neg h]
      simp

theorem trim_trailing_suffix_zero (n : Nat) (w : List Nat) :
    w.drop (trim_trailing n w).length =
      List.replicate (w.length - (trim_trailing n w).length) 0 := by
  induction n generalizing w with
  | zero => simp [trim_trailing]
  | succ n ih =>
    unfold trim_trailing
    by_cases h : trailing_zero_sector w = true
    · rw [if_pos h]
      have hl := trailing_zero_sector_length h
      have hle := trim_trailing_length_le n (w.take (w.length - SECTOR_SIZE))
      have hlt : (w.take (w.length - SECTOR_SIZE)).length = w.length - SECTOR_SIZE := by
        rw [List.length_take]; omega
      rw [hlt] at hle
      have e1 : w.drop (trim_trailing n (w.take (w.length - SECTOR_SIZE))).length =
          (w.take (w.length - SECTOR_SIZE)).drop
              (trim_trailing n (w.take (w.length - SECTOR_SIZE))).length ++
            w.drop (w.length - SECTOR_SIZE) := by
        have := @List.drop_append_of_le_length _ (w.take (w.length - SECTOR_SIZE))
          (w.drop (w.length - SECTOR_SIZE))
          (trim_trailing n (w.take (w.length - SECTOR_SIZE))).length
          (by rw [hlt]; exact hle)
        rwa [List.take_append_drop] at this
      have e2 : w.length - SECTOR_SIZE -
          (trim_trailing n (w.take (w.length - SECTOR_SIZE))).length + SECTOR_SIZE =
          w.length - (trim_trailing n (w.take (w.length - SECTOR_SIZE))).length := by omega
      rw [e1, ih (w.take (w.length - SECTOR_SIZE)), trailing_zero_sector_drop h, hlt,
        ← List.replicate_add, e2]
    · rw [if_neg h]
      simp

/-- The window that `trim_zero_sectors` keeps, with zeros put back before and
behind it, is the buffer. -/
theorem trim_zero_sectors_untrim (buf : List Nat) :
    List.replicate (trim_zero_sectors buf).offset 0 ++
        (trim_zero_sectors buf).buf.take (trim_zero_sectors buf).length ++
        List.replicate (buf.length - (trim_zero_sectors buf).offset -
          (trim_zero_sectors buf).length) 0 = buf := by
  obtain ⟨ho, hl⟩ := trim_zero_sectors_fields buf
  have hw := trimmed_window_eq buf
  rw [hw, ho, hl]
  generalize hw1 : trim_leading (buf.length / SECTOR_SIZE) buf = w1
  generalize hw2 : trim_trailing (w1.length / SECTOR_SIZE) w1 = w2
  have a1 := trim_leading_prefix_zero (buf.length / SECTOR_SIZE) buf
  have a2 := trim_leading_eq_drop (buf.length / SECTOR_SIZE) buf
  rw [hw1] at a1 a2
  have b1 := trim_trailing_suffix_zero (w1.length / SECTOR_SIZE) w1
  have b2 := trim_trailing_eq_take (w1.length / SECTOR_SIZE) w1
  have b3 := trim_trailing_length_le (w1.length / SECTOR_SIZE) w1
  rw [hw2] at b1 b2 b3
  have e : buf.length - (buf.length - w1.length) - w2.length = w1.length - w2.length := by
    have := a2.2; omega
  rw [e, ← a1, ← b1]
  conv_rhs => rw [← List.take_append_drop (buf.length - w1.length) buf]
  rw [List.append_assoc]
  congr 1
  rw [← a2.1]
  conv_rhs => rw [← List.take_append_drop w2.length w1]
  rw [← b2]

end Farm

namespace Ops

/-! ### Copy on write -/

theorem memcpy_at_length (buf src : List Nat) (off n : Nat) (h : off + n ≤ buf.length)
    (hs : n ≤ src.length) : (memcpy_at buf off src n).length = buf.length := by
  simp only [memcpy_at, List.length_append, List.length_take, List.length_drop]
  omega

theorem untrim_length (buf : List Nat) (offset len size : Nat) (h : offset + len ≤ size)
    (hb : len ≤ buf.length) : (untrim_zero_sectors buf offset len size).length = size := by
  simp only [untrim_zero_sectors, List.length_append, List.length_replicate, List.length_take]
  omega

/-- The buffer that `read_copy_from_replica` leaves on success: the bytes of
the reply between zeros. -/
theorem read_copy_success (env : Obj_env) (epoch oid : Nat) (buf : List Nat)
    (hr : (env.gateway_read_obj oid epoch).result = sd_res.SD_RES_SUCCESS)
    (hb : (env.gateway_read_obj oid epoch).bytes.length =
      (env.gateway_read_obj oid epoch).data_length) :
    read_copy_from_replica env epoch oid buf =
      (sd_res.SD_RES_SUCCESS,
        untrim_zero_sectors (env.gateway_read_obj oid epoch).bytes
          (env.gateway_read_obj oid epoch).offset (env.gateway_read_obj oid epoch).data_length
          env.SD_DATA_OBJ_SIZE) := by
  unfold read_copy_from_replica
  simp only [hr, if_true]
  congr 1
  unfold untrim_zero_sectors memcpy_at
  congr 2
  simp only [List.take_zero, List.nil_append]
  rw [List.take_append_of_le_length (by simp [hb])]
  simp [hb]

/-- Claim C20: for a create-and-write peer request with the COW flag,
`data_length < SD_DATA_OBJ_SIZE` and `offset + data_length ≤
SD_DATA_OBJ_SIZE` (the buffer of the request holding `data_length` bytes, and
the reply of the read lying inside the object): when the read of the source
succeeds, the store's `create_and_write` is called once, with the epoch of the
request and an offset, length and buffer that, zero-extended to
`SD_DATA_OBJ_SIZE`, are the source object's contents (the reply of the read
with its zeros put back) with the bytes of the request copied to `[offset,
offset + data_length)`, and the oid is inserted into the object list cache
iff the store returns success; when the read fails, its result is returned,
the store is not called and the oid is not inserted. -/
theorem C20_cow_write_is_source_with_overlay (env : Obj_env) (st : Obj_state)
    (req : obj_request) (hcow : req.cow = true)
    (hlen : req.data_length < env.SD_DATA_OBJ_SIZE)
    (hoff : req.offset + req.data_length ≤ env.SD_DATA_OBJ_SIZE)
    (hdata : req.data.length = req.data_length)
    (hin : (env.gateway_read_obj req.cow_oid req.epoch).offset +
      (env.gateway_read_obj req.cow_oid req.epoch).data_length ≤ env.SD_DATA_OBJ_SIZE)
    (hb : (env.gateway_read_obj req.cow_oid req.epoch).bytes.length =
      (env.gateway_read_obj req.cow_oid req.epoch).data_length) :
    ((env.gateway_read_obj req.cow_oid req.epoch).result = sd_res.SD_RES_SUCCESS →
      ∃ iocb : siocb,
        (peer_create_and_write_obj env st req).2.created = st.created ++ [(req.oid, iocb)] ∧
        iocb.epoch = req.epoch ∧
        zero_extended iocb env.SD_DATA_OBJ_SIZE =
          memcpy_at
            (untrim_zero_sectors (env.gateway_read_obj req.cow_oid req.epoch).bytes
              (env.gateway_read_obj req.cow_oid req.epoch).offset
              (env.gateway_read_obj req.cow_oid req.epoch).data_length env.SD_DATA_OBJ_SIZE)
            req.offset req.data req.data_length ∧
        (peer_create_and_write_obj env st req).1 = env.create_and_write req.oid iocb ∧
        (peer_create_and_write_obj env st req).2.objlist_cache =
          (if env.create_and_write req.oid iocb = sd_res.SD_RES_SUCCESS then
            st.objlist_cache ++ [req.oid] else st.objlist_cache)) ∧
    ((env.gateway_read_obj req.cow_oid req.epoch).result ≠ sd_res.SD_RES_SUCCESS →
      peer_create_and_write_obj env st req =
        ((env.gateway_read_obj req.cow_oid req.epoch).result, st)) := by
  have hne : req.data_length ≠ env.SD_DATA_OBJ_SIZE := by omega
  constructor
  · intro hr
    have hread := read_copy_success env req.epoch req.cow_oid env.xvalloc hr hb
    generalize hsrc : untrim_zero_sectors (env.gateway_read_obj req.cow_oid req.epoch).bytes
      (env.gateway_read_obj req.cow_oid req.epoch).offset
      (env.gateway_read_obj req.cow_oid req.epoch).data_length env.SD_DATA_OBJ_SIZE = src
      at hread ⊢
    have hsl : src.length = env.SD_DATA_OBJ_SIZE := by
      rw [← hsrc]; exact untrim_length _ _ _ _ hin (by rw [hb])
    generalize hm : memcpy_at src req.offset req.data req.data_length = merged
    have hml : merged.length = env.SD_DATA_OBJ_SIZE := by
      rw [← hm, memcpy_at_length _ _ _ _ (by rw [hsl]; exact hoff) (by rw [hdata]), hsl]
    have hu := Farm.trim_zero_sectors_untrim merged
    rw [hml] at hu
    refine ⟨{ epoch := req.epoch, buf := (Farm.trim_zero_sectors merged).buf,
              length := (Farm.trim_zero_sectors merged).length,
              offset := (Farm.trim_zero_sectors merged).offset }, ?_, rfl, ?_, ?_, ?_⟩
    · simp only [peer_create_and_write_obj, hcow, if_true, hne, ne_eq, not_false_eq_true,
        hread, not_true_eq_false, if_false, hm, do_create_and_write_obj,
        create_and_write_done]
      split <;> rfl
    · exact hu
    · simp only [peer_create_and_write_obj, hcow, if_true, hne, ne_eq, not_false_eq_true,
        hread, not_true_eq_false, if_false, hm, do_create_and_write_obj,
        create_and_write_done]
      split <;> rfl
    · simp only [peer_create_and_write_obj, hcow, if_true, hne, ne_eq, not_false_eq_true,
        hread, not_true_eq_false, if_false, hm, do_create_and_write_obj,
        create_and_write_done]
      split <;> rfl
  · intro hr
    have hread : read_copy_from_replica env req.epoch req.cow_oid env.xvalloc =
        ((env.gateway_read_obj req.cow_oid req.epoch).result, env.xvalloc) := by
      unfold read_copy_from_replica
      simp only [hr, if_false]
    simp only [peer_create_and_write_obj, hcow, if_true, hne, ne_eq, not_false_eq_true,
      hread, hr]

end Ops

namespace Ops

set_option maxRecDepth 100000 in
/-- Claim C20 with objects of two sectors: the source reads as one zero sector
and one sector of 0x5A, the request writes the bytes 1, 2, 3, 4 at offset 0;
the store gets a call for object 9 whose bytes, zero-extended, are 1, 2, 3, 4,
then 508 zeros, then 512 times 0x5A. -/
theorem C20_cow_write_witness :
    ∃ iocb : siocb,
      (peer_create_and_write_obj obj_env_example { created := [], objlist_cache := [] }
        cow_request_example).2.created = [(9, iocb)] ∧
      zero_extended iocb 1024 =
        [1, 2, 3, 4] ++ List.replicate 508 0 ++ List.replicate 512 0x5A := by
  obtain ⟨iocb, h1, _, h3, _⟩ := (C20_cow_write_is_source_with_overlay obj_env_example
    { created := [], objlist_cache := [] } cow_request_example rfl (by decide) (by decide)
    rfl (by decide) (by decide)).1 rfl
  refine ⟨iocb, h1, ?_⟩
  rw [show obj_env_example.SD_DATA_OBJ_SIZE = 1024 from rfl] at h3
  rw [h3]
  decide

end Ops

/-! ## Part 21: theorems about the hexadecimal names of blobs -/

namespace Farm

theorem hex_eq_digitChar : ∀ d, d < 16 → hex d = Nat.digitChar d := by decide

theorem hex_hi (v : Nat) (h : v < 256) : hex (v >>> 4) = Nat.digitChar (v / 16) := by
  rw [Nat.shiftRight_eq_div_pow]
  exact hex_eq_digitChar _ (by omega)

theorem hex_lo (v : Nat) : hex (v &&& 0xf) = Nat.digitChar (v % 16) := by
  have e : v &&& 0xf = v % 16 := Nat.and_pow_two_sub_one_eq_mod v 4
  rw [e]
  exact hex_eq_digitChar _ (Nat.mod_lt _ (by decide))

/-- The buffer after the first `n` rounds of the loop of `fill_sha1_path`:
the characters at `base`, `base + 1` and from `base + 3` to `base + 2 * n`
are digits of the key, the others are as before. -/
theorem fill_fold_get (base : Nat) (sha1 : List Nat) (n : Nat) (buf : List Char) (j : Nat) :
    ((List.range n).foldl (fun b i =>
        let val := sha1.getD i 0
        let pos := base + i * 2 + (if 0 < i then 1 else 0)
        (b.set pos (hex (val >>> 4))).set (pos + 1) (hex (val &&& 0xf))) buf)[j]? =
      if j < buf.length ∧ ((base ≤ j ∧ j < base + 2 ∧ 0 < n) ∨ (base + 3 ≤ j ∧ j ≤ base + 2 * n))
      then some (if (j - base) % 2 = (if j < base + 2 then 0 else 1)
                 then hex (sha1.getD ((j - base - (if j < base + 2 then 0 else 1)) / 2) 0 >>> 4)
                 else hex (sha1.getD ((j - base - (if j < base + 2 then 0 else 1)) / 2) 0 &&& 0xf))
      else buf[j]? := by
  induction n with
  | zero =>
    have : ¬ (j < buf.length ∧ ((base ≤ j ∧ j < base + 2 ∧ 0 < 0) ∨
        (base + 3 ≤ j ∧ j ≤ base + 2 * 0))) := by omega
    simp only [List.range_zero, List.foldl_nil, if_neg this]
  | succ n ih =>
    rw [List.range_succ, List.foldl_append]
    simp only [List.foldl_cons, List.foldl_nil]
    have hlen : ∀ m, ((List.range m).foldl (fun b i =>
        let val := sha1.getD i 0
        let pos := base + i * 2 + (if 0 < i then 1 else 0)
        (b.set pos (hex (val >>> 4))).set (pos + 1) (hex (val &&& 0xf))) buf).length =
        buf.length := by
      intro m
      induction m with
      | zero => rfl
      | succ m ihm =>
        rw [List.range_succ, List.foldl_append]
        simp only [List.foldl_cons, List.foldl_nil, List.length_set]
        exact ihm
    rw [List.getElem?_set, List.getElem?_set, List.length_set, hlen n, ih]
    by_cases hjl : j < buf.length
    · by_cases h0 : n = 0
      · subst h0
        by_cases e1 : j = base + 1
        · subst e1
          simp [hjl]
        · by_cases e0 : j = base
          · subst e0
            simp [hjl]
          · have n1 : ¬ (j < buf.length ∧ ((base ≤ j ∧ j < base + 2 ∧ 0 < 0 + 1) ∨
                (base + 3 ≤ j ∧ j ≤ base + 2 * (0 + 1)))) := by omega
            have n2 : ¬ (j < buf.length ∧ ((base ≤ j ∧ j < base + 2 ∧ 0 < 0) ∨
                (base + 3 ≤ j ∧ j ≤ base + 2 * 0))) := by omega
            rw [if_neg n1, if_neg n2]
            have : ¬ (base + 0 * 2 + (if 0 < 0 then 1 else 0) + 1 = j) := by simp; omega
            rw [if_neg this]
            have : ¬ (base + 0 * 2 + (if 0 < 0 then 1 else 0) = j) := by simp; omega
            rw [if_neg this]
      · have hn : 0 < n := Nat.pos_of_ne_zero h0
        have epos : base + n * 2 + (if 0 < n then 1 else 0) = base + 2 * n + 1 := by
          rw [if_pos hn]; omega
        rw [epos]
        by_cases e1 : j = base + 2 * n + 2
        · subst e1
          have c1 : base + 2 * n + 2 < buf.length ∧
              ((base ≤ base + 2 * n + 2 ∧ base + 2 * n + 2 < base + 2 ∧ 0 < n + 1) ∨
               (base + 3 ≤ base + 2 * n + 2 ∧ base + 2 * n + 2 ≤ base + 2 * (n + 1))) :=
            ⟨hjl, Or.inr ⟨by omega, by omega⟩⟩
          have c2 : ¬ (base + 2 * n + 2 < base + 2) := by omega
          have c3 : ¬ ((base + 2 * n + 2 - base) % 2 = 1) := by omega
          have c4 : (base + 2 * n + 2 - base - 1) / 2 = n := by omega
          rw [if_pos rfl, if_pos (by omega), if_pos c1]
          simp only [if_neg c2, if_neg c3, c4]
        · have c0 : ¬ (base + 2 * n + 1 + 1 = j) := by omega
          rw [if_neg c0]
          by_cases e0 : j = base + 2 * n + 1
          · subst e0
            have c1 : base + 2 * n + 1 < buf.length ∧
                ((base ≤ base + 2 * n + 1 ∧ base + 2 * n + 1 < base + 2 ∧ 0 < n + 1) ∨
                 (base + 3 ≤ base + 2 * n + 1 ∧ base + 2 * n + 1 ≤ base + 2 * (n + 1))) :=
              ⟨hjl, Or.inr ⟨by omega, by omega⟩⟩
            have c2 : ¬ (base + 2 * n + 1 < base + 2) := by omega
            have c3 : (base + 2 * n + 1 - base) % 2 = 1 := by omega
            have c4 : (base + 2 * n + 1 - base - 1) / 2 = n := by omega
            rw [if_pos rfl, if_pos hjl, if_pos c1]
            simp only [if_neg c2, if_pos c3, c4]
          · have c1 : ¬ (base + 2 * n + 1 = j) := by omega
            rw [if_neg c1]
            by_cases hc : j < buf.length ∧ ((base ≤ j ∧ j < base + 2 ∧ 0 < n) ∨
                (base + 3 ≤ j ∧ j ≤ base + 2 * n))
            · have hc2 : j < buf.length ∧ ((base ≤ j ∧ j < base + 2 ∧ 0 < n + 1) ∨
                  (base + 3 ≤ j ∧ j ≤ base + 2 * (n + 1))) := by omega
              rw [if_pos hc, if_pos hc2]
            · have hc2 : ¬ (j < buf.length ∧ ((base ≤ j ∧ j < base + 2 ∧ 0 < n + 1) ∨
                  (base + 3 ≤ j ∧ j ≤ base + 2 * (n + 1)))) := by omega
              rw [if_neg hc, if_neg hc2]
    · have hge : buf.length ≤ j := Nat.le_of_not_lt hjl
      have n1 : ∀ m, ¬ (j < buf.length ∧ ((base ≤ j ∧ j < base + 2 ∧ 0 < m) ∨
          (base + 3 ≤ j ∧ j ≤ base + 2 * m))) := fun m h => hjl h.1
      rw [if_neg (n1 _), if_neg (n1 _), List.getElem?_eq_none hge]
      split_ifs <;> first | rfl | omega

end Farm

namespace Farm

theorem hex_digits_length (key : List Nat) : (hex_digits key).length = 2 * key.length := by
  induction key with
  | nil => rfl
  | cons b t ih =>
    have : hex_digits (b :: t) = Nat.digitChar (b / 16) :: Nat.digitChar (b % 16) :: hex_digits t := rfl
    rw [this, List.length_cons, List.length_cons, List.length_cons, ih]; omega

theorem hex_digits_get (key : List Nat) (k : Nat) (h : k < 2 * key.length) :
    (hex_digits key)[k]? =
      some (if k % 2 = 0 then Nat.digitChar (key.getD (k / 2) 0 / 16)
            else Nat.digitChar (key.getD (k / 2) 0 % 16)) := by
  induction key generalizing k with
  | nil => simp at h
  | cons b t ih =>
    have e : hex_digits (b :: t) = Nat.digitChar (b / 16) :: Nat.digitChar (b % 16) :: hex_digits t := rfl
    rw [e]
    match k, h with
    | 0, _ => simp
    | 1, _ => simp
    | k + 2, h =>
      have h2 : k < 2 * t.length := by simp only [List.length_cons] at h; omega
      have e1 : (k + 2) % 2 = k % 2 := by omega
      have e2 : (k + 2) / 2 = k / 2 + 1 := by omega
      rw [List.getElem?_cons_succ, List.getElem?_cons_succ, ih k h2, e1, e2, List.getD_cons_succ]

end Farm

namespace Farm

theorem fill_sha1_path_get (base : Nat) (sha1 : List Nat) (buf : List Char) (j : Nat) :
    (fill_sha1_path base sha1 buf)[j]? =
      if j < buf.length ∧ ((base ≤ j ∧ j < base + 2 ∧ 0 < 20) ∨ (base + 3 ≤ j ∧ j ≤ base + 2 * 20))
      then some (if (j - base) % 2 = (if j < base + 2 then 0 else 1)
                 then hex (sha1.getD ((j - base - (if j < base + 2 then 0 else 1)) / 2) 0 >>> 4)
                 else hex (sha1.getD ((j - base - (if j < base + 2 then 0 else 1)) / 2) 0 &&& 0xf))
      else buf[j]? :=
  fill_fold_get base sha1 20 buf j

theorem key_getD_lt (key : List Nat) (hb : ∀ b ∈ key, b < 256) (i : Nat) : key.getD i 0 < 256 := by
  rw [List.getD_eq_getElem?_getD]
  cases h : key[i]? with
  | none => simp
  | some v =>
    simp only [Option.getD_some]
    exact hb v (List.getElem?_mem h)

end Farm

namespace Farm

end Farm

namespace Farm

theorem path_buf_length (old objdir : List Char) (key : List Nat) :
    (sha1_to_path_buf old objdir key).length = objdir.length + (old.length - objdir.length) := by
  have hf : ∀ (n base : Nat) (buf : List Char),
      ((List.range n).foldl (fun b i =>
        let val := key.getD i 0
        let pos := base + i * 2 + (if 0 < i then 1 else 0)
        (b.set pos (hex (val >>> 4))).set (pos + 1) (hex (val &&& 0xf))) buf).length =
        buf.length := by
    intro n base buf
    induction n with
    | zero => rfl
    | succ m ihm =>
      rw [List.range_succ, List.foldl_append]
      simp only [List.foldl_cons, List.foldl_nil, List.length_set]
      exact ihm
  unfold sha1_to_path_buf fill_sha1_path
  simp only []
  rw [hf, List.length_set, List.length_set, List.length_set]
  unfold memcpy_front
  rw [List.length_append, List.length_drop]

end Farm

namespace Farm

theorem char_of_toNat (c : Char) (n : Nat) (h : c.toNat = n) : c = Char.ofNat n := by
  rw [← h, Char.ofNat_toNat]

/-- The function `hexval` gives the value of a hexadecimal digit, below 16, and `~0`
for every other character. -/
theorem hexval_spec (c : Char) :
    (is_hex_digit c = true ∧ hexval c < 16 ∧ hexval c = digit_value c) ∨
    (is_hex_digit c = false ∧ hexval c = 4294967295) := by
  obtain ⟨n, hn⟩ : ∃ n, c.toNat = n := ⟨_, rfl⟩
  by_cases h1 : '0' ≤ c ∧ c ≤ '9'
  · left
    have a1 : 48 ≤ c.toNat := h1.1
    have a2 : c.toNat ≤ 57 := h1.2
    rw [hn] at a1 a2
    rw [char_of_toNat c n hn]
    interval_cases n <;> decide
  · by_cases h2 : 'a' ≤ c ∧ c ≤ 'f'
    · left
      have a1 : 97 ≤ c.toNat := h2.1
      have a2 : c.toNat ≤ 102 := h2.2
      rw [hn] at a1 a2
      rw [char_of_toNat c n hn]
      interval_cases n <;> decide
    · by_cases h3 : 'A' ≤ c ∧ c ≤ 'F'
      · left
        have a1 : 65 ≤ c.toNat := h3.1
        have a2 : c.toNat ≤ 70 := h3.2
        rw [hn] at a1 a2
        rw [char_of_toNat c n hn]
        interval_cases n <;> decide
      · right
        constructor
        · unfold is_hex_digit
          simp only [Bool.or_eq_false_iff, Bool.and_eq_false_iff, decide_eq_false_iff_not]
          exact ⟨⟨not_and_or.mp h1, not_and_or.mp h2⟩, not_and_or.mp h3⟩
        · unfold hexval
          rw [if_neg h1, if_neg h2, if_neg h3]

theorem pair_val_ok : ∀ a, a < 16 → ∀ b, b < 16 →
    ((a <<< 4) % 4294967296 ||| b) &&& 4294967040 = 0 ∧
    ((a <<< 4) % 4294967296 ||| b) % 256 = 16 * a + b := by decide

theorem pair_val_bad_right : ∀ a, a < 16 →
    ((a <<< 4) % 4294967296 ||| 4294967295) &&& 4294967040 ≠ 0 := by decide

theorem pair_val_bad_left : ∀ b, b < 16 →
    ((4294967295 <<< 4) % 4294967296 ||| b) &&& 4294967040 ≠ 0 := by decide

theorem pair_val_bad_both :
    ((4294967295 <<< 4) % 4294967296 ||| 4294967295) &&& 4294967040 ≠ 0 := by decide

/-- A pair of characters passes the test of `get_sha1_hex` exactly when both are
hexadecimal digits, and the byte stored is then 16 times the first digit plus
the second. -/
theorem pair_val_spec (c d : Char) :
    (is_hex_digit c = true ∧ is_hex_digit d = true ∧
      ((hexval c <<< 4) % 4294967296 ||| hexval d) &&& 4294967040 = 0 ∧
      ((hexval c <<< 4) % 4294967296 ||| hexval d) % 256 = 16 * digit_value c + digit_value d) ∨
    ((is_hex_digit c = false ∨ is_hex_digit d = false) ∧
      ((hexval c <<< 4) % 4294967296 ||| hexval d) &&& 4294967040 ≠ 0) := by
  rcases hexval_spec c with ⟨hc, hc16, hcv⟩ | ⟨hc, hcv⟩ <;>
    rcases hexval_spec d with ⟨hd, hd16, hdv⟩ | ⟨hd, hdv⟩
  · left
    have := pair_val_ok _ hc16 _ hd16
    rw [← hcv, ← hdv]
    exact ⟨hc, hd, this.1, this.2⟩
  · right
    rw [hdv]
    exact ⟨Or.inr hd, pair_val_bad_right _ hc16⟩
  · right
    rw [hcv]
    exact ⟨Or.inl hc, pair_val_bad_left _ hd16⟩
  · right
    rw [hcv, hdv]
    exact ⟨Or.inl hc, pair_val_bad_both⟩

theorem range_map_shift (n i : Nat) (f : Nat → Nat) :
    f i :: (List.range n).map (fun k => f (i + 1 + k)) =
      (List.range (n + 1)).map (fun k => f (i + k)) := by
  rw [List.range_succ_eq_map, List.map_cons, List.map_map]
  congr 1
  apply List.map_congr_left
  intro k _
  show f (i + 1 + k) = f (i + (k + 1))
  congr 1; omega

/-- The loop of `get_sha1_hex`: either all `n` pairs from pair `i` on are
hexadecimal digits, the loop stores their values and returns 0 after reading
all of them, or it stops at the first pair `m` that has another character,
after reading both characters of that pair, and returns -1. -/
theorem get_sha1_hex_loop_spec (hex : Nat → Char) (n : Nat) : ∀ (i : Nat) (r : hex_run),
    ((∀ m, i ≤ m → m < i + n →
        is_hex_digit (hex (2 * m)) = true ∧ is_hex_digit (hex (2 * m + 1)) = true) ∧
      get_sha1_hex_loop hex n i r =
        { ret := 0,
          sha1 := r.sha1 ++ (List.range n).map (fun k =>
            16 * digit_value (hex (2 * (i + k))) + digit_value (hex (2 * (i + k) + 1))),
          reads := r.reads ++ (List.range n).flatMap (fun k => [2 * (i + k), 2 * (i + k) + 1]) }) ∨
    (∃ m, i ≤ m ∧ m < i + n ∧
      (∀ k, i ≤ k → k < m →
        is_hex_digit (hex (2 * k)) = true ∧ is_hex_digit (hex (2 * k + 1)) = true) ∧
      (is_hex_digit (hex (2 * m)) = false ∨ is_hex_digit (hex (2 * m + 1)) = false) ∧
      get_sha1_hex_loop hex n i r =
        { ret := -1,
          sha1 := r.sha1 ++ (List.range (m - i)).map (fun k =>
            16 * digit_value (hex (2 * (i + k))) + digit_value (hex (2 * (i + k) + 1))),
          reads := r.reads ++
            (List.range (m - i + 1)).flatMap (fun k => [2 * (i + k), 2 * (i + k) + 1]) }) := by
  induction n with
  | zero =>
    intro i r
    left
    refine ⟨fun m h1 h2 => by omega, ?_⟩
    simp [get_sha1_hex_loop]
  | succ n ih =>
    intro i r
    rw [get_sha1_hex_loop]
    rcases pair_val_spec (hex (2 * i)) (hex (2 * i + 1)) with ⟨h0, h1, hz, hv⟩ | ⟨hbad, hnz⟩
    · rw [if_neg (not_not.mpr hz), hv]
      rcases ih (i + 1) { r with sha1 := r.sha1 ++ [16 * digit_value (hex (2 * i)) +
          digit_value (hex (2 * i + 1))], reads := r.reads ++ [2 * i, 2 * i + 1] } with
        ⟨hall, heq⟩ | ⟨m, hm1, hm2, hall, hb, heq⟩
      · left
        constructor
        · intro m hm1 hm2
          by_cases e : m = i
          · subst e; exact ⟨h0, h1⟩
          · exact hall m (by omega) (by omega)
        · rw [heq]
          simp only [List.append_assoc, List.singleton_append, List.cons_append, List.nil_append]
          congr 2
          · exact range_map_shift n i (fun x => 16 * digit_value (hex (2 * x)) +
              digit_value (hex (2 * x + 1)))
          · rw [List.range_succ_eq_map, List.flatMap_cons, List.flatMap_map]
            simp only [Nat.add_zero, List.cons_append, List.nil_append]
            congr 3
            funext k
            have : i + 1 + k = i + (k + 1) := by omega
            rw [this]
      · right
        refine ⟨m, by omega, by omega, ?_, hb, ?_⟩
        · intro k hk1 hk2
          by_cases e : k = i
          · subst e; exact ⟨h0, h1⟩
          · exact hall k (by omega) hk2
        · rw [heq]
          obtain ⟨d, hd⟩ : ∃ d, m - i = d + 1 := ⟨m - i - 1, by omega⟩
          have hd2 : m - (i + 1) = d := by omega
          rw [hd, hd2]
          simp only [List.append_assoc, List.singleton_append, List.cons_append, List.nil_append]
          congr 2
          · exact range_map_shift d i (fun x => 16 * digit_value (hex (2 * x)) +
              digit_value (hex (2 * x + 1)))
          · rw [List.range_succ_eq_map (d + 1), List.flatMap_cons, List.flatMap_map]
            simp only [Nat.add_zero, List.cons_append, List.nil_append]
            congr 3
            funext k
            have : i + 1 + k = i + (k + 1) := by omega
            rw [this]
    · rw [if_pos hnz]
      right
      refine ⟨i, Nat.le_refl _, by omega, fun k h1 h2 => by omega, hbad, ?_⟩
      simp [List.range_succ, List.flatMap]

end Farm

namespace Farm

theorem digitChar_is_hex : ∀ d, d < 16 →
    is_hex_digit (Nat.digitChar d) = true ∧ digit_value (Nat.digitChar d) = d := by decide

/-- What `fill_sha1_path` writes around the slash are the 40 digits of the
key. -/
theorem emitted_digits_eq (key : List Nat) (hk : key.length = 20) (hb : ∀ b ∈ key, b < 256) :
    emitted_digits key = hex_digits key := by
  have hd := hex_digits_length key
  rw [hk] at hd
  have hfl : (fill_sha1_path 0 key (List.replicate 41 '/')).length = 41 := by
    have := path_buf_length [] [] key
    unfold sha1_to_path_buf memcpy_front at this
    have hf : ∀ (n base : Nat) (buf : List Char),
        ((List.range n).foldl (fun b i =>
          let val := key.getD i 0
          let pos := base + i * 2 + (if 0 < i then 1 else 0)
          (b.set pos (hex (val >>> 4))).set (pos + 1) (hex (val &&& 0xf))) buf).length =
          buf.length := by
      intro n base buf
      induction n with
      | zero => rfl
      | succ m ihm =>
        rw [List.range_succ, List.foldl_append]
        simp only [List.foldl_cons, List.foldl_nil, List.length_set]
        exact ihm
    unfold fill_sha1_path
    rw [hf, List.length_replicate]
  apply List.ext_getElem?
  intro j
  unfold emitted_digits
  simp only []
  rw [List.getElem?_append, List.length_take, hfl]
  by_cases c1 : j < 2
  · have p1 : j < (List.replicate 41 '/').length ∧ ((0 ≤ j ∧ j < 0 + 2 ∧ 0 < 20) ∨
        (0 + 3 ≤ j ∧ j ≤ 0 + 2 * 20)) := by
      rw [List.length_replicate]; omega
    have p2 : j < 0 + 2 := by omega
    rw [if_pos (by omega), List.getElem?_take_of_lt c1, fill_sha1_path_get, if_pos p1,
      hex_digits_get key j (by omega)]
    simp only [if_pos p2, Nat.sub_zero]
    rw [hex_hi _ (key_getD_lt key hb _), hex_lo]
  · rw [if_neg (by omega), List.getElem?_drop, fill_sha1_path_get]
    have e : min 2 41 = 2 := rfl
    rw [e]
    by_cases c2 : j < 40
    · have p1 : 3 + (j - 2) < (List.replicate 41 '/').length ∧
          ((0 ≤ 3 + (j - 2) ∧ 3 + (j - 2) < 0 + 2 ∧ 0 < 20) ∨
          (0 + 3 ≤ 3 + (j - 2) ∧ 3 + (j - 2) ≤ 0 + 2 * 20)) := by
        rw [List.length_replicate]; omega
      have p2 : ¬ (3 + (j - 2) < 0 + 2) := by omega
      have e2 : (3 + (j - 2) - 0 - 1) / 2 = j / 2 := by omega
      rw [if_pos p1, hex_digits_get key j (by omega)]
      simp only [if_neg p2, e2]
      rw [hex_hi _ (key_getD_lt key hb _), hex_lo]
      by_cases c5 : (3 + (j - 2) - 0) % 2 = 1
      · have : j % 2 = 0 := by omega
        rw [if_pos c5, if_pos this]
      · have : ¬ (j % 2 = 0) := by omega
        rw [if_neg c5, if_neg this]
    · have n1 : ¬ (3 + (j - 2) < (List.replicate 41 '/').length ∧
          ((0 ≤ 3 + (j - 2) ∧ 3 + (j - 2) < 0 + 2 ∧ 0 < 20) ∨
          (0 + 3 ≤ 3 + (j - 2) ∧ 3 + (j - 2) ≤ 0 + 2 * 20))) := by
        rw [List.length_replicate]; omega
      rw [if_neg n1, List.getElem?_eq_none (by rw [List.length_replicate]; omega),
        List.getElem?_eq_none (by omega)]

theorem c_memory_hex_digits (key : List Nat) (hb : ∀ b ∈ key, b < 256) (k : Nat)
    (h : k < key.length) :
    c_memory (hex_digits key) (2 * k) = Nat.digitChar (key.getD k 0 / 16) ∧
    c_memory (hex_digits key) (2 * k + 1) = Nat.digitChar (key.getD k 0 % 16) := by
  have g1 : (hex_digits key).getD (2 * k) (Char.ofNat 0) =
      ((hex_digits key)[2 * k]?).getD (Char.ofNat 0) := List.getD_eq_getElem?_getD _ _ _
  have g2 : (hex_digits key).getD (2 * k + 1) (Char.ofNat 0) =
      ((hex_digits key)[2 * k + 1]?).getD (Char.ofNat 0) := List.getD_eq_getElem?_getD _ _ _
  unfold c_memory
  rw [g1, g2, hex_digits_get key (2 * k) (by omega), hex_digits_get key (2 * k + 1) (by omega)]
  have e1 : (2 * k) % 2 = 0 := by omega
  have e2 : ¬ ((2 * k + 1) % 2 = 0) := by omega
  have e3 : 2 * k / 2 = k := by omega
  have e4 : (2 * k + 1) / 2 = k := by omega
  rw [if_pos e1, if_neg e2, e3, e4]
  exact ⟨rfl, rfl⟩

/-- Decoding the digits of a key gives the key. -/
theorem get_sha1_hex_hex_digits (key : List Nat) (hk : key.length = 20)
    (hb : ∀ b ∈ key, b < 256) :
    (get_sha1_hex (c_memory (hex_digits key))).ret = 0 ∧
    (get_sha1_hex (c_memory (hex_digits key))).sha1 = key := by
  have hok : ∀ m, 0 ≤ m → m < 0 + 20 →
      is_hex_digit (c_memory (hex_digits key) (2 * m)) = true ∧
      is_hex_digit (c_memory (hex_digits key) (2 * m + 1)) = true := by
    intro m _ hm
    have hc := c_memory_hex_digits key hb m (by omega)
    have := key_getD_lt key hb m
    rw [hc.1, hc.2]
    exact ⟨(digitChar_is_hex _ (by omega)).1, (digitChar_is_hex _ (by omega)).1⟩
  unfold get_sha1_hex
  rcases get_sha1_hex_loop_spec (c_memory (hex_digits key)) 20 0
      { ret := 0, sha1 := [], reads := [] } with ⟨_, heq⟩ | ⟨m, hm1, hm2, _, hbad, _⟩
  · have e20 : SHA1_DIGEST_SIZE = 20 := rfl
    rw [e20, heq]
    refine ⟨rfl, ?_⟩
    simp only [List.nil_append]
    apply List.ext_getElem
    · rw [List.length_map, List.length_range, hk]
    · intro n h1 h2
      rw [List.getElem_map, List.getElem_range]
      have hc := c_memory_hex_digits key hb (0 + n) (by omega)
      have hlt := key_getD_lt key hb (0 + n)
      rw [hc.1, hc.2, (digitChar_is_hex _ (by omega : key.getD (0 + n) 0 / 16 < 16)).2,
        (digitChar_is_hex _ (by omega : key.getD (0 + n) 0 % 16 < 16)).2]
      have : key.getD (0 + n) 0 = key[n] := by
        rw [Nat.zero_add, List.getD_eq_getElem?_getD, List.getElem?_eq_getElem h2]
        rfl
      omega
  · have := hok m hm1 hm2
    rcases hbad with h | h
    · rw [this.1] at h; cases h
    · rw [this.2] at h; cases h

end Farm

namespace Farm

theorem nul_not_hex : is_hex_digit (Char.ofNat 0) = false := by decide

/-- The call `get_sha1_hex(hex, sha1)`: either the 40 characters are hexadecimal digits, 0
is returned with the 20 pair values stored and the indexes 0..39 read, or
-1 is returned and the indexes read are those up to the second character of
the first pair `m` that holds another character. -/
theorem get_sha1_hex_spec (hex : Nat → Char) :
    ((∀ k, k < 40 → is_hex_digit (hex k) = true) ∧
      (get_sha1_hex hex).ret = 0 ∧
      (get_sha1_hex hex).sha1 = (List.range 20).map (fun k =>
        16 * digit_value (hex (2 * k)) + digit_value (hex (2 * k + 1))) ∧
      ∀ x ∈ (get_sha1_hex hex).reads, x < 40) ∨
    (∃ m, m < 20 ∧ (∀ k, k < 2 * m → is_hex_digit (hex k) = true) ∧
      (is_hex_digit (hex (2 * m)) = false ∨ is_hex_digit (hex (2 * m + 1)) = false) ∧
      (get_sha1_hex hex).ret = -1 ∧
      (get_sha1_hex hex).sha1.length = m ∧
      ∀ x, x ∈ (get_sha1_hex hex).reads ↔ x < 2 * m + 2) := by
  have e20 : SHA1_DIGEST_SIZE = 20 := rfl
  unfold get_sha1_hex
  rw [e20]
  rcases get_sha1_hex_loop_spec hex 20 0 { ret := 0, sha1 := [], reads := [] } with
    ⟨hall, heq⟩ | ⟨m, hm1, hm2, hall, hbad, heq⟩
  · left
    rw [heq]
    refine ⟨?_, rfl, ?_, ?_⟩
    · intro k hk
      have := hall (k / 2) (Nat.zero_le _) (by omega)
      rcases Nat.mod_two_eq_zero_or_one k with h | h
      · have e : 2 * (k / 2) = k := by omega
        rw [e] at this; exact this.1
      · have e : 2 * (k / 2) + 1 = k := by omega
        rw [e] at this; exact this.2
    · simp only [List.nil_append, Nat.zero_add]
    · intro x hx
      simp only [List.nil_append, List.mem_flatMap, List.mem_range, List.mem_cons,
        List.mem_singleton, List.not_mem_nil, or_false] at hx
      obtain ⟨a, ha, hx⟩ := hx
      omega
  · right
    rw [heq]
    refine ⟨m, by omega, ?_, hbad, rfl, ?_, ?_⟩
    · intro k hk
      have := hall (k / 2) (Nat.zero_le _) (by omega)
      rcases Nat.mod_two_eq_zero_or_one k with h | h
      · have e : 2 * (k / 2) = k := by omega
        rw [e] at this; exact this.1
      · have e : 2 * (k / 2) + 1 = k := by omega
        rw [e] at this; exact this.2
    · simp only [List.nil_append, List.length_map, List.length_range, Nat.sub_zero]
    · intro x
      simp only [List.nil_append, List.mem_flatMap, List.mem_range, List.mem_cons,
        List.mem_singleton, List.not_mem_nil, or_false, Nat.sub_zero, Nat.zero_add]
      constructor
      · rintro ⟨a, ha, hx⟩
        omega
      · intro hx
        refine ⟨x / 2, by omega, ?_⟩
        omega

/-- C28: the call `get_sha1_hex(hex, sha1)` returns 0 exactly when the first 40 characters
are hexadecimal digits, upper or lower case, and has then stored the values
of the 20 pairs; otherwise it returns -1; decoding the digits that
`fill_sha1_path` writes for a key of 20 bytes gives the key.  It does read
after a terminating NUL: both characters of a pair are read before the pair
is tested, so when the NUL is the first character of a pair that the loop
reaches, the character behind the NUL is read too (for the empty string the
indexes 0 and 1); no index further behind a NUL is read. -/
theorem C28_get_sha1_hex (hex : Nat → Char) (key : List Nat)
    (hk : key.length = SHA1_DIGEST_SIZE) (hb : ∀ b ∈ key, b < 256) :
    ((get_sha1_hex hex).ret = 0 ↔ ∀ k, k < 40 → is_hex_digit (hex k) = true) ∧
    ((get_sha1_hex hex).ret = 0 →
      (get_sha1_hex hex).sha1 = (List.range 20).map (fun k =>
        16 * digit_value (hex (2 * k)) + digit_value (hex (2 * k + 1)))) ∧
    ((get_sha1_hex hex).ret ≠ 0 → (get_sha1_hex hex).ret = -1) ∧
    ((get_sha1_hex (c_memory (emitted_digits key))).ret = 0 ∧
      (get_sha1_hex (c_memory (emitted_digits key))).sha1 = key) ∧
    (∀ j, j < 20 → hex (2 * j) = Char.ofNat 0 →
      (∀ k, k < 2 * j → is_hex_digit (hex k) = true) →
      2 * j + 1 ∈ (get_sha1_hex hex).reads) ∧
    (∀ p, hex p = Char.ofNat 0 → ∀ x ∈ (get_sha1_hex hex).reads, x ≤ p + 1) ∧
    (get_sha1_hex (c_memory [])).reads = [0, 1] := by
  have hk20 : key.length = 20 := hk
  refine ⟨?_, ?_, ?_, ?_, ?_, ?_, by decide⟩
  · rcases get_sha1_hex_spec hex with ⟨hall, hr, _, _⟩ | ⟨m, hm, _, hbad, hr, _, _⟩
    · exact ⟨fun _ => hall, fun _ => hr⟩
    · constructor
      · intro h; rw [hr] at h; cases h
      · intro h
        have h1 := h (2 * m) (by omega)
        have h2 := h (2 * m + 1) (by omega)
        rcases hbad with hb | hb
        · rw [h1] at hb; cases hb
        · rw [h2] at hb; cases hb
  · intro h0
    rcases get_sha1_hex_spec hex with ⟨_, _, hs, _⟩ | ⟨m, _, _, _, hr, _, _⟩
    · exact hs
    · rw [hr] at h0; cases h0
  · intro hne
    rcases get_sha1_hex_spec hex with ⟨_, hr, _, _⟩ | ⟨m, _, _, _, hr, _, _⟩
    · exact absurd hr hne
    · exact hr
  · rw [emitted_digits_eq key hk20 hb]
    exact get_sha1_hex_hex_digits key hk20 hb
  · intro j hj hnul hbefore
    rcases get_sha1_hex_spec hex with ⟨hall, _, _, _⟩ | ⟨m, hm, hall, hbad, _, _, hreads⟩
    · have := hall (2 * j) (by omega)
      rw [hnul, nul_not_hex] at this; cases this
    · have hmj : m = j := by
        rcases Nat.lt_trichotomy m j with h | h | h
        · exfalso
          have h1 := hbefore (2 * m) (by omega)
          have h2 := hbefore (2 * m + 1) (by omega)
          rcases hbad with hb | hb
          · rw [h1] at hb; cases hb
          · rw [h2] at hb; cases hb
        · exact h
        · exfalso
          have := hall (2 * j) (by omega)
          rw [hnul, nul_not_hex] at this; cases this
      rw [hreads, hmj]; omega
  · intro p hnul x hx
    rcases get_sha1_hex_spec hex with ⟨hall, _, _, hreads⟩ | ⟨m, hm, hall, _, _, _, hreads⟩
    · have := hreads x hx
      by_cases hp : p < 40
      · have := hall p hp
        rw [hnul, nul_not_hex] at this; cases this
      · omega
    · have hx2 := (hreads x).mp hx
      by_cases hp : p < 2 * m
      · have := hall p hp
        rw [hnul, nul_not_hex] at this; cases this
      · omega

/-- C28, witness: the key of twenty bytes 0xab and the string `ab`, whose NUL
is the first character of the second pair. -/
theorem C28_get_sha1_hex_witness :
    (get_sha1_hex (c_memory (emitted_digits (List.replicate 20 171)))).sha1 =
      List.replicate 20 171 ∧
    c_memory "ab".toList 2 = Char.ofNat 0 ∧
    3 ∈ (get_sha1_hex (c_memory "ab".toList)).reads :=
  have h := C28_get_sha1_hex (c_memory "ab".toList) (List.replicate 20 171) (by decide)
    (by decide)
  ⟨h.2.2.2.1.2, by decide, h.2.2.2.2.1 1 (by decide) (by decide) (by decide)⟩

end Farm

/-! ## Part 22: theorems about the shepherd driver after the join -/

namespace Shepherd

open Sockfd (node_id node_id_cmp sd_node)
open Cluster

theorem msg_handlers_none (code : sph_srv_msg_type → Nat) (i : Nat)
    (h : ∀ p ∈ msg_handlers_init, code p.1 ≠ i) : msg_handlers code i = none := by
  unfold msg_handlers
  rw [Option.map_eq_none', List.find?_eq_none]
  intro p hp
  have := h p (List.mem_reverse.mp hp)
  simpa using this

theorem msg_handlers_some (code : sph_srv_msg_type → Nat) (i : Nat) (f : msg_handler)
    (h : msg_handlers code i = some f) : ∃ m, (m, f) ∈ msg_handlers_init ∧ code m = i := by
  unfold msg_handlers at h
  rw [Option.map_eq_some'] at h
  obtain ⟨p, hp, hf⟩ := h
  have hmem := List.mem_reverse.mp (List.mem_of_find?_eq_some hp)
  have hc := List.find?_some hp
  refine ⟨p.1, ?_, by simpa using hc⟩
  rw [← hf]
  exact hmem

theorem code_in_order_injective : Function.Injective code_in_order := by
  intro a b h
  cases a <;> cases b <;> first | rfl | (exact absurd h (by decide))

/-- C22: in the joined state `interpret_msg` exits for every type outside the
index range of `msg_handlers` and calls a handler only for a type that an
initialiser of the table names; for an index inside the range that no
initialiser names it does not exit: it calls through the null pointer stored
there.  This is the case of the types `SPH_SRV_MSG_JOIN_REPLY` and
`SPH_SRV_MSG_JOIN_RETRY` whenever their value is below the size of the
table. -/
theorem C22_interpret_msg_unregistered (code : sph_srv_msg_type → Nat) (type : Int)
    (hinj : Function.Injective code) :
    (¬ (0 ≤ type ∧ type < (msg_handlers_size code : Int)) →
      interpret_msg code type = dispatch.exit) ∧
    (∀ f, interpret_msg code type = dispatch.call f →
      ∃ m, (m, f) ∈ msg_handlers_init ∧ (code m : Int) = type) ∧
    ((0 ≤ type ∧ type < (msg_handlers_size code : Int)) →
      (∀ p ∈ msg_handlers_init, (code p.1 : Int) ≠ type) →
      interpret_msg code type = dispatch.null_call) ∧
    (∀ m, m = sph_srv_msg_type.JOIN_REPLY ∨ m = sph_srv_msg_type.JOIN_RETRY →
      code m < msg_handlers_size code →
      read_msg_from_shepherd_joined code (some (code m)) = dispatch.null_call) := by
  have hnull : (0 ≤ type ∧ type < (msg_handlers_size code : Int)) →
      (∀ p ∈ msg_handlers_init, (code p.1 : Int) ≠ type) →
      interpret_msg code type = dispatch.null_call := by
    intro hr hno
    unfold interpret_msg
    rw [if_neg (not_not.mpr hr)]
    have : msg_handlers code type.toNat = none := by
      apply msg_handlers_none
      intro p hp e
      apply hno p hp
      rw [e, Int.toNat_of_nonneg hr.1]
    rw [this]
  refine ⟨?_, ?_, hnull, ?_⟩
  · intro h
    unfold interpret_msg
    rw [if_pos h]
  · intro f hf
    unfold interpret_msg at hf
    split at hf
    · cases hf
    · rename_i hr
      have hr2 := not_not.mp hr
      split at hf
      · rename_i g hg
        injection hf with hf
        subst hf
        obtain ⟨m, hm, hc⟩ := msg_handlers_some code _ _ hg
        exact ⟨m, hm, by rw [hc, Int.toNat_of_nonneg hr2.1]⟩
      · cases hf
  · intro m hm hlt
    unfold read_msg_from_shepherd_joined
    simp only []
    unfold interpret_msg
    have hr : 0 ≤ (code m : Int) ∧ (code m : Int) < (msg_handlers_size code : Int) :=
      ⟨Int.ofNat_nonneg _, Int.ofNat_lt.mpr hlt⟩
    rw [if_neg (not_not.mpr hr)]
    have : msg_handlers code (code m : Int).toNat = none := by
      apply msg_handlers_none
      intro p hp e
      rw [Int.toNat_ofNat] at e
      have hpm : p.1 = m := hinj e
      have hall : ∀ q ∈ msg_handlers_init, q.1 ≠ sph_srv_msg_type.JOIN_REPLY ∧
          q.1 ≠ sph_srv_msg_type.JOIN_RETRY := by decide
      have := hall p hp
      rcases hm with rfl | rfl
      · exact this.1 hpm
      · exact this.2 hpm
    rw [this]

/-- C22, witness: with the types numbered in order, the join messages first,
a `SPH_SRV_MSG_JOIN_RETRY` (type 1) received after the join is inside the
table of 9 elements and leads to a call through a null pointer. -/
theorem C22_interpret_msg_witness :
    msg_handlers_size code_in_order = 9 ∧
    read_msg_from_shepherd_joined code_in_order
      (some (code_in_order sph_srv_msg_type.JOIN_RETRY)) = dispatch.null_call ∧
    interpret_msg code_in_order 9 = dispatch.exit :=
  have h := C22_interpret_msg_unregistered code_in_order 9 code_in_order_injective
  ⟨by decide, h.2.2.2 sph_srv_msg_type.JOIN_RETRY (Or.inr rfl) (by decide),
    h.1 (by decide)⟩

end Shepherd

namespace Shepherd

open Sockfd (node_id node_id_cmp sd_node)
open Cluster

/-- The shifting loop of `do_leave_sheep`: every element from `j` up to
`nr_nodes - 1` is replaced by its right neighbour (by `junk` where the
neighbour lies behind the array), the rest stays; the length stays; the
indexes `j .. nr_nodes` are accessed. -/
theorem leave_shift_spec (junk : sd_node) (n : Nat) : ∀ (fuel j : Nat) (nodes : List sd_node)
    (acc : List Nat), fuel = n - j →
    (∀ k, (leave_shift junk n fuel j (nodes, acc)).1[k]? =
      if j ≤ k ∧ k < n ∧ k < nodes.length then some (nodes.getD (k + 1) junk) else nodes[k]?) ∧
    (leave_shift junk n fuel j (nodes, acc)).1.length = nodes.length ∧
    (∀ x, x ∈ (leave_shift junk n fuel j (nodes, acc)).2 ↔
      x ∈ acc ∨ (j < n ∧ j ≤ x ∧ x ≤ n)) := by
  intro fuel
  induction fuel with
  | zero =>
    intro j nodes acc hf
    have hj : ¬ j < n := by omega
    refine ⟨fun k => ?_, rfl, fun x => ?_⟩
    · have : ¬ (j ≤ k ∧ k < n ∧ k < nodes.length) := by omega
      rw [if_neg this]; rfl
    · show x ∈ acc ↔ _
      constructor
      · exact Or.inl
      · rintro (h | h)
        · exact h
        · omega
  | succ fuel ih =>
    intro j nodes acc hf
    have hj : j < n := by omega
    rw [leave_shift, if_pos hj]
    obtain ⟨h1, h2, h3⟩ := ih (j + 1) (nodes.set j (nodes.getD (j + 1) junk))
      (acc ++ [j + 1, j]) (by omega)
    refine ⟨fun k => ?_, ?_, fun x => ?_⟩
    · rw [h1 k, List.length_set]
      by_cases c1 : j + 1 ≤ k ∧ k < n ∧ k < nodes.length
      · have c2 : j ≤ k ∧ k < n ∧ k < nodes.length := by omega
        rw [if_pos c1, if_pos c2, List.getD_eq_getElem?_getD, List.getElem?_set,
          if_neg (by omega), ← List.getD_eq_getElem?_getD]
      · rw [if_neg c1, List.getElem?_set]
        by_cases c3 : j = k
        · subst c3
          rw [if_pos rfl]
          by_cases c4 : j < nodes.length
          · rw [if_pos c4, if_pos ⟨Nat.le_refl _, hj, c4⟩]
          · have : ¬ (j ≤ j ∧ j < n ∧ j < nodes.length) := fun h => c4 h.2.2
            rw [if_neg c4, if_neg this, List.getElem?_eq_none (by omega)]
        · have : ¬ (j ≤ k ∧ k < n ∧ k < nodes.length) := by omega
          rw [if_neg c3, if_neg this]
    · rw [h2, List.length_set]
    · rw [h3 x]
      simp only [List.mem_append, List.mem_cons, List.mem_singleton, List.not_mem_nil, or_false]
      constructor
      · rintro ((h | h | h) | h)
        · exact Or.inl h
        · right; omega
        · right; omega
        · right; omega
      · rintro (h | h)
        · exact Or.inl (Or.inl h)
        · by_cases e : x = j
          · exact Or.inl (Or.inr (Or.inr e))
          · by_cases e2 : x = j + 1
            · exact Or.inl (Or.inr (Or.inl e2))
            · right; omega

/-- After the shift the first `n - 1` elements are the first `n` elements
without the one at `i`. -/
theorem leave_shift_take (junk : sd_node) (n i : Nat) (nodes : List sd_node) (acc : List Nat)
    (hi : i < n) (hn : n ≤ nodes.length) :
    (leave_shift junk n (n - i) i (nodes, acc)).1.take (n - 1) =
      (nodes.take n).take i ++ (nodes.take n).drop (i + 1) := by
  obtain ⟨h1, h2, _⟩ := leave_shift_spec junk n (n - i) i nodes acc rfl
  apply List.ext_getElem?
  intro k
  rw [List.getElem?_take, h1 k, List.getElem?_append, List.length_take, List.length_take,
    List.getElem?_drop]
  have e1 : min i (min n nodes.length) = i := by omega
  rw [e1]
  by_cases c1 : k < n - 1
  · rw [if_pos c1]
    by_cases c2 : k < i
    · have : ¬ (i ≤ k ∧ k < n ∧ k < nodes.length) := by omega
      rw [if_neg this, if_pos c2, List.getElem?_take, List.getElem?_take, if_pos c2,
        if_pos (by omega)]
    · have : i ≤ k ∧ k < n ∧ k < nodes.length := by omega
      rw [if_pos this, if_neg c2, List.getElem?_take, if_pos (by omega),
        List.getD_eq_getElem?_getD]
      have e2 : i + 1 + (k - i) = k + 1 := by omega
      rw [e2, List.getElem?_eq_getElem (by omega : k + 1 < nodes.length)]
      rfl
  · rw [if_neg c1]
    have c2 : ¬ k < i := by omega
    rw [if_neg c2, List.getElem?_take, if_neg (by omega)]

end Shepherd

namespace Shepherd

open Sockfd (node_id node_id_cmp sd_node)
open Cluster

/-- The search loop of `do_leave_sheep` from index `i` on. -/
theorem leave_search_spec (junk sender : sd_node) : ∀ (fuel i : Nat) (r : leave_run),
    fuel = r.nr_nodes - i → i ≤ r.nr_nodes → r.nr_nodes ≤ r.nodes.length →
    ((∃ x ∈ (r.nodes.take r.nr_nodes).drop i, node_eq sender x = true) →
      (leave_search junk sender fuel i r).nr_nodes = r.nr_nodes - 1 ∧
      (leave_search junk sender fuel i r).nodes.take (r.nr_nodes - 1) =
        (r.nodes.take r.nr_nodes).take i ++
          ((r.nodes.take r.nr_nodes).drop i).eraseP (fun x => node_eq sender x) ∧
      (leave_search junk sender fuel i r).upcalls = r.upcalls ++
        [upcall.leave_handler sender ((r.nodes.take r.nr_nodes).take i ++
          ((r.nodes.take r.nr_nodes).drop i).eraseP (fun x => node_eq sender x))] ∧
      (leave_search junk sender fuel i r).nodes.length = r.nodes.length ∧
      (∀ x ∈ (leave_search junk sender fuel i r).accessed, x ∈ r.accessed ∨ x ≤ r.nr_nodes) ∧
      r.nr_nodes ∈ (leave_search junk sender fuel i r).accessed) ∧
    ((∀ x ∈ (r.nodes.take r.nr_nodes).drop i, node_eq sender x = false) →
      (leave_search junk sender fuel i r).nodes = r.nodes ∧
      (leave_search junk sender fuel i r).nr_nodes = r.nr_nodes ∧
      (leave_search junk sender fuel i r).upcalls = r.upcalls ∧
      (∀ x ∈ (leave_search junk sender fuel i r).accessed, x ∈ r.accessed ∨ x < r.nr_nodes)) := by
  intro fuel
  induction fuel with
  | zero =>
    intro i r hf hi hn
    have hnil : (r.nodes.take r.nr_nodes).drop i = [] := by
      apply List.drop_eq_nil_of_le
      rw [List.length_take]; omega
    rw [hnil]
    constructor
    · rintro ⟨x, hx, _⟩
      cases hx
    · intro _
      exact ⟨rfl, rfl, rfl, fun x hx => Or.inl hx⟩
  | succ fuel ih =>
    intro i r hf hi hn
    have hin : i < r.nr_nodes := by omega
    have hlt : i < (r.nodes.take r.nr_nodes).length := by rw [List.length_take]; omega
    have hget : r.nodes.getD i junk = (r.nodes.take r.nr_nodes)[i] := by
      rw [List.getD_eq_getElem?_getD, List.getElem_take, List.getElem?_eq_getElem (by omega)]
      rfl
    have hdrop : (r.nodes.take r.nr_nodes).drop i =
        (r.nodes.take r.nr_nodes)[i] :: (r.nodes.take r.nr_nodes).drop (i + 1) :=
      List.drop_eq_getElem_cons hlt
    rw [leave_search, if_pos hin, hget, hdrop]
    by_cases hp : node_eq sender (r.nodes.take r.nr_nodes)[i] = true
    · rw [if_pos hp]
      have hfu : r.nr_nodes - i = r.nr_nodes - i := rfl
      obtain ⟨_, s2, s3⟩ := leave_shift_spec junk r.nr_nodes (r.nr_nodes - i) i r.nodes
        (r.accessed ++ [i]) rfl
      have s4 := leave_shift_take junk r.nr_nodes i r.nodes (r.accessed ++ [i]) hin hn
      have he : ((r.nodes.take r.nr_nodes)[i] :: (r.nodes.take r.nr_nodes).drop (i + 1)).eraseP
          (fun x => node_eq sender x) = (r.nodes.take r.nr_nodes).drop (i + 1) :=
        List.eraseP_cons_of_pos hp
      constructor
      · intro _
        rw [he]
        refine ⟨rfl, s4, ?_, s2, ?_, ?_⟩
        · show r.upcalls ++ [upcall.leave_handler sender _] = _
          rw [s4]
        · intro x hx
          have := (s3 x).mp hx
          simp only [List.mem_append, List.mem_singleton] at this
          rcases this with (h | h) | h
          · exact Or.inl h
          · right; omega
          · right; omega
        · exact (s3 _).mpr (Or.inr ⟨hin, by omega, Nat.le_refl _⟩)
      · intro hall
        have := hall _ (List.mem_cons_self _ _)
        rw [hp] at this
        cases this
    · rw [if_neg hp]
      have hp2 : node_eq sender (r.nodes.take r.nr_nodes)[i] = false := by
        simpa using hp
      obtain ⟨a1, a2⟩ := ih (i + 1) { r with accessed := r.accessed ++ [i] } (by simp only; omega)
        (by simp only; omega) hn
      have he : ((r.nodes.take r.nr_nodes)[i] :: (r.nodes.take r.nr_nodes).drop (i + 1)).eraseP
          (fun x => node_eq sender x) = (r.nodes.take r.nr_nodes)[i] ::
            ((r.nodes.take r.nr_nodes).drop (i + 1)).eraseP (fun x => node_eq sender x) :=
        List.eraseP_cons_of_neg (by simpa using hp)
      have ht : (r.nodes.take r.nr_nodes).take (i + 1) =
          (r.nodes.take r.nr_nodes).take i ++ [(r.nodes.take r.nr_nodes)[i]] := by
        rw [List.take_succ, List.getElem?_eq_getElem hlt]
        rfl
      constructor
      · rintro ⟨x, hx, hxp⟩
        have hx2 : ∃ x ∈ (r.nodes.take r.nr_nodes).drop (i + 1), node_eq sender x = true := by
          rcases List.mem_cons.mp hx with h | h
          · rw [h, hp2] at hxp; cases hxp
          · exact ⟨x, h, hxp⟩
        obtain ⟨b1, b2, b3, b4, b5, b6⟩ := a1 hx2
        simp only at b1 b2 b3 b4 b5 b6
        rw [ht, List.append_assoc, List.singleton_append] at b2 b3
        rw [he]
        refine ⟨b1, b2, b3, b4, ?_, b6⟩
        intro x hx
        rcases b5 x hx with h | h
        · simp only [List.mem_append, List.mem_singleton] at h
          rcases h with h | h
          · exact Or.inl h
          · right; omega
        · exact Or.inr h
      · intro hall
        obtain ⟨b1, b2, b3, b4⟩ := a2 (fun x hx => hall x (List.mem_cons_of_mem _ hx))
        simp only at b1 b2 b3 b4
        refine ⟨b1, b2, b3, ?_⟩
        intro x hx
        rcases b4 x hx with h | h
        · simp only [List.mem_append, List.mem_singleton] at h
          rcases h with h | h
          · exact Or.inl h
          · right; omega
        · exact Or.inr h

end Shepherd

namespace Shepherd

open Sockfd (node_id node_id_cmp sd_node)
open Cluster

/-- C26: the function `do_leave_sheep` on the array `nodes` (of `SD_MAX_NODES`
elements, the length of the list) with `nr_nodes = n`.  When the leaver is
among the first `n` elements, the first `n - 1` elements afterwards are the
old list without the first element equal to the leaver, `nr_nodes` is
`n - 1` and `sd_leave_handler` is called once, with that list; when it is
not, nothing changes, no handler is called and only indexes below `n` are
read.  In the first case the shifting loop reads `nodes[j + 1]` up to
`j = n - 1`: the index `n` is accessed, so all accesses are below
`SD_MAX_NODES` exactly when `n < SD_MAX_NODES`; with a full array the element
behind the array is read. -/
theorem C26_do_leave_sheep (junk sender : sd_node) (nodes : List sd_node) (n : Nat)
    (hn : n ≤ nodes.length) :
    ((∃ x ∈ nodes.take n, node_eq sender x = true) →
      (do_leave_sheep junk (some sender) nodes n).nr_nodes = n - 1 ∧
      (do_leave_sheep junk (some sender) nodes n).nodes.take (n - 1) =
        (nodes.take n).eraseP (fun x => node_eq sender x) ∧
      (do_leave_sheep junk (some sender) nodes n).upcalls =
        [upcall.leave_handler sender ((nodes.take n).eraseP (fun x => node_eq sender x))] ∧
      (do_leave_sheep junk (some sender) nodes n).nodes.length = nodes.length ∧
      (∀ x ∈ (do_leave_sheep junk (some sender) nodes n).accessed, x ≤ n) ∧
      n ∈ (do_leave_sheep junk (some sender) nodes n).accessed ∧
      ((∀ x ∈ (do_leave_sheep junk (some sender) nodes n).accessed, x < nodes.length) ↔
        n < nodes.length)) ∧
    ((∀ x ∈ nodes.take n, node_eq sender x = false) →
      (do_leave_sheep junk (some sender) nodes n).nodes = nodes ∧
      (do_leave_sheep junk (some sender) nodes n).nr_nodes = n ∧
      (do_leave_sheep junk (some sender) nodes n).upcalls = [] ∧
      ∀ x ∈ (do_leave_sheep junk (some sender) nodes n).accessed, x < n) := by
  obtain ⟨a1, a2⟩ := leave_search_spec junk sender n 0
    { nodes := nodes, nr_nodes := n, accessed := [], upcalls := [], exited := false }
    rfl (Nat.zero_le _) hn
  simp only [List.drop_zero, List.take_zero, List.nil_append, List.not_mem_nil, false_or] at a1 a2
  constructor
  · intro hx
    obtain ⟨b1, b2, b3, b4, b5, b6⟩ := a1 hx
    refine ⟨b1, b2, b3, b4, b5, b6, ?_⟩
    constructor
    · intro h
      exact h n b6
    · intro h x hx
      have := b5 x hx
      omega
  · intro hx
    exact a2 hx

/-- C26, witness: a full array of two nodes which the first one leaves; the
index 2, behind the array, is read. -/
theorem C26_do_leave_sheep_witness :
    (do_leave_sheep Zk.member_a (some Zk.member_a) [Zk.member_a, Zk.member_b] 2).nodes.take 1 =
      [Zk.member_b] ∧
    [Zk.member_a, Zk.member_b].length ∈
      (do_leave_sheep Zk.member_a (some Zk.member_a) [Zk.member_a, Zk.member_b] 2).accessed :=
  have h := (C26_do_leave_sheep Zk.member_a Zk.member_a [Zk.member_a, Zk.member_b] 2
    (by decide)).1 ⟨Zk.member_a, by decide, by decide⟩
  ⟨h.2.1.trans (by decide), h.2.2.2.2.2.1⟩

end Shepherd

/-! ## Part 23: theorems about the width of the slot arrays and the entries of the cache -/

namespace Sockfd

/-! ### The width and the watermark -/

theorem width_add (s : State) (nid : node_id) :
    (sockfd_cache_add s nid).fds_high_watermark = s.fds_high_watermark ∧
      (sockfd_cache_add s nid).fds_count = s.fds_count := by
  rw [add_eq]
  cases sockfd_cache_search s.root nid <;> exact ⟨rfl, rfl⟩

theorem width_revalidate (net : Net) (s : State) (nid : node_id) :
    (revalidate_node net s nid).2.fds_high_watermark = s.fds_high_watermark ∧
      (revalidate_node net s nid).2.fds_count = s.fds_count := by
  unfold revalidate_node
  simp only [connect_to_addr, revalidate_alive, close]
  split_ifs <;> first | exact ⟨rfl, rfl⟩ | exact width_add _ nid

theorem width_grab (s : State) (nid : node_id) :
    (sockfd_cache_grab s nid).2.fds_high_watermark = s.fds_high_watermark ∧
      (sockfd_cache_grab s nid).2.fds_count = s.fds_count := by
  unfold sockfd_cache_grab
  split
  · exact ⟨rfl, rfl⟩
  · dsimp only
    split <;> exact ⟨rfl, rfl⟩

theorem width_check_idx (s : State) (idx : Int) :
    (check_idx s idx).fds_high_watermark = s.fds_high_watermark ∧
      (check_idx s idx).fds_count = s.fds_count := by
  unfold check_idx
  split_ifs <;> exact ⟨rfl, rfl⟩

theorem width_get_connect (net : Net) (s : State) (nid : node_id) (idx : Int) :
    (sockfd_cache_get_connect net s nid idx).2.fds_high_watermark = s.fds_high_watermark ∧
      (sockfd_cache_get_connect net s nid idx).2.fds_count = s.fds_count := by
  unfold sockfd_cache_get_connect
  simp only [connect_to, connect_to_addr, sockfd_cache_get_new, set_slot]
  split_ifs <;> exact ⟨rfl, rfl⟩

theorem width_cache_get (net : Net) (nid : node_id) (rounds : Nat) (s : State) :
    (sockfd_cache_get net rounds s nid).2.fds_high_watermark = s.fds_high_watermark ∧
      (sockfd_cache_get net rounds s nid).2.fds_count = s.fds_count := by
  induction rounds generalizing s with
  | zero => exact ⟨rfl, rfl⟩
  | succ n ih =>
    unfold sockfd_cache_get
    have hg := width_grab s nid
    cases hgr : sockfd_cache_grab s nid with
    | mk r s1 =>
      rw [hgr] at hg
      simp only at hg
      cases r with
      | none =>
        simp only
        have hrv := width_revalidate net s1 nid
        cases hre : revalidate_node net s1 nid with
        | mk b s2 =>
          rw [hre] at hrv
          simp only at hrv
          cases b with
          | false => exact ⟨hrv.1.trans hg.1, hrv.2.trans hg.2⟩
          | true =>
            simp only
            exact ⟨(ih s2).1.trans (hrv.1.trans hg.1), (ih s2).2.trans (hrv.2.trans hg.2)⟩
      | some idx =>
        simp only
        have hc := width_check_idx s1 idx
        split
        · exact ⟨hc.1.trans hg.1, hc.2.trans hg.2⟩
        · have hk := width_get_connect net (check_idx s1 idx) nid idx
          exact ⟨hk.1.trans (hc.1.trans hg.1), hk.2.trans (hc.2.trans hg.2)⟩

theorem width_sheep_get (net : Net) (nid : node_id) (rounds : Nat) (s : State) :
    (sheep_get_sockfd net rounds s nid).2.fds_high_watermark = s.fds_high_watermark ∧
      (sheep_get_sockfd net rounds s nid).2.fds_count = s.fds_count := by
  have h := width_cache_get net nid rounds s
  unfold sheep_get_sockfd
  cases hc : sockfd_cache_get net rounds s nid with
  | mk r s1 =>
    rw [hc] at h
    cases r with
    | sfd hd => exact h
    | spin => exact h
    | null =>
      simp only [connect_to_addr]
      split <;> exact h

theorem width_put (s : State) (nid : node_id) (idx : Int) :
    (sockfd_cache_put s nid idx).fds_high_watermark = s.fds_high_watermark ∧
      (sockfd_cache_put s nid idx).fds_count = s.fds_count := by
  rcases put_root_cases s nid idx with h | h <;> rw [h] <;> exact ⟨rfl, rfl⟩

theorem width_close (s : State) (nid : node_id) (idx : Int) :
    (sockfd_cache_close s nid idx).fds_high_watermark = s.fds_high_watermark ∧
      (sockfd_cache_close s nid idx).fds_count = s.fds_count := by
  rcases close_cases s nid idx with h | h <;> rw [h] <;> exact ⟨rfl, rfl⟩

theorem width_destroy_all_slots (s : State) (entry : sockfd_cache_entry) :
    (destroy_all_slots s entry).fds_high_watermark = s.fds_high_watermark ∧
      (destroy_all_slots s entry).fds_count = s.fds_count := by
  unfold destroy_all_slots
  generalize List.range s.fds_count = l
  have : ∀ (l : List Nat) (st : State),
      (l.foldl (fun st i =>
        match entry.fds[i]? with
        | some slot => if slot.fd ≠ -1 then close st slot.fd else st
        | none => st) st).fds_high_watermark = st.fds_high_watermark ∧
      (l.foldl (fun st i =>
        match entry.fds[i]? with
        | some slot => if slot.fd ≠ -1 then close st slot.fd else st
        | none => st) st).fds_count = st.fds_count := by
    intro l
    induction l with
    | nil => intro st; exact ⟨rfl, rfl⟩
    | cons a as ih =>
      intro st
      simp only [List.foldl_cons]
      obtain ⟨h1, h2⟩ := ih (match entry.fds[a]? with
        | some slot => if slot.fd ≠ -1 then close st slot.fd else st
        | none => st)
      rw [h1, h2]
      cases entry.fds[a]? with
      | none => exact ⟨rfl, rfl⟩
      | some slot =>
        simp only
        split <;> exact ⟨rfl, rfl⟩
  exact this l s

theorem width_del (s : State) (nid : node_id) :
    (sockfd_cache_del s nid).fds_high_watermark = s.fds_high_watermark ∧
      (sockfd_cache_del s nid).fds_count = s.fds_count := by
  unfold sockfd_cache_del sockfd_cache_destroy
  cases sockfd_cache_search s.root nid with
  | none => exact ⟨rfl, rfl⟩
  | some entry =>
    simp only
    split_ifs
    · exact ⟨rfl, rfl⟩
    · exact width_destroy_all_slots _ entry

theorem width_sheep_put (s : State) (nid : node_id) (h : sockfd) :
    (sheep_put_sockfd s nid h).fds_high_watermark = s.fds_high_watermark ∧
      (sheep_put_sockfd s nid h).fds_count = s.fds_count := by
  unfold sheep_put_sockfd
  split
  · exact ⟨rfl, rfl⟩
  · exact width_put s nid h.idx

theorem width_sheep_del (s : State) (nid : node_id) (h : sockfd) :
    (sheep_del_sockfd s nid h).fds_high_watermark = s.fds_high_watermark ∧
      (sheep_del_sockfd s nid h).fds_count = s.fds_count := by
  unfold sheep_del_sockfd
  split
  · exact ⟨rfl, rfl⟩
  · have h1 := width_del (sockfd_cache_close s nid h.idx) nid
    have h2 := width_close s nid h.idx
    exact ⟨h1.1.trans h2.1, h1.2.trans h2.2⟩

theorem width_add_group (nodes : List sd_node) (s : State) :
    (sockfd_cache_add_group s nodes).fds_high_watermark = s.fds_high_watermark ∧
      (sockfd_cache_add_group s nodes).fds_count = s.fds_count := by
  unfold sockfd_cache_add_group
  generalize nodes.reverse = l
  induction l generalizing s with
  | nil => exact ⟨rfl, rfl⟩
  | cons p ps ih =>
    simp only [List.foldl_cons, add_nolock_eq_add]
    have h1 := ih (sockfd_cache_add s p.nid)
    have h2 := width_add s p.nid
    exact ⟨h1.1.trans h2.1, h1.2.trans h2.2⟩

/-- Every operation keeps the watermark at `FDS_WATERMARK(fds_count)`. -/
theorem step_watermark (net : Net) (y : Sys) (op : Op)
    (h : y.st.fds_high_watermark = FDS_WATERMARK y.st.fds_count) :
    (step net y op).st.fds_high_watermark = FDS_WATERMARK (step net y op).st.fds_count := by
  cases op with
  | get nid rounds =>
    have hw := width_sheep_get net nid rounds y.st
    simp only [step]
    split
    · rename_i hd s hg
      rw [hg] at hw
      simp only at hw ⊢
      rw [hw.1, hw.2, h]
    · rename_i r s hne hg
      rw [hg] at hw
      simp only at hw ⊢
      rw [hw.1, hw.2, h]
  | put k =>
    simp only [step]
    split
    · rename_i p _
      have hw := width_sheep_put y.st p.1 p.2
      simp only
      rw [hw.1, hw.2, h]
    · exact h
  | del k =>
    simp only [step]
    split
    · rename_i p _
      have hw := width_sheep_del y.st p.1 p.2
      simp only
      rw [hw.1, hw.2, h]
    · exact h
  | add nid =>
    have hw := width_add y.st nid
    simp only [step]
    rw [hw.1, hw.2, h]
  | add_group nodes =>
    have hw := width_add_group nodes y.st
    simp only [step]
    rw [hw.1, hw.2, h]
  | grow => rfl
  | grow_done => exact h
  | cache_del nid =>
    have hw := width_del y.st nid
    simp only [step]
    rw [hw.1, hw.2, h]

theorem run_watermark (net : Net) (ops : List Op) (y : Sys)
    (h : y.st.fds_high_watermark = FDS_WATERMARK y.st.fds_count) :
    (run net y ops).st.fds_high_watermark = FDS_WATERMARK (run net y ops).st.fds_count := by
  induction ops generalizing y with
  | nil => exact h
  | cons op rest ih =>
    simp only [run, List.foldl_cons]
    exact ih _ (step_watermark net y op h)

end Sockfd

namespace Sockfd

theorem init_slots_at (fds : List sockfd_cache_fd) (n i j : Nat) (h1 : i ≤ j) (h2 : j < i + n)
    (h3 : j < fds.length) :
    (init_slots fds i n)[j]? = some { fd := -1, in_use := false } := by
  induction n generalizing fds i with
  | zero => omega
  | succ m ih =>
    simp only [init_slots]
    by_cases e : j = i
    · subst e
      rw [init_slots_below _ _ _ _ (Nat.lt_succ_self _), List.getElem?_set_self h3]
    · exact ih _ _ (by omega) (by omega) (by rw [List.length_set]; exact h3)

/-- Growing a slot array of `c` slots appends `c` free slots with `fd = -1`
and keeps the slots that were there. -/
theorem grown_slots (fds : List sockfd_cache_fd) (c : Nat) (hl : fds.length = c) :
    init_slots (xrealloc fds (c * 2)) c (c * 2 - c) =
      fds ++ List.replicate c { fd := -1, in_use := false } := by
  apply List.ext_getElem?
  intro j
  rw [List.getElem?_append]
  by_cases c1 : j < fds.length
  · rw [if_pos c1, init_slots_below _ _ _ _ (by omega), xrealloc_below _ _ _ c1 (by omega)]
  · rw [if_neg c1]
    by_cases c2 : j < c * 2
    · rw [init_slots_at _ _ _ _ (by omega) (by omega) (by rw [xrealloc_length]; exact c2),
        List.getElem?_replicate, if_pos (by omega)]
    · rw [List.getElem?_eq_none (by rw [init_slots_length, xrealloc_length]; omega),
        List.getElem?_eq_none (by rw [List.length_replicate]; omega)]

/-- C23: the width starts at 8 with the watermark 6; after every sequence of
operations, with `K` the width then, `check_idx(idx)` queues the grow work
(and sets `fds_in_grow`) when `idx > floor(3K/4)` and no growth is in
progress, and does nothing otherwise; `do_grow_fds` makes the width `2K` and
the watermark `floor(3 * 2K / 4)`, and every entry keeps its node and its `K`
slots, with their `fd` and `in_use`, followed by `K` new slots that are free
and have `fd = -1`. -/
theorem C23_watermark_and_growth (net : Net) (ops : List Op) (idx : Int) :
    State.init.fds_count = 8 ∧ State.init.fds_high_watermark = 8 * 3 / 4 ∧
    State.init.fds_high_watermark = 6 ∧
    (run net Sys.init ops).st.fds_high_watermark = (run net Sys.init ops).st.fds_count * 3 / 4 ∧
    ((((run net Sys.init ops).st.fds_count * 3 / 4 : Nat) : Int) < idx ∧
        (run net Sys.init ops).st.fds_in_grow = false →
      check_idx (run net Sys.init ops).st idx =
        { (run net Sys.init ops).st with
          fds_in_grow := true, wqueue := (run net Sys.init ops).st.wqueue + 1 }) ∧
    (¬ ((((run net Sys.init ops).st.fds_count * 3 / 4 : Nat) : Int) < idx ∧
        (run net Sys.init ops).st.fds_in_grow = false) →
      check_idx (run net Sys.init ops).st idx = (run net Sys.init ops).st) ∧
    (do_grow_fds (run net Sys.init ops).st).fds_count =
      2 * (run net Sys.init ops).st.fds_count ∧
    (do_grow_fds (run net Sys.init ops).st).fds_high_watermark =
      3 * (2 * (run net Sys.init ops).st.fds_count) / 4 ∧
    (do_grow_fds (run net Sys.init ops).st).root =
      (run net Sys.init ops).st.root.map (fun entry =>
        { entry with fds := entry.fds ++
            List.replicate (run net Sys.init ops).st.fds_count { fd := -1, in_use := false } }) ∧
    ∀ entry ∈ (run net Sys.init ops).st.root,
      entry.fds.length = (run net Sys.init ops).st.fds_count := by
  have hw := run_watermark net ops Sys.init rfl
  have hl := (run_inv net ops Sys.init init_inv).1
  generalize (run net Sys.init ops).st = s at hw hl
  unfold FDS_WATERMARK at hw
  refine ⟨rfl, rfl, rfl, hw, ?_, ?_, ?_, ?_, ?_, hl⟩
  · rintro ⟨h1, h2⟩
    have c1 : ¬ (idx ≤ (s.fds_high_watermark : Int)) := by rw [hw]; omega
    unfold check_idx
    rw [if_neg c1, h2]
    simp
  · intro h
    unfold check_idx
    by_cases c1 : idx ≤ (s.fds_high_watermark : Int)
    · rw [if_pos c1]
    · rw [if_neg c1]
      have : s.fds_in_grow = true := by
        cases hg : s.fds_in_grow with
        | true => rfl
        | false =>
          rw [hw] at c1
          exact absurd ⟨by omega, hg⟩ h
      rw [this]
      rfl
  · show s.fds_count * 2 = 2 * s.fds_count
    omega
  · show FDS_WATERMARK (s.fds_count * 2) = 3 * (2 * s.fds_count) / 4
    unfold FDS_WATERMARK
    congr 1
    omega
  · show s.root.map _ = s.root.map _
    apply List.map_congr_left
    intro entry he
    rw [grown_slots entry.fds s.fds_count (hl entry he)]

end Sockfd

namespace Sockfd

/-! ### One entry per node -/

theorem nodup_put (s : State) (nid : node_id) (idx : Int)
    (hnd : (s.root.map (fun e => e.nid)).Nodup) :
    ((sockfd_cache_put s nid idx).root.map (fun e => e.nid)).Nodup := by
  rcases put_root_cases s nid idx with h | h <;> rw [h]
  · exact hnd
  · rw [nids_set_slot]; exact hnd

theorem nodup_close (s : State) (nid : node_id) (idx : Int)
    (hnd : (s.root.map (fun e => e.nid)).Nodup) :
    ((sockfd_cache_close s nid idx).root.map (fun e => e.nid)).Nodup := by
  rcases close_cases s nid idx with h | h <;> rw [h]
  · exact hnd
  · rw [nids_set_slot]; exact hnd

theorem nodup_del (s : State) (nid : node_id) (hnd : (s.root.map (fun e => e.nid)).Nodup) :
    ((sockfd_cache_del s nid).root.map (fun e => e.nid)).Nodup := by
  rcases del_cases s nid with h | ⟨entry, _, _, hr, _, _⟩
  · rw [h]; exact hnd
  · rw [hr]
    unfold rb_erase
    exact hnd.sublist ((List.eraseP_sublist s.root).map _)

theorem nodup_add_group (nodes : List sd_node) (s : State)
    (hnd : (s.root.map (fun e => e.nid)).Nodup) :
    ((sockfd_cache_add_group s nodes).root.map (fun e => e.nid)).Nodup := by
  unfold sockfd_cache_add_group
  generalize nodes.reverse = l
  induction l generalizing s with
  | nil => exact hnd
  | cons p ps ih =>
    simp only [List.foldl_cons, add_nolock_eq_add]
    exact ih _ (nodup_add s p.nid hnd)

theorem nodup_grow (s : State) (hnd : (s.root.map (fun e => e.nid)).Nodup) :
    ((do_grow_fds s).root.map (fun e => e.nid)).Nodup := by
  have : (do_grow_fds s).root.map (fun e => e.nid) = s.root.map (fun e => e.nid) := by
    simp only [do_grow_fds, List.map_map]
    rfl
  rw [this]; exact hnd

theorem step_nodup (net : Net) (y : Sys) (op : Op)
    (hnd : (y.st.root.map (fun e => e.nid)).Nodup) :
    ((step net y op).st.root.map (fun e => e.nid)).Nodup := by
  cases op with
  | get nid rounds =>
    have hw := nodup_sheep_get net nid rounds y.st hnd
    simp only [step]
    split
    · rename_i hd s hg
      rw [hg] at hw; exact hw
    · rename_i r s hne hg
      rw [hg] at hw; exact hw
  | put k =>
    simp only [step]
    split
    · rename_i p _
      simp only
      unfold sheep_put_sockfd
      split
      · exact hnd
      · exact nodup_put _ _ _ hnd
    · exact hnd
  | del k =>
    simp only [step]
    split
    · rename_i p _
      simp only
      unfold sheep_del_sockfd
      split
      · exact hnd
      · exact nodup_del _ _ (nodup_close _ _ _ hnd)
    · exact hnd
  | add nid => exact nodup_add y.st nid hnd
  | add_group nodes => exact nodup_add_group nodes y.st hnd
  | grow => exact nodup_grow y.st hnd
  | grow_done => exact hnd
  | cache_del nid => exact nodup_del y.st nid hnd

theorem run_nodup (net : Net) (ops : List Op) (y : Sys)
    (hnd : (y.st.root.map (fun e => e.nid)).Nodup) :
    ((run net y ops).st.root.map (fun e => e.nid)).Nodup := by
  induction ops generalizing y with
  | nil => exact hnd
  | cons op rest ih =>
    simp only [run, List.foldl_cons]
    exact ih _ (step_nodup net y op hnd)

/-- C30: after every sequence of operations from the start of the module
(`sockfd_cache_add`, `sockfd_cache_add_group`, `do_grow_fds` and
`sockfd_cache_del` among them, also the getting and releasing of handles),
every entry's slot array has exactly `fds_count` slots, so each index below
`fds_count`, which are the indexes that `get_free_slot`, `slots_all_free` and
`destroy_all_slots` scan, names a slot of the array, and `get_free_slot`
returns -1 or an index inside the array and leaves the array as long as it
was; the node ids of the entries are pairwise distinct, and two entries that
`node_id_cmp` finds equal are the same entry. -/
theorem C30_slot_arrays_and_node_ids (net : Net) (ops : List Op) :
    (∀ entry ∈ (run net Sys.init ops).st.root,
      entry.fds.length = (run net Sys.init ops).st.fds_count ∧
      (∀ i, i < (run net Sys.init ops).st.fds_count → ∃ slot, entry.fds[i]? = some slot) ∧
      ((get_free_slot (run net Sys.init ops).st.fds_count entry).1 = -1 ∨
        ∃ j : Nat, (get_free_slot (run net Sys.init ops).st.fds_count entry).1 = (j : Int) ∧
          j < (run net Sys.init ops).st.fds_count ∧ j < entry.fds.length) ∧
      (get_free_slot (run net Sys.init ops).st.fds_count entry).2.fds.length =
        entry.fds.length) ∧
    ((run net Sys.init ops).st.root.map (fun e => e.nid)).Nodup ∧
    (run net Sys.init ops).st.root.Pairwise (fun e1 e2 => node_id_cmp e1.nid e2.nid ≠ 0) := by
  have hl := (run_inv net ops Sys.init init_inv).1
  have hnd := run_nodup net ops Sys.init List.nodup_nil
  generalize (run net Sys.init ops).st = s at hl hnd
  refine ⟨?_, hnd, ?_⟩
  · intro entry he
    have hlen := hl entry he
    refine ⟨hlen, ?_, ?_, ?_⟩
    · intro i hi
      exact ⟨entry.fds[i], List.getElem?_eq_getElem (by omega)⟩
    · unfold get_free_slot
      simp only
      rcases get_free_slot_from_spec entry.fds s.fds_count 0 with ⟨h, _⟩ |
        ⟨j, slot, h1, _, h3, _⟩
      · exact Or.inl h
      · exact Or.inr ⟨j, h1, by omega, by omega⟩
    · unfold get_free_slot
      simp only
      rcases get_free_slot_from_spec entry.fds s.fds_count 0 with ⟨_, h, _⟩ |
        ⟨j, slot, _, _, _, _, _, h, _⟩
      · rw [h]
      · rw [h, List.length_set]
  · have := List.pairwise_map.mp hnd
    exact this.imp (fun {a b} h e => h ((node_id_cmp_eq_zero _ _).mp e))

end Sockfd

/-! ## Part 24: theorems about the list of last vdis -/

namespace Farm

theorem find_vdi_none (list : List vdi_entry) (name : List Char) :
    find_vdi list name = none ↔ ∀ e ∈ list, e.name ≠ name := by
  induction list with
  | nil => simp [find_vdi]
  | cons v rest ih =>
    unfold find_vdi
    by_cases h : v.name = name
    · simp [h]
    · rw [if_neg h, Option.map_eq_none', ih]
      simp [h]

theorem find_vdi_some (list : List vdi_entry) (name : List Char) (k : Nat)
    (h : find_vdi list name = some k) : ∃ e, list[k]? = some e ∧ e.name = name := by
  induction list generalizing k with
  | nil => simp [find_vdi] at h
  | cons v rest ih =>
    unfold find_vdi at h
    by_cases hv : v.name = name
    · rw [if_pos hv] at h
      injection h with h
      subst h
      exact ⟨v, by simp, hv⟩
    · rw [if_neg hv, Option.map_eq_some'] at h
      obtain ⟨m, hm, rfl⟩ := h
      obtain ⟨e, he, hn⟩ := ih m hm
      exact ⟨e, by simpa using he, hn⟩

theorem append_single_get (inodes : List sd_inode) (new : sd_inode) (q : Nat) (j : sd_inode)
    (h : (inodes ++ [new])[q]? = some j) :
    (q < inodes.length ∧ inodes[q]? = some j) ∨ (q = inodes.length ∧ j = new) := by
  rw [List.getElem?_append] at h
  by_cases c : q < inodes.length
  · rw [if_pos c] at h
    exact Or.inl ⟨c, h⟩
  · rw [if_neg c] at h
    right
    have hq : q - inodes.length = 0 := by
      by_contra hne
      obtain ⟨m, hm⟩ : ∃ m, q - inodes.length = m + 1 := ⟨q - inodes.length - 1, by omega⟩
      rw [hm] at h
      simp at h
    rw [hq] at h
    simp only [List.getElem?_cons_zero, Option.some.injEq] at h
    exact ⟨by omega, h.symm⟩

theorem pstrcpy_short (len : Nat) (name : List Char) (h : name.length < len) :
    pstrcpy len name = name := by
  unfold pstrcpy
  exact List.take_of_length_le (by omega)

/-- What the list of last vdis satisfies after the inodes were inserted: the
names of its entries are pairwise distinct, every entry carries the fields
of the latest inode of its name, and every inode's name has an entry. -/
theorem insert_vdis_inv (len : Nat) (inodes : List sd_inode)
    (hlen : ∀ i ∈ inodes, i.name.length < len) :
    ((insert_vdis len inodes).map (fun e => e.name)).Nodup ∧
    (∀ e ∈ insert_vdis len inodes, ∃ p i, is_latest inodes p i ∧ e = entry_of i) ∧
    (∀ i ∈ inodes, ∃ e ∈ insert_vdis len inodes, e.name = i.name) := by
  induction inodes using List.reverseRecOn with
  | nil =>
    refine ⟨List.nodup_nil, ?_, ?_⟩
    · intro e he; cases he
    · intro i hi; cases hi
  | append_singleton inodes new ih =>
    obtain ⟨ha, hb, hc⟩ := ih (fun i hi => hlen i (List.mem_append_left _ hi))
    have hnew : new.name.length < len := hlen new (List.mem_append_right _ (List.mem_singleton_self _))
    have hfold : insert_vdis len (inodes ++ [new]) = insert_vdi len (insert_vdis len inodes) new := by
      unfold insert_vdis
      rw [List.foldl_append]
      rfl
    rw [hfold]
    generalize insert_vdis len inodes = L at ha hb hc
    unfold insert_vdi
    cases hf : find_vdi L new.name with
    | none =>
      simp only
      have hno := (find_vdi_none L new.name).mp hf
      have hnone : ∀ i ∈ inodes, i.name ≠ new.name := by
        intro i hi e
        obtain ⟨x, hx, hxn⟩ := hc i hi
        exact hno x hx (hxn.trans e)
      have hne : new_vdi len new.name new.vdi_size new.vdi_id new.snap_id new.nr_copies =
          entry_of new := by
        unfold new_vdi entry_of
        rw [pstrcpy_short len new.name hnew]
      rw [hne]
      refine ⟨?_, ?_, ?_⟩
      · rw [List.map_cons, List.nodup_cons]
        refine ⟨?_, ha⟩
        intro hmem
        obtain ⟨x, hx, hxn⟩ := List.mem_map.mp hmem
        exact hno x hx hxn
      · intro e he
        rcases List.mem_cons.mp he with rfl | he2
        · refine ⟨inodes.length, new, ⟨by simp, ?_⟩, rfl⟩
          intro q j hq hj
          rcases append_single_get inodes new q j hq with ⟨_, hq2⟩ | ⟨hq2, rfl⟩
          · exact absurd hj (hnone j (List.getElem?_mem hq2))
          · exact ⟨Nat.le_refl _, fun h => by omega⟩
        · obtain ⟨p, i, ⟨hp, hlat⟩, hei⟩ := hb e he2
          have hpl : p < inodes.length := (List.getElem?_eq_some.mp hp).1
          refine ⟨p, i, ⟨?_, ?_⟩, hei⟩
          · rw [List.getElem?_append, if_pos hpl]; exact hp
          · intro q j hq hj
            rcases append_single_get inodes new q j hq with ⟨_, hq2⟩ | ⟨_, hjn⟩
            · exact hlat q j hq2 hj
            · exfalso
              apply hno e he2
              rw [hei, ← hjn]
              exact hj.symm
      · intro i hi
        rcases List.mem_append.mp hi with hi | hi
        · obtain ⟨x, hx, hxn⟩ := hc i hi
          exact ⟨x, List.mem_cons_of_mem _ hx, hxn⟩
        · rw [List.mem_singleton] at hi
          subst hi
          exact ⟨entry_of i, List.mem_cons_self _ _, rfl⟩
    | some k =>
      simp only
      obtain ⟨v, hv, hvn⟩ := find_vdi_some L new.name k hf
      have hnames : (L.modify (fun vdi =>
          if vdi.snap_id < new.snap_id then
            { vdi with vdi_size := new.vdi_size, vdi_id := new.vdi_id, snap_id := new.snap_id,
                       nr_copies := new.nr_copies }
          else vdi) k).map (fun e => e.name) = L.map (fun e => e.name) := by
        apply List.ext_getElem?
        intro m
        rw [List.getElem?_map, List.getElem?_map, List.getElem?_modify]
        cases L[m]? with
        | none => rfl
        | some x =>
          simp only [Option.map_eq_map, Option.map_some', Option.some.injEq]
          split_ifs <;> rfl
      refine ⟨by rw [hnames]; exact ha, ?_, ?_⟩
      · intro e he
        obtain ⟨m, hm⟩ := List.mem_iff_getElem?.mp he
        rw [List.getElem?_modify] at hm
        cases hx : L[m]? with
        | none => rw [hx] at hm; cases hm
        | some x =>
          rw [hx] at hm
          simp only [Option.map_eq_map, Option.map_some', Option.some.injEq] at hm
          obtain ⟨p, i, ⟨hp, hlat⟩, hxi⟩ := hb x (List.getElem?_mem hx)
          have hpl : p < inodes.length := (List.getElem?_eq_some.mp hp).1
          have hp2 : (inodes ++ [new])[p]? = some i := by
            rw [List.getElem?_append, if_pos hpl]; exact hp
          by_cases hkm : k = m
          · subst hkm
            rw [if_pos rfl] at hm
            have hxv : x = v := by rw [hv] at hx; injection hx with hx; exact hx.symm
            have hin : i.name = new.name := by
              have : x.name = i.name := by rw [hxi]; rfl
              rw [← this, hxv, hvn]
            by_cases hs : x.snap_id < new.snap_id
            · rw [if_pos hs] at hm
              have hsi : i.snap_id < new.snap_id := by
                have : x.snap_id = i.snap_id := by rw [hxi]; rfl
                omega
              refine ⟨inodes.length, new, ⟨by simp, ?_⟩, ?_⟩
              · intro q j hq hj
                rcases append_single_get inodes new q j hq with ⟨_, hq2⟩ | ⟨hq2, rfl⟩
                · have := (hlat q j hq2 (hj.trans hin.symm)).1
                  exact ⟨by omega, fun _ => by omega⟩
                · exact ⟨Nat.le_refl _, fun h => by omega⟩
              · rw [← hm, hxi]
                unfold entry_of
                simp only [vdi_entry.mk.injEq, and_true, true_and]
                exact hin
            · rw [if_neg hs] at hm
              have hsi : new.snap_id ≤ i.snap_id := by
                have : x.snap_id = i.snap_id := by rw [hxi]; rfl
                omega
              refine ⟨p, i, ⟨hp2, ?_⟩, by rw [← hm, hxi]⟩
              intro q j hq hj
              rcases append_single_get inodes new q j hq with ⟨_, hq2⟩ | ⟨hq2, rfl⟩
              · exact hlat q j hq2 hj
              · exact ⟨hsi, fun h => by omega⟩
          · rw [if_neg hkm] at hm
            have hxn : x.name ≠ new.name := by
              intro e2
              have h1 : (L.map (fun e => e.name))[k]? = some new.name := by
                rw [List.getElem?_map, hv]; simp [hvn]
              have h2 : (L.map (fun e => e.name))[m]? = some new.name := by
                rw [List.getElem?_map, hx]; simp [e2]
              have hk1 : k < (L.map (fun e => e.name)).length := (List.getElem?_eq_some.mp h1).1
              have hk2 : m < (L.map (fun e => e.name)).length := (List.getElem?_eq_some.mp h2).1
              have e1 := (List.getElem?_eq_some.mp h1).2
              have e3 := (List.getElem?_eq_some.mp h2).2
              exact hkm ((List.Nodup.getElem_inj_iff ha).mp (e1.trans e3.symm))
            refine ⟨p, i, ⟨hp2, ?_⟩, by rw [← hm, hxi]⟩
            intro q j hq hj
            rcases append_single_get inodes new q j hq with ⟨_, hq2⟩ | ⟨_, rfl⟩
            · exact hlat q j hq2 hj
            · exfalso
              apply hxn
              have : x.name = i.name := by rw [hxi]; rfl
              rw [this, hj]
      · intro i hi
        have hmemn : ∀ nm, nm ∈ L.map (fun e => e.name) → ∃ e ∈ L.modify (fun vdi =>
            if vdi.snap_id < new.snap_id then
              { vdi with vdi_size := new.vdi_size, vdi_id := new.vdi_id, snap_id := new.snap_id,
                         nr_copies := new.nr_copies }
            else vdi) k, e.name = nm := by
          intro nm hnm
          rw [← hnames] at hnm
          obtain ⟨e, he, hen⟩ := List.mem_map.mp hnm
          exact ⟨e, he, hen⟩
        rcases List.mem_append.mp hi with hi | hi
        · obtain ⟨x, hx, hxn⟩ := hc i hi
          exact hmemn i.name (List.mem_map.mpr ⟨x, hx, hxn⟩)
        · rw [List.mem_singleton] at hi
          subst hi
          exact hmemn i.name (List.mem_map.mpr ⟨v, List.getElem?_mem hv, hvn⟩)

end Farm

namespace Farm

/-- C29: after `insert_vdi` was called for each inode of a sequence (names
shorter than `SD_MAX_VDI_LEN`, as a C string in the field `name` is), the list
of last vdis holds one entry per name that occurs among the inodes and no
other entry, no two entries with the same name, and each entry carries the
`vdi_id`, `vdi_size`, `snap_id` and `nr_copies` of the inode that has the
greatest `snap_id` among the inodes of that name, the earliest of them when
several have it. -/
theorem C29_last_vdi_list (len : Nat) (inodes : List sd_inode)
    (hlen : ∀ i ∈ inodes, i.name.length < len) :
    ((insert_vdis len inodes).map (fun e => e.name)).Nodup ∧
    (∀ name, (∃ e ∈ insert_vdis len inodes, e.name = name) ↔ ∃ i ∈ inodes, i.name = name) ∧
    (∀ e ∈ insert_vdis len inodes, ∃ p i, is_latest inodes p i ∧
      e.name = i.name ∧ e.vdi_id = i.vdi_id ∧ e.vdi_size = i.vdi_size ∧
      e.snap_id = i.snap_id ∧ e.nr_copies = i.nr_copies) := by
  obtain ⟨ha, hb, hc⟩ := insert_vdis_inv len inodes hlen
  refine ⟨ha, ?_, ?_⟩
  · intro name
    constructor
    · rintro ⟨e, he, hen⟩
      obtain ⟨p, i, ⟨hp, _⟩, hei⟩ := hb e he
      refine ⟨i, List.getElem?_mem hp, ?_⟩
      rw [← hen, hei]
      rfl
    · rintro ⟨i, hi, hin⟩
      obtain ⟨e, he, hen⟩ := hc i hi
      exact ⟨e, he, hen.trans hin⟩
  · intro e he
    obtain ⟨p, i, hl, hei⟩ := hb e he
    refine ⟨p, i, hl, ?_⟩
    rw [hei]
    exact ⟨rfl, rfl, rfl, rfl, rfl⟩

/-- C29, witness: three inodes of the vdi `a` (snapshots 1, 2, 2) and one of
the vdi `b`; the entry of `a` is that of the first inode with snapshot 2. -/
theorem C29_last_vdi_list_witness :
    ((insert_vdis 256 inodes_example).map (fun e => e.name)).Nodup ∧
    insert_vdis 256 inodes_example =
      [{ name := "b".toList, vdi_size := 20, vdi_id := 2, snap_id := 1, nr_copies := 3 },
       { name := "a".toList, vdi_size := 30, vdi_id := 3, snap_id := 2, nr_copies := 2 }] :=
  ⟨(C29_last_vdi_list 256 inodes_example (by decide)).1, by decide⟩

end Farm

/-! ## Part 25: theorems about the queue of the ZooKeeper driver -/

namespace Zk

open Sockfd (node_id node_id_cmp sd_node)
open Cluster

/-! ### The cursor of the queue -/

theorem queue_pos_kick (sheep : Sheep) (s : State) :
    (kick_block_event sheep s).queue_pos = s.queue_pos := by
  unfold kick_block_event
  split
  · rfl
  · split <;> rfl

theorem queue_pos_tree_add (s : State) (node : zk_node) :
    (zk_tree_add s node).queue_pos = s.queue_pos := by
  unfold zk_tree_add
  split <;> rfl

theorem queue_pos_tree_add_list (junk : zk_node) (nodes : List sd_node) (s : State) :
    (nodes.foldl (fun st n => zk_tree_add st { junk with node := n }) s).queue_pos =
      s.queue_pos := by
  induction nodes generalizing s with
  | nil => rfl
  | cons n rest ih =>
    simp only [List.foldl_cons]
    rw [ih, queue_pos_tree_add]

theorem queue_pos_init_node_list (srv : Server) (junk : zk_node) (s s1 : State) (ev : zk_event)
    (h : init_node_list srv junk s ev = Outcome.ok s1) : s1.queue_pos = s.queue_pos := by
  unfold init_node_list watch_all_nodes at h
  split_ifs at h
  · injection h with h; rw [← h, queue_pos_tree_add_list]
  · injection h with h; rw [← h, queue_pos_tree_add_list]

theorem queue_pos_join_response_finish (srv : Server) (s s2 : State) (ev : zk_event)
    (h : join_response_finish srv s ev = Outcome.ok s2) : s2.queue_pos = s.queue_pos := by
  unfold join_response_finish at h
  split at h
  · injection h with h; rw [← h]; rfl
  · split_ifs at h
    injection h with h
    rw [← h]
    show (zk_tree_add s ev.sender).queue_pos = s.queue_pos
    exact queue_pos_tree_add s ev.sender

theorem queue_pos_join_response (srv : Server) (junk : zk_node) (s s2 : State) (ev : zk_event)
    (h : zk_handle_join_response srv junk s ev = Outcome.ok s2) :
    s2.queue_pos = s.queue_pos := by
  unfold zk_handle_join_response at h
  split at h
  · rename_i s1 h1
    have hq := queue_pos_join_response_finish srv _ s2 ev h
    rw [hq]
    have h1q : s1.queue_pos = s.queue_pos := by
      split_ifs at h1
      · exact queue_pos_init_node_list srv junk s s1 ev h1
      · injection h1 with h1; rw [h1]
    split_ifs
    · exact h1q
    · exact h1q
  · rename_i dead hdead
    exact absurd h (hdead s2)

theorem queue_pos_leave (s : State) (ev : zk_event) :
    (zk_handle_leave s ev).queue_pos = s.queue_pos := by
  unfold zk_handle_leave
  split <;> rfl

theorem queue_pos_block (sheep : Sheep) (s : State) (ev : zk_event) :
    (zk_handle_block sheep s ev).queue_pos = s.queue_pos := by
  unfold zk_handle_block
  split
  · rfl
  · split <;> rfl

theorem queue_pos_add_event (s : State) (type : zk_event_type) (znode : zk_node)
    (buf : List Nat) (hfp : s.first_push = false) :
    (add_event s type znode buf).queue_pos = s.queue_pos := by
  unfold add_event zk_queue_push get_uniq_id
  simp only [hfp]
  rfl

theorem queue_pos_unblock (s : State) (ev : zk_event) (hfp : s.first_push = false) :
    (zk_handle_unblock s ev).queue_pos = s.queue_pos := by
  unfold zk_handle_unblock
  split
  · rfl
  · split
    · exact queue_pos_add_event s _ _ _ hfp
    · rfl

theorem queue_pos_join_request (sheep : Sheep) (srv : Server) (s s2 : State) (ev : zk_event)
    (h : zk_handle_join_request sheep srv s ev = Outcome.ok s2) :
    s2.queue_pos = s.queue_pos - 1 := by
  unfold zk_handle_join_request at h
  split_ifs at h
  · injection h with h; rw [← h]
  · simp only at h
    split_ifs at h
    injection h with h
    rw [← h]
    rfl

end Zk

namespace Zk

open Sockfd (node_id node_id_cmp sd_node)
open Cluster

/-- The handler with an event at `queue_pos`: the event is popped and handed
to its handler. -/
theorem event_handler_of_event (sheep : Sheep) (srv : Server) (junk : zk_node) (s : State)
    (ev : zk_event) (hev : s.queue[s.queue_pos]? = some ev) :
    zk_event_handler sheep srv junk s =
      match zk_event_handlers sheep srv junk { s with queue_pos := s.queue_pos + 1 } ev with
      | Outcome.ok s2 =>
        if zk_queue_peek s2 then Outcome.ok s2 else Outcome.ok (kick_block_event sheep s2)
      | dead => dead := by
  have hlt : s.queue_pos < s.queue.length := (List.getElem?_eq_some.mp hev).1
  unfold zk_event_handler
  have hp : zk_queue_peek s = true := by
    unfold zk_queue_peek
    exact decide_eq_true hlt
  rw [hp]
  simp only [Bool.not_true, Bool.false_eq_true, if_false]
  unfold zk_queue_pop_advance
  rw [hev] <;> rfl

/-- When the handler of the event returns with `queue_pos = q`, so does
`zk_event_handler`. -/
theorem event_handler_returns (sheep : Sheep) (srv : Server) (junk : zk_node) (s s1 : State)
    (ev : zk_event) (hev : s.queue[s.queue_pos]? = some ev)
    (h : zk_event_handlers sheep srv junk { s with queue_pos := s.queue_pos + 1 } ev =
      Outcome.ok s1) :
    ∃ s2, zk_event_handler sheep srv junk s = Outcome.ok s2 ∧ s2.queue_pos = s1.queue_pos := by
  rw [event_handler_of_event sheep srv junk s ev hev, h]
  simp only
  split_ifs
  · exact ⟨s1, rfl, rfl⟩
  · exact ⟨_, rfl, queue_pos_kick sheep s1⟩

theorem event_handler_ok (sheep : Sheep) (srv : Server) (junk : zk_node) (s s2 : State)
    (ev : zk_event) (hev : s.queue[s.queue_pos]? = some ev)
    (h : zk_event_handler sheep srv junk s = Outcome.ok s2) :
    ∃ s1, zk_event_handlers sheep srv junk { s with queue_pos := s.queue_pos + 1 } ev =
      Outcome.ok s1 ∧ s2.queue_pos = s1.queue_pos := by
  rw [event_handler_of_event sheep srv junk s ev hev] at h
  split at h
  · rename_i s1 h1
    refine ⟨s1, h1, ?_⟩
    split_ifs at h
    · injection h with h; rw [← h]
    · injection h with h; rw [← h, queue_pos_kick]
  · rename_i dead hdead
    exact absurd h (hdead s2)

/-- C24, counterexample: a node that is not the master pops a join request
(here its own) and steps back to wait for the master's answer: the handler
returns with `queue_pos` as it was on entry. -/
theorem C24_join_request_keeps_queue_pos :
    state_join_pending.queue[state_join_pending.queue_pos]? =
      some { id := 1, type := zk_event_type.EVENT_JOIN_REQUEST,
             sender := { node := member_b, callbacked := false, gone := false },
             join_result := cluster_join_result.CJ_RES_SUCCESS, buf := [1, 2], nodes := [] } ∧
    zk_event_handler sheep_ready server_ok
      { node := member_a, callbacked := false, gone := false } state_join_pending =
      Outcome.ok state_join_pending ∧
    state_join_pending.queue_pos ≠ state_join_pending.queue_pos + 1 := by
  refine ⟨by decide, by decide, by decide⟩

/-- C24, amended: when `zk_event_handler` pops an event (the node having pushed
before, so that `first_push` is false) and returns, `queue_pos` is one greater
than on entry for the events `EVENT_JOIN_RESPONSE`, `EVENT_LEAVE`,
`EVENT_BLOCK`, `EVENT_UNBLOCK` and `EVENT_NOTIFY`, and it is the same as on
entry for `EVENT_JOIN_REQUEST`: a node that is not the master steps back to
await the answer, the master writes the answer over the request and steps
back to pop it next.  The handler does return for a leave, block, unblock or
notify event, for a join request at a node that is not the master, and for a
join response when the servers answer with success. -/
theorem C24_queue_pos_after_pop (sheep : Sheep) (srv : Server) (junk : zk_node) (s : State)
    (ev : zk_event) (hev : s.queue[s.queue_pos]? = some ev) (hfp : s.first_push = false) :
    (ev.type = zk_event_type.EVENT_JOIN_REQUEST →
      (∀ s2, zk_event_handler sheep srv junk s = Outcome.ok s2 → s2.queue_pos = s.queue_pos) ∧
      (is_master srv s = false → ∃ s2, zk_event_handler sheep srv junk s = Outcome.ok s2)) ∧
    (ev.type = zk_event_type.EVENT_JOIN_RESPONSE →
      (∀ s2, zk_event_handler sheep srv junk s = Outcome.ok s2 →
        s2.queue_pos = s.queue_pos + 1) ∧
      (srv.member_data_ok = true → srv.create_rc = zk_rc.ZOK → srv.exists_rc = zk_rc.ZOK →
        ∃ s2, zk_event_handler sheep srv junk s = Outcome.ok s2)) ∧
    (ev.type = zk_event_type.EVENT_LEAVE ∨ ev.type = zk_event_type.EVENT_BLOCK ∨
        ev.type = zk_event_type.EVENT_UNBLOCK ∨ ev.type = zk_event_type.EVENT_NOTIFY →
      ∃ s2, zk_event_handler sheep srv junk s = Outcome.ok s2 ∧
        s2.queue_pos = s.queue_pos + 1) := by
  refine ⟨?_, ?_, ?_⟩
  · intro ht
    constructor
    · intro s2 h
      obtain ⟨s1, h1, hq⟩ := event_handler_ok sheep srv junk s s2 ev hev h
      unfold zk_event_handlers at h1
      rw [ht] at h1
      simp only at h1
      rw [hq, queue_pos_join_request sheep srv _ s1 ev h1]
      rfl
    · intro hm
      have h1 : zk_event_handlers sheep srv junk { s with queue_pos := s.queue_pos + 1 } ev =
          Outcome.ok { s with queue_pos := s.queue_pos + 1 - 1 } := by
        unfold zk_event_handlers
        rw [ht]
        simp only
        unfold zk_handle_join_request
        have : is_master srv { s with queue_pos := s.queue_pos + 1 } = false := hm
        rw [this]
        rfl
      obtain ⟨s2, h2, _⟩ := event_handler_returns sheep srv junk s _ ev hev h1
      exact ⟨s2, h2⟩
  · intro ht
    constructor
    · intro s2 h
      obtain ⟨s1, h1, hq⟩ := event_handler_ok sheep srv junk s s2 ev hev h
      unfold zk_event_handlers at h1
      rw [ht] at h1
      simp only at h1
      rw [hq, queue_pos_join_response srv junk _ s1 ev h1]
    · intro hd hc he
      have hmz : ∀ t : State, member_znode_ok srv t ev = true := by
        intro t
        unfold member_znode_ok
        rw [hc, he]
        split_ifs <;> rfl
      have hfin : ∀ t : State, ∃ t2, join_response_finish srv t ev = Outcome.ok t2 := by
        intro t
        unfold join_response_finish
        split
        · exact ⟨_, rfl⟩
        · rw [hmz t]
          exact ⟨_, rfl⟩
      have hinit : ∀ t : State, ∃ t1, init_node_list srv junk t ev = Outcome.ok t1 := by
        intro t
        unfold init_node_list watch_all_nodes
        rw [hd]
        by_cases hme : srv.member_empty = true
        · rw [if_pos hme]; exact ⟨_, rfl⟩
        · rw [if_neg hme, if_pos rfl]; exact ⟨_, rfl⟩
      have h1 : ∃ s1, zk_event_handlers sheep srv junk { s with queue_pos := s.queue_pos + 1 }
          ev = Outcome.ok s1 := by
        unfold zk_event_handlers
        rw [ht]
        simp only
        unfold zk_handle_join_response
        by_cases hn : node_eq ev.sender.node
            ({ s with queue_pos := s.queue_pos + 1 } : State).this_node.node = true
        · rw [if_pos hn]
          obtain ⟨t1, ht1⟩ := hinit { s with queue_pos := s.queue_pos + 1 }
          rw [ht1]
          exact hfin _
        · rw [if_neg hn]
          exact hfin _
      obtain ⟨s1, h1⟩ := h1
      obtain ⟨s2, h2, _⟩ := event_handler_returns sheep srv junk s s1 ev hev h1
      exact ⟨s2, h2⟩
  · intro ht
    have h1 : ∃ s1, zk_event_handlers sheep srv junk { s with queue_pos := s.queue_pos + 1 }
        ev = Outcome.ok s1 ∧ s1.queue_pos = s.queue_pos + 1 := by
      unfold zk_event_handlers
      rcases ht with ht | ht | ht | ht <;> rw [ht] <;> simp only
      · exact ⟨_, rfl, queue_pos_leave _ ev⟩
      · exact ⟨_, rfl, queue_pos_block sheep _ ev⟩
      · exact ⟨_, rfl, queue_pos_unblock _ ev hfp⟩
      · exact ⟨_, rfl, rfl⟩
    obtain ⟨s1, h1, hq1⟩ := h1
    obtain ⟨s2, h2, hq2⟩ := event_handler_returns sheep srv junk s s1 ev hev h1
    exact ⟨s2, h2, hq2.trans hq1⟩

/-- C24, witness: the block event at the head of the queue of
`state_block_then_notify` is popped and `queue_pos` goes from 0 to 1. -/
theorem C24_queue_pos_witness :
    ∃ s2, zk_event_handler sheep_ready server_ok
        { node := member_a, callbacked := false, gone := false } state_block_then_notify =
        Outcome.ok s2 ∧
      s2.queue_pos = state_block_then_notify.queue_pos + 1 :=
  (C24_queue_pos_after_pop sheep_ready server_ok
    { node := member_a, callbacked := false, gone := false } state_block_then_notify
    { id := 1, type := zk_event_type.EVENT_BLOCK,
      sender := { node := member_b, callbacked := false, gone := false },
      join_result := cluster_join_result.CJ_RES_SUCCESS, buf := [], nodes := [] }
    (by decide) (by decide)).2.2 (Or.inr (Or.inl rfl))

end Zk

namespace Zk

open Sockfd (node_id node_id_cmp sd_node)
open Cluster

/-! ### Pushing an event -/

theorem find_from_none_iff (id : Nat) (l : List zk_event) (seq : Nat) :
    zk_find_seq_node_from id seq l = none ↔ ∀ e ∈ l, e.id ≠ id := by
  induction l generalizing seq with
  | nil => simp [zk_find_seq_node_from]
  | cons a rest ih =>
    unfold zk_find_seq_node_from
    by_cases h : a.id = id
    · simp [h]
    · rw [if_neg h, ih]
      simp [h]

theorem find_from_some (id : Nat) (l : List zk_event) (seq k : Nat)
    (h : zk_find_seq_node_from id seq l = some k) :
    seq ≤ k ∧ ∃ e, l[k - seq]? = some e ∧ e.id = id := by
  induction l generalizing seq with
  | nil => simp [zk_find_seq_node_from] at h
  | cons a rest ih =>
    unfold zk_find_seq_node_from at h
    by_cases ha : a.id = id
    · rw [if_pos ha] at h
      injection h with h
      subst h
      exact ⟨Nat.le_refl _, a, by simp, ha⟩
    · rw [if_neg ha] at h
      obtain ⟨h1, e, he, hid⟩ := ih (seq + 1) h
      refine ⟨by omega, e, ?_, hid⟩
      have : k - seq = (k - (seq + 1)) + 1 := by omega
      rw [this, List.getElem?_cons_succ]
      exact he

/-- The search of `zk_find_seq_node` fails exactly when no znode at a position
from `queue_pos` on carries the id. -/
theorem find_seq_node_none_iff (s : State) (id : Nat) :
    zk_find_seq_node s id = none ↔
      ∀ k e, s.queue_pos ≤ k → s.queue[k]? = some e → e.id ≠ id := by
  unfold zk_find_seq_node
  rw [find_from_none_iff]
  constructor
  · intro h k e hk he
    apply h e
    rw [List.mem_iff_getElem?]
    refine ⟨k - s.queue_pos, ?_⟩
    rw [List.getElem?_drop]
    have : s.queue_pos + (k - s.queue_pos) = k := by omega
    rw [this]; exact he
  · intro h e he
    obtain ⟨j, hj⟩ := List.mem_iff_getElem?.mp he
    rw [List.getElem?_drop] at hj
    exact h _ e (Nat.le_add_right _ _) hj

theorem count_id_append (a b : List zk_event) (id : Nat) :
    count_id (a ++ b) id = count_id a id + count_id b id := by
  unfold count_id
  rw [List.filter_append, List.length_append]

theorem count_id_zero (a : List zk_event) (id : Nat) :
    count_id a id = 0 ↔ ∀ e ∈ a, e.id ≠ id := by
  unfold count_id
  rw [List.length_eq_zero, List.filter_eq_nil_iff]
  simp

theorem count_id_single (ev : zk_event) : count_id [ev] ev.id = 1 := by
  unfold count_id
  simp

theorem push_done_queue (s : State) (seq : Nat) :
    (zk_queue_push_done s seq).queue = s.queue := by
  unfold zk_queue_push_done
  split <;> rfl

/-- The rounds of `zk_queue_push` from a queue that does not hold the id: when
the function returns, the queue holds the id once. -/
theorem push_rounds_count (ev : zk_event) (rounds : List push_round) :
    ∀ (s : State) (n : Nat), s.queue_pos ≤ s.queue.length → count_id s.queue ev.id = 0 →
    (∀ r ∈ rounds, (∀ e ∈ r.before, e.id ≠ ev.id) ∧ (∀ e ∈ r.between, e.id ≠ ev.id)) →
    ∀ s2 m, zk_queue_push_rounds ev s rounds n = (push_result.ok s2, m) →
      count_id s2.queue ev.id = 1 := by
  induction rounds with
  | nil =>
    intro s n _ _ _ s2 m h
    simp [zk_queue_push_rounds] at h
  | cons r rest ih =>
    intro s n hpos hc hoth s2 m h
    have hb := (hoth r (List.mem_cons_self _ _)).1
    have hbt := (hoth r (List.mem_cons_self _ _)).2
    have hcb : count_id r.before ev.id = 0 := (count_id_zero _ _).mpr hb
    have hcbt : count_id r.between ev.id = 0 := (count_id_zero _ _).mpr hbt
    unfold zk_queue_push_rounds at h
    simp only at h
    split at h
    · simp only [Prod.mk.injEq, push_result.ok.injEq] at h
      rw [← h.1, push_done_queue]
      simp only
      rw [count_id_append, count_id_append, hc, hcb, count_id_single]
    · simp at h
    · rename_i created hrc
      split at h
      · simp at h
      · split at h
        · simp only [Prod.mk.injEq, push_result.ok.injEq] at h
          rename_i seq hfind
          rw [← h.1, push_done_queue]
          simp only
          cases created with
          | true =>
            simp only [if_true]
            rw [count_id_append, count_id_append, count_id_append, hc, hcb, hcbt,
              count_id_single]
          | false =>
            exfalso
            have hnone : zk_find_seq_node
                { s with queue := (if false = true then (s.queue ++ r.before) ++ [ev]
                  else s.queue ++ r.before) ++ r.between } ev.id = none := by
              rw [find_seq_node_none_iff]
              intro k e _ he
              simp only [Bool.false_eq_true, if_false] at he
              have hz : count_id ((s.queue ++ r.before) ++ r.between) ev.id = 0 := by
                rw [count_id_append, count_id_append, hc, hcb, hcbt]
              exact (count_id_zero _ _).mp hz e (List.getElem?_mem he)
            rw [hnone] at hfind
            cases hfind
        · rename_i hfind
          cases created with
          | true =>
            exfalso
            rw [find_seq_node_none_iff] at hfind
            simp only [if_true] at hfind
            have hlen : s.queue_pos ≤ (s.queue ++ r.before).length := by
              rw [List.length_append]; omega
            have hget : (s.queue ++ r.before ++ [ev] ++ r.between)[(s.queue ++ r.before).length]? =
                some ev := by
              rw [List.append_assoc, List.getElem?_append_right (Nat.le_refl _), Nat.sub_self]
              simp
            exact hfind _ ev hlen hget rfl
          | false =>
            simp only [Bool.false_eq_true, if_false] at h
            apply ih _ (n + 1) ?_ ?_ (fun x hx => hoth x (List.mem_cons_of_mem _ hx)) s2 m h
            · simp only [List.length_append]; omega
            · simp only
              rw [count_id_append, count_id_append, hc, hcb, hcbt]

/-- With reads that succeed and no other error, a create that takes effect
(reported or not) ends the rounds. -/
theorem push_rounds_returns (ev : zk_event) (rounds : List push_round) :
    ∀ (s : State) (n : Nat), s.queue_pos ≤ s.queue.length →
    (∀ r ∈ rounds, r.rc ≠ create_rc.failed ∧ r.read_ok = true) →
    (∃ r ∈ rounds, r.rc = create_rc.ZOK ∨ r.rc = create_rc.lost true) →
    ∃ s2 m, zk_queue_push_rounds ev s rounds n = (push_result.ok s2, m) := by
  induction rounds with
  | nil =>
    intro s n _ _ h
    obtain ⟨r, hr, _⟩ := h
    cases hr
  | cons r rest ih =>
    intro s n hqp hall hex
    have hr := hall r (List.mem_cons_self _ _)
    unfold zk_queue_push_rounds
    simp only
    split
    · exact ⟨_, _, rfl⟩
    · rename_i hrc
      exact absurd hrc hr.1
    · rename_i created hrc
      rw [hr.2]
      simp only [Bool.not_true, Bool.false_eq_true, if_false]
      split
      · exact ⟨_, _, rfl⟩
      · rename_i hfind
        cases created with
        | true =>
          exfalso
          rw [find_seq_node_none_iff] at hfind
          simp only [if_true] at hfind
          have hpos : s.queue_pos ≤ (s.queue ++ r.before).length := by
            rw [List.length_append]; omega
          have hget : (s.queue ++ r.before ++ [ev] ++ r.between)[(s.queue ++ r.before).length]? =
              some ev := by
            rw [List.append_assoc, List.getElem?_append_right (Nat.le_refl _), Nat.sub_self]
            simp
          exact hfind _ ev hpos hget rfl
        | false =>
          apply ih _ (n + 1) ?_ (fun x hx => hall x (List.mem_cons_of_mem _ hx))
          · obtain ⟨x, hx, hxr⟩ := hex
            rcases List.mem_cons.mp hx with rfl | hx
            · rw [hrc] at hxr
              rcases hxr with h | h <;> cases h
            · exact ⟨x, hx, hxr⟩
          · simp only [Bool.false_eq_true, if_false, List.length_append]; omega

end Zk

namespace Zk

open Sockfd (node_id node_id_cmp sd_node)
open Cluster

/-- C25: the function `zk_queue_push` of an event whose id no other event carries (neither
the events in the queue nor those that other nodes append meanwhile), with
`queue_pos` inside the queue.  After a create that reported a timeout or a
connection loss, the create is issued again exactly when the search from
`queue_pos` finds the id in no znode, that is when no znode at a position
from `queue_pos` on carries it; when the function returns, the queue holds
exactly one znode with the id, also when a create took effect while it
reported the failure; and it does return once a create takes effect, the
reads succeeding and no other error being reported. -/
theorem C25_push_leaves_one_znode (ev : zk_event) (s : State) (rounds : List push_round)
    (hpos : s.queue_pos ≤ s.queue.length)
    (huniq : ∀ e ∈ s.queue, e.id ≠ ev.id)
    (hoth : ∀ r ∈ rounds, (∀ e ∈ r.before, e.id ≠ ev.id) ∧ (∀ e ∈ r.between, e.id ≠ ev.id)) :
    (∀ t : State, zk_find_seq_node t ev.id = none ↔
      ∀ k e, t.queue_pos ≤ k → t.queue[k]? = some e → e.id ≠ ev.id) ∧
    (∀ s2 m, zk_queue_push_rounds ev s rounds 0 = (push_result.ok s2, m) →
      count_id s2.queue ev.id = 1) ∧
    ((∀ r ∈ rounds, r.rc ≠ create_rc.failed ∧ r.read_ok = true) →
      (∃ r ∈ rounds, r.rc = create_rc.ZOK ∨ r.rc = create_rc.lost true) →
      ∃ s2 m, zk_queue_push_rounds ev s rounds 0 = (push_result.ok s2, m) ∧
        count_id s2.queue ev.id = 1) := by
  have hc : count_id s.queue ev.id = 0 := (count_id_zero _ _).mpr huniq
  refine ⟨fun t => find_seq_node_none_iff t ev.id, ?_, ?_⟩
  · exact push_rounds_count ev rounds s 0 hpos hc hoth
  · intro hall hex
    obtain ⟨s2, m, h⟩ := push_rounds_returns ev rounds s 0 hpos hall hex
    exact ⟨s2, m, h, push_rounds_count ev rounds s 0 hpos hc hoth s2 m h⟩

/-- C25, witness: the first create is lost, the second takes effect while it
reports a connection loss; two creates are issued, the function returns and
the queue holds the event once. -/
theorem C25_push_witness :
    (zk_queue_push_rounds event_notify_9 state_block_then_notify rounds_example 0).2 = 2 ∧
    ∃ s2 m, zk_queue_push_rounds event_notify_9 state_block_then_notify rounds_example 0 =
        (push_result.ok s2, m) ∧
      count_id s2.queue event_notify_9.id = 1 :=
  ⟨by decide, (C25_push_leaves_one_znode event_notify_9 state_block_then_notify rounds_example
    (by decide) (by decide) (by decide)).2.2 (by decide) (by decide)⟩

end Zk

/-! ## Part 26: theorems about the notifications of completed recovery -/

namespace Ops

open Sockfd (node_id node_id_cmp sd_node)
open Cluster

/-! ### Completed recovery -/

theorem node_le_total (a b : sd_node) : node_cmp a b ≤ 0 ∨ node_cmp b a ≤ 0 := by
  have := Zk.node_id_cmp_neg a.nid b.nid
  unfold node_cmp
  omega

theorem node_le_trans (a b c : sd_node) (h1 : node_cmp a b ≤ 0) (h2 : node_cmp b c ≤ 0) :
    node_cmp a c ≤ 0 := by
  rcases lt_or_eq_of_le h1 with h1 | h1
  · rcases lt_or_eq_of_le h2 with h2 | h2
    · exact Int.le_of_lt (Zk.node_cmp_trans a b c h1 h2)
    · have : b = c := (Zk.node_eq_iff b c).mp (by simp [node_eq, h2])
      rw [← this]; exact Int.le_of_lt h1
  · have : a = b := (Zk.node_eq_iff a b).mp (by simp [node_eq, h1])
    rw [this]; exact h2

theorem sorted_insertionSort_nodes (l : List sd_node) :
    (l.insertionSort (fun a b => node_cmp a b ≤ 0)).Sorted (fun a b => node_cmp a b ≤ 0) := by
  haveI : IsTotal sd_node (fun a b => node_cmp a b ≤ 0) := ⟨node_le_total⟩
  haveI : IsTrans sd_node (fun a b => node_cmp a b ≤ 0) := ⟨node_le_trans⟩
  exact List.sorted_insertionSort _ l

theorem cleanup_if_any_cases (s : Sheep) :
    (cleanup_if_any s).sys = s.sys ∧ (cleanup_if_any s).sd_store = s.sd_store ∧
    (cleanup_if_any s).recovereds = s.recovereds ∧
    (cleanup_if_any s).latest_epoch = s.latest_epoch ∧
    ((cleanup_if_any s).calls = s.calls ∨
      (cleanup_if_any s).calls = s.calls ++ [ext_call.store_cleanup]) := by
  unfold cleanup_if_any
  split
  · split
    · exact ⟨rfl, rfl, rfl, rfl, Or.inr rfl⟩
    · exact ⟨rfl, rfl, rfl, rfl, Or.inl rfl⟩
  · exact ⟨rfl, rfl, rfl, rfl, Or.inl rfl⟩

theorem note_recovered_fields (s : Sheep) (req : sd_req) (data : req_data)
    (h : s.latest_epoch ≤ req.tgt_epoch) :
    (note_recovered s req data).sys = s.sys ∧
    (note_recovered s req data).sd_store = s.sd_store ∧
    (note_recovered s req data).calls = s.calls ∧
    (note_recovered s req data).latest_epoch = req.tgt_epoch ∧
    (note_recovered s req data).recovereds =
      ((if s.latest_epoch < req.tgt_epoch then [] else s.recovereds) ++
        [data.node]).insertionSort (fun a b => node_cmp a b ≤ 0) := by
  unfold note_recovered
  by_cases c : s.latest_epoch < req.tgt_epoch
  · simp [c]
  · simp [c]
    omega

/-- The handler always returns success.  An epoch older than the latest
changes nothing; otherwise the node is recorded (after a restart of the list
when the epoch is newer), and the cleanup of the store is called at most
once, which takes `sys->epoch` equal to the epoch of the notification and the
vnode view equal, node for node, to the list recorded. -/
theorem completion_cases (env : Env) (s : Sheep) (req : sd_req) (rsp : sd_rsp)
    (data : req_data) :
    ∃ s1, cluster_recovery_completion env s req rsp data =
        Outcome.ret sd_res.SD_RES_SUCCESS rsp s1 ∧
      ((req.tgt_epoch < s.latest_epoch ∧ s1 = s) ∨
       (s.latest_epoch ≤ req.tgt_epoch ∧ s1.latest_epoch = req.tgt_epoch ∧
        s1.recovereds = ((if s.latest_epoch < req.tgt_epoch then [] else s.recovereds) ++
          [data.node]).insertionSort (fun a b => node_cmp a b ≤ 0) ∧
        s1.sd_store = s.sd_store ∧
        (s1.calls = s.calls ∨
          (s1.calls = s.calls ++ [ext_call.store_cleanup] ∧ s.sys.epoch = req.tgt_epoch ∧
            env.vnode_nodes.length = s1.recovereds.length ∧
            all_node_eq env.vnode_nodes s1.recovereds s1.recovereds.length = true)))) := by
  unfold cluster_recovery_completion
  by_cases c1 : s.latest_epoch > req.tgt_epoch
  · rw [if_pos c1]
    exact ⟨s, rfl, Or.inl ⟨c1, rfl⟩⟩
  · have hle : s.latest_epoch ≤ req.tgt_epoch := by omega
    rw [if_neg c1]
    obtain ⟨f1, f2, f3, f4, f5⟩ := note_recovered_fields s req data hle
    by_cases c2 : (note_recovered s req data).sys.epoch ≠ (note_recovered s req data).latest_epoch
    · rw [if_pos c2]
      exact ⟨_, rfl, Or.inr ⟨hle, f4, f5, f2, Or.inl f3⟩⟩
    · rw [if_neg c2]
      by_cases c3 : env.vnode_nodes.length = (note_recovered s req data).recovereds.length ∧
          all_node_eq env.vnode_nodes (note_recovered s req data).recovereds
            (note_recovered s req data).recovereds.length = true
      · rw [if_pos c3]
        obtain ⟨g1, g2, g3, g4, g5⟩ := cleanup_if_any_cases (note_recovered s req data)
        refine ⟨_, rfl, Or.inr ⟨hle, g4.trans f4, g3.trans f5, g2.trans f2, ?_⟩⟩
        rcases g5 with g5 | g5
        · exact Or.inl (g5.trans f3)
        · right
          refine ⟨by rw [g5, f3], ?_, ?_, ?_⟩
          · have := not_not.mp c2
            rw [f1, f4] at this
            exact this
          · rw [g3]; exact c3.1
          · rw [g3]; exact c3.2
      · rw [if_neg c3]
        exact ⟨_, rfl, Or.inr ⟨hle, f4, f5, f2, Or.inl f3⟩⟩

theorem recovery_step_cases (max_nodes : Nat) (s s1 : Sheep) (n : notification)
    (h : recovery_step max_nodes s n = some s1) :
    (n.req.tgt_epoch < s.latest_epoch ∧
      s1 = { s with sys := { s.sys with epoch := n.epoch } }) ∨
    (s.latest_epoch ≤ n.req.tgt_epoch ∧ s1.latest_epoch = n.req.tgt_epoch ∧
      s1.recovereds = ((if s.latest_epoch < n.req.tgt_epoch then [] else s.recovereds) ++
        [n.data.node]).insertionSort (fun a b => node_cmp a b ≤ 0) ∧
      s1.sd_store = s.sd_store ∧
      (s1.calls = s.calls ∨
        (s1.calls = s.calls ++ [ext_call.store_cleanup] ∧ n.epoch = n.req.tgt_epoch ∧
          n.env.vnode_nodes.length = s1.recovereds.length ∧
          all_node_eq n.env.vnode_nodes s1.recovereds s1.recovereds.length = true))) := by
  obtain ⟨t, ht, hc⟩ := completion_cases n.env
    { s with sys := { s.sys with epoch := n.epoch } } n.req rsp_zero n.data
  have hst : s1 = t := by
    unfold recovery_step at h
    simp only at h
    rw [ht] at h
    split_ifs at h <;> first | (injection h with h; exact h.symm) | cases h
  rw [hst]
  exact hc

end Ops

namespace Ops

open Sockfd (node_id node_id_cmp sd_node)
open Cluster

theorem all_node_eq_mem (a b : List sd_node) (hl : a.length = b.length)
    (h : all_node_eq a b b.length = true) : ∀ v ∈ a, v ∈ b := by
  intro v hv
  obtain ⟨i, hi⟩ := List.mem_iff_getElem?.mp hv
  have hia : i < a.length := (List.getElem?_eq_some.mp hi).1
  unfold all_node_eq at h
  rw [List.all_eq_true] at h
  have := h i (List.mem_range.mpr (by omega))
  rw [hi, List.getElem?_eq_getElem (by omega : i < b.length)] at this
  simp only at this
  rw [(Zk.node_eq_iff _ _).mp this]
  exact List.getElem_mem _

/-- What holds after a run of notifications from the start: `latest_epoch` is
at least every epoch notified, every node recorded was notified at
`latest_epoch`, and the list recorded is sorted in node order. -/
theorem recovery_step_inv (max_nodes : Nat) (pre : List notification) (s s1 : Sheep)
    (n : notification)
    (hJ : (∀ m ∈ pre, m.req.tgt_epoch ≤ s.latest_epoch) ∧
      (∀ x ∈ s.recovereds, ∃ m ∈ pre, m.req.tgt_epoch = s.latest_epoch ∧ m.data.node = x) ∧
      s.recovereds.Sorted (fun a b => node_cmp a b ≤ 0))
    (h : recovery_step max_nodes s n = some s1) :
    (∀ m ∈ pre ++ [n], m.req.tgt_epoch ≤ s1.latest_epoch) ∧
    (∀ x ∈ s1.recovereds, ∃ m ∈ pre ++ [n],
      m.req.tgt_epoch = s1.latest_epoch ∧ m.data.node = x) ∧
    s1.recovereds.Sorted (fun a b => node_cmp a b ≤ 0) := by
  obtain ⟨j1, j2, j3⟩ := hJ
  rcases recovery_step_cases max_nodes s s1 n h with ⟨hlt, rfl⟩ | ⟨hle, hl, hr, _, _⟩
  · refine ⟨?_, ?_, j3⟩
    · intro m hm
      rcases List.mem_append.mp hm with hm | hm
      · exact j1 m hm
      · rw [List.mem_singleton] at hm
        subst hm
        exact Nat.le_of_lt hlt
    · intro x hx
      obtain ⟨m, hm, h1, h2⟩ := j2 x hx
      exact ⟨m, List.mem_append_left _ hm, h1, h2⟩
  · refine ⟨?_, ?_, ?_⟩
    · intro m hm
      rw [hl]
      rcases List.mem_append.mp hm with hm | hm
      · exact Nat.le_trans (j1 m hm) hle
      · rw [List.mem_singleton] at hm
        subst hm
        exact Nat.le_refl _
    · intro x hx
      rw [hr] at hx
      have hx2 := (List.perm_insertionSort _ _).mem_iff.mp hx
      rw [hl]
      rcases List.mem_append.mp hx2 with hx3 | hx3
      · by_cases c : s.latest_epoch < n.req.tgt_epoch
        · rw [if_pos c] at hx3; cases hx3
        · rw [if_neg c] at hx3
          obtain ⟨m, hm, h1, h2⟩ := j2 x hx3
          exact ⟨m, List.mem_append_left _ hm, by omega, h2⟩
      · rw [List.mem_singleton] at hx3
        exact ⟨n, List.mem_append_right _ (List.mem_singleton_self _), rfl, hx3.symm⟩
    · rw [hr]
      exact sorted_insertionSort_nodes _

theorem recovery_run_inv (max_nodes : Nat) (pre : List notification) :
    ∀ (done : List notification) (s0 s : Sheep),
    ((∀ m ∈ done, m.req.tgt_epoch ≤ s0.latest_epoch) ∧
      (∀ x ∈ s0.recovereds, ∃ m ∈ done, m.req.tgt_epoch = s0.latest_epoch ∧ m.data.node = x) ∧
      s0.recovereds.Sorted (fun a b => node_cmp a b ≤ 0)) →
    recovery_run max_nodes s0 pre = some s →
    (∀ m ∈ done ++ pre, m.req.tgt_epoch ≤ s.latest_epoch) ∧
    (∀ x ∈ s.recovereds, ∃ m ∈ done ++ pre,
      m.req.tgt_epoch = s.latest_epoch ∧ m.data.node = x) ∧
    s.recovereds.Sorted (fun a b => node_cmp a b ≤ 0) := by
  induction pre with
  | nil =>
    intro done s0 s hJ h
    simp only [recovery_run, Option.some.injEq] at h
    rw [List.append_nil, ← h]
    exact hJ
  | cons n rest ih =>
    intro done s0 s hJ h
    unfold recovery_run at h
    cases hs : recovery_step max_nodes s0 n with
    | none => rw [hs] at h; cases h
    | some s1 =>
      rw [hs] at h
      simp only at h
      have := ih (done ++ [n]) s1 s (recovery_step_inv max_nodes done s0 s1 n hJ hs) h
      rw [List.append_assoc, List.singleton_append] at this
      exact this

/-- C27: over every sequence of `SD_OP_COMPLETE_RECOVERY` notifications handled
by `cluster_recovery_completion` from the start of the program (the list
recorded staying inside its array), at each notification: the cleanup of the
store is called at most once, and only if `sys->epoch` equals the epoch of
the notification, which is then the latest epoch notified so far, and every
node of the current vnode view was notified as recovered at that epoch; a
notification for an epoch older than the latest seen changes neither the
list, nor `latest_epoch`, nor calls anything; and the list recorded is sorted
in node order afterwards. -/
theorem C27_recovery_completion (max_nodes : Nat) (s0 s s1 : Sheep) (pre : List notification)
    (n : notification) (h0 : s0.recovereds = [] ∧ s0.latest_epoch = 0)
    (hrun : recovery_run max_nodes s0 pre = some s)
    (hstep : recovery_step max_nodes s n = some s1) :
    (s1.calls = s.calls ∨ s1.calls = s.calls ++ [ext_call.store_cleanup]) ∧
    (s1.calls ≠ s.calls →
      n.epoch = n.req.tgt_epoch ∧ s1.latest_epoch = n.req.tgt_epoch ∧
      (∀ m ∈ pre, m.req.tgt_epoch ≤ n.req.tgt_epoch) ∧
      ∀ v ∈ n.env.vnode_nodes, ∃ m ∈ pre ++ [n],
        m.req.tgt_epoch = n.req.tgt_epoch ∧ m.data.node = v) ∧
    (n.req.tgt_epoch < s.latest_epoch →
      s1.recovereds = s.recovereds ∧ s1.latest_epoch = s.latest_epoch ∧ s1.calls = s.calls ∧
      s1.sd_store = s.sd_store) ∧
    (∀ m ∈ pre ++ [n], m.req.tgt_epoch ≤ s1.latest_epoch) ∧
    s1.recovereds.Sorted (fun a b => node_cmp a b ≤ 0) := by
  have hJ0 : (∀ m ∈ ([] : List notification), m.req.tgt_epoch ≤ s0.latest_epoch) ∧
      (∀ x ∈ s0.recovereds, ∃ m ∈ ([] : List notification),
        m.req.tgt_epoch = s0.latest_epoch ∧ m.data.node = x) ∧
      s0.recovereds.Sorted (fun a b => node_cmp a b ≤ 0) := by
    rw [h0.1]
    refine ⟨?_, ?_, List.sorted_nil⟩
    · intro m hm; cases hm
    · intro x hx; cases hx
  have hJ := recovery_run_inv max_nodes pre [] s0 s hJ0 hrun
  rw [List.nil_append] at hJ
  have hJ1 := recovery_step_inv max_nodes pre s s1 n hJ hstep
  obtain ⟨k1, k2, k3⟩ := hJ1
  rcases recovery_step_cases max_nodes s s1 n hstep with ⟨hlt, hs1⟩ | ⟨hle, hl, hr, hst, hc⟩
  · have e1 : s1.calls = s.calls := by rw [hs1]
    refine ⟨Or.inl e1, fun hne => absurd e1 hne, ?_, k1, k3⟩
    intro _
    rw [hs1]
    exact ⟨rfl, rfl, rfl, rfl⟩
  · refine ⟨?_, ?_, ?_, k1, k3⟩
    · rcases hc with hc | hc
      · exact Or.inl hc
      · exact Or.inr hc.1
    · intro hne
      rcases hc with hc | ⟨_, he, hlen, hall⟩
      · exact absurd hc hne
      · refine ⟨he, hl, ?_, ?_⟩
        · intro m hm
          have := k1 m (List.mem_append_left _ hm)
          rw [hl] at this
          exact this
        · intro v hv
          have hv1 := all_node_eq_mem _ _ hlen hall v hv
          obtain ⟨m, hm, h1, h2⟩ := k2 v hv1
          exact ⟨m, hm, by rw [h1, hl], h2⟩
    · intro hlt
      omega

/-- C27, witness: `member_b` and then `member_a` report at epoch 5 to a node
at epoch 5 whose vnode view holds the two: the cleanup is called at the second
notification. -/
theorem C27_recovery_completion_witness :
    ∃ s s1, recovery_run 4 sheep_epoch5
        [notification_of [Zk.member_a, Zk.member_b] 5 5 Zk.member_b] = some s ∧
      recovery_step 4 s (notification_of [Zk.member_a, Zk.member_b] 5 5 Zk.member_a) =
        some s1 ∧
      s1.calls = s.calls ++ [ext_call.store_cleanup] ∧
      s1.recovereds = [Zk.member_a, Zk.member_b] ∧
      s1.recovereds.Sorted (fun a b => node_cmp a b ≤ 0) :=
  ⟨{ sheep_epoch5 with recovereds := [Zk.member_b], latest_epoch := 5 },
   { sheep_epoch5 with recovereds := [Zk.member_a, Zk.member_b], latest_epoch := 5,
                       calls := [ext_call.store_cleanup] },
   by decide, by decide, by decide, by decide,
   (C27_recovery_completion 4 sheep_epoch5
     { sheep_epoch5 with recovereds := [Zk.member_b], latest_epoch := 5 }
     { sheep_epoch5 with recovereds := [Zk.member_a, Zk.member_b], latest_epoch := 5,
                         calls := [ext_call.store_cleanup] }
     [notification_of [Zk.member_a, Zk.member_b] 5 5 Zk.member_b]
     (notification_of [Zk.member_a, Zk.member_b] 5 5 Zk.member_a)
     (by decide) (by decide) (by decide)).2.2.2.2⟩

end Ops
